import Mathlib

/-!
# NorthLib: the streaming zip extractor (`zip/zip.cpp`, `zip/zip.hh`)

A shallow embedding of the classes `Header`, `DataDescriptor`, `Buffer`, `File`
and `Stream` of namespace `zip`, followed by theorems about them.

Representation choices, fixed once here:

* a byte (`tByte`, an `unsigned char`) is a natural number, a byte sequence a
  `List Nat`;
* a pointer into the data being read (`_data`, with its length `_dlen`) is the list
  of bytes not yet consumed, so `_dlen` is the length of that list;
* the storage of a `Buffer` is represented by the bytes accumulated so far, that is
  the first `_len` bytes of `_buffer`; `_len` is the length of that list, a null
  `_buffer` is `none`, and the capacity `_size` is kept as a number of its own.
  Storage behind `_len` is not represented: `File::File` and `File::inflate` report
  a read behind it as `Fault.undefined`, elsewhere such a byte reads as zero or is
  left out;
* the pointer `_dd` is the offset of the data descriptor from the start of `_buffer`;
* `int` values are mathematical integers (signed overflow is undefined behaviour
  and is outside the embedding); conversions of `unsigned` values to `int` are
  explicit (`toInt32`), as are reductions modulo `2^32`;
* the allocator is a collaborator: `malloc` and `realloc` fail for a negative `int`
  size only, and `realloc` keeps the bytes that fit in the new size;
* zlib is a collaborator: `crc32` is the standard CRC-32, `inflate` is a parameter.

The string and argument vector functions of `General/lowlevel` follow the classes of
`zip` as a part of their own, with their representation choices; the theorems on them
stand at the end.
-/

namespace zip

/-- The struct `tByte2`: two bytes, low byte first. -/
structure tByte2 where
  low : Nat
  high : Nat
deriving DecidableEq, Repr

/-- The struct `tByte4`: two `tByte2`, low half first. -/
structure tByte4 where
  low : tByte2
  high : tByte2
deriving DecidableEq, Repr

/-- The overload `bytes2number( tByte2 val )`. -/
def tByte2.bytes2number (val : tByte2) : Nat :=
  val.low ||| (val.high <<< 8)

/-- The overload `bytes2number( tByte4 val )`. -/
def tByte4.bytes2number (val : tByte4) : Nat :=
  val.low.bytes2number ||| (val.high.bytes2number <<< 16)

/-- Conversion of an integer to a 32 bit `int` (two's complement): the residue `m`
of `n` modulo `2^32` when it is below `2^31`, and `m - 2^32` otherwise. -/
def toInt32 (n : Int) : Int :=
  match n % 4294967296 with
  | Int.ofNat m => if m < 2147483648 then Int.ofNat m else Int.negSucc (4294967295 - m)
  | Int.negSucc _ => 0

/-- The byte at offset `i` of a byte sequence (zero when there is none). -/
def byteAt (mem : List Nat) (i : Nat) : Nat :=
  mem.getD i 0

/-- The `tByte2` stored at offset `i`. -/
def tByte2.read (mem : List Nat) (i : Nat) : tByte2 :=
  { low := byteAt mem i, high := byteAt mem (i + 1) }

/-- The `tByte4` stored at offset `i`. -/
def tByte4.read (mem : List Nat) (i : Nat) : tByte4 :=
  { low := tByte2.read mem i, high := tByte2.read mem (i + 2) }

/-- The bytes of a `tByte2` in storage order. -/
def tByte2.bytes (v : tByte2) : List Nat :=
  [v.low, v.high]

/-- The bytes of a `tByte4` in storage order. -/
def tByte4.bytes (v : tByte4) : List Nat :=
  v.low.bytes ++ v.high.bytes

/-- The class `DataDescriptor` (16 bytes trailing the file data). -/
structure DataDescriptor where
  _signature : tByte4
  _crc32 : tByte4
  _csize : tByte4
  _size : tByte4
deriving DecidableEq, Repr

namespace DataDescriptor

/-- The constant `DataDescriptor::signature`. -/
def signature : List Nat := [0x50, 0x4b, 0x07, 0x08]

/-- The value of `sizeof(DataDescriptor)`. -/
def sizeof : Nat := 16

def crc32 (d : DataDescriptor) : Nat := d._crc32.bytes2number
def csize (d : DataDescriptor) : Nat := d._csize.bytes2number
def size (d : DataDescriptor) : Nat := d._size.bytes2number

/-- The `DataDescriptor` seen through a pointer to the bytes `mem`. -/
def read (mem : List Nat) : DataDescriptor :=
  { _signature := tByte4.read mem 0
    _crc32 := tByte4.read mem 4
    _csize := tByte4.read mem 8
    _size := tByte4.read mem 12 }

end DataDescriptor

/-- The class `Header` (the fixed 30 bytes of a local file header). -/
structure Header where
  _signature : tByte4
  _version : tByte2
  _flags : tByte2
  _compression : tByte2
  _mtime : tByte2
  _mdate : tByte2
  _crc32 : tByte4
  _csize : tByte4
  _size : tByte4
  _fnlength : tByte2
  _extralength : tByte2
deriving DecidableEq, Repr

namespace Header

/-- The constant `Header::signature`. -/
def signature : List Nat := [0x50, 0x4b, 0x03, 0x04]

/-- The value of `sizeof(Header)`. -/
def sizeof : Nat := 30

/-- The flag `DescriptorUsed`. -/
def DescriptorUsed : Nat := 8

/-- The compression value `Stored`. -/
def Stored : Nat := 0

/-- The compression value `Deflated`. -/
def Deflated : Nat := 8

def flags (h : Header) : Nat := h._flags.bytes2number
def compression (h : Header) : Nat := h._compression.bytes2number
def crc32 (h : Header) : Nat := h._crc32.bytes2number
def csize (h : Header) : Nat := h._csize.bytes2number
def size (h : Header) : Nat := h._size.bytes2number
def fnlength (h : Header) : Nat := h._fnlength.bytes2number
def extralength (h : Header) : Nat := h._extralength.bytes2number

/-- The method `hsize`, an `unsigned`. -/
def hsize (h : Header) : Nat :=
  (sizeof + h.fnlength + h.extralength) % 4294967296

/-- The method `setDataDescriptor`. -/
def setDataDescriptor (h : Header) (dd : DataDescriptor) : Header :=
  { h with _size := dd._size, _csize := dd._csize, _crc32 := dd._crc32 }

/-- The method `hasSize`. -/
def hasSize (h : Header) : Bool :=
  (h.flags &&& DescriptorUsed) == 0

/-- The `Header` seen through a pointer to the bytes `mem`. -/
def read (mem : List Nat) : Header :=
  { _signature := tByte4.read mem 0
    _version := tByte2.read mem 4
    _flags := tByte2.read mem 6
    _compression := tByte2.read mem 8
    _mtime := tByte2.read mem 10
    _mdate := tByte2.read mem 12
    _crc32 := tByte4.read mem 14
    _csize := tByte4.read mem 18
    _size := tByte4.read mem 22
    _fnlength := tByte2.read mem 26
    _extralength := tByte2.read mem 28 }

/-- The 30 bytes of a `Header` in storage order. -/
def bytes (h : Header) : List Nat :=
  h._signature.bytes ++ h._version.bytes ++ h._flags.bytes ++ h._compression.bytes
    ++ h._mtime.bytes ++ h._mdate.bytes ++ h._crc32.bytes ++ h._csize.bytes
    ++ h._size.bytes ++ h._fnlength.bytes ++ h._extralength.bytes

end Header

/-- The messages of the `zip::Exception` objects thrown in `zip.cpp`. -/
inductive Exception where
  | zipfileError
  | inflateInit2Failed
  | incompleteStream
  | needDictionary
  | corruptInput
  | notEnoughMemory
  | notEnoughSpace
  | argumentError
  | crc32Error
  | unknownInflateError
  | unsupportedCompression
deriving DecidableEq, Repr

/-- The method `Exception::what`. -/
def Exception.what : Exception → String
  | .zipfileError => "Zipfile Error"
  | .inflateInit2Failed => "libz: inflateInit2 failed"
  | .incompleteStream => "libz: incomplete deflated stream"
  | .needDictionary => "libz: preset dictionary needed for inflate"
  | .corruptInput => "libz: corrupt inflate input"
  | .notEnoughMemory => "libz: not enough memory for inflate"
  | .notEnoughSpace => "libz: not enough space for inflate output"
  | .argumentError => "libz: argument error"
  | .crc32Error => "zip archive corrupt (CRC32 error)"
  | .unknownInflateError => "libz: unknown inflate error"
  | .unsupportedCompression => "unsupported compression"

/-- How an operation can end other than by returning: a thrown `Exception`, or an
access outside the represented storage (undefined behaviour in the source). -/
inductive Fault where
  | exception (e : Exception)
  | undefined
deriving DecidableEq, Repr

/-- The allocator (`malloc`, `realloc`) called with an `int` number of bytes: a
negative `int` converts to a `size_t` that no allocation satisfies; every other
request succeeds. -/
def mallocOk (n : Int) : Bool :=
  decide (0 ≤ n)

/-- The class `Buffer`. The field `_buffer` holds the `_len` bytes copied so far
(`none` for the null pointer), `_data` the bytes still to read. -/
structure Buffer where
  _buffer : Option (List Nat)
  _size : Int
  _dd : Option Int
  _flags : Nat
  _data : List Nat
  _signature : List Nat
  _slen : Nat
deriving DecidableEq, Repr

namespace Buffer

/-- The flag `Skiping`: skip to signature. -/
def Skiping : Nat := 1

/-- The flag `Copying`: copy until signature. -/
def Copying : Nat := 2

/-- The flag `FileFound`: file has been successfully read. -/
def FileFound : Nat := 1024

/-- The expression `_flags & ~flag` on a 32 bit `int`. -/
def clearFlag (flags flag : Nat) : Nat :=
  flags &&& (4294967295 ^^^ flag)

/-- The bytes copied to `_buffer` so far. -/
def mem (b : Buffer) : List Nat :=
  b._buffer.getD []

/-- The field `_len`: the number of bytes copied to `_buffer`. -/
def _len (b : Buffer) : Nat :=
  b.mem.length

/-- The field `_dlen`: the remaining number of bytes in the data to read. -/
def _dlen (b : Buffer) : Nat :=
  b._data.length

/-- A write of `xs` at `_buffer + _len` followed by `_len += xs.length`. -/
def append (b : Buffer) (xs : List Nat) : Buffer :=
  { b with _buffer := some (b.mem ++ xs) }

/-- The method `reset`. -/
def reset (b : Buffer) : Buffer :=
  { b with _buffer := b._buffer.map (fun _ => []), _flags := 0, _dd := none }

/-- The constructor `Buffer( void )`; the fields it leaves uninitialised are given
empty values. -/
def new : Buffer :=
  { _buffer := none, _size := 0, _dd := none, _flags := 0, _data := [],
    _signature := [], _slen := 0 }

/-- The method `isHeader`. -/
def isHeader (b : Buffer) : Bool :=
  decide (Header.sizeof ≤ b._len)

/-- The method `header`. -/
def header (b : Buffer) : Header :=
  Header.read b.mem

/-- The method `needed`. -/
def needed (b : Buffer) : Int :=
  toInt32
    ((if b.isHeader then
        ((b.header.hsize + (if b.header.hasSize then b.header.csize else 0)) % 4294967296 : Nat)
      else Header.sizeof : Nat) - (b._len : Int))

/-- The method `dataDescriptor`. -/
def dataDescriptor (b : Buffer) : DataDescriptor :=
  DataDescriptor.read (b.mem.drop (b._dd.getD 0).toNat)

/-- The method `contents`. -/
def contents (b : Buffer) : List Nat :=
  b.mem.drop b.header.hsize

/-- The method `fileFound`. -/
def fileFound (b : Buffer) : Bool :=
  (b._flags &&& FileFound) != 0

/-- The library function `realloc( ptr, n )` on storage that holds the bytes `m`: the
null pointer when the allocation fails, else storage that holds the bytes of `m` that
fit in `n` bytes. -/
def realloc (m : List Nat) (n : Int) : Option (List Nat) :=
  if mallocOk n then some (m.take n.toNat) else none

/-- The method `reserveSpace` (its default argument is `20*1024`); the result is the
buffer and the exception thrown, if any. The offset `_dd` needs no re-anchoring. The
only caller, `addData`, passes a size above 0, and then the new size is not below
`_len`. A new size below `_len` is not represented: the source leaves `_len` as it is
with storage that is shorter, here the list keeps the bytes that fit. -/
def reserveSpace (b : Buffer) (size : Int) : Buffer × Option Exception :=
  let size := if size < 4 then size + 4 else size
  let b1 : Buffer :=
    match b._buffer with
    | some m =>
      if (b._size - b._len) < (size + 4) then
        let newSize := b._size + size * 2
        { b with _size := newSize, _buffer := realloc m newSize }
      else b
    | none =>
      { b with _size := size + 4, _buffer := if mallocOk (size + 4) then some [] else none }
  if b1._buffer.isNone then (b1, some Exception.zipfileError) else (b1, none)

/-- The statement `if ( _signature[_slen] == *_data++ ) _slen++; else _slen = 0;`
of `skip` and `copy`, for the byte `x` read from `_data`. -/
def matchByte (b : Buffer) (x : Nat) : Nat :=
  if b._signature.get? b._slen = some x then b._slen + 1 else 0

/-- The loop of `skip` over the data to read. -/
def skipLoop : List Nat → Buffer → Buffer
  | [], b => b
  | x :: rest, b =>
    let b := { b with _slen := b.matchByte x, _data := rest }
    if b._slen = 4 then
      let b := b.append (b._signature.take 4)
      { b with _flags := clearFlag b._flags Skiping }
    else skipLoop rest b

/-- The method `skip`. -/
def skip (b : Buffer) : Buffer :=
  skipLoop b._data b

/-- The method `skipUntil`. -/
def skipUntil (b : Buffer) (signature : List Nat) : Buffer :=
  { b with _signature := signature, _slen := 0, _flags := b._flags ||| Skiping }

/-- The loop of `copy` over the data to read. -/
def copyLoop : List Nat → Buffer → Buffer
  | [], b => b
  | x :: rest, b =>
    let b := b.append [x]
    let b := { b with _data := rest }
    let b := { b with _slen := b.matchByte x }
    if b._slen = 4 then
      { b with _flags := clearFlag b._flags Copying }
    else copyLoop rest b

/-- The method `copy`. -/
def copy (b : Buffer) : Buffer :=
  copyLoop b._data b

/-- The method `copyUntil`. -/
def copyUntil (b : Buffer) (signature : List Nat) : Buffer :=
  { b with _signature := signature, _slen := 0, _flags := b._flags ||| Copying }

/-- The method `scanForHeader` (called with less than `sizeof(Header)` bytes in
the buffer). -/
def scanForHeader (b : Buffer) : Buffer :=
  let b := if b._len = 0 then b.skipUntil Header.signature else b
  let b := if (b._flags &&& Skiping) ≠ 0 then b.skip else b
  if b._dlen > 0 then
    let to_copy := Header.sizeof - b._len
    let to_copy := if to_copy > b._dlen then b._dlen else to_copy
    let b1 := b.append (b._data.take to_copy)
    { b1 with _data := b._data.drop to_copy }
  else b

/-- The method `copyBytes` (its default argument is `-1`); the result is the buffer
and the returned number. -/
def copyBytes (b : Buffer) (need : Int) : Buffer × Int :=
  let need := if need < 0 then b.needed else need
  if need > 0 then
    let to_copy : Int := if need < b._dlen then need else b._dlen
    let b1 := b.append (b._data.take to_copy.toNat)
    ({ b1 with _data := b._data.drop to_copy.toNat }, to_copy)
  else (b, 0)

/-- The method `copySized`. -/
def copySized (b : Buffer) : Buffer :=
  let b := (b.copyBytes (-1)).1
  if b.needed = 0 then { b with _flags := b._flags ||| FileFound } else b

/-- The statement `header() -> setDataDescriptor( dataDescriptor() )`: the header
at the start of `_buffer` is overwritten in place. -/
def setDataDescriptor (b : Buffer) : Buffer :=
  let h := b.header.setDataDescriptor b.dataDescriptor
  { b with _buffer := some (h.bytes ++ b.mem.drop Header.sizeof) }

/-- The method `copyUnsized`. -/
def copyUnsized (b : Buffer) : Buffer :=
  let b := if b._dd.isNone ∧ (b._flags &&& Copying) = 0
    then b.copyUntil DataDescriptor.signature else b
  let b := if (b._flags &&& Copying) ≠ 0 then b.copy else b
  if b._dlen > 0 then
    let b := if b._dd.isNone then { b with _dd := some ((b._len : Int) - 4) } else b
    let to_copy : Int :=
      toInt32 ((DataDescriptor.sizeof : Int) - ((b._len : Int) - b._dd.getD 0))
    let r := b.copyBytes to_copy
    if to_copy = r.2 then
      let b1 := r.1.setDataDescriptor
      { b1 with _flags := b1._flags ||| FileFound }
    else r.1
  else b

/-- The method `addData`; the result is the buffer, the values left in `*buff` and
`*blen` (the bytes not consumed), and the exception thrown, if any. -/
def addData (b : Buffer) (buff : List Nat) : Buffer × List Nat × Option Exception :=
  if buff.length ≤ 0 ∨ b.fileFound then (b, buff, none)
  else
    match b.reserveSpace buff.length with
    | (b, some e) => (b, buff, some e)
    | (b, none) =>
      let b := { b with _data := buff }
      let b := if !b.isHeader then b.scanForHeader else b
      let b := if b._dlen > 0 then
          (if b.header.hasSize then b.copySized else b.copyUnsized)
        else b
      (b, b._data, none)

/-- The method `heapFilename`: the allocated file name without its terminating
zero byte, `none` for a null pointer. Of the `fnlength` bytes read, those behind
`_len` are left out. -/
def heapFilename (b : Buffer) : Option (List Nat) :=
  if b.isHeader then
    let l := b.header.fnlength
    if mallocOk ((l : Int) + 1) then some ((b.mem.drop Header.sizeof).take l) else none
  else none

end Buffer

/-- The part of zlib that `File::inflate` calls and that is not computed here:
the value returned by `inflateInit2( &zs, -MAX_WBITS )`, and `inflate( &zs, Z_FINISH )`
as a function of the `avail_in` input bytes and of `avail_out`, giving the returned
code and the bytes written to `next_out`. -/
structure Zlib where
  inflateInit2 : Int
  inflate : List Nat → Nat → Int × List Nat

namespace Zlib

def Z_OK : Int := 0
def Z_STREAM_END : Int := 1
def Z_NEED_DICT : Int := 2
def Z_STREAM_ERROR : Int := -2
def Z_DATA_ERROR : Int := -3
def Z_MEM_ERROR : Int := -4
def Z_BUF_ERROR : Int := -5

/-- One round of the bitwise CRC-32 update (reflected polynomial `0xEDB88320`). -/
def crc32Bit (c : Nat) : Nat :=
  if c % 2 = 1 then (c >>> 1) ^^^ 0xEDB88320 else c >>> 1

/-- The CRC-32 register after one more byte. -/
def crc32Byte (c : Nat) (x : Nat) : Nat :=
  crc32Bit (crc32Bit (crc32Bit (crc32Bit (crc32Bit (crc32Bit (crc32Bit (crc32Bit
    (c ^^^ x))))))))

/-- The zlib function `crc32( 0L, data, len )` on the `len` bytes `data`: the
standard CRC-32. -/
def crc32 (data : List Nat) : Nat :=
  (data.foldl crc32Byte 0xFFFFFFFF) ^^^ 0xFFFFFFFF

end Zlib

/-- The class `File`: `_header` holds the `hsize` bytes copied from the buffer,
`_data` the `size` uncompressed bytes (`none` for the null pointer), `_name` the
file name (`none` for the null pointer). -/
structure File where
  _header : List Nat
  _data : Option (List Nat)
  _name : Option (List Nat)
deriving DecidableEq, Repr

namespace File

/-- The method `File::inflate`: the `size` uncompressed bytes that `_data` points to,
or how the call ends otherwise. The input of `inflate` is `csize` bytes of the buffer
(undefined when it does not hold them), the room for the output `size + 4` bytes; the
CRC-32 is taken over `size` bytes of the output (undefined when fewer were written). -/
def inflate (z : Zlib) (b : Buffer) : Except Fault (List Nat) :=
  let h := b.header
  if z.inflateInit2 ≠ Zlib.Z_OK then .error (.exception .inflateInit2Failed)
  else if b.contents.length < h.csize then .error .undefined
  else
    let r := z.inflate (b.contents.take h.csize) ((h.size + 4) % 4294967296)
    if r.1 = Zlib.Z_OK then .error (.exception .incompleteStream)
    else if r.1 = Zlib.Z_NEED_DICT then .error (.exception .needDictionary)
    else if r.1 = Zlib.Z_DATA_ERROR then .error (.exception .corruptInput)
    else if r.1 = Zlib.Z_MEM_ERROR then .error (.exception .notEnoughMemory)
    else if r.1 = Zlib.Z_BUF_ERROR then .error (.exception .notEnoughSpace)
    else if r.1 = Zlib.Z_STREAM_ERROR then .error (.exception .argumentError)
    else if r.1 = Zlib.Z_STREAM_END then
      if r.2.length < h.size then .error .undefined
      else if Zlib.crc32 (r.2.take h.size) ≠ h.crc32 then .error (.exception .crc32Error)
      else .ok (r.2.take h.size)
    else .error (.exception .unknownInflateError)

/-- The constructor `File::File( void *buffer )`. Copying the header reads `hsize`
bytes of the buffer and writes them to the `datasize` bytes allocated, copying a
stored file reads `size` bytes behind the header: undefined when the buffer does not
hold these bytes or the allocation is too small. -/
def new (z : Zlib) (b : Buffer) : Except Fault File :=
  let h := b.header
  let datasize : Int := toInt32 (((h.hsize + h.size + 4) % 4294967296 : Nat) : Int)
  if !mallocOk datasize then .error (.exception .zipfileError)
  else if b._len < h.hsize ∨ datasize < h.hsize then .error .undefined
  else
    let _header := b.mem.take h.hsize
    let _name := b.heapFilename
    if h.size > 0 then
      if h.compression = Header.Stored then
        if b.contents.length < h.size then .error .undefined
        else .ok { _header := _header, _data := some (b.contents.take h.size), _name := _name }
      else if h.compression = Header.Deflated then
        match inflate z b with
        | .error f => .error f
        | .ok d => .ok { _header := _header, _data := some d, _name := _name }
      else .error (.exception .unsupportedCompression)
    else .ok { _header := _header, _data := none, _name := _name }

/-- The method `File::size`. -/
def size (f : File) : Nat :=
  (Header.read f._header).size

/-- The method `File::name`. -/
def name (f : File) : Option (List Nat) :=
  f._name

/-- The method `File::data`. -/
def data (f : File) : Option (List Nat) :=
  f._data

/-- The method `File::header`, seen as a `Header`. -/
def header (f : File) : Header :=
  Header.read f._header

end File

/-- The class `Stream`. The delegate is represented by the files passed to
`handleFile` so far, oldest first. -/
structure Stream where
  _buffer : Buffer
  _bytes_read : Int
  _delegate : List File
deriving DecidableEq, Repr

namespace Stream

/-- The constructor `Stream( StreamDelegate &delegate )`. -/
def new : Stream :=
  { _buffer := Buffer.new, _bytes_read := 0, _delegate := [] }

/-- The method `bytesRead`. -/
def bytesRead (s : Stream) : Int :=
  s._bytes_read

/-- The body of the loop of `Stream::scan`, entered with `bufflen > 0`: the stream
after it, the bytes of `buff` not consumed, and the exception or fault that ended
it, if any. -/
def scanBody (z : Zlib) (s : Stream) (buff : List Nat) : Stream × List Nat × Option Fault :=
  match s._buffer.addData buff with
  | (b, buff1, some e) => ({ s with _buffer := b }, buff1, some (.exception e))
  | (b, buff1, none) =>
    let s1 : Stream :=
      { s with _buffer := b, _bytes_read := s._bytes_read + ((buff.length : Int) - buff1.length) }
    if b.fileFound then
      match File.new z b with
      | .error f => (s1, buff1, some f)
      | .ok f => ({ s1 with _delegate := s1._delegate ++ [f], _buffer := b.reset }, buff1, none)
    else (s1, buff1, none)

/-- The method `Stream::scan` on the bytes `buff`, run for at most `fuel` rounds of
its loop: `none` when the loop has not ended by then, else the stream as the call
leaves it and the exception or fault that ended it, if any. -/
def scan (z : Zlib) : Nat → Stream → List Nat → Option (Stream × Option Fault)
  | 0, s, buff => if buff.length > 0 then none else some (s, none)
  | fuel + 1, s, buff =>
    if buff.length > 0 then
      match scanBody z s buff with
      | (s1, _, some f) => some (s1, some f)
      | (s1, buff1, none) => scan z fuel s1 buff1
    else some (s, none)

/-- The loop that feeds a stream chunk by chunk, as `main` does with the blocks it
reads (`while ( ... ) stream.scan( buff, len )`): the chunks are scanned in order
and an exception ends the loop. -/
def scanChunks (z : Zlib) (fuel : Nat) : Stream → List (List Nat) → Option (Stream × Option Fault)
  | s, [] => some (s, none)
  | s, chunk :: chunks =>
    match scan z fuel s chunk with
    | none => none
    | some (s1, none) => scanChunks z fuel s1 chunks
    | some (s1, some f) => some (s1, some f)

/-- The files handed to the delegate by a scan and how the scan ended. -/
def delivered (r : Option (Stream × Option Fault)) : Option (List File × Option Fault) :=
  r.map (fun p => (p.1._delegate, p.2))

end Stream

end zip

/-!
# NorthLib: string and argument vector functions
(`General/lowlevel/strext.cpp`, `General/lowlevel/argv.cpp`)

A shallow embedding of the C functions that copy, cut, reverse, quote and convert
strings, and of those that build and change `argv` structured arrays.

Representation choices, fixed once here:

* a `char` is a natural number, its code; storage that holds characters is the list of
  the bytes from an address on, as far as they are represented, and a byte behind the end
  of the list reads as zero (`peek`): a list without a zero byte is a string followed by
  its terminating zero byte. A pointer that is moved on at the end of the list stays
  there;
* a null pointer is `none`;
* storage that a function fills from its start is described, while the function runs,
  by the bytes written so far in address order: `*d++ = c` appends `c`, `d--` takes the
  last byte away (the code then writes to that address again), `d = mark` cuts them back
  to their number at `mark`; on return they replace the first bytes of the storage
  (`store`). A block from `malloc` has no represented bytes before it is written;
* `int` values are mathematical integers (overflow is outside the embedding), but for
  the sum `n + 1` of `str_ncpy`, which is taken on 32 bits in two's complement, as the
  compiled code gives it;
* the allocator fails for a negative size only;
* the predicates of `<ctype.h>` are those of the C locale.
-/

namespace strext

/-- The byte `*s` at a pointer. -/
def peek (s : List Nat) : Nat :=
  s.headD 0

/-- The bytes of a storage after `written` has been written to it from its start. -/
def store (mem written : List Nat) : List Nat :=
  written ++ mem.drop written.length

/-- The library function `malloc` for a size given as an `int`. -/
def malloc (size : Int) : Option (List Nat) :=
  if size < 0 then none else some []

/-- The `<ctype.h>` predicate `isspace`: blank, `\t`, `\n`, `\v`, `\f`, `\r`. -/
def isspace (c : Nat) : Bool :=
  decide (c = 32 ∨ (9 ≤ c ∧ c ≤ 13))

/-- The `<ctype.h>` predicate `isdigit`. -/
def isdigit (c : Nat) : Bool :=
  decide (48 ≤ c ∧ c ≤ 57)

/-- The `<ctype.h>` predicate `isalpha`. -/
def isalpha (c : Nat) : Bool :=
  decide ((65 ≤ c ∧ c ≤ 90) ∨ (97 ≤ c ∧ c ≤ 122))

/-- The `<ctype.h>` predicate `isxdigit`. -/
def isxdigit (c : Nat) : Bool :=
  decide ((48 ≤ c ∧ c ≤ 57) ∨ (65 ≤ c ∧ c ≤ 70) ∨ (97 ≤ c ∧ c ≤ 102))

/-- The `<ctype.h>` function `toupper`. -/
def toupper (c : Nat) : Nat :=
  if 97 ≤ c ∧ c ≤ 122 then c - 32 else c

/-- The loop `while ( len-- > 0 ) *(d++) = *(s++);` of `mem_cpy`: the bytes written. -/
def mem_cpy_loop : Nat → List Nat → List Nat → List Nat
  | 0, _, d => d
  | len + 1, s, d => mem_cpy_loop len s.tail (d ++ [peek s])

/-- The function `mem_cpy`: the storage at `dest` afterwards. -/
def mem_cpy (dest src : Option (List Nat)) (len : Int) : Option (List Nat) :=
  match dest, src with
  | some d, some s => some (store d (mem_cpy_loop len.toNat s []))
  | _, _ => dest

/-- The loop `while ( *str ) str++;` of `str_len`: the number of steps. -/
def str_len_loop : List Nat → Nat
  | [] => 0
  | c :: str => if c ≠ 0 then str_len_loop str + 1 else 0

/-- The function `str_len`. -/
def str_len (str : Option (List Nat)) : Int :=
  match str with
  | some s => str_len_loop s
  | none => 0

/-- The loop `while ( ( --len > 0 ) && ( *(dst++) = *(s++) ) );` of `str_vcpy`: the
bytes written and `len` afterwards. -/
def str_vcpy_copy : List Nat → Int → List Nat → List Nat × Int
  | [], len, dst => if len - 1 > 0 then (dst ++ [0], len - 1) else (dst, len - 1)
  | c :: s, len, dst =>
    if len - 1 > 0 then
      if c ≠ 0 then str_vcpy_copy s (len - 1) (dst ++ [c]) else (dst ++ [c], len - 1)
    else (dst, len - 1)

/-- The loop of `str_vcpy` over the strings of `vp`, with
`if ( len > 0 ) { dst--; len++; }` after each string. -/
def str_vcpy_strings : List (List Nat) → Int → List Nat → List Nat × Int
  | [], len, dst => (dst, len)
  | s :: vp, len, dst =>
    let r := str_vcpy_copy s len dst
    if r.2 > 0 then str_vcpy_strings vp (r.2 + 1) r.1.dropLast
    else str_vcpy_strings vp r.2 r.1

/-- The function `str_vcpy`: the storage at the `*rdst` of the call afterwards, and the
returned number; `*rdst` is moved forward by that number. The argument list `vp` is
given by the strings before its terminating null pointer. -/
def str_vcpy (rdst : Option (List Nat)) (len : Int) (vp : List (List Nat)) :
    Option (List Nat) × Int :=
  match rdst with
  | some mem =>
    if len > 0 then
      let r := str_vcpy_strings vp len []
      (some (store mem (r.1 ++ [0])), r.1.length)
    else (some mem, 0)
  | none => (none, 0)

/-- The function `str_mcpy`: the storage at `dst` afterwards, and the returned number. -/
def str_mcpy (dst : Option (List Nat)) (len : Int) (vp : List (List Nat)) :
    Option (List Nat) × Int :=
  str_vcpy dst len vp

/-- The function `str_cpy`. -/
def str_cpy (dst : Option (List Nat)) (n : Int) (src : Option (List Nat)) :
    Option (List Nat) × Int :=
  str_mcpy dst n src.toList

/-- The function `str_ncpy`. The sum `n + 1` is an `int`: at `n = INT_MAX` it does not
fit, and the compiled code goes on with `INT_MIN`. -/
def str_ncpy (dst : Option (List Nat)) (len : Int) (src : Option (List Nat)) (n : Int) :
    Option (List Nat) × Int :=
  let l := if len < zip.toInt32 (n + 1) then len else zip.toInt32 (n + 1)
  str_mcpy dst l src.toList

/-- The function `str_heap`: the allocated block. The copy takes `l + 1` bytes, then
`ret [l]` is set to zero. With `len = -1` the code writes in front of an empty block,
which is not represented. -/
def str_heap (str : Option (List Nat)) (len : Int) : Option (List Nat) :=
  match str with
  | some s =>
    let l := str_len (some s)
    let l := if len ≠ 0 ∧ len < l then len else l
    let size := l + 1
    (mem_cpy (malloc size) (some s) size).map (fun ret => ret.set l.toNat 0)
  | none => none

/-- The state of a scan that copies: the source pointer `s`, the bytes written to the
buffer behind `d`, and the counter `n` of the room left. -/
structure Scan where
  s : List Nat
  d : List Nat
  n : Int
deriving DecidableEq, Repr

/-- The statement `if ( n-- > 0 ) *(d++) = c;` followed by `s++`. -/
def Scan.copy (x : Scan) (c : Nat) : Scan :=
  { s := x.s.tail, d := if x.n > 0 then x.d ++ [c] else x.d, n := x.n - 1 }

/-- The loop `while ( *s && isspace ( *s ) ) s++;` of `str_substring`. -/
def skipSpace : List Nat → List Nat
  | [] => []
  | c :: s => if c ≠ 0 ∧ isspace c then skipSpace s else c :: s

/-- The loop of `str_substring` over a quoted part, entered behind the opening quote. -/
def quotedLoop : Nat → Scan → Scan
  | 0, x => x
  | fuel + 1, x =>
    if peek x.s ≠ 0 ∧ peek x.s ≠ 34 then
      let x1 := if peek x.s = 92 ∧ peek x.s.tail = 34 then { x with s := x.s.tail } else x
      quotedLoop fuel (x1.copy (peek x1.s))
    else x

/-- The loop of `str_substring` over the characters of a word. -/
def wordLoop (delim : Nat) : Nat → Scan → Scan
  | 0, x => x
  | fuel + 1, x =>
    if peek x.s ≠ 0 ∧ peek x.s ≠ 34 ∧ peek x.s ≠ delim ∧ ¬ isspace (peek x.s) then
      let x1 :=
        if peek x.s = 92 ∧ (peek x.s.tail = delim ∨ peek x.s.tail = 34)
          then { x with s := x.s.tail } else x
      wordLoop delim fuel (x1.copy (peek x1.s))
    else x

/-- The loop of `str_substring` that copies white space behind a word. -/
def spaceLoop : Nat → Scan → Scan
  | 0, x => x
  | fuel + 1, x =>
    if peek x.s ≠ 0 ∧ isspace (peek x.s) then spaceLoop fuel (x.copy (peek x.s)) else x

/-- The loop `while ( *s && ( *s != delim ) )` of `str_substring`. -/
def substringLoop (delim : Nat) : Nat → Scan → Scan
  | 0, x => x
  | fuel + 1, x =>
    if peek x.s ≠ 0 ∧ peek x.s ≠ delim then
      if peek x.s = 34 then
        let q := quotedLoop x.s.length { x with s := x.s.tail }
        substringLoop delim fuel (if peek q.s = 34 then { q with s := q.s.tail } else q)
      else
        let w := wordLoop delim x.s.length x
        if isspace (peek w.s) then
          if delim ≠ 0 then
            let mark := w.d.length
            let c := spaceLoop w.s.length w
            substringLoop delim fuel
              (if peek c.s = 0 ∨ peek c.s = delim then { c with d := c.d.take mark } else c)
          else w
        else substringLoop delim fuel w
    else x

/-- The function `str_substring`: whether the returned pointer is `buff` (and not
null), the storage at `buff` afterwards, and `*rstr` afterwards; `rstr` is `none`
when `rstr` or `*rstr` is null. -/
def str_substring (rstr buff : Option (List Nat)) (len : Int) (delim : Nat) :
    Bool × Option (List Nat) × Option (List Nat) :=
  match rstr, buff with
  | some str, some b =>
    let s := skipSpace str
    if peek s ≠ 0 then
      let x := substringLoop delim s.length { s := s, d := [], n := len }
      let s1 := skipSpace x.s
      if delim ≠ 0 then
        if peek s1 = delim then (true, some (store b (x.d ++ [0])), some s1.tail)
        else (false, some (store b (x.d ++ [0])), some s1)
      else (decide (peek s1 ≠ 0), some (store b (x.d ++ [0])), some s1)
    else (false, some (store b [0]), some str)
  | _, _ => (false, buff, rstr)

/-- The function `str_trim`. -/
def str_trim (str : Option (List Nat)) : Option (List Nat) :=
  let l := str_len str + 1
  let tmp := malloc l
  str_heap (str_substring str tmp l 0).2.1 0

/-- The loop `while ( lower < upper )` of `str_reverse` on the storage of the string,
`lower` and `upper` being offsets from `str`. -/
def str_reverse_loop : Nat → List Nat → Int → Int → List Nat
  | 0, str, _, _ => str
  | fuel + 1, str, lower, upper =>
    if lower < upper then
      let tmp := str.getD lower.toNat 0
      let str1 := str.set lower.toNat (str.getD upper.toNat 0)
      str_reverse_loop fuel (str1.set upper.toNat tmp) (lower + 1) (upper - 1)
    else str

/-- The function `str_reverse`: the storage at `str` afterwards. -/
def str_reverse (str : Option (List Nat)) : Option (List Nat) :=
  match str with
  | some s => some (str_reverse_loop s.length s 0 (str_len (some s) - 1))
  | none => none

/-- The letter that `str_rquote` writes behind a backslash for the control characters
`\n`, `\r`, `\b`, `\t`, `\f`, `\v`, `\a` (the first seven cases of its `switch`). -/
def escapeLetter (c : Nat) : Option Nat :=
  if c = 10 then some 110
  else if c = 13 then some 114
  else if c = 8 then some 98
  else if c = 9 then some 116
  else if c = 12 then some 102
  else if c = 11 then some 118
  else if c = 7 then some 97
  else none

/-- The loop `while ( *s && ( --l > 2 ) )` of `str_rquote`: the bytes written. -/
def str_rquote_loop : List Nat → Int → List Nat → List Nat
  | [], _, d => d
  | c :: s, l, d =>
    if c ≠ 0 ∧ l - 1 > 2 then
      match escapeLetter c with
      | some e =>
        if l - 1 > 3 then str_rquote_loop s (l - 1 - 1) (d ++ [92, e])
        else str_rquote_loop s (l - 1) d
      | none =>
        if (c = 34 ∨ c = 92) ∧ l - 1 > 3 then str_rquote_loop s (l - 1 - 1) (d ++ [92, c])
        else str_rquote_loop s (l - 1) (d ++ [c])
    else d

/-- The function `str_rquote`: the storage at the `*dest` of the call afterwards, and
the returned number; `*dest` is moved forward by that number. -/
def str_rquote (dest : Option (List Nat)) (blen : Int) (src : Option (List Nat)) :
    Option (List Nat) × Int :=
  match dest, src with
  | some mem, some s =>
    if blen > 2 then
      let d := str_rquote_loop s blen [34] ++ [34]
      (some (store mem (d ++ [0])), d.length)
    else (some mem, 0)
  | _, _ => (dest, 0)

/-- The loop of `str_quote` that computes the size of the block. -/
def str_quote_len : List Nat → Int → Int
  | [], len => len
  | c :: s, len =>
    if c ≠ 0 then
      if c = 10 ∨ c = 13 ∨ c = 8 ∨ c = 9 ∨ c = 12 ∨ c = 11 ∨ c = 7 ∨ c = 92 ∨ c = 34
        then str_quote_len s (len + 1 + 1)
      else str_quote_len s (len + 1)
    else len

/-- The function `str_quote`: the allocated block. -/
def str_quote (str : Option (List Nat)) : Option (List Nat) :=
  match str with
  | some s =>
    let len := str_quote_len s 3
    match malloc len with
    | some news => (str_rquote (some news) len (some s)).1
    | none => none
  | none => none

/-- The macro `_ord`. -/
def _ord (v : Nat) : Int :=
  if isdigit v then (v : Int) - 48 else 10 + ((toupper v : Int) - 65)

/-- The character that `str_rdequote` writes for a letter behind a backslash (the
cases `n`, `r`, `b`, `t`, `f`, `a`, `v` of its inner `switch`). -/
def unescape (c : Nat) : Option Nat :=
  if c = 110 then some 10
  else if c = 114 then some 13
  else if c = 98 then some 8
  else if c = 116 then some 9
  else if c = 102 then some 12
  else if c = 97 then some 7
  else if c = 118 then some 11
  else none

/-- An `int` stored into a `char`, as its code. -/
def toChar (v : Int) : Nat :=
  (v % 256).toNat

/-- The loop `while ( *s && ( l > 1 ) )` of `str_rdequote`: the bytes written and `l`,
at the `return` in the loop or behind the loop. -/
def str_rdequote_loop (isquoted : Bool) : Nat → List Nat → Int → List Nat → List Nat × Int
  | 0, _, l, d => (d, l)
  | fuel + 1, s, l, d =>
    if peek s ≠ 0 ∧ l > 1 then
      if peek s = 92 then
        let s := s.tail
        if peek s = 0 then str_rdequote_loop isquoted fuel s l d
        else
          match unescape (peek s) with
          | some c => str_rdequote_loop isquoted fuel s.tail (l - 1) (d ++ [c])
          | none =>
            if peek s = 120 ∧ peek s.tail ≠ 0 ∧ isxdigit (peek s.tail) ∧
                peek s.tail.tail ≠ 0 ∧ isxdigit (peek s.tail.tail) then
              str_rdequote_loop isquoted fuel s.tail.tail.tail (l - 1)
                (d ++ [toChar (_ord (peek s.tail) * 16 + _ord (peek s.tail.tail))])
            else if isdigit (peek s) ∧ peek s.tail ≠ 0 ∧ isdigit (peek s.tail) ∧
                peek s.tail.tail ≠ 0 ∧ isdigit (peek s.tail.tail) then
              str_rdequote_loop isquoted fuel s.tail.tail.tail (l - 1)
                (d ++ [toChar (_ord (peek s) * 64 + _ord (peek s.tail) * 8 +
                  _ord (peek s.tail.tail))])
            else str_rdequote_loop isquoted fuel s.tail (l - 1) (d ++ [peek s])
      else if peek s = 34 ∧ isquoted then (d, l)
      else str_rdequote_loop isquoted fuel s.tail (l - 1) (d ++ [peek s])
    else (d, l)

/-- The function `str_rdequote`: the storage at the `*dest` of the call afterwards, and
the returned number. -/
def str_rdequote (dest : Option (List Nat)) (blen : Int) (src : Option (List Nat)) :
    Option (List Nat) × Int :=
  match dest, src with
  | some mem, some s =>
    if blen > 1 then
      let r :=
        if peek s = 34 then str_rdequote_loop true s.length s.tail blen []
        else str_rdequote_loop false (s.length + 1) s blen []
      (some (store mem (r.1 ++ [0])), blen - r.2)
    else (some mem, 0)
  | _, _ => (dest, 0)

/-- The function `str_dequote`: the allocated block. -/
def str_dequote (str : Option (List Nat)) : Option (List Nat) :=
  match str with
  | some s =>
    let l := str_len (some s) + 1
    match malloc l with
    | some news => (str_rdequote (some news) l (some s)).1
    | none => none
  | none => none

/-- The table `_ldig`: per decimal place the digits for ten, five and one. -/
def _ldig : List (List Nat) :=
  [[32, 32, 77], [77, 68, 67], [67, 76, 88], [88, 86, 73]]

/-- The table `_sdig`. -/
def _sdig : List (List Nat) :=
  [[32, 32, 109], [109, 100, 99], [99, 108, 120], [120, 118, 105]]

/-- The table `_dval`: the value of each letter as a roman digit. -/
def _dval : List Nat :=
  [0, 0, 100, 500, 0, 0, 0, 0, 1, 0, 0, 50, 1000, 0, 0, 0, 0, 0, 0, 0, 0, 5, 0, 10, 0, 0]

/-- The `switch ( v )` in the `for (;;)` of `str_i2roman`, with the digits `dig [i]`:
the bytes written and `v` afterwards. The cases 6, 7 and 8 write the digit for five
and enter the switch once more. -/
def str_i2roman_switch (dig : List Nat) (last : Int) : Nat → Int → List Nat → List Nat × Int
  | 0, v, p => (p, v)
  | fuel + 1, v, p =>
    if v = 3 then (p ++ [dig.getD 2 0, dig.getD 2 0, dig.getD 2 0], v)
    else if v = 2 then (p ++ [dig.getD 2 0, dig.getD 2 0], v)
    else if v = 1 then (p ++ [dig.getD 2 0], v)
    else if v = 4 then (p ++ [dig.getD 2 0, dig.getD 1 0], v)
    else if v = 5 then
      if last = 4 ∨ last = 9 then (p.set (p.length - 2) (dig.getD 1 0), v)
      else (p ++ [dig.getD 1 0], v)
    else if v = 6 ∨ v = 7 ∨ v = 8 then
      str_i2roman_switch dig last fuel (v - 5) (p ++ [dig.getD 1 0])
    else if v = 9 then
      if last = 4 ∨ last = 9 then (p.set (p.length - 2) (dig.getD 2 0), v)
      else (p ++ [dig.getD 2 0, dig.getD 0 0], v)
    else (p, v)

/-- The loop `for ( i = 0; i < 4; i++ )` of `str_i2roman` and the statements behind
it, as a function of the number of rounds left: the bytes written and the returned
number. -/
def str_i2roman_for (dig : List (List Nat)) (len : Int) :
    Nat → Nat → Int → Int → Int → Int → List Nat → List Nat × Int
  | 0, _, _, _, n, _, p => (p ++ [0], len - n)
  | rounds + 1, i, val, div, n, last, p =>
    if n < 4 then (p, -1)
    else
      let r := str_i2roman_switch (dig.getD i []) last 2 (val / div) p
      str_i2roman_for dig len rounds (i + 1) (val % div) (div / 10)
        (n - ((r.1.length : Int) - p.length)) r.2 r.1

/-- The function `str_i2roman`: the storage at `buff` afterwards, and the returned
number. -/
def str_i2roman (buff : Option (List Nat)) (len : Int) (val : Int) (islarge : Int) :
    Option (List Nat) × Int :=
  match buff with
  | some mem =>
    if len > 1 then
      let dig := if islarge ≠ 0 then _ldig else _sdig
      let p := if val < 0 then [45] else []
      let n := if val < 0 then len - 1 else len
      let val := if val < 0 then -val else val
      if val ≥ 4000 then (some (store mem p), -1)
      else
        let r := str_i2roman_for dig len 4 0 val 1000 n 0 p
        (some (store mem r.1), r.2)
    else (some mem, -1)
  | none => (none, -1)

/-- The loop `while ( isalpha ( *p ) )` of `str_rroman2i`: `val` behind the loop. -/
def str_rroman2i_loop : Nat → List Nat → Int → Int
  | 0, _, val => val
  | fuel + 1, p, val =>
    if isalpha (peek p) then
      if _dval.getD (toupper (peek p) - 65) 0 = 0 then val
      else if isalpha (peek p.tail) ∧
          _dval.getD (toupper (peek p) - 65) 0 < _dval.getD (toupper (peek p.tail) - 65) 0 then
        str_rroman2i_loop fuel p.tail.tail
          (val + ((_dval.getD (toupper (peek p.tail) - 65) 0 : Int) -
            _dval.getD (toupper (peek p) - 65) 0))
      else str_rroman2i_loop fuel p.tail (val + _dval.getD (toupper (peek p) - 65) 0)
    else val

/-- The function `str_rroman2i`; `rstr` is `none` when `rstr` or `*rstr` is null. The
function does not write to `*rstr`. -/
def str_rroman2i (rstr : Option (List Nat)) : Int :=
  match rstr with
  | some p =>
    let val := str_rroman2i_loop p.length p 0
    if val ≠ 0 then val else -1
  | none => -1

/-- The function `str_roman2i`. -/
def str_roman2i (str : Option (List Nat)) : Int :=
  str_rroman2i str

end strext

/-!
## The argument vector functions (`General/lowlevel/argv.cpp`)

An array of strings is the list of its elements from an address on, each the storage
of a string or `none` for a null pointer; an element behind the end of the list reads
as the null pointer.
-/

namespace argv

open strext

/-- How the behaviour of a call in `argv.cpp` can be undefined: a write through a
pointer into a block that has been passed to `realloc` (`stalePointer`), a call of
`free` with the address of an array element behind the first, which no allocation
returned (`freeOfElement`), a write to a block that has been passed to `free`
(`useAfterFree`). -/
inductive Undefined where
  | stalePointer
  | freeOfElement
  | useAfterFree
deriving DecidableEq, Repr

/-- The element `*p` of a string array at a pointer: behind the represented elements
it reads as the null pointer. -/
def peekString (p : List (Option (List Nat))) : Option (List Nat) :=
  (p.head?).join

/-- The loop `while ( *(p++) ) val ++;` of `av_length`. -/
def av_length_loop : List (Option (List Nat)) → Nat
  | [] => 0
  | s :: p => if s.isSome then av_length_loop p + 1 else 0

/-- The function `av_length`. -/
def av_length (argv : Option (List (Option (List Nat)))) : Int :=
  match argv with
  | some p => av_length_loop p
  | none => 0

/-- The function `av_increase`: a block of `l + n + 1` elements that keeps the first
`l` elements of `argv`, the others being set to null. -/
def av_increase (argv : Option (List (Option (List Nat)))) (n : Int) :
    Option (List (Option (List Nat))) :=
  if n > 0 then
    let l := av_length argv
    let size := l + n + 1
    some ((argv.getD []).take l.toNat ++ List.replicate (size - l).toNat none)
  else none

/-- The state of the loop of `av_a2av`: `*str`, the storage at `buff`, the block `ret`,
the offset of `p` from `ret` and whether `p` points into the block that `ret` is now,
and the counters `i` and `n`. -/
structure Split where
  str : Option (List Nat)
  buff : Option (List Nat)
  ret : List (Option (List Nat))
  p : Nat
  fresh : Bool
  i : Int
  n : Int
deriving DecidableEq, Repr

/-- The loop `do ... while ( s )` of `av_a2av`: the block `ret` and `i` behind it, a
null pointer where the function returns 0 from inside the loop. After `av_increase`
the pointer `p` still points into the block given to `realloc`. -/
def av_a2av_loop (blen : Int) (delim : Nat) :
    Nat → Split → Except Undefined (Option (List (Option (List Nat)) × Int))
  | 0, x => .ok (some (x.ret, x.i))
  | fuel + 1, x =>
    let r := str_substring x.str x.buff blen delim
    let h := str_heap r.2.1 0
    if x.fresh then
      if h.isNone then .ok none
      else
        let ret1 := x.ret.set x.p h
        let x1 : Option Split :=
          if x.i + 1 > x.n then
            (av_increase (some ret1) (x.n + 20)).map
              (fun tmp => Split.mk r.2.2 r.2.1 tmp (x.p + 1) false (x.i + 1) (x.n + 20))
          else some (Split.mk r.2.2 r.2.1 ret1 (x.p + 1) true (x.i + 1) x.n)
        match x1 with
        | some x1 => if r.1 then av_a2av_loop blen delim fuel x1 else .ok (some (x1.ret, x1.i))
        | none => .ok none
    else .error .stalePointer

/-- The function `av_a2av`: the returned block, reduced by the final `realloc` to `i`
elements. -/
def av_a2av (str : Option (List Nat)) (delim : Nat) :
    Except Undefined (Option (List (Option (List Nat)))) :=
  match str, av_increase none 20 with
  | some s, some ret =>
    let blen := str_len (some s) + 1
    match av_a2av_loop blen delim (s.length + 1) (Split.mk (some s) (malloc blen) ret 0 true 1 20) with
    | .ok (some r) => .ok (some (r.1.take r.2.toNat))
    | .ok none => .ok none
    | .error e => .error e
  | _, _ => .ok none

/-- The loop `for ( i = 0; i < pos; i++ ) *p++ = *a++;` of `av_vinsert`: the elements
written and the pointer `a`. -/
def av_vinsert_first :
    Nat → List (Option (List Nat)) → List (Option (List Nat)) →
      List (Option (List Nat)) × List (Option (List Nat))
  | 0, a, p => (p, a)
  | pos + 1, a, p => av_vinsert_first pos a.tail (p ++ [peekString a])

/-- The loop `while ( (s = va_arg ( vp, const char * )) ) *p++ = str_heap ( s, 0 );`. -/
def av_vinsert_strings : List (List Nat) → List (Option (List Nat)) → List (Option (List Nat))
  | [], p => p
  | s :: vp, p => av_vinsert_strings vp (p ++ [str_heap (some s) 0])

/-- The loop `while ( *a ) *p++ = *a++;`. -/
def av_vinsert_rest : List (Option (List Nat)) → List (Option (List Nat)) → List (Option (List Nat))
  | [], p => p
  | s :: a, p => if s.isSome then av_vinsert_rest a (p ++ [s]) else p

/-- The function `av_vinsert`: the returned block (`av` itself when the list of strings
is empty). The argument list `vp` is given by the strings before its terminating null
pointer. -/
def av_vinsert (av : Option (List (Option (List Nat)))) (pos : Int) (vp : List (List Nat)) :
    Option (List (Option (List Nat))) :=
  match av with
  | some a =>
    let n := vp.length
    if n ≠ 0 then
      let l := av_length (some a)
      let pos := if pos < 0 ∨ pos > l then l else pos
      let r := av_vinsert_first pos.toNat a []
      some (av_vinsert_rest r.2 (av_vinsert_strings vp r.1) ++ [none])
    else some a
  | none => none

/-- The function `av_minsert`. -/
def av_minsert (av : Option (List (Option (List Nat)))) (pos : Int) (vp : List (List Nat)) :
    Option (List (Option (List Nat))) :=
  av_vinsert av pos vp

/-- The function `av_insert`. -/
def av_insert (av : Option (List (Option (List Nat)))) (pos : Int) (s : Option (List Nat)) :
    Option (List (Option (List Nat))) :=
  av_minsert av pos s.toList

/-- The loop `while ( (*s++ = *d++) );` of `av_delete` on the elements of `av`, `s` and
`d` being offsets from `av`. -/
def av_delete_move : Nat → List (Option (List Nat)) → Nat → Nat → List (Option (List Nat))
  | 0, av, _, _ => av
  | fuel + 1, av, s, d =>
    let x := peekString (av.drop d)
    if x.isSome then av_delete_move fuel (av.set s x) (s + 1) (d + 1)
    else av.set s x

/-- The function `av_delete`: the storage at `av` afterwards. The loop
`for ( i = from; i <= to; i++ ) free ( s++ );` passes the addresses `av + from` ..
`av + to` of the elements to `free`: that of an element behind the first is no
allocated block, and after `free ( av )` alone the loop behind it writes to the
released array. When the loop does not run, `s` and `d` both are `av + from`. -/
def av_delete (av : Option (List (Option (List Nat)))) (from_ to_ : Int) :
    Except Undefined (Option (List (Option (List Nat)))) :=
  match av with
  | some a =>
    let l := av_length (some a)
    if from_ ≥ 0 ∧ from_ < l then
      let to_ := if to_ ≥ l then l - 1 else to_
      if from_ ≤ to_ then
        if from_ = 0 ∧ to_ = 0 then .error .useAfterFree else .error .freeOfElement
      else .ok (some (av_delete_move a.length a from_.toNat from_.toNat))
    else .ok (some a)
  | none => .ok none

end argv

/-!
## The file functions (`General/lowlevel/fileop.cpp`)

Of a `struct stat` only the field `st_mode` is represented. The file type constants
are those of `<sys/stat.h>` on Linux and macOS (`S_IFMT`, `S_IFREG`, ...), the
permission constants those that `fileop.cpp` defines itself where the system does not.
A block from `calloc` holds zero bytes; for `fn_compress` it is represented in full,
with `d` as an offset into it, since the function steps back in it and reads it.
-/

namespace fileop

open strext

/-- The constant `S_IFMT`: the file type mask. -/
def S_IFMT : Nat := 0o170000

/-- The constant `S_IFIFO`. -/
def S_IFIFO : Nat := 0o010000

/-- The constant `S_IFCHR`. -/
def S_IFCHR : Nat := 0o020000

/-- The constant `S_IFDIR`. -/
def S_IFDIR : Nat := 0o040000

/-- The constant `S_IFBLK`. -/
def S_IFBLK : Nat := 0o060000

/-- The constant `S_IFREG`. -/
def S_IFREG : Nat := 0o100000

/-- The constant `S_IFLNK`. -/
def S_IFLNK : Nat := 0o120000

/-- The constant `S_IFSOCK`. -/
def S_IFSOCK : Nat := 0o140000

/-- The constant `S_IRWXO`. -/
def S_IRWXO : Nat := 0o7

/-- The constant `S_ISUID`. -/
def S_ISUID : Nat := 0o4000

/-- The constant `S_ISGID`. -/
def S_ISGID : Nat := 0o2000

/-- The constant `S_ISVTX`. -/
def S_ISVTX : Nat := 0o1000

/-- The constant `S_IAMB`. -/
def S_IAMB : Nat := 0o777

/-- The constant `S_MBITS`. -/
def S_MBITS : Nat := S_IAMB ||| S_ISUID ||| S_ISGID ||| S_ISVTX

/-- The type `stat_t`, with its field `st_mode`. -/
structure stat_t where
  st_mode : Nat
deriving DecidableEq, Repr

/-- The macro `_stat_isfifo`. -/
def _stat_isfifo (st : stat_t) : Int :=
  if st.st_mode &&& S_IFMT = S_IFIFO then 1 else 0

/-- The macro `_stat_ischrdev`. -/
def _stat_ischrdev (st : stat_t) : Int :=
  if st.st_mode &&& S_IFMT = S_IFCHR then 1 else 0

/-- The macro `_stat_isblkdev`. -/
def _stat_isblkdev (st : stat_t) : Int :=
  if st.st_mode &&& S_IFMT = S_IFBLK then 1 else 0

/-- The macro `_stat_isdev`. -/
def _stat_isdev (st : stat_t) : Int :=
  if _stat_ischrdev st ≠ 0 ∨ _stat_isblkdev st ≠ 0 then 1 else 0

/-- The macro `_stat_issock`. -/
def _stat_issock (st : stat_t) : Int :=
  if st.st_mode &&& S_IFMT = S_IFSOCK then 1 else 0

/-- The macro `_stat_isdir`. -/
def _stat_isdir (st : stat_t) : Int :=
  if st.st_mode &&& S_IFMT = S_IFDIR then 1 else 0

/-- The macro `_stat_isfile`. -/
def _stat_isfile (st : stat_t) : Int :=
  if st.st_mode &&& S_IFMT = S_IFREG then 1 else 0

/-- The macro `_stat_islink`. -/
def _stat_islink (st : stat_t) : Int :=
  if st.st_mode &&& S_IFMT = S_IFLNK then 1 else 0

/-- The macro `_stat_wmode`. -/
def _stat_wmode (st : stat_t) : Int :=
  ((st.st_mode &&& S_IRWXO : Nat) : Int)

/-- The macro `_stat_mode`. -/
def _stat_mode (st : stat_t) : Int :=
  ((st.st_mode &&& S_MBITS : Nat) : Int)

/-- The function `stat_wmode`. -/
def stat_wmode (st : stat_t) : Int :=
  _stat_wmode st

/-- The function `stat_mode`: its body is `return _stat_wmode(*st);`. -/
def stat_mode (st : stat_t) : Int :=
  _stat_wmode st

/-- The `switch ( *mode )` of `stat_istype`: what is added to `ret`, `none` for the
`default` case that returns 0. -/
def stat_istype_switch (st : stat_t) (c : Nat) : Option Int :=
  if c = 45 ∨ c = 102 then some (_stat_isfile st)
  else if c = 100 then some (_stat_isdir st)
  else if c = 99 then some (_stat_ischrdev st)
  else if c = 98 then some (_stat_isblkdev st)
  else if c = 68 then some (_stat_isdev st)
  else if c = 112 then some (_stat_isfifo st)
  else if c = 115 then some (_stat_issock st)
  else if c = 108 then some (_stat_islink st)
  else none

/-- The function `stat_istype`. -/
def stat_istype (st : stat_t) (mode : Option (List Nat)) : Int :=
  let mode := if mode.isNone ∨ peek (mode.getD []) = 0 then [102] else mode.getD []
  let is_negate : Int := if peek mode = 33 then 1 else 0
  let mode := if peek mode = 33 then mode.tail else mode
  match stat_istype_switch st (peek mode) with
  | some r =>
    let ret := 0 + r
    let ret : Int := if is_negate ≠ 0 then (if ret = 0 then 1 else 0) else ret
    if ret ≠ 0 then 1 else 0
  | none => 0

/-- The state of the loop of `fn_compress`: the offset of `p` from `fn`, the offset of
`d` from `buff`, the block `buff` and the counter `was_rescan`. -/
structure Compress where
  p : Nat
  d : Nat
  buff : List Nat
  was_rescan : Int
deriving DecidableEq, Repr

/-- The statement `*(d++) = c`. -/
def Compress.put (x : Compress) (c : Nat) : Compress :=
  { x with d := x.d + 1, buff := x.buff.set x.d c }

/-- The loop `while ( ( d > buff ) && ( *--d != '/' ) );` of `fn_compress`: the offset
of `d` behind it. -/
def fn_compress_back (buff : List Nat) : Nat → Nat
  | 0 => 0
  | d + 1 => if buff.getD d 0 ≠ 47 then fn_compress_back buff d else d

/-- One round of the loop `while ( *p )` of `fn_compress`, entered with `*p != 0`. -/
def fn_compress_round (fn : List Nat) (x : Compress) : Compress :=
  if fn.getD x.p 0 = 47 then
    if fn.getD (x.p + 1) 0 = 0 ∨ fn.getD (x.p + 1) 0 = 47 then { x with p := x.p + 1 }
    else if fn.getD (x.p + 1) 0 = 46 then
      if fn.getD (x.p + 2) 0 = 0 ∨ fn.getD (x.p + 2) 0 = 47 then { x with p := x.p + 2 }
      else if fn.getD (x.p + 2) 0 = 46 ∧
          (fn.getD (x.p + 3) 0 = 0 ∨ fn.getD (x.p + 3) 0 = 47) then
        if x.d = 0 then
          if x.was_rescan ≠ 0 ∧ x.buff.getD 0 0 ≠ 47 then { x with p := x.p + 1 }
          else if fn.getD (x.p + 3) 0 = 0 then { x.put 47 with p := x.p + 3 }
          else { x with p := x.p + 3 }
        else
          if (x.d ≥ 2 ∧ x.buff.getD (x.d - 1) 0 = 46 ∧ x.buff.getD (x.d - 2) 0 = 46) ∧
              ((x.d > 2 ∧ x.buff.getD (x.d - 3) 0 = 47) ∨ x.d = 2) then
            { x.put (fn.getD x.p 0) with p := x.p + 1 }
          else
            let x1 : Compress :=
              { x with d := fn_compress_back x.buff x.d, was_rescan := x.was_rescan + 1 }
            if fn.getD (x.p + 3) 0 = 0 ∨ fn.getD (x.p + 4) 0 = 0 then
              let x2 : Compress :=
                if x1.d = 0 then
                  if x1.buff.getD 0 0 = 47 then { x1 with d := 1 } else x1.put 46
                else x1
              if fn.getD (x.p + 3) 0 = 0 then { x2 with p := x.p + 3 }
              else { x2 with p := x.p + 4 }
            else if x1.buff.getD x1.d 0 ≠ 47 then { x1 with p := x.p + 4 }
            else { x1 with p := x.p + 3 }
      else { x.put (fn.getD x.p 0) with p := x.p + 1 }
    else { x.put (fn.getD x.p 0) with p := x.p + 1 }
  else if fn.getD x.p 0 = 46 ∧ fn.getD (x.p + 1) 0 = 47 ∧
      (x.d = 0 ∨ x.buff.getD (x.d - 1) 0 ≠ 46) then
    { x with p := x.p + 2 }
  else { x.put (fn.getD x.p 0) with p := x.p + 1 }

/-- The loop `while ( *p )` of `fn_compress`. -/
def fn_compress_loop (fn : List Nat) : Nat → Compress → Compress
  | 0, x => x
  | fuel + 1, x =>
    if fn.getD x.p 0 ≠ 0 then fn_compress_loop fn fuel (fn_compress_round fn x) else x

/-- The function `fn_compress`: the storage at `fn` afterwards. -/
def fn_compress (fn : Option (List Nat)) : Option (List Nat) :=
  match fn with
  | some m =>
    if peek m ≠ 0 then
      let l := str_len (some m) + 1
      let x := fn_compress_loop m m.length (Compress.mk 0 0 (List.replicate l.toNat 0) 0)
      let x1 := if x.d = 0 then (if peek m = 47 then x.put 47 else x.put 46) else x
      (str_cpy (some m) l (some (x1.buff.set x1.d 0))).1
    else some m
  | none => none

end fileop

/-! ## Auxiliary definitions for the string functions -/

namespace strext

/-- The characters that the loop of `str_rquote` writes for the character `c` when
there is room: a backslash and a letter for the seven control characters, a backslash
and the character itself for the double quote and the backslash, and the character
alone otherwise. -/
def quoteChar (c : Nat) : List Nat :=
  match escapeLetter c with
  | some e => [92, e]
  | none => if c = 34 ∨ c = 92 then [92, c] else [c]


/-- A character that `str_substring` with the delimiter `delim` copies as it is and
that ends nothing: not the zero byte, not white space, not a double quote, not a
backslash and not the delimiter. -/
def Plain (delim c : Nat) : Prop :=
  c ≠ 0 ∧ isspace c = false ∧ c ≠ 34 ∧ c ≠ 92 ∧ c ≠ delim


/-- Whether a character is one of the roman digits M, D, C, L, X, V, I or m, d, c, l,
x, v, i. -/
def isRomanDigit (c : Nat) : Bool :=
  decide (c = 77 ∨ c = 68 ∨ c = 67 ∨ c = 76 ∨ c = 88 ∨ c = 86 ∨ c = 73 ∨
    c = 109 ∨ c = 100 ∨ c = 99 ∨ c = 108 ∨ c = 120 ∨ c = 118 ∨ c = 105)

/-- What the `switch` of `str_i2roman` does to the characters written so far for the
decimal digit `v` with the digits `dig` of its place, and the `v` it leaves: a second
description, on natural numbers and without recursion, that
`str_i2roman_switch_eq` shows to agree with `str_i2roman_switch`. -/
def romanSwitch (dig : List Nat) (last : Nat) (v : Nat) (p : List Nat) : List Nat × Nat :=
  if v = 1 then (p ++ [dig.getD 2 0], 1)
  else if v = 2 then (p ++ [dig.getD 2 0, dig.getD 2 0], 2)
  else if v = 3 then (p ++ [dig.getD 2 0, dig.getD 2 0, dig.getD 2 0], 3)
  else if v = 4 then (p ++ [dig.getD 2 0, dig.getD 1 0], 4)
  else if v = 5 then
    if last = 4 ∨ last = 9 then (p.set (p.length - 2) (dig.getD 1 0), 5)
    else (p ++ [dig.getD 1 0], 5)
  else if v = 6 then (p ++ [dig.getD 1 0] ++ [dig.getD 2 0], 1)
  else if v = 7 then (p ++ [dig.getD 1 0] ++ [dig.getD 2 0, dig.getD 2 0], 2)
  else if v = 8 then (p ++ [dig.getD 1 0] ++ [dig.getD 2 0, dig.getD 2 0, dig.getD 2 0], 3)
  else if v = 9 then
    if last = 4 ∨ last = 9 then (p.set (p.length - 2) (dig.getD 2 0), 9)
    else (p ++ [dig.getD 2 0, dig.getD 0 0], 9)
  else (p, v)

/-- The characters that `rounds` rounds of the loop of `str_i2roman` leave, on natural
numbers and without the count of the room left; `str_i2roman_for_eq` shows the
agreement with `str_i2roman_for`. -/
def romanFor (dig : List (List Nat)) : Nat → Nat → Nat → Nat → Nat → List Nat → List Nat
  | 0, _, _, _, _, p => p
  | rounds + 1, i, val, div, last, p =>
    match romanSwitch (dig.getD i []) last (val / div) p with
    | (p1, v) => romanFor dig rounds (i + 1) (val % div) (div / 10) v p1

/-- The value of a character as a roman digit, 0 for any other character. -/
def romanValue (c : Nat) : Nat :=
  if c = 73 ∨ c = 105 then 1
  else if c = 86 ∨ c = 118 then 5
  else if c = 88 ∨ c = 120 then 10
  else if c = 76 ∨ c = 108 then 50
  else if c = 67 ∨ c = 99 then 100
  else if c = 68 ∨ c = 100 then 500
  else if c = 77 ∨ c = 109 then 1000
  else 0

/-- The number that the loop of `str_rroman2i` adds up over the characters `p` of a
string, as a recursion over these characters; `str_rroman2i_loop_eq` shows the
agreement with `str_rroman2i_loop`. -/
def romanRead : List Nat → Nat → Nat
  | [], val => val
  | [c], val => val + romanValue c
  | c :: c2 :: p, val =>
    if romanValue c = 0 then val
    else if romanValue c < romanValue c2 then romanRead p (val + (romanValue c2 - romanValue c))
    else romanRead (c2 :: p) (val + romanValue c)


/-- Whether the characters written for `w` in the last three rounds of the loop are
roman digits that are read as `w`. -/
def romanBlockOk (dig : List (List Nat)) (w : Nat) : Bool :=
  (romanFor dig 3 1 w 100 0 []).all isRomanDigit &&
    decide (romanRead (romanFor dig 3 1 w 100 0 []) 0 = w)

end strext

namespace zip

/-! ## Auxiliary definitions -/

/-- The matcher of `skip` and `copy` on its own: from progress `k` over the bytes
given, the progress reached and the bytes left when the loop ends (at progress 4, or
with no byte left). -/
def matchLoop (signature : List Nat) : Nat → List Nat → Nat × List Nat
  | k, [] => (k, [])
  | k, x :: rest =>
    let k1 := if signature.get? k = some x then k + 1 else 0
    if k1 = 4 then (k1, rest) else matchLoop signature k1 rest

/-- A new buffer made to skip to `signature`, with `data` to read. -/
def Buffer.skipping (signature : List Nat) (data : List Nat) : Buffer :=
  let b := Buffer.new.skipUntil signature
  { b with _data := data }

/-- A new buffer made to copy until `signature`, with `data` to read. -/
def Buffer.copying (signature : List Nat) (data : List Nat) : Buffer :=
  let b := Buffer.new.copyUntil signature
  { b with _data := data }

/-- The value of `_slen` once `skip`, started at progress 0 for `signature`, has
consumed `bytes` (4 when it has found the signature in them). -/
def Buffer.progress (signature : List Nat) (bytes : List Nat) : Nat :=
  (Buffer.skipping signature bytes).skip._slen

/-- The buffer `b` with capacity `size`. -/
def Buffer.setSize (size : Int) (b : Buffer) : Buffer :=
  { b with _size := size }

/-- The statements of `addData` that follow `_dlen = *blen`. -/
def Buffer.addRest (b : Buffer) : Buffer :=
  let b := if !b.isHeader then b.scanForHeader else b
  if b._dlen > 0 then
    (if b.header.hasSize then b.copySized else b.copyUnsized)
  else b

/-- The buffer `b` with non-null storage, capacity 0 and `buff` as the data to read. -/
def Buffer.norm (b : Buffer) (buff : List Nat) : Buffer :=
  { _buffer := some b.mem, _size := 0, _dd := b._dd, _flags := b._flags, _data := buff,
    _signature := b._signature, _slen := b._slen }

/-- The buffer `b` with non-null storage, capacity 0 and `buff` as the data to read,
after the statements of `addData` that follow `_dlen = *blen`. -/
def Buffer.core (b : Buffer) (buff : List Nat) : Buffer :=
  (b.norm buff).addRest

/-- The statement `_flags |= FileFound`. -/
def Buffer.found (b : Buffer) : Buffer :=
  { b with _flags := b._flags ||| Buffer.FileFound }

/-- The first statement of `scanForHeader`. -/
def Buffer.scanForHeader1 (b : Buffer) : Buffer :=
  if b._len = 0 then b.skipUntil Header.signature else b

/-- The second statement of `scanForHeader`. -/
def Buffer.scanForHeader2 (b : Buffer) : Buffer :=
  if (b._flags &&& Buffer.Skiping) ≠ 0 then b.skip else b

/-- The last statement of `scanForHeader`. -/
def Buffer.scanForHeader3 (b : Buffer) : Buffer :=
  if b._dlen > 0 then
    let to_copy := Header.sizeof - b._len
    let to_copy := if to_copy > b._dlen then b._dlen else to_copy
    let b1 := b.append (b._data.take to_copy)
    { b1 with _data := b._data.drop to_copy }
  else b

/-- The first statement of `copyUnsized`. -/
def Buffer.copyUnsized1 (b : Buffer) : Buffer :=
  if b._dd.isNone ∧ (b._flags &&& Buffer.Copying) = 0
    then b.copyUntil DataDescriptor.signature else b

/-- The second statement of `copyUnsized`. -/
def Buffer.copyUnsized2 (b : Buffer) : Buffer :=
  if (b._flags &&& Buffer.Copying) ≠ 0 then b.copy else b

/-- The statement `if( !_dd ) _dd = _buffer + _len - 4;` of `copyUnsized`. -/
def Buffer.copyUnsized3 (b : Buffer) : Buffer :=
  if b._dd.isNone then { b with _dd := some ((b._len : Int) - 4) } else b

/-- The value of `to_copy` in `copyUnsized`. -/
def Buffer.copyUnsizedToCopy (b : Buffer) : Int :=
  toInt32 ((DataDescriptor.sizeof : Int) - ((b._len : Int) - b._dd.getD 0))

/-- The last statement of `copyUnsized`, entered with `_dlen > 0` and `_dd` set. -/
def Buffer.copyUnsized4 (b : Buffer) : Buffer :=
  let r := b.copyBytes b.copyUnsizedToCopy
  if b.copyUnsizedToCopy = r.2 then
    let b1 := r.1.setDataDescriptor
    { b1 with _flags := b1._flags ||| Buffer.FileFound }
  else r.1

/-- The states of a `Buffer` in use: the state after the constructor, and every state
that a call of `addData` or of `reset` leaves when made in such a state. -/
inductive Buffer.Reachable : Buffer → Prop
  | new : Buffer.Reachable Buffer.new
  | addData (b : Buffer) (buff : List Nat) : Buffer.Reachable b →
      Buffer.Reachable (b.addData buff).1
  | reset (b : Buffer) : Buffer.Reachable b → Buffer.Reachable b.reset

/-- No data descriptor is being looked for or read, and no file is marked found. -/
def Buffer.Idle (b : Buffer) : Prop :=
  b._dd = none ∧ b._flags &&& Buffer.Copying = 0 ∧ b.fileFound = false

/-- While `copy` looks for the data descriptor signature: `Copying` is set, `_dd` is
null, and the last `_slen` bytes of the buffer, which lie behind the 30 bytes of the
header, are the first `_slen` bytes of the signature. -/
def Buffer.Seeking (b : Buffer) : Prop :=
  b._flags &&& Buffer.Copying ≠ 0 ∧ b._dd = none ∧
    b._signature = DataDescriptor.signature ∧ b._slen < 4 ∧ b._slen + 30 ≤ b._len ∧
    b.mem.drop (b._len - b._slen) = DataDescriptor.signature.take b._slen

/-- Once the data descriptor signature has been found: `Copying` is clear and `_dd` is
the offset of the signature in the buffer, behind the 30 bytes of the header, with at
most 12 bytes copied behind the signature. -/
def Buffer.Descriptor (b : Buffer) : Prop :=
  b._flags &&& Buffer.Copying = 0 ∧
    ∃ k : Nat, b._dd = some (k : Int) ∧ 30 ≤ k ∧ k + 4 ≤ b._len ∧ b._len ≤ k + 16 ∧
      (b.mem.drop k).take 4 = DataDescriptor.signature

/-- The invariant of the states in use as to the data descriptor: with `Copying` set
the buffer looks for the signature of the descriptor of an entry of unknown size; with
`_dd` set it has found it; and an entry of unknown size that is marked found has its
descriptor complete. -/
def Buffer.Framed (b : Buffer) : Prop :=
  (b._flags &&& Buffer.Copying ≠ 0 → b.Seeking ∧ b.header.hasSize = false) ∧
  (b._dd ≠ none → b.Descriptor ∧ b.header.hasSize = false) ∧
  (b.fileFound = true → b.header.hasSize = false →
    ∃ k : Nat, b._dd = some (k : Int) ∧ b._len = k + 16)

/-- The 16 bytes of a `DataDescriptor` in storage order. -/
def DataDescriptor.bytes (d : DataDescriptor) : List Nat :=
  d._signature.bytes ++ d._crc32.bytes ++ d._csize.bytes ++ d._size.bytes

/-- An entry of an archive as its writer lays it out: the local file header, the file
name, the extra field and the file data as stored in the archive. -/
structure Entry where
  header : Header
  filename : List Nat
  extra : List Nat
  payload : List Nat
deriving DecidableEq, Repr

/-- The bytes that follow the 30 bytes of the header. -/
def Entry.body (e : Entry) : List Nat :=
  e.filename ++ e.extra ++ e.payload

/-- The bytes of the entry in the archive. -/
def Entry.bytes (e : Entry) : List Nat :=
  e.header.bytes ++ e.body

/-- The header starts with the signature 50 4B 03 04 and gives the lengths of the
file name and of the extra field, and the entry with 4 more bytes fits an `int`. -/
@[reducible] def Entry.WellFormed (e : Entry) : Prop :=
  e.header._signature = { low := { low := 0x50, high := 0x4b }, high := { low := 0x03, high := 0x04 } }
    ∧ e.header.fnlength = e.filename.length
    ∧ e.header.extralength = e.extra.length
    ∧ e.bytes.length + 4 < 2147483648

/-- A well-formed entry with flags bit 3 clear whose header gives the size of the
file data. -/
@[reducible] def Entry.Sized (e : Entry) : Prop :=
  e.WellFormed ∧ e.header.hasSize = true ∧ e.header.csize = e.payload.length

/-- A sized entry with compression method 0 whose header gives the size of the file
data as the uncompressed size too. -/
@[reducible] def Entry.Stored (e : Entry) : Prop :=
  e.Sized ∧ e.header.compression = Header.Stored ∧ e.header.size = e.payload.length

/-- A well-formed entry with flags bit 3 set and compression method 0, and a data
descriptor for it: one that starts with the signature 50 4B 07 08 and gives the size
of the file data as the uncompressed size. -/
@[reducible] def Entry.StoredUnsized (e : Entry) (d : DataDescriptor) : Prop :=
  e.WellFormed ∧ e.header.hasSize = false ∧ e.header.compression = Header.Stored
    ∧ d._signature = { low := { low := 0x50, high := 0x4b }, high := { low := 0x07, high := 0x08 } }
    ∧ d.size = e.payload.length

/-! ## Sample data -/

/-- A two byte little-endian field holding `n`. -/
def le16 (n : Nat) : tByte2 :=
  { low := n % 256, high := n / 256 % 256 }

/-- A four byte little-endian field holding `n`. -/
def le32 (n : Nat) : tByte4 :=
  { low := le16 (n % 65536), high := le16 (n / 65536 % 65536) }

/-- A local file header with the given flags, compression method, CRC-32, sizes and
lengths (version 20, time and date zero). -/
def sampleHeader (flags compression crc32 csize size fnlength extralength : Nat) : Header :=
  { _signature := { low := { low := 0x50, high := 0x4b }, high := { low := 0x03, high := 0x04 } }
    _version := le16 20
    _flags := le16 flags
    _compression := le16 compression
    _mtime := le16 0
    _mdate := le16 0
    _crc32 := le32 crc32
    _csize := le32 csize
    _size := le32 size
    _fnlength := le16 fnlength
    _extralength := le16 extralength }

/-- The bytes of a data descriptor with signature. -/
def sampleDescriptor (crc32 csize size : Nat) : List Nat :=
  DataDescriptor.signature ++ (le32 crc32).bytes ++ (le32 csize).bytes ++ (le32 size).bytes

/-- The five bytes of the text hello. -/
def hello : List Nat := [104, 101, 108, 108, 111]

/-- A stored entry named a with payload hello and its true CRC-32. -/
def sampleStored : Entry :=
  { header := sampleHeader 0 0 0x3610a686 5 5 1 0, filename := [97], extra := [],
    payload := hello }

/-- A second stored entry, named bc, with payload 1 2 3 and an extra field of 2 bytes. -/
def sampleStored2 : Entry :=
  { header := sampleHeader 0 0 0 3 3 2 2, filename := [98, 99], extra := [7, 7],
    payload := [1, 2, 3] }

/-- An entry named a with payload hello, flags bit 3 set and the CRC-32 and the sizes
zero in the header. -/
def sampleUnsized : Entry :=
  { header := sampleHeader 8 0 0 0 0 1 0, filename := [97], extra := [], payload := hello }

/-- The data descriptor of the payload hello. -/
def sampleDataDescriptor : DataDescriptor :=
  { _signature := { low := { low := 0x50, high := 0x4b }, high := { low := 0x07, high := 0x08 } }
    _crc32 := le32 0x3610a686
    _csize := le32 5
    _size := le32 5 }

/-- An entry named a with the single byte 50 as payload, flags bit 3 set and the
CRC-32 and the sizes zero in the header. -/
def sampleUnsized50 : Entry :=
  { header := sampleHeader 8 0 0 0 0 1 0, filename := [97], extra := [], payload := [0x50] }

/-- The data descriptor of the payload made of the single byte 50. -/
def sampleDataDescriptor50 : DataDescriptor :=
  { _signature := { low := { low := 0x50, high := 0x4b }, high := { low := 0x07, high := 0x08 } }
    _crc32 := le32 (Zlib.crc32 [0x50])
    _csize := le32 1
    _size := le32 1 }

/-- The bytes of the stored entry named a with payload hello. -/
def helloEntry : List Nat :=
  (sampleHeader 0 0 0x3610a686 5 5 1 0).bytes ++ [97] ++ hello

/-- A stored entry named a with payload hello whose header declares the CRC-32 0. -/
def badCrcEntry : List Nat :=
  (sampleHeader 0 0 0 5 5 1 0).bytes ++ [97] ++ hello

/-- An entry named a with compression method 12 (bzip2) and 5 bytes of data. -/
def bzipEntry : List Nat :=
  (sampleHeader 0 12 0x3610a686 5 5 1 0).bytes ++ [97] ++ hello

/-- An entry named a with compression method 12 (bzip2) and no data. -/
def emptyBzipEntry : List Nat :=
  (sampleHeader 0 12 0 0 0 1 0).bytes ++ [97]

/-- A stored entry named a with payload hello, flags bit 3 set, the CRC-32 and the
sizes zero in the header and given by a trailing data descriptor. -/
def unsizedEntry : List Nat :=
  (sampleHeader 8 0 0 0 0 1 0).bytes ++ [97] ++ hello ++ sampleDescriptor 0x3610a686 5 5

/-- A buffer holding the sample entry. -/
def sampleBuffer : Buffer :=
  Buffer.new.append helloEntry

/-- The entry named a with payload hello and flags bit 3 set, followed by the CRC-32
and the two sizes of the payload without the data descriptor signature. -/
def unsizedNoSignature : List Nat :=
  sampleUnsized.bytes ++ ((le32 0x3610a686).bytes ++ (le32 5).bytes ++ (le32 5).bytes)

/-- An entry with flags bit 3 set whose name is the 4 bytes 50 4B 07 08, with payload
hello and the data descriptor of hello behind it. -/
def signatureNamed : List Nat :=
  (sampleHeader 8 0 0 0 0 4 0).bytes ++ [0x50, 0x4b, 0x07, 0x08] ++ hello
    ++ sampleDescriptor 0x3610a686 5 5

/-- A buffer whose storage of 10 bytes is full. -/
def fullBuffer : Buffer :=
  Buffer.mk (some [1, 2, 3, 4, 5, 6, 7, 8, 9, 10]) 10 none 0 [] [] 0

/-- A zlib whose `inflate` knows no compressed format: it reports `Z_DATA_ERROR`
and writes nothing. -/
def noInflate : Zlib :=
  { inflateInit2 := 0, inflate := fun _ _ => (-3, []) }

/-- A zlib that inflates the raw deflate streams made of one final stored block (the
byte 01, the length and its complement on two bytes each, the data) and reports
`Z_DATA_ERROR` for any other input, `Z_BUF_ERROR` when the data or the room for the
output is too short. -/
def storedBlockInflate : Zlib :=
  { inflateInit2 := 0
    inflate := fun input availOut =>
      match input with
      | 1 :: l0 :: l1 :: n0 :: n1 :: data =>
        if l0 + 256 * l1 + (n0 + 256 * n1) = 65535 then
          (if l0 + 256 * l1 ≤ data.length ∧ l0 + 256 * l1 ≤ availOut
            then (1, data.take (l0 + 256 * l1))
            else (-5, data.take (min (l0 + 256 * l1) availOut)))
        else (-3, [])
      | _ => (-3, []) }

/-- The five bytes of the text world. -/
def world : List Nat := [119, 111, 114, 108, 100]

/-- A deflated entry named w: the text world as one stored block, with its CRC-32. -/
def sampleDeflated : Entry :=
  { header := sampleHeader 0 8 0x3a771143 10 5 1 0, filename := [119], extra := [],
    payload := [1, 5, 0, 250, 255] ++ world }

/-- The deflated entry named w with the CRC-32 0 declared in its header. -/
def badCrcDeflated : Entry :=
  { header := sampleHeader 0 8 0 10 5 1 0, filename := [119], extra := [],
    payload := [1, 5, 0, 250, 255] ++ world }

/-- A buffer that holds the whole deflated entry named w. -/
def deflatedBuffer : Buffer :=
  Buffer.mk (some sampleDeflated.bytes) 45 none 0 [] [] 0

/-! ## Theorems -/

/-! ### Decoding of little-endian fields -/

theorem lor_shiftLeft_eq (a b i : Nat) (h : a < 2 ^ i) : a ||| (b <<< i) = a + 2 ^ i * b := by
  rw [Nat.shiftLeft_eq, Nat.mul_comm b, Nat.lor_comm, ← Nat.mul_add_lt_is_or h, Nat.add_comm]

theorem bytes2number2_eq (v : tByte2) (h : v.low < 256) :
    v.bytes2number = v.low + 256 * v.high := by
  unfold tByte2.bytes2number
  rw [lor_shiftLeft_eq _ _ 8 (by simpa using h)]
  simp only [Nat.reducePow]

theorem bytes2number4_eq (v : tByte4) (h0 : v.low.low < 256) (h1 : v.low.high < 256)
    (h2 : v.high.low < 256) :
    v.bytes2number
      = v.low.low + 2 ^ 8 * v.low.high + 2 ^ 16 * v.high.low + 2 ^ 24 * v.high.high := by
  unfold tByte4.bytes2number
  rw [bytes2number2_eq _ h0, bytes2number2_eq _ h2]
  rw [lor_shiftLeft_eq _ _ 16 (by simp only [Nat.reducePow]; omega)]
  simp only [Nat.reducePow]
  omega

theorem byteAt_lt (mem : List Nat) (hb : ∀ x ∈ mem, x < 256) (i : Nat) :
    byteAt mem i < 256 := by
  unfold byteAt
  rw [List.getD_eq_getElem?_getD]
  cases h : mem[i]? with
  | none => simp
  | some x => simpa using hb x (List.getElem?_mem h)

theorem read2_eq (mem : List Nat) (hb : ∀ x ∈ mem, x < 256) (i : Nat) :
    (tByte2.read mem i).bytes2number = mem.getD i 0 + 256 * mem.getD (i + 1) 0 :=
  bytes2number2_eq _ (byteAt_lt mem hb i)

theorem read4_eq (mem : List Nat) (hb : ∀ x ∈ mem, x < 256) (i : Nat) :
    (tByte4.read mem i).bytes2number
      = mem.getD i 0 + 2 ^ 8 * mem.getD (i + 1) 0 + 2 ^ 16 * mem.getD (i + 2) 0
        + 2 ^ 24 * mem.getD (i + 3) 0 :=
  bytes2number4_eq _ (byteAt_lt mem hb i) (byteAt_lt mem hb (i + 1))
    (byteAt_lt mem hb (i + 2))

/-! ### Accounting of the bytes read -/

theorem scanBody_bytesRead (z : Zlib) (s : Stream) (chunk : List Nat) (s1 : Stream)
    (rest : List Nat) (h : Stream.scanBody z s chunk = (s1, rest, none)) :
    s1._bytes_read = s._bytes_read + ((chunk.length : Int) - rest.length) := by
  unfold Stream.scanBody at h
  split at h
  · cases h
  · split at h
    · split at h
      · cases h
      · cases h
        rfl
    · cases h
      rfl

theorem scan_bytesRead (z : Zlib) (fuel : Nat) :
    ∀ (s : Stream) (chunk : List Nat) (s' : Stream),
      Stream.scan z fuel s chunk = some (s', none) →
      s'._bytes_read = s._bytes_read + chunk.length := by
  induction fuel with
  | zero =>
    intro s chunk s' h
    simp only [Stream.scan] at h
    split at h
    · cases h
    · cases h
      have : chunk.length = 0 := by omega
      simp [this]
  | succ n ih =>
    intro s chunk s' h
    simp only [Stream.scan] at h
    split at h
    · split at h
      · cases h
      · rename_i s1 buff1 heq
        have h1 := scanBody_bytesRead z s chunk s1 buff1 heq
        have h2 := ih _ _ _ h
        omega
    · cases h
      have : chunk.length = 0 := by omega
      simp [this]

theorem scanChunks_bytesRead (z : Zlib) (fuel : Nat) (chunks : List (List Nat)) :
    ∀ (s s' : Stream), Stream.scanChunks z fuel s chunks = some (s', none) →
      s'._bytes_read = s._bytes_read + ((chunks.map List.length).sum : Nat) := by
  induction chunks with
  | nil =>
    intro s s' h
    simp only [Stream.scanChunks] at h
    cases h
    simp
  | cons c cs ih =>
    intro s s' h
    simp only [Stream.scanChunks] at h
    split at h
    · cases h
    · rename_i s1 heq
      have h1 := scan_bytesRead z fuel s c s1 heq
      have h2 := ih s1 s' h
      simp only [List.map_cons, List.sum_cons, Nat.cast_add]
      omega
    · cases h

/-! ### The claims -/

/-- C9 (bytesRead accounting). Whenever `scan` returns without error on a chunk,
`bytesRead()` has grown by exactly the length of the chunk, whatever the state of
the stream was; hence after chunks fed in order to a new stream, each scan returning
without error, `bytesRead()` is the sum of their lengths. -/
theorem C9_bytesRead_accounting (z : Zlib) (fuel : Nat) (s s' : Stream) :
    (∀ chunk : List Nat, Stream.scan z fuel s chunk = some (s', none) →
      s'.bytesRead = s.bytesRead + chunk.length) ∧
    (∀ chunks : List (List Nat), Stream.scanChunks z fuel Stream.new chunks = some (s', none) →
      s'.bytesRead = ((chunks.map List.length).sum : Nat)) := by
  refine ⟨fun chunk h => scan_bytesRead z fuel s chunk s' h, fun chunks h => ?_⟩
  have := scanChunks_bytesRead z fuel chunks Stream.new s' h
  simpa [Stream.bytesRead, Stream.new] using this

/-- C9, at an input: the scan of the sample entry returns without error and has
then read its 36 bytes. -/
theorem C9_bytesRead_accounting_witness :
    ∃ s' : Stream, Stream.scan noInflate 2 Stream.new helloEntry = some (s', none) ∧
      s'.bytesRead = Stream.new.bytesRead + helloEntry.length :=
  ⟨_, rfl, (C9_bytesRead_accounting noInflate 2 Stream.new _).1 helloEntry rfl⟩

/-- C10 (header field decoding). For a buffer holding at least 30 bytes, the header
fields are decoded little-endian from their fixed offsets, and `heapFilename`
returns the `fnlength` bytes that follow the fixed part of the header, once the
buffer holds them. -/
theorem C10_header_field_decoding (b : Buffer) (hlen : 30 ≤ b._len)
    (hb : ∀ x ∈ b.mem, x < 256) :
    b.header.flags = b.mem.getD 6 0 + 256 * b.mem.getD 7 0 ∧
    b.header.compression = b.mem.getD 8 0 + 256 * b.mem.getD 9 0 ∧
    b.header.crc32 = b.mem.getD 14 0 + 2 ^ 8 * b.mem.getD 15 0 + 2 ^ 16 * b.mem.getD 16 0
      + 2 ^ 24 * b.mem.getD 17 0 ∧
    b.header.csize = b.mem.getD 18 0 + 2 ^ 8 * b.mem.getD 19 0 + 2 ^ 16 * b.mem.getD 20 0
      + 2 ^ 24 * b.mem.getD 21 0 ∧
    b.header.size = b.mem.getD 22 0 + 2 ^ 8 * b.mem.getD 23 0 + 2 ^ 16 * b.mem.getD 24 0
      + 2 ^ 24 * b.mem.getD 25 0 ∧
    b.header.fnlength = b.mem.getD 26 0 + 256 * b.mem.getD 27 0 ∧
    b.header.extralength = b.mem.getD 28 0 + 256 * b.mem.getD 29 0 ∧
    (30 + b.header.fnlength ≤ b._len →
      ∃ name, b.heapFilename = some name ∧ name.length = b.header.fnlength ∧
        ∀ i, i < b.header.fnlength → name[i]? = b.mem[30 + i]?) := by
  refine ⟨read2_eq _ hb 6, read2_eq _ hb 8, read4_eq _ hb 14,
    read4_eq _ hb 18, read4_eq _ hb 22, read2_eq _ hb 26,
    read2_eq _ hb 28, ?_⟩
  intro hfn
  have hh : b.isHeader = true := by
    simp only [Buffer.isHeader, Header.sizeof, decide_eq_true_eq]; exact hlen
  refine ⟨(b.mem.drop 30).take b.header.fnlength, ?_, ?_, ?_⟩
  · have hm : mallocOk ((b.header.fnlength : Int) + 1) = true := by
      simp only [mallocOk, decide_eq_true_eq]; omega
    simp only [Buffer.heapFilename, hh, hm, if_true, Header.sizeof]
  · simp only [List.length_take, List.length_drop]
    simp only [Buffer._len] at hfn
    omega
  · intro i hi
    rw [List.getElem?_take_of_lt hi, List.getElem?_drop]

/-- C10, at an input: the buffer holding the sample entry, whose name has length 1. -/
theorem C10_header_field_decoding_witness :
    30 ≤ sampleBuffer._len ∧ sampleBuffer.header.fnlength = 1 ∧
      sampleBuffer.header.fnlength = sampleBuffer.mem.getD 26 0 + 256 * sampleBuffer.mem.getD 27 0 :=
  ⟨by decide, by decide,
    (C10_header_field_decoding sampleBuffer (by decide) (by decide)).2.2.2.2.2.1⟩

/-! ### The signature matcher -/

theorem skipLoop_cons (x : Nat) (rest : List Nat) (b : Buffer) :
    Buffer.skipLoop (x :: rest) b =
      if b.matchByte x = 4 then
        { b with _slen := b.matchByte x, _data := rest,
                 _buffer := some (b.mem ++ b._signature.take 4),
                 _flags := Buffer.clearFlag b._flags Buffer.Skiping }
      else Buffer.skipLoop rest { b with _slen := b.matchByte x, _data := rest } := by
  rw [Buffer.skipLoop]
  rfl

theorem copyLoop_cons (x : Nat) (rest : List Nat) (b : Buffer) :
    Buffer.copyLoop (x :: rest) b =
      if b.matchByte x = 4 then
        { b with _slen := b.matchByte x, _data := rest,
                 _buffer := some (b.mem ++ [x]),
                 _flags := Buffer.clearFlag b._flags Buffer.Copying }
      else Buffer.copyLoop rest
        { b with _slen := b.matchByte x, _data := rest, _buffer := some (b.mem ++ [x]) } := by
  rw [Buffer.copyLoop]
  rfl

theorem matchLoop_cons (sig : List Nat) (k x : Nat) (rest : List Nat) :
    matchLoop sig k (x :: rest) =
      if (if sig.get? k = some x then k + 1 else 0) = 4 then
        ((if sig.get? k = some x then k + 1 else 0), rest)
      else matchLoop sig (if sig.get? k = some x then k + 1 else 0) rest := by
  rw [matchLoop]

theorem skipLoop_match (bytes : List Nat) : ∀ b : Buffer,
    (Buffer.skipLoop bytes b)._slen = (matchLoop b._signature b._slen bytes).1 ∧
    (Buffer.skipLoop bytes b)._signature = b._signature ∧
    (b._data = bytes → (Buffer.skipLoop bytes b)._data = (matchLoop b._signature b._slen bytes).2) := by
  induction bytes with
  | nil => intro b; exact ⟨rfl, rfl, fun h => h⟩
  | cons x rest ih =>
    intro b
    rw [skipLoop_cons, matchLoop_cons]
    by_cases h4 : b.matchByte x = 4
    · have h4' := h4
      simp only [Buffer.matchByte] at h4'
      simp only [h4, h4', if_true]
      exact ⟨trivial, trivial, fun _ => trivial⟩
    · have h4' := h4
      simp only [Buffer.matchByte] at h4'
      simp only [h4, h4', if_false]
      obtain ⟨h1, h2, h3⟩ := ih { b with _slen := b.matchByte x, _data := rest }
      exact ⟨h1, h2, fun _ => h3 rfl⟩

theorem copyLoop_match (bytes : List Nat) : ∀ b : Buffer,
    (Buffer.copyLoop bytes b)._slen = (matchLoop b._signature b._slen bytes).1 ∧
    (Buffer.copyLoop bytes b)._signature = b._signature ∧
    (b._data = bytes → (Buffer.copyLoop bytes b)._data = (matchLoop b._signature b._slen bytes).2) := by
  induction bytes with
  | nil => intro b; exact ⟨rfl, rfl, fun h => h⟩
  | cons x rest ih =>
    intro b
    rw [copyLoop_cons, matchLoop_cons]
    by_cases h4 : b.matchByte x = 4
    · have h4' := h4
      simp only [Buffer.matchByte] at h4'
      simp only [h4, h4', if_true]
      exact ⟨trivial, trivial, fun _ => trivial⟩
    · have h4' := h4
      simp only [Buffer.matchByte] at h4'
      simp only [h4, h4', if_false]
      obtain ⟨h1, h2, h3⟩ :=
        ih { b with _slen := b.matchByte x, _data := rest, _buffer := some (b.mem ++ [x]) }
      exact ⟨h1, h2, fun _ => h3 rfl⟩

theorem matchLoop_nil (sig : List Nat) (k : Nat) : matchLoop sig k [] = (k, []) := by
  rw [matchLoop]

/-- Over bytes in which the matcher does not complete, the loop goes on with the
progress reached. -/
theorem matchLoop_append (sig : List Nat) (pre post : List Nat) : ∀ k : Nat,
    (matchLoop sig k pre).1 ≠ 4 →
    matchLoop sig k (pre ++ post) = matchLoop sig (matchLoop sig k pre).1 post := by
  induction pre with
  | nil => intro k _; simp [matchLoop_nil]
  | cons x rest ih =>
    intro k h
    rw [matchLoop_cons] at h ⊢
    rw [List.cons_append, matchLoop_cons]
    by_cases h4 : (if sig.get? k = some x then k + 1 else 0) = 4
    · simp only [h4, if_true] at h
      exact absurd rfl h
    · simp only [h4, if_false] at h ⊢
      exact ih _ h

theorem matchLoop_signature (s0 s1 s2 s3 : Nat) :
    matchLoop [s0, s1, s2, s3] 0 [s0, s1, s2, s3] = (4, []) := by
  simp [matchLoop]

/-- Completing at the last byte: the bytes end with the signature, met at progress 0,
or they are what was missing of a match in progress. -/
theorem matchLoop_complete (s0 s1 s2 s3 : Nat) (bytes : List Nat) : ∀ k : Nat, k ≤ 3 →
    matchLoop [s0, s1, s2, s3] k bytes = (4, []) →
    bytes = [s0, s1, s2, s3].drop k ∨
      ∃ pre, bytes = pre ++ [s0, s1, s2, s3] ∧ (matchLoop [s0, s1, s2, s3] k pre).1 = 0 := by
  induction bytes with
  | nil =>
    intro k hk h
    rw [matchLoop_nil] at h
    have : k = 4 := congrArg Prod.fst h
    omega
  | cons x rest ih =>
    intro k hk h
    rw [matchLoop_cons] at h
    by_cases hm : [s0, s1, s2, s3].get? k = some x
    · simp only [hm, if_true] at h
      by_cases h4 : k + 1 = 4
      · simp only [h4, if_true] at h
        have hr : rest = [] := congrArg Prod.snd h
        have hk3 : k = 3 := by omega
        subst hk3 hr
        simp at hm
        left; simp [hm]
      · simp only [h4, if_false] at h
        rcases ih (k + 1) (by omega) h with h1 | ⟨pre, h1, h2⟩
        · left
          subst h1
          have : k = 0 ∨ k = 1 ∨ k = 2 := by omega
          rcases this with rfl | rfl | rfl <;> simp at hm <;> simp [hm]
        · right
          refine ⟨x :: pre, by simp [h1], ?_⟩
          rw [matchLoop_cons]
          simp only [hm, if_true, h4, if_false]
          exact h2
    · simp only [hm, if_false] at h
      have h04 : ¬ (0 = 4) := by omega
      simp only [h04, if_false] at h
      rcases ih 0 (by omega) h with h1 | ⟨pre, h1, h2⟩
      · right
        refine ⟨[x], by simp [h1], ?_⟩
        rw [matchLoop_cons]
        simp only [hm, if_false, h04, matchLoop_nil]
      · right
        refine ⟨x :: pre, by simp [h1], ?_⟩
        rw [matchLoop_cons]
        simp only [hm, if_false, h04]
        exact h2

theorem length_four {sig : List Nat} (h : sig.length = 4) :
    ∃ s0 s1 s2 s3, sig = [s0, s1, s2, s3] := by
  match sig, h with
  | [s0, s1, s2, s3], _ => exact ⟨s0, s1, s2, s3, rfl⟩

theorem skip_complete_iff (b : Buffer) (hsig : b._signature.length = 4) (h0 : b._slen = 0) :
    (b.skip._slen = 4 ∧ b.skip._data = []) ↔
      ∃ pre, b._data = pre ++ b._signature ∧ (Buffer.skipLoop pre b)._slen = 0 := by
  obtain ⟨s0, s1, s2, s3, hs⟩ := length_four hsig
  obtain ⟨h1, -, h3⟩ := skipLoop_match b._data b
  unfold Buffer.skip
  rw [h1, h3 rfl, h0, hs]
  constructor
  · rintro ⟨ha, hb⟩
    have hc : matchLoop [s0, s1, s2, s3] 0 b._data = (4, []) := Prod.ext ha hb
    rcases matchLoop_complete s0 s1 s2 s3 b._data 0 (by omega) hc with h | ⟨pre, h, hp⟩
    · exact ⟨[], by simpa using h, by rw [Buffer.skipLoop]; exact h0⟩
    · exact ⟨pre, h, by rw [(skipLoop_match pre b).1, h0, hs]; exact hp⟩
  · rintro ⟨pre, h, hp⟩
    rw [(skipLoop_match pre b).1, h0, hs] at hp
    rw [h, matchLoop_append _ _ _ _ (by rw [hp]; omega), hp, matchLoop_signature]
    exact ⟨rfl, rfl⟩

theorem copy_complete_iff (b : Buffer) (hsig : b._signature.length = 4) (h0 : b._slen = 0) :
    (b.copy._slen = 4 ∧ b.copy._data = []) ↔
      ∃ pre, b._data = pre ++ b._signature ∧ (Buffer.copyLoop pre b)._slen = 0 := by
  obtain ⟨s0, s1, s2, s3, hs⟩ := length_four hsig
  obtain ⟨h1, -, h3⟩ := copyLoop_match b._data b
  unfold Buffer.copy
  rw [h1, h3 rfl, h0, hs]
  constructor
  · rintro ⟨ha, hb⟩
    have hc : matchLoop [s0, s1, s2, s3] 0 b._data = (4, []) := Prod.ext ha hb
    rcases matchLoop_complete s0 s1 s2 s3 b._data 0 (by omega) hc with h | ⟨pre, h, hp⟩
    · exact ⟨[], by simpa using h, by rw [Buffer.copyLoop]; exact h0⟩
    · exact ⟨pre, h, by rw [(copyLoop_match pre b).1, h0, hs]; exact hp⟩
  · rintro ⟨pre, h, hp⟩
    rw [(copyLoop_match pre b).1, h0, hs] at hp
    rw [h, matchLoop_append _ _ _ _ (by rw [hp]; omega), hp, matchLoop_signature]
    exact ⟨rfl, rfl⟩

/-- C2 (signature matcher), as amended. When `skip` (or `copy`) consumes the data
starting with match progress 0, `_slen` reaches 4 on consuming the last byte if and
only if the data ends with the 4 bytes of the signature and the progress was 0 when
the first of these 4 bytes was consumed. -/
theorem C2_signature_matcher (b : Buffer) (hsig : b._signature.length = 4)
    (h0 : b._slen = 0) :
    ((b.skip._slen = 4 ∧ b.skip._data = []) ↔
      ∃ pre, b._data = pre ++ b._signature ∧ (Buffer.skipLoop pre b)._slen = 0) ∧
    ((b.copy._slen = 4 ∧ b.copy._data = []) ↔
      ∃ pre, b._data = pre ++ b._signature ∧ (Buffer.copyLoop pre b)._slen = 0) :=
  ⟨skip_complete_iff b hsig h0, copy_complete_iff b hsig h0⟩

/-- C2, at an input: a zero byte followed by the header signature. -/
theorem C2_signature_matcher_witness :
    (Buffer.skipping Header.signature [0, 0x50, 0x4b, 0x03, 0x04]).skip._slen = 4 ∧
    (Buffer.skipping Header.signature [0, 0x50, 0x4b, 0x03, 0x04]).skip._data = [] :=
  (C2_signature_matcher (Buffer.skipping Header.signature [0, 0x50, 0x4b, 0x03, 0x04])
    (by decide) (by decide)).1.2 ⟨[0], by decide, by decide⟩

/-- C2 as stated fails: after the bytes 50 50 4B 03 04 (and 50 50 4B 07 08 for
`copy`) the 4 bytes last consumed are the signature, all bytes are consumed, and
`_slen` is 0, not 4. -/
theorem C2_signature_matcher_counterexample :
    (Buffer.skipping Header.signature [0x50, 0x50, 0x4b, 0x03, 0x04]).skip._data = [] ∧
    (Buffer.skipping Header.signature [0x50, 0x50, 0x4b, 0x03, 0x04]).skip._slen = 0 ∧
    (Buffer.copying DataDescriptor.signature [0x50, 0x50, 0x4b, 0x07, 0x08]).copy._data = [] ∧
    (Buffer.copying DataDescriptor.signature [0x50, 0x50, 0x4b, 0x07, 0x08]).copy._slen = 0 ∧
    [0x50, 0x50, 0x4b, 0x03, 0x04].drop 1 = Header.signature ∧
    [0x50, 0x50, 0x4b, 0x07, 0x08].drop 1 = DataDescriptor.signature := by
  decide

/-! ### Construction of a `File` -/

theorem toInt32_eq (n : Int) (h1 : -2147483648 ≤ n) (h2 : n < 2147483648) : toInt32 n = n := by
  unfold toInt32
  split
  · rename_i m hm
    have hm' : n % 4294967296 = (m : Int) := hm
    split
    · show (m : Int) = n
      omega
    · rw [Int.negSucc_eq]
      omega
  · rename_i m hm
    have := Int.emod_nonneg n (by decide : (4294967296 : Int) ≠ 0)
    rw [hm] at this
    exact absurd this (by simp [Int.negSucc_not_nonneg])

theorem File_new_datasize (b : Buffer)
    (hfit : b.header.hsize + b.header.size + 4 < 2147483648) :
    toInt32 (((b.header.hsize + b.header.size + 4) % 4294967296 : Nat) : Int)
      = ((b.header.hsize + b.header.size + 4 : Nat) : Int) := by
  rw [Nat.mod_eq_of_lt (by omega)]
  exact toInt32_eq _ (by omega) (by omega)

theorem File_new_unsupported (z : Zlib) (b : Buffer) (hsize : 0 < b.header.size)
    (hc0 : b.header.compression ≠ 0) (hc8 : b.header.compression ≠ 8)
    (hlen : b.header.hsize ≤ b._len)
    (hfit : b.header.hsize + b.header.size + 4 < 2147483648) :
    File.new z b = .error (.exception .unsupportedCompression) := by
  unfold File.new
  simp only [File_new_datasize b hfit]
  have hm : mallocOk ((b.header.hsize + b.header.size + 4 : Nat) : Int) = true := by
    simp only [mallocOk, decide_eq_true_eq]; omega
  have hu : ¬ (b._len < b.header.hsize ∨
      ((b.header.hsize + b.header.size + 4 : Nat) : Int) < (b.header.hsize : Int)) := by
    omega
  simp only [hm, hu, hsize, hc0, hc8, Header.Stored, Header.Deflated, if_true, if_false,
    Bool.not_true, gt_iff_lt]
  rfl

/-- C7 (unsupported compression), as amended. For a completed entry with
uncompressed size above 0 whose compression method is neither 0 nor 8 (the header,
name and extra field held in the buffer, the sizes within the range of `int`),
constructing the `File` fails with the unsupported compression exception and the
round of `scan` ends with it, the delegate not having been called. -/
theorem C7_unsupported_compression (z : Zlib) (s : Stream) (buff : List Nat) (b : Buffer)
    (rest : List Nat) (hadd : s._buffer.addData buff = (b, rest, none))
    (hfound : b.fileFound = true) (hsize : 0 < b.header.size)
    (hc0 : b.header.compression ≠ 0) (hc8 : b.header.compression ≠ 8)
    (hlen : b.header.hsize ≤ b._len)
    (hfit : b.header.hsize + b.header.size + 4 < 2147483648) :
    File.new z b = .error (.exception .unsupportedCompression) ∧
    ∃ s1 : Stream,
      Stream.scanBody z s buff = (s1, rest, some (.exception .unsupportedCompression)) ∧
      s1._delegate = s._delegate := by
  have hf := File_new_unsupported z b hsize hc0 hc8 hlen hfit
  refine ⟨hf, ?_⟩
  unfold Stream.scanBody
  rw [hadd]
  simp only [hfound, if_true, hf]
  exact ⟨_, rfl, rfl⟩

/-- C7, at an input: an entry with compression method 12 and 5 bytes of data. -/
theorem C7_unsupported_compression_witness :
    ∃ s1 : Stream,
      Stream.scanBody noInflate Stream.new bzipEntry
        = (s1, [], some (.exception .unsupportedCompression)) ∧
      s1._delegate = Stream.new._delegate :=
  (C7_unsupported_compression noInflate Stream.new bzipEntry _ [] rfl (by decide) (by decide)
    (by decide) (by decide) (by decide) (by decide)).2

/-- C7 as stated fails: an entry with compression method 12 and uncompressed size 0
is handed to the delegate and no exception is thrown. -/
theorem C7_unsupported_compression_counterexample :
    (Header.read emptyBzipEntry).compression = 12 ∧
    Stream.delivered (Stream.scan noInflate 1 Stream.new emptyBzipEntry)
      = some ([{ _header := emptyBzipEntry, _data := none, _name := some [97] }], none) := by
  decide

set_option maxRecDepth 100000 in
/-- C6 (corruption detection), at the failing input: a stored entry whose payload
hello has CRC-32 0x3610a686 and whose header declares the CRC-32 0 is handed to the
delegate, and no exception is thrown; the deflated entry with a wrong CRC-32 in its
header is not handed to the delegate, its scan ends with the CRC32 exception. -/
theorem C6_stored_crc32_not_checked :
    Zlib.crc32 hello = 0x3610a686 ∧ (Header.read badCrcEntry).crc32 = 0 ∧
    Stream.delivered (Stream.scan noInflate 1 Stream.new badCrcEntry)
      = some ([{ _header := badCrcEntry.take 31, _data := some hello, _name := some [97] }],
          none) ∧
    Zlib.crc32 world = 0x3a771143 ∧ badCrcDeflated.header.crc32 = 0 ∧
    Stream.delivered (Stream.scan storedBlockInflate 1 Stream.new badCrcDeflated.bytes)
      = some ([], some (.exception .crc32Error)) := by
  decide

/-- C1 (chunk independence), at the failing inputs: the sample entry scanned in one
call gives one file, but none when the first chunk ends after 2 bytes, and none when
fed byte by byte; the entry with a data descriptor gives one file in one call, but
none when the first chunk ends with the signature of the descriptor. -/
theorem C1_chunks_change_the_files :
    Stream.delivered (Stream.scan noInflate 1 Stream.new helloEntry)
      = some ([{ _header := helloEntry.take 31, _data := some hello, _name := some [97] }],
          none) ∧
    Stream.delivered
        (Stream.scanChunks noInflate 1 Stream.new [helloEntry.take 2, helloEntry.drop 2])
      = some ([], none) ∧
    Stream.delivered
        (Stream.scanChunks noInflate 1 Stream.new (helloEntry.map (fun x => [x])))
      = some ([], none) ∧
    Stream.delivered (Stream.scan noInflate 1 Stream.new unsizedEntry)
      = some ([{ _header := (sampleHeader 8 0 0x3610a686 5 5 1 0).bytes ++ [97],
                 _data := some hello, _name := some [97] }], none) ∧
    Stream.delivered
        (Stream.scanChunks noInflate 1 Stream.new [unsizedEntry.take 40, unsizedEntry.drop 40])
      = some ([], none) := by
  decide

/-! ### The capacity does not influence what is read -/

theorem skipLoop_setSize (sz : Int) (bytes : List Nat) : ∀ b : Buffer,
    Buffer.skipLoop bytes (b.setSize sz) = (Buffer.skipLoop bytes b).setSize sz := by
  induction bytes with
  | nil => intro b; rfl
  | cons x rest ih =>
    intro b
    rw [skipLoop_cons, skipLoop_cons]
    by_cases h4 : b.matchByte x = 4
    · have h4' : (b.setSize sz).matchByte x = 4 := h4
      rw [if_pos h4, if_pos h4']
      rfl
    · have h4' : ¬ (b.setSize sz).matchByte x = 4 := h4
      rw [if_neg h4, if_neg h4']
      exact ih { b with _slen := b.matchByte x, _data := rest }

theorem copyLoop_setSize (sz : Int) (bytes : List Nat) : ∀ b : Buffer,
    Buffer.copyLoop bytes (b.setSize sz) = (Buffer.copyLoop bytes b).setSize sz := by
  induction bytes with
  | nil => intro b; rfl
  | cons x rest ih =>
    intro b
    rw [copyLoop_cons, copyLoop_cons]
    by_cases h4 : b.matchByte x = 4
    · have h4' : (b.setSize sz).matchByte x = 4 := h4
      rw [if_pos h4, if_pos h4']
      rfl
    · have h4' : ¬ (b.setSize sz).matchByte x = 4 := h4
      rw [if_neg h4, if_neg h4']
      exact ih { b with _slen := b.matchByte x, _data := rest, _buffer := some (b.mem ++ [x]) }

theorem skip_setSize (sz : Int) (b : Buffer) : (b.setSize sz).skip = b.skip.setSize sz :=
  skipLoop_setSize sz b._data b

theorem copy_setSize (sz : Int) (b : Buffer) : (b.setSize sz).copy = b.copy.setSize sz :=
  copyLoop_setSize sz b._data b

theorem needed_setSize (sz : Int) (b : Buffer) : (b.setSize sz).needed = b.needed := rfl

theorem copyBytes_setSize (sz : Int) (b : Buffer) (need : Int) :
    (b.setSize sz).copyBytes need = ((b.copyBytes need).1.setSize sz, (b.copyBytes need).2) := by
  simp only [Buffer.copyBytes, needed_setSize]
  by_cases hpos : (if need < 0 then b.needed else need) > 0
  · simp only [hpos, if_true]
    rfl
  · simp only [hpos, if_false]

theorem copySized_setSize (sz : Int) (b : Buffer) :
    (b.setSize sz).copySized = b.copySized.setSize sz := by
  simp only [Buffer.copySized, copyBytes_setSize, needed_setSize]
  by_cases h : (b.copyBytes (-1)).1.needed = 0
  · simp only [h, if_true]
    rfl
  · simp only [h, if_false]

theorem ite_setSize (sz : Int) (c c' : Prop) [Decidable c] [Decidable c'] (hc : c ↔ c')
    (a a' b b' : Buffer) (ha : a = a'.setSize sz) (hb : b = b'.setSize sz) :
    (if c then a else b) = (if c' then a' else b').setSize sz := by
  by_cases h : c
  · rw [if_pos h, if_pos (hc.mp h)]; exact ha
  · rw [if_neg h, if_neg (fun h' => h (hc.mpr h'))]; exact hb

theorem copyUnsized_setSize (sz : Int) (b : Buffer) :
    (b.setSize sz).copyUnsized = b.copyUnsized.setSize sz := by
  unfold Buffer.copyUnsized
  have e1 : (if (b.setSize sz)._dd.isNone = true ∧ (b.setSize sz)._flags &&& Buffer.Copying = 0
      then (b.setSize sz).copyUntil DataDescriptor.signature else b.setSize sz)
      = (if b._dd.isNone = true ∧ b._flags &&& Buffer.Copying = 0
          then b.copyUntil DataDescriptor.signature else b).setSize sz :=
    ite_setSize sz _ _ Iff.rfl _ _ _ _ rfl rfl
  simp only [e1]
  generalize (if b._dd.isNone = true ∧ b._flags &&& Buffer.Copying = 0
          then b.copyUntil DataDescriptor.signature else b) = b1
  have e2 : (if (b1.setSize sz)._flags &&& Buffer.Copying ≠ 0 then (b1.setSize sz).copy
      else b1.setSize sz)
      = (if b1._flags &&& Buffer.Copying ≠ 0 then b1.copy else b1).setSize sz :=
    ite_setSize sz _ _ Iff.rfl _ _ _ _ (copy_setSize sz b1) rfl
  simp only [e2]
  generalize (if b1._flags &&& Buffer.Copying ≠ 0 then b1.copy else b1) = b2
  by_cases hd : b2._dlen > 0
  · have hd' : (b2.setSize sz)._dlen > 0 := hd
    simp only [hd, hd', if_true]
    have e3 : (if (b2.setSize sz)._dd.isNone = true then
        ({ b2.setSize sz with _dd := some (((b2.setSize sz)._len : Int) - 4) } : Buffer)
        else b2.setSize sz)
        = (if b2._dd.isNone = true then ({ b2 with _dd := some ((b2._len : Int) - 4) } : Buffer)
            else b2).setSize sz :=
      ite_setSize sz _ _ Iff.rfl _ _ _ _ rfl rfl
    simp only [e3]
    generalize (if b2._dd.isNone = true then ({ b2 with _dd := some ((b2._len : Int) - 4) } : Buffer)
            else b2) = b3
    simp only [copyBytes_setSize]
    have e4 : ((b3.setSize sz)._len : Int) = b3._len := rfl
    have e5 : (b3.setSize sz)._dd = b3._dd := rfl
    simp only [e4, e5]
    exact ite_setSize sz _ _ Iff.rfl _ _ _ _ rfl rfl
  · have hd' : ¬ (b2.setSize sz)._dlen > 0 := hd
    simp only [hd, hd', if_false]

theorem scanForHeader_setSize (sz : Int) (b : Buffer) :
    (b.setSize sz).scanForHeader = b.scanForHeader.setSize sz := by
  unfold Buffer.scanForHeader
  have e1 : (if (b.setSize sz)._len = 0 then (b.setSize sz).skipUntil Header.signature
      else b.setSize sz)
      = (if b._len = 0 then b.skipUntil Header.signature else b).setSize sz :=
    ite_setSize sz _ _ Iff.rfl _ _ _ _ rfl rfl
  simp only [e1]
  generalize (if b._len = 0 then b.skipUntil Header.signature else b) = b1
  have e2 : (if (b1.setSize sz)._flags &&& Buffer.Skiping ≠ 0 then (b1.setSize sz).skip
      else b1.setSize sz)
      = (if b1._flags &&& Buffer.Skiping ≠ 0 then b1.skip else b1).setSize sz :=
    ite_setSize sz _ _ Iff.rfl _ _ _ _ (skip_setSize sz b1) rfl
  simp only [e2]
  generalize (if b1._flags &&& Buffer.Skiping ≠ 0 then b1.skip else b1) = b2
  exact ite_setSize sz _ _ Iff.rfl _ _ _ _ rfl rfl

theorem addRest_setSize (sz : Int) (b : Buffer) :
    (b.setSize sz).addRest = b.addRest.setSize sz := by
  unfold Buffer.addRest
  have e1 : (if (!(b.setSize sz).isHeader) = true then (b.setSize sz).scanForHeader
      else b.setSize sz)
      = (if (!b.isHeader) = true then b.scanForHeader else b).setSize sz :=
    ite_setSize sz _ _ Iff.rfl _ _ _ _ (scanForHeader_setSize sz b) rfl
  simp only [e1]
  generalize (if (!b.isHeader) = true then b.scanForHeader else b) = b1
  refine ite_setSize sz _ _ Iff.rfl _ _ _ _ ?_ rfl
  exact ite_setSize sz _ _ Iff.rfl _ _ _ _ (copySized_setSize sz b1) (copyUnsized_setSize sz b1)

/-! ### The statements of `scanForHeader` and `copyUnsized` -/

theorem scanForHeader_eq (b : Buffer) :
    b.scanForHeader = b.scanForHeader1.scanForHeader2.scanForHeader3 := rfl

theorem copyUnsized_eq (b : Buffer) :
    b.copyUnsized =
      if b.copyUnsized1.copyUnsized2._dlen > 0 then
        b.copyUnsized1.copyUnsized2.copyUnsized3.copyUnsized4
      else b.copyUnsized1.copyUnsized2 := rfl

theorem copyUnsized4_eq (b : Buffer) :
    b.copyUnsized4 =
      if b.copyUnsizedToCopy = (b.copyBytes b.copyUnsizedToCopy).2 then
        (b.copyBytes b.copyUnsizedToCopy).1.setDataDescriptor.found
      else (b.copyBytes b.copyUnsizedToCopy).1 := rfl

theorem copySized_eq (b : Buffer) :
    b.copySized =
      if (b.copyBytes (-1)).1.needed = 0 then (b.copyBytes (-1)).1.found
      else (b.copyBytes (-1)).1 := rfl

/-! ### What is copied to the buffer was read from the data: lengths -/

theorem skipLoop_total (bytes : List Nat) : ∀ b : Buffer, b._data = bytes →
    (Buffer.skipLoop bytes b)._len + (Buffer.skipLoop bytes b)._dlen
      ≤ b._len + bytes.length + 4 := by
  induction bytes with
  | nil =>
    intro b h
    simp only [Buffer.skipLoop, Buffer._dlen, h, List.length_nil]
    omega
  | cons x rest ih =>
    intro b _
    rw [skipLoop_cons]
    by_cases h4 : b.matchByte x = 4
    · rw [if_pos h4]
      simp only [Buffer._len, Buffer._dlen, Buffer.mem, Option.getD_some, List.length_append,
        List.length_take, List.length_cons]
      omega
    · rw [if_neg h4]
      have h := ih { b with _slen := b.matchByte x, _data := rest } rfl
      have e : ({ b with _slen := b.matchByte x, _data := rest } : Buffer)._len = b._len := rfl
      simp only [List.length_cons]
      omega

theorem copyLoop_total (bytes : List Nat) : ∀ b : Buffer, b._data = bytes →
    (Buffer.copyLoop bytes b)._len + (Buffer.copyLoop bytes b)._dlen = b._len + bytes.length ∧
    b._len ≤ (Buffer.copyLoop bytes b)._len := by
  induction bytes with
  | nil =>
    intro b h
    simp only [Buffer.copyLoop, Buffer._dlen, h, List.length_nil]
    exact ⟨trivial, Nat.le_refl _⟩
  | cons x rest ih =>
    intro b _
    rw [copyLoop_cons]
    by_cases h4 : b.matchByte x = 4
    · rw [if_pos h4]
      simp only [Buffer._len, Buffer._dlen, Buffer.mem, Option.getD_some, List.length_append,
        List.length_cons, List.length_nil]
      omega
    · rw [if_neg h4]
      have h := ih { b with _slen := b.matchByte x, _data := rest,
                            _buffer := some (b.mem ++ [x]) } rfl
      have e : ({ b with _slen := b.matchByte x, _data := rest,
                         _buffer := some (b.mem ++ [x]) } : Buffer)._len = b._len + 1 := by
        simp only [Buffer._len, Buffer.mem, Option.getD_some, List.length_append,
          List.length_cons, List.length_nil]
      simp only [List.length_cons]
      omega

theorem scanForHeader1_total (b : Buffer) :
    b.scanForHeader1._len = b._len ∧ b.scanForHeader1._dlen = b._dlen := by
  unfold Buffer.scanForHeader1
  split <;> exact ⟨rfl, rfl⟩

theorem scanForHeader2_total (b : Buffer) :
    b.scanForHeader2._len + b.scanForHeader2._dlen ≤ b._len + b._dlen + 4 := by
  unfold Buffer.scanForHeader2
  split
  · exact skipLoop_total b._data b rfl
  · omega

theorem scanForHeader3_total (b : Buffer) :
    b.scanForHeader3._len + b.scanForHeader3._dlen = b._len + b._dlen ∧
    (0 < b.scanForHeader3._dlen → 30 ≤ b.scanForHeader3._len) := by
  unfold Buffer.scanForHeader3
  by_cases hd : b._dlen > 0
  · simp only [hd, if_true]
    simp only [Buffer._len, Buffer._dlen, Buffer.mem, Buffer.append, Option.getD_some,
      List.length_append, List.length_take, List.length_drop, Header.sizeof] at *
    constructor
    · split <;> omega
    · split <;> omega
  · rw [if_neg hd]
    exact ⟨rfl, fun h => absurd h hd⟩

theorem scanForHeader_total (b : Buffer) :
    b.scanForHeader._len + b.scanForHeader._dlen ≤ b._len + b._dlen + 4 ∧
    (0 < b.scanForHeader._dlen → 30 ≤ b.scanForHeader._len) := by
  rw [scanForHeader_eq]
  have h1 := scanForHeader1_total b
  have h2 := scanForHeader2_total b.scanForHeader1
  have h3 := scanForHeader3_total b.scanForHeader1.scanForHeader2
  exact ⟨by omega, h3.2⟩

theorem copyBytes_total (b : Buffer) (need : Int) :
    (b.copyBytes need).1._len + (b.copyBytes need).1._dlen = b._len + b._dlen ∧
    b._len ≤ (b.copyBytes need).1._len := by
  unfold Buffer.copyBytes
  by_cases hpos : (if need < 0 then b.needed else need) > 0
  · simp only [hpos, if_true]
    generalize (if need < 0 then b.needed else need) = nd at hpos
    simp only [Buffer._len, Buffer._dlen, Buffer.mem, Buffer.append, Option.getD_some,
      List.length_append, List.length_take, List.length_drop]
    constructor
    · split <;> omega
    · omega
  · rw [if_neg hpos]
    exact ⟨rfl, Nat.le_refl _⟩

theorem copySized_total (b : Buffer) :
    b.copySized._len + b.copySized._dlen = b._len + b._dlen := by
  have h := (copyBytes_total b (-1)).1
  rw [copySized_eq]
  split
  · exact h
  · exact h

theorem setDataDescriptor_len (b : Buffer) (h : 30 ≤ b._len) :
    b.setDataDescriptor._len = b._len ∧ b.setDataDescriptor._dlen = b._dlen := by
  have hb30 : ∀ h : Header, h.bytes.length = 30 := fun _ => rfl
  constructor
  · simp only [Buffer.setDataDescriptor, Buffer._len, Buffer.mem, Option.getD_some,
      List.length_append, hb30, List.length_drop, Header.sizeof] at *
    omega
  · rfl

theorem copyUnsized1_total (b : Buffer) :
    b.copyUnsized1._len = b._len ∧ b.copyUnsized1._dlen = b._dlen := by
  unfold Buffer.copyUnsized1
  split <;> exact ⟨rfl, rfl⟩

theorem copyUnsized2_total (b : Buffer) :
    b.copyUnsized2._len + b.copyUnsized2._dlen = b._len + b._dlen ∧
    b._len ≤ b.copyUnsized2._len := by
  unfold Buffer.copyUnsized2
  split
  · exact copyLoop_total b._data b rfl
  · exact ⟨rfl, Nat.le_refl _⟩

theorem copyUnsized3_total (b : Buffer) :
    b.copyUnsized3._len = b._len ∧ b.copyUnsized3._dlen = b._dlen := by
  unfold Buffer.copyUnsized3
  split <;> exact ⟨rfl, rfl⟩

theorem copyUnsized4_total (b : Buffer) (h : 30 ≤ b._len) :
    b.copyUnsized4._len + b.copyUnsized4._dlen = b._len + b._dlen := by
  rw [copyUnsized4_eq]
  have hc := copyBytes_total b b.copyUnsizedToCopy
  split
  · have hs := setDataDescriptor_len (b.copyBytes b.copyUnsizedToCopy).1 (by omega)
    show (b.copyBytes b.copyUnsizedToCopy).1.setDataDescriptor._len
      + (b.copyBytes b.copyUnsizedToCopy).1.setDataDescriptor._dlen = _
    omega
  · exact hc.1

theorem copyUnsized_total (b : Buffer) (h : 30 ≤ b._len) :
    b.copyUnsized._len + b.copyUnsized._dlen = b._len + b._dlen := by
  rw [copyUnsized_eq]
  have h1 := copyUnsized1_total b
  have h2 := copyUnsized2_total b.copyUnsized1
  have h3 := copyUnsized3_total b.copyUnsized1.copyUnsized2
  have h4 := copyUnsized4_total b.copyUnsized1.copyUnsized2.copyUnsized3 (by omega)
  split <;> omega

theorem addRest_total (b : Buffer) :
    b.addRest._len + b.addRest._dlen ≤ b._len + b._dlen + 4 := by
  unfold Buffer.addRest
  have e1 : (if (!b.isHeader) = true then b.scanForHeader else b)._len
        + (if (!b.isHeader) = true then b.scanForHeader else b)._dlen ≤ b._len + b._dlen + 4 ∧
      (0 < (if (!b.isHeader) = true then b.scanForHeader else b)._dlen →
        30 ≤ (if (!b.isHeader) = true then b.scanForHeader else b)._len) := by
    by_cases hh : b.isHeader = true
    · have : 30 ≤ b._len := by
        simpa only [Buffer.isHeader, decide_eq_true_eq, Header.sizeof] using hh
      simp only [hh, Bool.not_true, Bool.false_eq_true, if_false]
      exact ⟨by omega, fun _ => this⟩
    · simp only [hh, Bool.not_false, if_true]
      exact scanForHeader_total b
  simp only []
  generalize (if (!b.isHeader) = true then b.scanForHeader else b) = b1 at e1 ⊢
  by_cases hd : b1._dlen > 0
  · rw [if_pos hd]
    have h30 := e1.2 hd
    split
    · have := copySized_total b1; omega
    · have := copyUnsized_total b1 h30; omega
  · rw [if_neg hd]
    exact e1.1

theorem core_len_le (b : Buffer) (buff : List Nat) :
    (b.core buff)._len ≤ b._len + buff.length + 4 := by
  have h := addRest_total (b.norm buff)
  have e1 : (b.norm buff)._len = b._len := rfl
  have e2 : (b.norm buff)._dlen = buff.length := rfl
  unfold Buffer.core
  omega

/-! ### `addData` and the capacity -/

theorem File_new_congr (z : Zlib) (b1 b2 : Buffer) (h : b1.mem = b2.mem) :
    File.new z b1 = File.new z b2 := by
  have hh : b1.header = b2.header := by simp only [Buffer.header, h]
  have hl : b1._len = b2._len := by simp only [Buffer._len, h]
  have hc : b1.contents = b2.contents := by simp only [Buffer.contents, h, hh]
  have hi : b1.isHeader = b2.isHeader := by simp only [Buffer.isHeader, hl]
  have hf : b1.heapFilename = b2.heapFilename := by simp only [Buffer.heapFilename, hi, hh, h]
  have hin : File.inflate z b1 = File.inflate z b2 := by simp only [File.inflate, hh, hc]
  simp only [File.new, hh, hl, hc, hf, hin, h]

theorem reserveSpace_ok (b : Buffer) (n : Nat) (hn : 0 < n) (hs : (b._len : Int) ≤ b._size) :
    ∃ sz : Int, (b._len : Int) + n + 4 ≤ sz ∧
      b.reserveSpace n =
        ({ _buffer := some b.mem, _size := sz, _dd := b._dd, _flags := b._flags,
           _data := b._data, _signature := b._signature, _slen := b._slen }, none) := by
  obtain ⟨buf, size, dd, flags, data, sig, slen⟩ := b
  cases buf with
  | none =>
    refine ⟨(if (n : Int) < 4 then (n : Int) + 4 else n) + 4, ?_, ?_⟩
    · show ((0 : Nat) : Int) + n + 4 ≤ _
      split <;> omega
    · have hm : mallocOk ((if (n : Int) < 4 then (n : Int) + 4 else n) + 4) = true := by
        simp only [mallocOk, decide_eq_true_eq]; split <;> omega
      simp only [Buffer.reserveSpace, hm, if_true]
      rfl
  | some m =>
    have hs' : (m.length : Int) ≤ size := hs
    by_cases hlt : (size - ((Buffer.mk (some m) size dd flags data sig slen)._len : Int))
        < (if (n : Int) < 4 then (n : Int) + 4 else n) + 4
    · refine ⟨size + (if (n : Int) < 4 then (n : Int) + 4 else n) * 2, ?_, ?_⟩
      · show (m.length : Int) + n + 4 ≤ _
        split <;> omega
      · have hm : mallocOk (size + (if (n : Int) < 4 then (n : Int) + 4 else n) * 2) = true := by
          simp only [mallocOk, decide_eq_true_eq]; split <;> omega
        have ht : m.take (size + (if (n : Int) < 4 then (n : Int) + 4 else n) * 2).toNat = m := by
          apply List.take_of_length_le
          split <;> omega
        simp only [Buffer.reserveSpace, hlt, Buffer.realloc, hm, if_true, ht]
        rfl
    · refine ⟨size, ?_, ?_⟩
      · have hlt' : ¬ (size - (m.length : Int)) < (if (n : Int) < 4 then (n : Int) + 4 else n) + 4 :=
          hlt
        show (m.length : Int) + n + 4 ≤ size
        split at hlt' <;> omega
      · simp only [Buffer.reserveSpace, hlt, if_false]
        rfl

theorem addData_early (b : Buffer) (buff : List Nat) (h : buff = [] ∨ b.fileFound = true) :
    b.addData buff = (b, buff, none) := by
  unfold Buffer.addData
  have : buff.length ≤ 0 ∨ b.fileFound = true := by
    rcases h with h | h
    · left; simp [h]
    · right; exact h
  rw [if_pos this]

theorem addData_unfold (b : Buffer) (buff : List Nat) (hb : buff ≠ [])
    (hf : b.fileFound = false) :
    b.addData buff =
      match b.reserveSpace buff.length with
      | (b1, some e) => (b1, buff, some e)
      | (b1, none) =>
        (Buffer.addRest { b1 with _data := buff }, (Buffer.addRest { b1 with _data := buff })._data,
          none) := by
  unfold Buffer.addData
  have : ¬ (buff.length ≤ 0 ∨ b.fileFound = true) := by
    have := List.length_pos.mpr hb
    simp only [hf]
    rintro (h | h)
    · omega
    · cases h
  rw [if_neg this]
  rfl

theorem addData_eq_core (b : Buffer) (buff : List Nat) (hb : buff ≠ [])
    (hf : b.fileFound = false) (hs : (b._len : Int) ≤ b._size) :
    ∃ sz : Int, ((b.core buff)._len : Int) ≤ sz ∧
      b.addData buff = ((b.core buff).setSize sz, (b.core buff)._data, none) := by
  obtain ⟨sz, hsz, hr⟩ := reserveSpace_ok b buff.length (List.length_pos.mpr hb) hs
  refine ⟨sz, by have := core_len_le b buff; omega, ?_⟩
  rw [addData_unfold b buff hb hf, hr]
  have e := addRest_setSize sz (b.norm buff)
  have key : ∀ X : Buffer, ((b.norm buff).setSize sz).addRest = X →
      (match
        (({ _buffer := some b.mem, _size := sz, _dd := b._dd, _flags := b._flags,
            _data := b._data, _signature := b._signature, _slen := b._slen } : Buffer),
          (none : Option Exception)) with
      | (b1, some e) => (b1, buff, some e)
      | (b1, none) =>
        (Buffer.addRest { b1 with _data := buff }, (Buffer.addRest { b1 with _data := buff })._data,
          none)) = (X, X._data, none) := by
    intro X hX
    subst hX
    rfl
  rw [key _ e]
  rfl

/-! ### Streams that differ in the capacity of the buffer only -/

theorem scanBody_of_addData (z : Zlib) (s : Stream) (buff : List Nat) (b : Buffer)
    (rest : List Nat) (h : s._buffer.addData buff = (b, rest, none)) :
    Stream.scanBody z s buff =
      if b.fileFound then
        match File.new z b with
        | .error f =>
          ({ s with _buffer := b,
                    _bytes_read := s._bytes_read + ((buff.length : Int) - rest.length) },
            rest, some f)
        | .ok f =>
          ({ _buffer := b.reset,
             _bytes_read := s._bytes_read + ((buff.length : Int) - rest.length),
             _delegate := s._delegate ++ [f] }, rest, none)
      else
        ({ s with _buffer := b,
                  _bytes_read := s._bytes_read + ((buff.length : Int) - rest.length) },
          rest, none) := by
  unfold Stream.scanBody
  rw [h]

theorem scanBody_sim_aux (z : Zlib) (s1 s2 : Stream) (buff1 buff2 : List Nat) (X : Buffer)
    (rest : List Nat) (sz1 sz2 : Int)
    (h1 : s1._buffer.addData buff1 = (X.setSize sz1, rest, none))
    (h2 : s2._buffer.addData buff2 = (X.setSize sz2, rest, none))
    (hd : s1._delegate = s2._delegate) :
    (Stream.scanBody z s1 buff1).2 = (Stream.scanBody z s2 buff2).2 ∧
    (Stream.scanBody z s1 buff1).1._delegate = (Stream.scanBody z s2 buff2).1._delegate ∧
    ∃ Y : Buffer, (Stream.scanBody z s1 buff1).1._buffer = Y.setSize sz1 ∧
      (Stream.scanBody z s2 buff2).1._buffer = Y.setSize sz2 ∧ Y._len ≤ X._len := by
  rw [scanBody_of_addData z s1 buff1 _ rest h1, scanBody_of_addData z s2 buff2 _ rest h2]
  have hff : (X.setSize sz2).fileFound = (X.setSize sz1).fileFound := rfl
  have hfn : File.new z (X.setSize sz2) = File.new z (X.setSize sz1) :=
    File_new_congr z _ _ rfl
  have hreset : X.reset._len ≤ X._len := by
    have : X.reset.mem = [] := by
      obtain ⟨buf, size, dd, flags, data, sig, slen⟩ := X
      cases buf <;> rfl
    simp only [Buffer._len, this, List.length_nil]
    omega
  rw [hff, hfn]
  by_cases hf : (X.setSize sz1).fileFound = true
  · rw [if_pos hf, if_pos hf]
    cases hF : File.new z (X.setSize sz1) with
    | error f => exact ⟨rfl, hd, X, rfl, rfl, Nat.le_refl _⟩
    | ok f => exact ⟨rfl, by simp only [hd], X.reset, rfl, rfl, hreset⟩
  · rw [if_neg hf, if_neg hf]
    exact ⟨rfl, hd, X, rfl, rfl, Nat.le_refl _⟩

theorem scanBody_sim (z : Zlib) (s1 s2 : Stream) (buff : List Nat) (X : Buffer)
    (sz1 sz2 : Int) (h1 : s1._buffer = X.setSize sz1) (h2 : s2._buffer = X.setSize sz2)
    (hs1 : (X._len : Int) ≤ sz1) (hs2 : (X._len : Int) ≤ sz2)
    (hd : s1._delegate = s2._delegate) :
    (Stream.scanBody z s1 buff).2 = (Stream.scanBody z s2 buff).2 ∧
    (Stream.scanBody z s1 buff).1._delegate = (Stream.scanBody z s2 buff).1._delegate ∧
    ∃ (Y : Buffer) (t1 t2 : Int), (Y._len : Int) ≤ t1 ∧ (Y._len : Int) ≤ t2 ∧
      (Stream.scanBody z s1 buff).1._buffer = Y.setSize t1 ∧
      (Stream.scanBody z s2 buff).1._buffer = Y.setSize t2 := by
  by_cases he : buff = [] ∨ X.fileFound = true
  · have e1 : s1._buffer.addData buff = (X.setSize sz1, buff, none) := by
      rw [h1]; exact addData_early _ _ he
    have e2 : s2._buffer.addData buff = (X.setSize sz2, buff, none) := by
      rw [h2]; exact addData_early _ _ he
    obtain ⟨a, b, Y, c, d, hY⟩ := scanBody_sim_aux z s1 s2 buff buff X buff sz1 sz2 e1 e2 hd
    exact ⟨a, b, Y, sz1, sz2, by omega, by omega, c, d⟩
  · have hb : buff ≠ [] := fun h => he (Or.inl h)
    have hf : X.fileFound = false := by
      cases h : X.fileFound with
      | false => rfl
      | true => exact absurd (Or.inr h) he
    obtain ⟨t1, ht1, e1⟩ := addData_eq_core (X.setSize sz1) buff hb hf hs1
    obtain ⟨t2, ht2, e2⟩ := addData_eq_core (X.setSize sz2) buff hb hf hs2
    have hc1 : (X.setSize sz1).core buff = X.core buff := rfl
    have hc2 : (X.setSize sz2).core buff = X.core buff := rfl
    rw [hc1, ← h1] at e1
    rw [hc2, ← h2] at e2
    rw [hc1] at ht1
    rw [hc2] at ht2
    obtain ⟨a, b, Y, c, d, hY⟩ :=
      scanBody_sim_aux z s1 s2 buff buff (X.core buff) (X.core buff)._data t1 t2 e1 e2 hd
    exact ⟨a, b, Y, t1, t2, by omega, by omega, c, d⟩

theorem scan_sim (z : Zlib) (fuel : Nat) : ∀ (s1 s2 : Stream) (buff : List Nat) (X : Buffer)
    (sz1 sz2 : Int), s1._buffer = X.setSize sz1 → s2._buffer = X.setSize sz2 →
    (X._len : Int) ≤ sz1 → (X._len : Int) ≤ sz2 → s1._delegate = s2._delegate →
    Stream.delivered (Stream.scan z fuel s1 buff) = Stream.delivered (Stream.scan z fuel s2 buff) := by
  induction fuel with
  | zero =>
    intro s1 s2 buff X sz1 sz2 _ _ _ _ hd
    simp only [Stream.scan]
    split
    · rfl
    · simp only [Stream.delivered, Option.map_some', hd]
  | succ n ih =>
    intro s1 s2 buff X sz1 sz2 h1 h2 hs1 hs2 hd
    simp only [Stream.scan]
    split
    · have key := scanBody_sim z s1 s2 buff X sz1 sz2 h1 h2 hs1 hs2 hd
      rcases hb1 : Stream.scanBody z s1 buff with ⟨u1, r1, f1⟩
      rcases hb2 : Stream.scanBody z s2 buff with ⟨u2, r2, f2⟩
      rw [hb1, hb2] at key
      obtain ⟨a, b, Y, t1, t2, ht1, ht2, c, d⟩ := key
      simp only [Prod.mk.injEq] at a b c d
      obtain ⟨hr, hf⟩ := a
      subst hr hf
      cases f1 with
      | some f => simp only [Stream.delivered, Option.map_some', b]
      | none => exact ih u1 u2 r1 Y t1 t2 c d ht1 ht2 b
    · simp only [Stream.delivered, Option.map_some', hd]

/-! ### Bytes in front of the first header -/

theorem skipLoop_append (a : List Nat) (g : List Nat) : ∀ b : Buffer, g ≠ [] →
    (matchLoop b._signature b._slen g).1 ≠ 4 →
    Buffer.skipLoop (g ++ a) b =
      Buffer.skipLoop a { b with _slen := (matchLoop b._signature b._slen g).1, _data := a } := by
  induction g with
  | nil => intro b h; exact absurd rfl h
  | cons x rest ih =>
    intro b _ h4
    rw [List.cons_append, skipLoop_cons]
    rw [matchLoop_cons] at h4 ⊢
    have hm : b.matchByte x = (if b._signature.get? b._slen = some x then b._slen + 1 else 0) := rfl
    rw [← hm] at h4 ⊢
    by_cases hx : b.matchByte x = 4
    · rw [if_pos hx] at h4
      exact absurd hx h4
    · rw [if_neg hx] at h4 ⊢
      rw [if_neg hx]
      cases rest with
      | nil =>
        rw [matchLoop_nil]
        rfl
      | cons y rest' =>
        rw [ih { b with _slen := b.matchByte x, _data := y :: rest' ++ a } (by simp) h4]

theorem progress_eq (sig g : List Nat) :
    Buffer.progress sig g = (matchLoop sig 0 g).1 :=
  (skipLoop_match g (Buffer.skipping sig g)).1

theorem scanForHeader_garbage (b : Buffer) (hl : b._len = 0) (hf : b._flags = 0)
    (g a : List Nat) (hg : g ≠ []) (hp : Buffer.progress Header.signature g = 0) :
    (b.norm (g ++ a)).scanForHeader = (b.norm a).scanForHeader := by
  rw [progress_eq] at hp
  have h4 : (matchLoop Header.signature 0 g).1 ≠ 4 := by rw [hp]; omega
  have hl1 : (b.norm (g ++ a))._len = 0 := hl
  have hl2 : (b.norm a)._len = 0 := hl
  simp only [Buffer.scanForHeader, hl1, hl2, if_true]
  have hs1 : ((b.norm (g ++ a)).skipUntil Header.signature)._flags &&& Buffer.Skiping ≠ 0 := by
    show (b._flags ||| Buffer.Skiping) &&& Buffer.Skiping ≠ 0
    rw [hf]; decide
  have hs2 : ((b.norm a).skipUntil Header.signature)._flags &&& Buffer.Skiping ≠ 0 := by
    show (b._flags ||| Buffer.Skiping) &&& Buffer.Skiping ≠ 0
    rw [hf]; decide
  simp only [hs1, hs2, if_true, ne_eq, not_false_eq_true]
  have key : ((b.norm (g ++ a)).skipUntil Header.signature).skip
      = ((b.norm a).skipUntil Header.signature).skip := by
    show Buffer.skipLoop (g ++ a) ((b.norm (g ++ a)).skipUntil Header.signature)
      = Buffer.skipLoop a ((b.norm a).skipUntil Header.signature)
    rw [skipLoop_append a g _ hg h4]
    have : (matchLoop ((b.norm (g ++ a)).skipUntil Header.signature)._signature
        ((b.norm (g ++ a)).skipUntil Header.signature)._slen g).1 = 0 := hp
    rw [this]
    rfl
  rw [key]

theorem core_garbage (b : Buffer) (hl : b._len = 0) (hf : b._flags = 0)
    (g a : List Nat) (hg : g ≠ []) (hp : Buffer.progress Header.signature g = 0) :
    b.core (g ++ a) = b.core a := by
  unfold Buffer.core Buffer.addRest
  have e := scanForHeader_garbage b hl hf g a hg hp
  have hh1 : (b.norm (g ++ a)).isHeader = false := by
    simp only [Buffer.isHeader, Header.sizeof, decide_eq_false_iff_not]
    show ¬ 30 ≤ b._len
    omega
  have hh2 : (b.norm a).isHeader = false := by
    simp only [Buffer.isHeader, Header.sizeof, decide_eq_false_iff_not]
    show ¬ 30 ≤ b._len
    omega
  simp only [hh1, hh2, Bool.not_false, if_true, e]

theorem scan_garbage (z : Zlib) (fuel : Nat) (g a : List Nat) (ha : a ≠ [])
    (hp : Buffer.progress Header.signature g = 0) :
    Stream.delivered (Stream.scan z fuel Stream.new (g ++ a))
      = Stream.delivered (Stream.scan z fuel Stream.new a) := by
  by_cases hg : g = []
  · rw [hg, List.nil_append]
  · have hga : g ++ a ≠ [] := by simp [hg]
    cases fuel with
    | zero =>
      simp only [Stream.scan, List.length_pos.mpr hga, List.length_pos.mpr ha, if_true]
    | succ n =>
      obtain ⟨t1, ht1, e1⟩ := addData_eq_core Buffer.new (g ++ a) hga rfl (by decide)
      obtain ⟨t2, ht2, e2⟩ := addData_eq_core Buffer.new a ha rfl (by decide)
      rw [core_garbage Buffer.new rfl rfl g a hg hp] at e1 ht1
      have key := scanBody_sim_aux z Stream.new Stream.new (g ++ a) a _ _ t1 t2 e1 e2 rfl
      simp only [Stream.scan, List.length_pos.mpr hga, List.length_pos.mpr ha, if_true]
      rcases hb1 : Stream.scanBody z Stream.new (g ++ a) with ⟨u1, r1, f1⟩
      rcases hb2 : Stream.scanBody z Stream.new a with ⟨u2, r2, f2⟩
      rw [hb1, hb2] at key
      obtain ⟨k1, k2, Y, c, d, hY⟩ := key
      simp only [Prod.mk.injEq] at k1 k2 c d
      obtain ⟨hr, hf⟩ := k1
      subst hr hf
      cases f1 with
      | some f => simp only [Stream.delivered, Option.map_some', k2]
      | none => exact scan_sim z n u1 u2 r1 Y t1 t2 c d (by omega) (by omega) k2


/-- C3 (garbage in front of the archive), as amended. For every byte sequence `g`
after which the matcher of the header signature has progress 0 (it has then not found
the signature in `g`), and every non-empty byte sequence `a`, scanning `g` followed by
`a` with a new stream hands the same files to the delegate, and ends the same way, as
scanning `a` alone. -/
theorem C3_garbage_before_header (z : Zlib) (fuel : Nat) (g a : List Nat) (ha : a ≠ [])
    (hp : Buffer.progress Header.signature g = 0) :
    Stream.delivered (Stream.scan z fuel Stream.new (g ++ a))
      = Stream.delivered (Stream.scan z fuel Stream.new a) :=
  scan_garbage z fuel g a ha hp

/-- C3, at an input: three bytes in front of the sample entry. -/
theorem C3_garbage_before_header_witness :
    Buffer.progress Header.signature [1, 2, 3] = 0 ∧
    Stream.delivered (Stream.scan noInflate 1 Stream.new ([1, 2, 3] ++ helloEntry))
      = some ([{ _header := helloEntry.take 31, _data := some hello, _name := some [97] }],
          none) :=
  ⟨by decide,
    (C3_garbage_before_header noInflate 1 [1, 2, 3] helloEntry (by decide) (by decide)).trans
      (by decide)⟩

/-- C3 as stated fails: the byte 50 does not contain the signature, the sample entry
begins with a valid header, and scanning the byte followed by the entry delivers no
file while scanning the entry alone delivers one. -/
theorem C3_garbage_before_header_counterexample :
    [0x50].length < Header.signature.length ∧
    Stream.delivered (Stream.scan noInflate 1 Stream.new ([0x50] ++ helloEntry))
      = some ([], none) ∧
    Stream.delivered (Stream.scan noInflate 1 Stream.new helloEntry)
      = some ([{ _header := helloEntry.take 31, _data := some hello, _name := some [97] }],
          none) := by
  decide

/-! ### Reading one entry -/

theorem Header_bytes_eq (h : Header) :
    h.bytes = [h._signature.low.low, h._signature.low.high, h._signature.high.low,
      h._signature.high.high, h._version.low, h._version.high, h._flags.low, h._flags.high,
      h._compression.low, h._compression.high, h._mtime.low, h._mtime.high, h._mdate.low,
      h._mdate.high, h._crc32.low.low, h._crc32.low.high, h._crc32.high.low,
      h._crc32.high.high, h._csize.low.low, h._csize.low.high, h._csize.high.low,
      h._csize.high.high, h._size.low.low, h._size.low.high, h._size.high.low,
      h._size.high.high, h._fnlength.low, h._fnlength.high, h._extralength.low,
      h._extralength.high] := rfl

theorem Header_bytes_length (h : Header) : h.bytes.length = 30 := rfl

theorem Header_read_cons (b0 b1 b2 b3 b4 b5 b6 b7 b8 b9 b10 b11 b12 b13 b14 b15 b16 b17 b18
    b19 b20 b21 b22 b23 b24 b25 b26 b27 b28 b29 : Nat) (t : List Nat) :
    Header.read (b0 :: b1 :: b2 :: b3 :: b4 :: b5 :: b6 :: b7 :: b8 :: b9 :: b10 :: b11 :: b12
      :: b13 :: b14 :: b15 :: b16 :: b17 :: b18 :: b19 :: b20 :: b21 :: b22 :: b23 :: b24 :: b25
      :: b26 :: b27 :: b28 :: b29 :: t) =
      { _signature := ⟨⟨b0, b1⟩, ⟨b2, b3⟩⟩, _version := ⟨b4, b5⟩, _flags := ⟨b6, b7⟩,
        _compression := ⟨b8, b9⟩, _mtime := ⟨b10, b11⟩, _mdate := ⟨b12, b13⟩,
        _crc32 := ⟨⟨b14, b15⟩, ⟨b16, b17⟩⟩, _csize := ⟨⟨b18, b19⟩, ⟨b20, b21⟩⟩,
        _size := ⟨⟨b22, b23⟩, ⟨b24, b25⟩⟩, _fnlength := ⟨b26, b27⟩,
        _extralength := ⟨b28, b29⟩ } := by
  simp [Header.read, tByte4.read, tByte2.read, byteAt]

theorem Header_read_bytes (h : Header) (t : List Nat) : Header.read (h.bytes ++ t) = h := by
  rw [Header_bytes_eq]
  simp only [List.cons_append, List.nil_append]
  rw [Header_read_cons]

theorem skipLoop_found (s0 s1 s2 s3 : Nat) (rest : List Nat) (b : Buffer)
    (hs : b._signature = [s0, s1, s2, s3]) (h0 : b._slen = 0) :
    Buffer.skipLoop (s0 :: s1 :: s2 :: s3 :: rest) b =
      { _buffer := some (b.mem ++ [s0, s1, s2, s3]), _size := b._size, _dd := b._dd,
        _flags := Buffer.clearFlag b._flags Buffer.Skiping, _data := rest,
        _signature := [s0, s1, s2, s3], _slen := 4 } := by
  obtain ⟨buf, size, dd, flags, data, sig, slen⟩ := b
  simp only at hs h0
  subst hs h0
  simp [skipLoop_cons, Buffer.matchByte, Buffer.mem]

theorem copyLoop_found (s0 s1 s2 s3 : Nat) (rest : List Nat) (b : Buffer)
    (hs : b._signature = [s0, s1, s2, s3]) (h0 : b._slen = 0) :
    Buffer.copyLoop (s0 :: s1 :: s2 :: s3 :: rest) b =
      { _buffer := some (b.mem ++ [s0, s1, s2, s3]), _size := b._size, _dd := b._dd,
        _flags := Buffer.clearFlag b._flags Buffer.Copying, _data := rest,
        _signature := [s0, s1, s2, s3], _slen := 4 } := by
  obtain ⟨buf, size, dd, flags, data, sig, slen⟩ := b
  simp only at hs h0
  subst hs h0
  simp [copyLoop_cons, Buffer.matchByte, Buffer.mem]

theorem scanForHeader_header (b : Buffer) (hm : b.mem = []) (hf : b._flags = 0) (h : Header)
    (hs : h._signature = ⟨⟨0x50, 0x4b⟩, ⟨0x03, 0x04⟩⟩) (tail : List Nat) :
    (b.norm (h.bytes ++ tail)).scanForHeader =
      { _buffer := some h.bytes, _size := 0, _dd := b._dd, _flags := 0, _data := tail,
        _signature := Header.signature, _slen := 4 } := by
  have hl : (b.norm (h.bytes ++ tail))._len = 0 := by
    show b.mem.length = 0
    rw [hm]; rfl
  have hsk : ((b.norm (h.bytes ++ tail)).skipUntil Header.signature)._flags
      &&& Buffer.Skiping ≠ 0 := by
    show (b._flags ||| Buffer.Skiping) &&& Buffer.Skiping ≠ 0
    rw [hf]; decide
  have hskip : ((b.norm (h.bytes ++ tail)).skipUntil Header.signature).skip =
      { _buffer := some [0x50, 0x4b, 0x03, 0x04], _size := 0, _dd := b._dd, _flags := 0,
        _data := (h.bytes ++ tail).drop 4, _signature := Header.signature, _slen := 4 } := by
    show Buffer.skipLoop (h.bytes ++ tail) ((b.norm (h.bytes ++ tail)).skipUntil Header.signature)
      = _
    rw [Header_bytes_eq, hs]
    simp only [List.cons_append, List.nil_append]
    rw [skipLoop_found 0x50 0x4b 0x03 0x04 _ _ rfl rfl]
    have e1 : ((b.norm (h.bytes ++ tail)).skipUntil Header.signature).mem = [] := hm
    have e2 : ((b.norm (h.bytes ++ tail)).skipUntil Header.signature)._flags
        = b._flags ||| Buffer.Skiping := rfl
    rw [Header_bytes_eq, hs] at e1 e2
    simp only [List.cons_append, List.nil_append] at e1 e2
    rw [e1, e2, hf]
    rfl
  simp only [Buffer.scanForHeader, hl, if_true, hsk, ne_eq, not_false_eq_true, hskip]
  have hd : (Buffer.mk (some [0x50, 0x4b, 0x03, 0x04]) 0 b._dd 0 ((h.bytes ++ tail).drop 4)
      Header.signature 4)._dlen = 26 + tail.length := by
    show ((h.bytes ++ tail).drop 4).length = _
    simp only [List.length_drop, List.length_append, Header_bytes_length]
    omega
  have hlen : (Buffer.mk (some [0x50, 0x4b, 0x03, 0x04]) 0 b._dd 0 ((h.bytes ++ tail).drop 4)
      Header.signature 4)._len = 4 := rfl
  simp only [hd, hlen, Header.sizeof]
  have h1 : 26 + tail.length > 0 := by omega
  have h2 : ¬ (30 - 4 > 26 + tail.length) := by omega
  simp only [h1, h2, if_true, if_false, Buffer.append, Buffer.mem, Option.getD_some]
  have h3 : [0x50, 0x4b, 0x03, 0x04] ++ List.take (30 - 4) (List.drop 4 (h.bytes ++ tail))
      = h.bytes := by
    rw [Header_bytes_eq, hs]
    simp
  have h4 : List.drop (30 - 4) (List.drop 4 (h.bytes ++ tail)) = tail := by
    rw [Header_bytes_eq]
    simp
  rw [h3, h4]

theorem needed_sized (B : Buffer) (h : Header) (part : List Nat) (n : Nat)
    (hmem : B.mem = h.bytes ++ part) (hsz : h.hasSize = true)
    (hn : h.hsize + h.csize = 30 + n) (hb : 30 + n < 2147483648) (hp : part.length ≤ n) :
    B.needed = (n : Int) - part.length := by
  have hl : B._len = 30 + part.length := by
    show B.mem.length = _
    rw [hmem, List.length_append, Header_bytes_length]
  have hh : B.isHeader = true := by
    simp only [Buffer.isHeader, Header.sizeof, hl, decide_eq_true_eq]
    omega
  have hhd : B.header = h := by
    show Header.read B.mem = h
    rw [hmem, Header_read_bytes]
  simp only [Buffer.needed, hh, hhd, hsz, if_true, hn, hl, Header.sizeof]
  rw [Nat.mod_eq_of_lt (by omega)]
  rw [toInt32_eq _ (by omega) (by omega)]
  omega

theorem copySized_body (h : Header) (body rest : List Nat) (sz : Int) (dd : Option Int)
    (fl : Nat) (sg : List Nat) (sl : Nat) (hsz : h.hasSize = true)
    (hn : h.hsize + h.csize = 30 + body.length) (hb : 30 + body.length < 2147483648) :
    (Buffer.mk (some h.bytes) sz dd fl (body ++ rest) sg sl).copySized =
      Buffer.mk (some (h.bytes ++ body)) sz dd (fl ||| Buffer.FileFound) rest sg sl := by
  have hn0 : (Buffer.mk (some h.bytes) sz dd fl (body ++ rest) sg sl).needed = body.length := by
    have := needed_sized (Buffer.mk (some h.bytes) sz dd fl (body ++ rest) sg sl) h []
      body.length (by simp [Buffer.mem]) hsz hn hb (by simp)
    simpa using this
  have hcb : (Buffer.mk (some h.bytes) sz dd fl (body ++ rest) sg sl).copyBytes (-1) =
      (Buffer.mk (some (h.bytes ++ body)) sz dd fl rest sg sl, (body.length : Int)) := by
    simp only [Buffer.copyBytes, hn0]
    have hneg : ((-1 : Int) < 0) := by omega
    simp only [hneg, if_true]
    by_cases hpos : (body.length : Int) > 0
    · simp only [hpos, if_true]
      have hd : (Buffer.mk (some h.bytes) sz dd fl (body ++ rest) sg sl)._dlen
          = body.length + rest.length := by
        show (body ++ rest).length = _
        rw [List.length_append]
      simp only [hd]
      have ht : (if (body.length : Int) < ((body.length + rest.length : Nat) : Int)
          then (body.length : Int) else ((body.length + rest.length : Nat) : Int))
          = body.length := by
        split <;> omega
      rw [ht]
      simp [Buffer.append, Buffer.mem]
    · have hz : body.length = 0 := by omega
      have hbn : body = [] := List.length_eq_zero.mp hz
      simp only [hpos, if_false]
      subst hbn
      simp
  have hn1 : (Buffer.mk (some (h.bytes ++ body)) sz dd fl rest sg sl).needed = 0 := by
    have := needed_sized (Buffer.mk (some (h.bytes ++ body)) sz dd fl rest sg sl) h body
      body.length (by simp [Buffer.mem]) hsz hn hb (by simp)
    simpa using this
  simp only [Buffer.copySized, hcb, hn1, if_true]

theorem Entry_bytes_length (e : Entry) : e.bytes.length = 30 + e.body.length := by
  simp only [Entry.bytes, List.length_append, Header_bytes_length]

theorem Entry_hsize (e : Entry) (hw : e.WellFormed) :
    e.header.hsize = 30 + e.filename.length + e.extra.length := by
  obtain ⟨-, h1, h2, h3⟩ := hw
  have := Entry_bytes_length e
  simp only [Entry.body, List.length_append] at this
  simp only [Header.hsize, Header.sizeof, h1, h2]
  rw [Nat.mod_eq_of_lt (by omega)]

theorem core_sized (b : Buffer) (hm : b.mem = []) (hf : b._flags = 0) (e : Entry)
    (he : e.Sized) (rest : List Nat) (hne : e.body ++ rest ≠ []) :
    b.core (e.bytes ++ rest) =
      Buffer.mk (some e.bytes) 0 b._dd Buffer.FileFound rest Header.signature 4 := by
  obtain ⟨hw, hsz, hcs⟩ := he
  have hhs := Entry_hsize e hw
  have hbl := Entry_bytes_length e
  have hbd : e.body.length = e.filename.length + e.extra.length + e.payload.length := by
    simp only [Entry.body, List.length_append]
  have hih : (b.norm (e.bytes ++ rest)).isHeader = false := by
    simp only [Buffer.isHeader, Header.sizeof, decide_eq_false_iff_not]
    show ¬ 30 ≤ b.mem.length
    rw [hm]; simp
  have hsc := scanForHeader_header b hm hf e.header hw.1 (e.body ++ rest)
  have hdl : (Buffer.mk (some e.header.bytes) 0 b._dd 0 (e.body ++ rest) Header.signature
      4)._dlen > 0 := by
    show (e.body ++ rest).length > 0
    exact List.length_pos.mpr hne
  have hhd : (Buffer.mk (some e.header.bytes) 0 b._dd 0 (e.body ++ rest) Header.signature
      4).header = e.header := by
    show Header.read e.header.bytes = e.header
    have := Header_read_bytes e.header []
    rwa [List.append_nil] at this
  have hcs := copySized_body e.header e.body rest 0 b._dd 0 Header.signature 4 hsz
    (by omega) (by obtain ⟨-, -, -, h3⟩ := hw; omega)
  unfold Buffer.core Buffer.addRest
  simp only [hih, Bool.not_false, if_true]
  rw [show e.bytes ++ rest = e.header.bytes ++ (e.body ++ rest) by
    simp only [Entry.bytes, List.append_assoc]]
  rw [hsc]
  simp only [hdl, hhd, hsz, if_true, hcs]
  rfl

theorem scan_nil (z : Zlib) (fuel : Nat) (s : Stream) :
    Stream.scan z fuel s [] = some (s, none) := by
  cases fuel <;> simp [Stream.scan]

theorem scan_succ (z : Zlib) (fuel : Nat) (s s1 : Stream) (buff rest : List Nat)
    (hb : buff ≠ []) (h : Stream.scanBody z s buff = (s1, rest, none)) :
    Stream.scan z (fuel + 1) s buff = Stream.scan z fuel s1 rest := by
  simp only [Stream.scan, List.length_pos.mpr hb, if_true, h]

theorem fileFound_of_flags (b : Buffer) (hf : b._flags = 0) : b.fileFound = false := by
  simp only [Buffer.fileFound, hf]
  rfl

theorem reset_mem (b : Buffer) : b.reset.mem = [] := by
  obtain ⟨buf, size, dd, flags, data, sig, slen⟩ := b
  cases buf <;> rfl

theorem scanBody_found (z : Zlib) (s : Stream) (buff rest : List Nat) (X : Buffer)
    (hs : (s._buffer._len : Int) ≤ s._buffer._size) (hne : buff ≠ []) (hf : s._buffer._flags = 0)
    (hcore : s._buffer.core buff = X) (hX : X._flags = Buffer.FileFound)
    (hdata : X._data = rest) (f : File) (hfile : File.new z X = .ok f) :
    ∃ s' : Stream, Stream.scanBody z s buff = (s', rest, none) ∧
      s'._delegate = s._delegate ++ [f] ∧
      s'._bytes_read = s._bytes_read + ((buff.length : Int) - rest.length) ∧
      s'._buffer.mem = [] ∧ s'._buffer._flags = 0 ∧ 0 ≤ s'._buffer._size := by
  obtain ⟨sz, hsz, hadd⟩ := addData_eq_core s._buffer buff hne (fileFound_of_flags _ hf) hs
  rw [hcore, hdata] at hadd
  have hff : (X.setSize sz).fileFound = true := by
    show ((X._flags &&& Buffer.FileFound) != 0) = true
    rw [hX]; rfl
  have hfn : File.new z (X.setSize sz) = .ok f := by
    rw [File_new_congr z (X.setSize sz) X rfl, hfile]
  rw [scanBody_of_addData z s buff _ rest hadd]
  simp only [hff, if_true, hfn]
  have hsz0 : (0 : Int) ≤ sz := by omega
  exact ⟨_, rfl, rfl, rfl, reset_mem _, rfl, hsz0⟩

theorem scanBody_sized (z : Zlib) (s : Stream) (hm : s._buffer.mem = [])
    (hf : s._buffer._flags = 0) (hs : 0 ≤ s._buffer._size) (e : Entry) (he : e.Sized)
    (rest : List Nat) (hne : e.body ++ rest ≠ []) (f : File)
    (hfile : File.new z (Buffer.new.append e.bytes) = .ok f) :
    ∃ s' : Stream, Stream.scanBody z s (e.bytes ++ rest) = (s', rest, none) ∧
      s'._delegate = s._delegate ++ [f] ∧
      s'._bytes_read = s._bytes_read + e.bytes.length ∧
      s'._buffer.mem = [] ∧ s'._buffer._flags = 0 ∧ 0 ≤ s'._buffer._size := by
  have hb : e.bytes ++ rest ≠ [] := by
    have := Entry_bytes_length e
    intro h
    have h2 := congrArg List.length h
    simp only [List.length_append, List.length_nil] at h2
    omega
  have hs' : (s._buffer._len : Int) ≤ s._buffer._size := by
    simp only [Buffer._len, hm, List.length_nil]
    exact hs
  obtain ⟨s', h1, h2, h3, h4, h5, h6⟩ := scanBody_found z s (e.bytes ++ rest) rest _ hs' hb hf
    (core_sized s._buffer hm hf e he rest hne) rfl rfl f
    (by rw [← hfile]; exact File_new_congr z _ _ rfl)
  refine ⟨s', h1, h2, ?_, h4, h5, h6⟩
  rw [h3, List.length_append]
  push_cast
  omega

theorem File_new_fields (z : Zlib) (B : Buffer) (f : File) (h : File.new z B = .ok f) :
    f._header = B.mem.take B.header.hsize ∧ f._name = B.heapFilename := by
  simp only [File.new] at h
  by_cases c1 : (!mallocOk (toInt32 ((((B.header.hsize + B.header.size + 4) % 4294967296 : Nat)
      : Int)))) = true
  · rw [if_pos c1] at h; cases h
  · rw [if_neg c1] at h
    by_cases c2 : B._len < B.header.hsize ∨
        toInt32 ((((B.header.hsize + B.header.size + 4) % 4294967296 : Nat) : Int))
          < (B.header.hsize : Int)
    · rw [if_pos c2] at h; cases h
    · rw [if_neg c2] at h
      by_cases c3 : B.header.size > 0
      · rw [if_pos c3] at h
        by_cases c4 : B.header.compression = Header.Stored
        · rw [if_pos c4] at h
          by_cases c5 : B.contents.length < B.header.size
          · rw [if_pos c5] at h; cases h
          · rw [if_neg c5] at h; cases h; exact ⟨rfl, rfl⟩
        · rw [if_neg c4] at h
          by_cases c6 : B.header.compression = Header.Deflated
          · rw [if_pos c6] at h
            cases hi : File.inflate z B with
            | error e => rw [hi] at h; cases h
            | ok d => rw [hi] at h; cases h; exact ⟨rfl, rfl⟩
          · rw [if_neg c6] at h; cases h
      · rw [if_neg c3] at h; cases h; exact ⟨rfl, rfl⟩

theorem append_mem (xs : List Nat) : (Buffer.new.append xs).mem = xs := rfl

theorem heapFilename_entry (e : Entry) (hw : e.WellFormed) :
    (Buffer.new.append e.bytes).heapFilename = some e.filename := by
  obtain ⟨-, h1, h2, h3⟩ := hw
  have hhd : (Buffer.new.append e.bytes).header = e.header := by
    show Header.read e.bytes = e.header
    exact Header_read_bytes e.header e.body
  have hih : (Buffer.new.append e.bytes).isHeader = true := by
    simp only [Buffer.isHeader, Header.sizeof, decide_eq_true_eq]
    show 30 ≤ e.bytes.length
    rw [Entry_bytes_length]; omega
  have hm : mallocOk ((e.filename.length : Int) + 1) = true := by
    simp only [mallocOk, decide_eq_true_eq]; omega
  simp only [Buffer.heapFilename, hih, hhd, h1, hm, if_true, append_mem, Header.sizeof]
  have : List.drop 30 e.bytes = e.body := by
    have hl := Header_bytes_length e.header
    simp only [Entry.bytes]
    rw [List.drop_append_of_le_length (by omega), ← hl, List.drop_length, List.nil_append]
  rw [this]
  simp only [Entry.body, List.append_assoc, List.take_left']

theorem File_new_stored (z : Zlib) (e : Entry) (he : e.Stored) (hp : e.payload ≠ []) :
    File.new z (Buffer.new.append e.bytes) =
      .ok { _header := e.header.bytes ++ e.filename ++ e.extra, _data := some e.payload,
            _name := some e.filename } := by
  obtain ⟨⟨hw, hsz, hcs⟩, hc, hs⟩ := he
  have hhs := Entry_hsize e hw
  have hbl := Entry_bytes_length e
  have hbd : e.body.length = e.filename.length + e.extra.length + e.payload.length := by
    simp only [Entry.body, List.length_append]
  have hfit : e.bytes.length + 4 < 2147483648 := hw.2.2.2
  have hpl : 0 < e.payload.length := List.length_pos.mpr hp
  have hhd : (Buffer.new.append e.bytes).header = e.header := by
    show Header.read e.bytes = e.header
    exact Header_read_bytes e.header e.body
  have hlen : (Buffer.new.append e.bytes)._len = e.bytes.length := rfl
  have hds := File_new_datasize (Buffer.new.append e.bytes) (by rw [hhd, hhs, hs]; omega)
  rw [hhd] at hds
  have hm : mallocOk ((e.header.hsize + e.header.size + 4 : Nat) : Int) = true := by
    simp only [mallocOk, decide_eq_true_eq]; omega
  have hu : ¬ (e.bytes.length < e.header.hsize ∨
      ((e.header.hsize + e.header.size + 4 : Nat) : Int) < (e.header.hsize : Int)) := by
    omega
  have hct : (Buffer.new.append e.bytes).contents = e.payload := by
    simp only [Buffer.contents, hhd, append_mem, hhs]
    simp only [Entry.bytes, Entry.body]
    have hl := Header_bytes_length e.header
    rw [show e.header.bytes ++ (e.filename ++ e.extra ++ e.payload)
      = (e.header.bytes ++ e.filename ++ e.extra) ++ e.payload by simp only [List.append_assoc]]
    rw [List.drop_left' (by simp only [List.length_append]; omega)]
  have hcl : ¬ (e.payload.length < e.header.size) := by omega
  have hsp : e.header.size > 0 := by omega
  have htk : List.take e.header.hsize e.bytes = e.header.bytes ++ e.filename ++ e.extra := by
    have hl := Header_bytes_length e.header
    simp only [Entry.bytes, Entry.body, hhs]
    rw [show e.header.bytes ++ (e.filename ++ e.extra ++ e.payload)
      = (e.header.bytes ++ e.filename ++ e.extra) ++ e.payload by simp only [List.append_assoc]]
    rw [List.take_left' (by simp only [List.length_append]; omega)]
  simp only [File.new, hhd, hds, hm, hlen, hu, hsp, hc, hct, hcl, heapFilename_entry e hw,
    append_mem, htk, if_true, if_false, Bool.not_true]
  rw [hs, List.take_length]
  rfl

theorem Entry_bytes_ne (e : Entry) (rest : List Nat) : e.bytes ++ rest ≠ [] := by
  have := Entry_bytes_length e
  intro h
  have h2 := congrArg List.length h
  simp only [List.length_append, List.length_nil] at h2
  omega

theorem Entry_body_ne (e : Entry) (rest : List Nat) (hp : e.payload ≠ []) :
    e.body ++ rest ≠ [] := by
  have := List.length_pos.mpr hp
  intro h
  have h2 := congrArg List.length h
  simp only [Entry.body, List.length_append, List.length_nil] at h2
  omega

/-- C4 (stored entry round trip). For every file name, extra field and non-empty
payload `p`, scanning in one call a local file header with flags bit 3 clear,
compression method 0 and both sizes equal to the length of `p`, followed by the name,
the extra field and `p`, makes a new stream hand exactly one file to the delegate,
with that name and with data equal to `p`; the scan returns without error. -/
theorem C4_stored_round_trip (z : Zlib) (fuel : Nat) (e : Entry) (he : e.Stored)
    (hp : e.payload ≠ []) :
    ∃ (s' : Stream) (f : File),
      Stream.scan z (fuel + 1) Stream.new e.bytes = some (s', none) ∧
      s'._delegate = [f] ∧ f.name = some e.filename ∧ f.data = some e.payload := by
  obtain ⟨s', h1, h2, -, -, -, -⟩ := scanBody_sized z Stream.new rfl rfl (by decide) e he.1 []
    (Entry_body_ne e [] hp) _ (File_new_stored z e he hp)
  rw [List.append_nil] at h1
  refine ⟨s', _, ?_, h2, rfl, rfl⟩
  rw [scan_succ z fuel Stream.new s' e.bytes [] (by simpa using Entry_bytes_ne e []) h1,
    scan_nil]

/-- C4, at an input: the payload hello, with CRC-32 0x3610a686, under the name a. -/
theorem C4_stored_round_trip_witness :
    ∃ (s' : Stream) (f : File),
      Stream.scan noInflate 1 Stream.new sampleStored.bytes = some (s', none) ∧
      s'._delegate = [f] ∧ f.name = some [97] ∧ f.data = some hello :=
  C4_stored_round_trip noInflate 0 sampleStored (by decide) (by decide)

/-- C8 (two entries in one buffer). For every two well-formed sized entries with
non-empty payloads from which a `File` can be constructed, scanning the buffer made of
the first followed by the second with a new stream returns without error, has handed
exactly two files to the delegate, the one of the first entry and then the one of the
second, and has read as many bytes as both entries have. -/
theorem C8_two_entries_in_order (z : Zlib) (fuel : Nat) (e1 e2 : Entry) (f1 f2 : File)
    (h1 : e1.Sized) (h2 : e2.Sized) (hp1 : e1.payload ≠ []) (hp2 : e2.payload ≠ [])
    (hf1 : File.new z (Buffer.new.append e1.bytes) = .ok f1)
    (hf2 : File.new z (Buffer.new.append e2.bytes) = .ok f2) :
    ∃ s' : Stream,
      Stream.scan z (fuel + 2) Stream.new (e1.bytes ++ e2.bytes) = some (s', none) ∧
      s'._delegate = [f1, f2] ∧
      f1.name = some e1.filename ∧ f2.name = some e2.filename ∧
      s'.bytesRead = ((e1.bytes.length + e2.bytes.length : Nat) : Int) := by
  obtain ⟨s1, a1, a2, a3, a4, a5, a6⟩ := scanBody_sized z Stream.new rfl rfl (by decide) e1 h1
    e2.bytes (Entry_body_ne e1 _ hp1) f1 hf1
  obtain ⟨s2, b1, b2, b3, -, -, -⟩ := scanBody_sized z s1 a4 a5 a6 e2 h2 []
    (Entry_body_ne e2 [] hp2) f2 hf2
  rw [List.append_nil] at b1
  refine ⟨s2, ?_, ?_, ?_, ?_, ?_⟩
  · rw [scan_succ z (fuel + 1) Stream.new s1 _ e2.bytes (Entry_bytes_ne e1 _) a1,
      scan_succ z fuel s1 s2 e2.bytes [] (by simpa using Entry_bytes_ne e2 []) b1, scan_nil]
  · rw [b2, a2]; rfl
  · rw [show f1.name = f1._name from rfl, (File_new_fields z _ f1 hf1).2,
      heapFilename_entry e1 h1.1]
  · rw [show f2.name = f2._name from rfl, (File_new_fields z _ f2 hf2).2,
      heapFilename_entry e2 h2.1]
  · show s2._bytes_read = _
    rw [b3, a3]
    show (0 : Int) + _ + _ = _
    push_cast
    omega

set_option maxRecDepth 100000 in
/-- C8, at an input: the stored entry named a followed by the deflated entry named w,
with a zlib that inflates stored blocks. -/
theorem C8_two_entries_in_order_witness :
    ∃ s' : Stream,
      Stream.scan storedBlockInflate 2 Stream.new (sampleStored.bytes ++ sampleDeflated.bytes)
        = some (s', none) ∧
      s'._delegate =
        [{ _header := sampleStored.bytes.take 31, _data := some hello, _name := some [97] },
         { _header := sampleDeflated.bytes.take 31, _data := some world,
           _name := some [119] }] ∧
      some [97] = some sampleStored.filename ∧ some [119] = some sampleDeflated.filename ∧
      s'.bytesRead = ((sampleStored.bytes.length + sampleDeflated.bytes.length : Nat) : Int) :=
  C8_two_entries_in_order storedBlockInflate 0 sampleStored sampleDeflated _ _ (by decide)
    (by decide) (by decide) (by decide) rfl rfl

/-! ### Reading an entry that ends with a data descriptor -/

theorem copyLoop_append (a : List Nat) (g : List Nat) : ∀ b : Buffer, g ≠ [] →
    (matchLoop b._signature b._slen g).1 ≠ 4 →
    Buffer.copyLoop (g ++ a) b =
      Buffer.copyLoop a { b with _slen := (matchLoop b._signature b._slen g).1, _data := a,
                                 _buffer := some (b.mem ++ g) } := by
  induction g with
  | nil => intro b h; exact absurd rfl h
  | cons x rest ih =>
    intro b _ h4
    rw [List.cons_append, copyLoop_cons]
    rw [matchLoop_cons] at h4 ⊢
    have hm : b.matchByte x = (if b._signature.get? b._slen = some x then b._slen + 1 else 0) := rfl
    rw [← hm] at h4 ⊢
    by_cases hx : b.matchByte x = 4
    · rw [if_pos hx] at h4
      exact absurd hx h4
    · rw [if_neg hx] at h4 ⊢
      rw [if_neg hx]
      cases rest with
      | nil =>
        rw [matchLoop_nil]
        rfl
      | cons y rest' =>
        rw [ih { b with _slen := b.matchByte x, _data := y :: rest' ++ a,
                        _buffer := some (b.mem ++ [x]) } (by simp) h4]
        simp [Buffer.mem]

theorem DataDescriptor_bytes_eq (d : DataDescriptor) :
    d.bytes = [d._signature.low.low, d._signature.low.high, d._signature.high.low,
      d._signature.high.high, d._crc32.low.low, d._crc32.low.high, d._crc32.high.low,
      d._crc32.high.high, d._csize.low.low, d._csize.low.high, d._csize.high.low,
      d._csize.high.high, d._size.low.low, d._size.low.high, d._size.high.low,
      d._size.high.high] := rfl

theorem DataDescriptor_bytes_length (d : DataDescriptor) : d.bytes.length = 16 := rfl

theorem DataDescriptor_read_bytes (d : DataDescriptor) (t : List Nat) :
    DataDescriptor.read (d.bytes ++ t) = d := by
  rw [DataDescriptor_bytes_eq]
  simp [DataDescriptor.read, tByte4.read, tByte2.read, byteAt]

theorem copy_to_descriptor (m body : List Nat) (d : DataDescriptor) (rest : List Nat)
    (sz : Int) (fl : Nat)
    (hd : d._signature = ⟨⟨0x50, 0x4b⟩, ⟨0x07, 0x08⟩⟩)
    (hp : (matchLoop DataDescriptor.signature 0 body).1 = 0) :
    (Buffer.mk (some m) sz none fl (body ++ (d.bytes ++ rest)) DataDescriptor.signature 0).copy =
      Buffer.mk (some (m ++ body ++ [0x50, 0x4b, 0x07, 0x08])) sz none
        (Buffer.clearFlag fl Buffer.Copying) ((d.bytes ++ rest).drop 4)
        DataDescriptor.signature 4 := by
  show Buffer.copyLoop (body ++ (d.bytes ++ rest)) _ = _
  have hfound : ∀ m' : List Nat,
      Buffer.copyLoop (d.bytes ++ rest)
        (Buffer.mk (some m') sz none fl (d.bytes ++ rest) DataDescriptor.signature 0) =
      Buffer.mk (some (m' ++ [0x50, 0x4b, 0x07, 0x08])) sz none
        (Buffer.clearFlag fl Buffer.Copying) ((d.bytes ++ rest).drop 4)
        DataDescriptor.signature 4 := by
    intro m'
    rw [DataDescriptor_bytes_eq, hd]
    simp only [List.cons_append, List.nil_append]
    rw [copyLoop_found 0x50 0x4b 0x07 0x08 _ _ rfl rfl]
    rfl
  by_cases hb : body = []
  · subst hb
    simp only [List.nil_append, List.append_nil]
    exact hfound m
  · rw [copyLoop_append _ body _ hb (by show (matchLoop DataDescriptor.signature 0 body).1 ≠ 4
                                        rw [hp]; omega)]
    have : (matchLoop (Buffer.mk (some m) sz none fl (body ++ (d.bytes ++ rest))
        DataDescriptor.signature 0)._signature
        (Buffer.mk (some m) sz none fl (body ++ (d.bytes ++ rest))
        DataDescriptor.signature 0)._slen body).1 = 0 := hp
    rw [this]
    exact hfound (m ++ body)

theorem copyBytes_descriptor (m d12 rest : List Nat) (sz : Int) (dd : Option Int) (fl : Nat)
    (sg : List Nat) (sl : Nat) (h12 : d12.length = 12) :
    (Buffer.mk (some m) sz dd fl (d12 ++ rest) sg sl).copyBytes 12 =
      (Buffer.mk (some (m ++ d12)) sz dd fl rest sg sl, 12) := by
  simp only [Buffer.copyBytes]
  have h1 : ¬ ((12 : Int) < 0) := by omega
  have h2 : (12 : Int) > 0 := by omega
  have hd : (Buffer.mk (some m) sz dd fl (d12 ++ rest) sg sl)._dlen = 12 + rest.length := by
    show (d12 ++ rest).length = _
    rw [List.length_append, h12]
  have h3 : (if (12 : Int) < ((12 + rest.length : Nat) : Int) then (12 : Int)
      else ((12 + rest.length : Nat) : Int)) = 12 := by
    split <;> omega
  simp only [h1, h2, if_true, if_false, hd, h3]
  have e1 : List.take (12 : Int).toNat (d12 ++ rest) = d12 := by
    rw [show (12 : Int).toNat = d12.length by rw [h12]; rfl, List.take_left']
    rfl
  have e2 : List.drop (12 : Int).toNat (d12 ++ rest) = rest := by
    rw [show (12 : Int).toNat = d12.length by rw [h12]; rfl, List.drop_left']
    rfl
  rw [e1, e2]
  rfl

theorem descriptor_split (d : DataDescriptor)
    (hd : d._signature = ⟨⟨0x50, 0x4b⟩, ⟨0x07, 0x08⟩⟩) :
    d.bytes = [0x50, 0x4b, 0x07, 0x08] ++ d.bytes.drop 4 ∧ (d.bytes.drop 4).length = 12 := by
  rw [DataDescriptor_bytes_eq, hd]
  exact ⟨rfl, rfl⟩

theorem copyUnsized_entry (h : Header) (body : List Nat) (d : DataDescriptor)
    (rest : List Nat) (sz : Int) (sg : List Nat) (sl : Nat)
    (hd : d._signature = ⟨⟨0x50, 0x4b⟩, ⟨0x07, 0x08⟩⟩)
    (hp : (matchLoop DataDescriptor.signature 0 body).1 = 0) :
    (Buffer.mk (some h.bytes) sz none 0 (body ++ (d.bytes ++ rest)) sg sl).copyUnsized =
      Buffer.mk (some ((h.setDataDescriptor d).bytes ++ (body ++ d.bytes))) sz
        (some ((30 + body.length : Nat) : Int)) Buffer.FileFound rest
        DataDescriptor.signature 4 := by
  obtain ⟨hsplit, h12⟩ := descriptor_split d hd
  have hcopy := copy_to_descriptor h.bytes body d rest sz (0 ||| Buffer.Copying) hd hp
  have hdrop : (d.bytes ++ rest).drop 4 = d.bytes.drop 4 ++ rest := by
    rw [List.drop_append_of_le_length (by rw [DataDescriptor_bytes_length]; omega)]
  rw [hdrop] at hcopy
  have hcb := copyBytes_descriptor (h.bytes ++ body ++ [0x50, 0x4b, 0x07, 0x08])
    (d.bytes.drop 4) rest sz
    (some (((h.bytes ++ body ++ [0x50, 0x4b, 0x07, 0x08]).length : Int) - 4))
    (Buffer.clearFlag (0 ||| Buffer.Copying) Buffer.Copying) DataDescriptor.signature 4 h12
  have hlen : ((h.bytes ++ body ++ [0x50, 0x4b, 0x07, 0x08]).length : Int) - 4
      = ((30 + body.length : Nat) : Int) := by
    simp only [List.length_append, Header_bytes_length, List.length_cons, List.length_nil]
    push_cast
    omega
  have hto : toInt32 ((DataDescriptor.sizeof : Int)
      - (((h.bytes ++ body ++ [0x50, 0x4b, 0x07, 0x08]).length : Int)
        - (((h.bytes ++ body ++ [0x50, 0x4b, 0x07, 0x08]).length : Int) - 4))) = 12 := by
    rw [toInt32_eq _ (by simp only [DataDescriptor.sizeof]; omega)
      (by simp only [DataDescriptor.sizeof]; omega)]
    simp only [DataDescriptor.sizeof]
    omega
  have hmem : h.bytes ++ body ++ [0x50, 0x4b, 0x07, 0x08] ++ d.bytes.drop 4
      = h.bytes ++ (body ++ d.bytes) := by
    rw [List.append_assoc, List.append_assoc, ← hsplit]
  rw [hmem] at hcb
  -- the header and the descriptor seen in the buffer
  have hhd : Header.read (h.bytes ++ (body ++ d.bytes)) = h := Header_read_bytes h _
  have hdd : DataDescriptor.read ((h.bytes ++ (body ++ d.bytes)).drop (30 + body.length)) = d := by
    have hl := Header_bytes_length h
    rw [← List.append_assoc,
      List.drop_left' (by rw [List.length_append, hl]), ]
    have := DataDescriptor_read_bytes d []
    rwa [List.append_nil] at this
  have hdr30 : (h.bytes ++ (body ++ d.bytes)).drop 30 = body ++ d.bytes := by
    have hl := Header_bytes_length h
    rw [List.drop_left' hl]
  unfold Buffer.copyUnsized
  have c1 : (Buffer.mk (some h.bytes) sz none 0 (body ++ (d.bytes ++ rest)) sg sl)._dd.isNone
      = true ∧
      (Buffer.mk (some h.bytes) sz none 0 (body ++ (d.bytes ++ rest)) sg sl)._flags
        &&& Buffer.Copying = 0 := ⟨rfl, by show (0 &&& Buffer.Copying) = 0; decide⟩
  simp only [c1, and_self, if_true]
  have c2 : ((Buffer.mk (some h.bytes) sz none 0 (body ++ (d.bytes ++ rest)) sg sl).copyUntil
      DataDescriptor.signature)._flags &&& Buffer.Copying ≠ 0 := by
    show (0 ||| Buffer.Copying) &&& Buffer.Copying ≠ 0
    decide
  simp only [c2, ne_eq, not_false_eq_true, if_true]
  rw [show (Buffer.mk (some h.bytes) sz none 0 (body ++ (d.bytes ++ rest)) sg sl).copyUntil
      DataDescriptor.signature
      = Buffer.mk (some h.bytes) sz none (0 ||| Buffer.Copying) (body ++ (d.bytes ++ rest))
          DataDescriptor.signature 0 from rfl]
  rw [hcopy]
  have c3 : (Buffer.mk (some (h.bytes ++ body ++ [0x50, 0x4b, 0x07, 0x08])) sz none
      (Buffer.clearFlag (0 ||| Buffer.Copying) Buffer.Copying) (d.bytes.drop 4 ++ rest)
      DataDescriptor.signature 4)._dlen > 0 := by
    show (d.bytes.drop 4 ++ rest).length > 0
    rw [List.length_append, h12]; omega
  simp only [c3, if_true]
  simp only [Option.isNone_none, if_true, Buffer._len, Buffer.mem, Option.getD_some]
  simp only [hto, hcb, if_true]
  simp only [Buffer.setDataDescriptor, Buffer.header, Buffer.dataDescriptor, Buffer.mem,
    Option.getD_some, hhd, hlen, Int.toNat_ofNat, hdd, Header.sizeof, hdr30]
  rfl

theorem core_descriptor (b : Buffer) (hm : b.mem = []) (hf : b._flags = 0) (hdd : b._dd = none)
    (e : Entry) (d : DataDescriptor) (hw : e.WellFormed) (hsz : e.header.hasSize = false)
    (hd : d._signature = ⟨⟨0x50, 0x4b⟩, ⟨0x07, 0x08⟩⟩)
    (hp : Buffer.progress DataDescriptor.signature e.body = 0) (rest : List Nat) :
    b.core (e.bytes ++ (d.bytes ++ rest)) =
      Buffer.mk (some ((e.header.setDataDescriptor d).bytes ++ (e.body ++ d.bytes))) 0
        (some ((30 + e.body.length : Nat) : Int)) Buffer.FileFound rest
        DataDescriptor.signature 4 := by
  rw [progress_eq] at hp
  have hih : (b.norm (e.bytes ++ (d.bytes ++ rest))).isHeader = false := by
    simp only [Buffer.isHeader, Header.sizeof, decide_eq_false_iff_not]
    show ¬ 30 ≤ b.mem.length
    rw [hm]; simp
  have hsc := scanForHeader_header b hm hf e.header hw.1 (e.body ++ (d.bytes ++ rest))
  rw [hdd] at hsc
  have hdl : (Buffer.mk (some e.header.bytes) 0 none 0 (e.body ++ (d.bytes ++ rest))
      Header.signature 4)._dlen > 0 := by
    show (e.body ++ (d.bytes ++ rest)).length > 0
    simp only [List.length_append, DataDescriptor_bytes_length]
    omega
  have hhd : (Buffer.mk (some e.header.bytes) 0 none 0 (e.body ++ (d.bytes ++ rest))
      Header.signature 4).header = e.header := by
    show Header.read e.header.bytes = e.header
    have := Header_read_bytes e.header []
    rwa [List.append_nil] at this
  have hcu := copyUnsized_entry e.header e.body d rest 0 Header.signature 4 hd hp
  unfold Buffer.core Buffer.addRest
  simp only [hih, Bool.not_false, if_true]
  rw [show e.bytes ++ (d.bytes ++ rest) = e.header.bytes ++ (e.body ++ (d.bytes ++ rest)) by
    simp only [Entry.bytes, List.append_assoc]]
  rw [hsc]
  simp only [hdl, hhd, hsz, if_true, hcu]
  rfl

theorem core_unsized (b : Buffer) (hm : b.mem = []) (hf : b._flags = 0) (hdd : b._dd = none)
    (e : Entry) (d : DataDescriptor) (he : e.StoredUnsized d)
    (hp : Buffer.progress DataDescriptor.signature e.body = 0) (rest : List Nat) :
    b.core (e.bytes ++ (d.bytes ++ rest)) =
      Buffer.mk (some ((e.header.setDataDescriptor d).bytes ++ (e.body ++ d.bytes))) 0
        (some ((30 + e.body.length : Nat) : Int)) Buffer.FileFound rest
        DataDescriptor.signature 4 :=
  core_descriptor b hm hf hdd e d he.1 he.2.1 he.2.2.2.1 hp rest

theorem File_new_stored_gen (z : Zlib) (B : Buffer) (h : Header) (fn ex p t : List Nat)
    (hmem : B.mem = h.bytes ++ (fn ++ ex ++ p ++ t)) (hfn : h.fnlength = fn.length)
    (hex : h.extralength = ex.length) (hc : h.compression = Header.Stored)
    (hs : h.size = p.length)
    (hfit : 30 + fn.length + ex.length + p.length + 4 < 2147483648) :
    File.new z B =
      .ok { _header := h.bytes ++ fn ++ ex, _data := if p = [] then none else some p,
            _name := some fn } := by
  have hl := Header_bytes_length h
  have hhs : h.hsize = 30 + fn.length + ex.length := by
    simp only [Header.hsize, Header.sizeof, hfn, hex]
    rw [Nat.mod_eq_of_lt (by omega)]
  have hhd : B.header = h := by
    show Header.read B.mem = h
    rw [hmem]; exact Header_read_bytes h _
  have hlen : B._len = 30 + fn.length + ex.length + p.length + t.length := by
    show B.mem.length = _
    rw [hmem]; simp only [List.length_append, hl]; omega
  have hds := File_new_datasize B (by rw [hhd, hhs, hs]; omega)
  rw [hhd] at hds
  have hm : mallocOk ((h.hsize + h.size + 4 : Nat) : Int) = true := by
    simp only [mallocOk, decide_eq_true_eq]; omega
  have hu : ¬ (B._len < h.hsize ∨
      ((h.hsize + h.size + 4 : Nat) : Int) < (h.hsize : Int)) := by
    omega
  have hct : B.contents = p ++ t := by
    simp only [Buffer.contents, hhd, hmem, hhs]
    rw [show h.bytes ++ (fn ++ ex ++ p ++ t) = (h.bytes ++ fn ++ ex) ++ (p ++ t) by
      simp only [List.append_assoc]]
    rw [List.drop_left' (by simp only [List.length_append]; omega)]
  have hcl : ¬ ((p ++ t).length < h.size) := by
    simp only [List.length_append]; omega
  have htk : List.take h.hsize B.mem = h.bytes ++ fn ++ ex := by
    rw [hmem, hhs]
    rw [show h.bytes ++ (fn ++ ex ++ p ++ t) = (h.bytes ++ fn ++ ex) ++ (p ++ t) by
      simp only [List.append_assoc]]
    rw [List.take_left' (by simp only [List.length_append]; omega)]
  have hih : B.isHeader = true := by
    simp only [Buffer.isHeader, Header.sizeof, decide_eq_true_eq]; omega
  have hmn : mallocOk ((fn.length : Int) + 1) = true := by
    simp only [mallocOk, decide_eq_true_eq]; omega
  have hname : B.heapFilename = some fn := by
    simp only [Buffer.heapFilename, hih, hhd, hfn, hmn, if_true, Header.sizeof, hmem]
    rw [List.drop_left' hl]
    simp only [List.append_assoc, List.take_left']
  simp only [File.new, hhd, hds, hm, hu, hc, hct, hcl, hname, htk, if_true, if_false,
    Bool.not_true]
  by_cases hp : p = []
  · subst hp
    have : ¬ (h.size > 0) := by rw [hs]; simp
    simp only [this, if_false, if_true, Bool.false_eq_true]
  · have : h.size > 0 := by rw [hs]; exact List.length_pos.mpr hp
    have hpl : p.length > 0 := List.length_pos.mpr hp
    simp only [this, hp, if_true, if_false, Bool.false_eq_true, hs, List.take_left', hpl]

/-- C5 (entry with a data descriptor), as amended. For every stored entry whose header
has flags bit 3 set, followed by its payload `p` and a data descriptor that starts with
the signature 50 4B 07 08 and gives the length of `p` as uncompressed size, such that
the matcher of the descriptor signature has progress 0 after the file name, the extra
field and `p`: the first round of the scan of a new stream hands one file to the
delegate, of size the length of `p`, with data `p`, and with the CRC-32 and the sizes
of its header equal to those of the descriptor; the scan goes on with the bytes that
follow the descriptor, and returns when there are none. -/
theorem C5_unsized_entry (z : Zlib) (fuel : Nat) (e : Entry) (d : DataDescriptor)
    (rest : List Nat) (he : e.StoredUnsized d)
    (hp : Buffer.progress DataDescriptor.signature e.body = 0) :
    ∃ (s1 : Stream) (f : File),
      Stream.scan z (fuel + 1) Stream.new (e.bytes ++ (d.bytes ++ rest))
        = Stream.scan z fuel s1 rest ∧
      (rest = [] → Stream.scan z (fuel + 1) Stream.new (e.bytes ++ (d.bytes ++ rest))
        = some (s1, none)) ∧
      s1._delegate = [f] ∧ s1._buffer.mem = [] ∧
      s1.bytesRead = ((e.bytes.length + 16 : Nat) : Int) ∧
      f.size = e.payload.length ∧ f.data.getD [] = e.payload ∧ f.name = some e.filename ∧
      f.header.crc32 = d.crc32 ∧ f.header.csize = d.csize ∧ f.header.size = d.size := by
  have hcore := core_unsized Buffer.new rfl rfl rfl e d he hp rest
  obtain ⟨hw, hsz, hc, hd, hs⟩ := he
  obtain ⟨-, hfn, hex, hfit⟩ := hw
  have hbl := Entry_bytes_length e
  have hbd : e.body.length = e.filename.length + e.extra.length + e.payload.length := by
    simp only [Entry.body, List.length_append]
  have hfile := File_new_stored_gen z
    (Buffer.mk (some ((e.header.setDataDescriptor d).bytes ++ (e.body ++ d.bytes))) 0
      (some ((30 + e.body.length : Nat) : Int)) Buffer.FileFound rest
      DataDescriptor.signature 4)
    (e.header.setDataDescriptor d) e.filename e.extra e.payload d.bytes
    (by simp only [Buffer.mem, Option.getD_some, Entry.body, List.append_assoc])
    hfn hex hc hs (by omega)
  have hne : e.bytes ++ (d.bytes ++ rest) ≠ [] := Entry_bytes_ne e _
  obtain ⟨s1, h1, h2, h3, h4, -, -⟩ := scanBody_found z Stream.new
    (e.bytes ++ (d.bytes ++ rest)) rest _ (by decide) hne rfl hcore rfl rfl _ hfile
  have hscan := scan_succ z fuel Stream.new s1 _ rest hne h1
  refine ⟨s1, _, hscan, ?_, h2, h4, ?_, ?_, ?_, rfl, ?_, ?_, ?_⟩
  · intro hr
    rw [hscan, hr, scan_nil]
  · show s1._bytes_read = _
    rw [h3]
    simp only [List.length_append, DataDescriptor_bytes_length]
    show (0 : Int) + _ = _
    push_cast
    omega
  · show (Header.read (((e.header.setDataDescriptor d).bytes ++ e.filename) ++ e.extra)).size = _
    rw [List.append_assoc, Header_read_bytes]
    exact hs
  · show (if e.payload = [] then none else some e.payload).getD [] = e.payload
    split
    · rename_i h; rw [h]; rfl
    · rfl
  · show (Header.read (((e.header.setDataDescriptor d).bytes ++ e.filename) ++ e.extra)).crc32 = _
    rw [List.append_assoc, Header_read_bytes]
    rfl
  · show (Header.read (((e.header.setDataDescriptor d).bytes ++ e.filename) ++ e.extra)).csize = _
    rw [List.append_assoc, Header_read_bytes]
    rfl
  · show (Header.read (((e.header.setDataDescriptor d).bytes ++ e.filename) ++ e.extra)).size = _
    rw [List.append_assoc, Header_read_bytes]
    rfl

/-- C5, at an input: the payload hello under the name a, the CRC-32 and the sizes zero
in the header and given by the descriptor, followed by one byte. -/
theorem C5_unsized_entry_witness :
    ∃ (s1 : Stream) (f : File),
      Stream.scan noInflate 2 Stream.new
          (sampleUnsized.bytes ++ (sampleDataDescriptor.bytes ++ [0]))
        = Stream.scan noInflate 1 s1 [0] ∧
      ([0] = [] → Stream.scan noInflate 2 Stream.new
          (sampleUnsized.bytes ++ (sampleDataDescriptor.bytes ++ [0])) = some (s1, none)) ∧
      s1._delegate = [f] ∧ s1._buffer.mem = [] ∧
      s1.bytesRead = ((sampleUnsized.bytes.length + 16 : Nat) : Int) ∧
      f.size = hello.length ∧ f.data.getD [] = hello ∧ f.name = some [97] ∧
      f.header.crc32 = sampleDataDescriptor.crc32 ∧
      f.header.csize = sampleDataDescriptor.csize ∧
      f.header.size = sampleDataDescriptor.size :=
  C5_unsized_entry noInflate 1 sampleUnsized sampleDataDescriptor [0] (by decide) (by decide)

/-- C5 as stated fails: for the payload made of the byte 50, with a header whose
CRC-32 and sizes are zero and flags bit 3 set, a descriptor with the signature, the
CRC-32 of the payload and both sizes 1, and one further byte, no file is delivered. -/
theorem C5_unsized_entry_counterexample :
    sampleUnsized50.StoredUnsized sampleDataDescriptor50 ∧
    sampleUnsized50.header.crc32 = 0 ∧ sampleUnsized50.header.csize = 0 ∧
    sampleUnsized50.header.size = 0 ∧
    sampleDataDescriptor50.crc32 = Zlib.crc32 sampleUnsized50.payload ∧
    sampleDataDescriptor50.csize = 1 ∧
    Stream.delivered (Stream.scan noInflate 2 Stream.new
      (sampleUnsized50.bytes ++ (sampleDataDescriptor50.bytes ++ [0]))) = some ([], none) := by
  decide

/-! ### Derived values of a header -/

theorem and_eight_eq_zero_iff (n : Nat) : n &&& 8 = 0 ↔ n.testBit 3 = false := by
  constructor
  · intro h
    have := congrArg (fun m => m.testBit 3) h
    simp only [Nat.testBit_and, Nat.zero_testBit] at this
    have h8 : Nat.testBit 8 3 = true := by decide
    rw [h8, Bool.and_true] at this
    exact this
  · intro h
    apply Nat.eq_of_testBit_eq
    intro i
    rw [Nat.testBit_and, Nat.zero_testBit]
    by_cases hi : i = 3
    · subst hi; rw [h]; rfl
    · have : Nat.testBit 8 i = false := by
        have : (8 : Nat) = 2 ^ 3 := by norm_num
        rw [this, Nat.testBit_two_pow]
        simp only [decide_eq_false_iff_not]
        omega
      rw [this, Bool.and_false]

theorem bytes2number2_lt (v : tByte2) (h0 : v.low < 256) (h1 : v.high < 256) :
    v.bytes2number < 65536 := by
  rw [bytes2number2_eq v h0]
  omega

/-- C11 (derived header values). For every header whose two length fields are made of
bytes (values below 256), `hsize()` is 30 plus the file name length plus the extra
field length; and for every header `hasSize()` holds exactly when bit 3 (0x0008) of
`flags()` is clear. -/
theorem C11_derived_header_values (h : Header)
    (hfn : h._fnlength.low < 256 ∧ h._fnlength.high < 256)
    (hex : h._extralength.low < 256 ∧ h._extralength.high < 256) :
    h.hsize = 30 + h.fnlength + h.extralength ∧
    (h.hasSize = true ↔ h.flags.testBit 3 = false) ∧
    (h.hasSize = true ↔ h.flags &&& 0x0008 = 0) := by
  have h1 := bytes2number2_lt h._fnlength hfn.1 hfn.2
  have h2 := bytes2number2_lt h._extralength hex.1 hex.2
  have hiff : h.hasSize = true ↔ h.flags &&& 8 = 0 := by
    simp only [Header.hasSize, Header.DescriptorUsed, beq_iff_eq]
  refine ⟨?_, ?_, hiff⟩
  · simp only [Header.hsize, Header.sizeof, Header.fnlength, Header.extralength]
    exact Nat.mod_eq_of_lt (by omega)
  · rw [hiff]
    exact and_eight_eq_zero_iff h.flags

/-- C11, at an input: the header of the sample entry, with a name of length 1, no extra
field and flags 0. -/
theorem C11_derived_header_values_witness :
    (sampleHeader 0 0 0x3610a686 5 5 1 0).hsize = 31 ∧
    (sampleHeader 0 0 0x3610a686 5 5 1 0).hasSize = true ∧
    (sampleHeader 8 0 0 0 0 1 0).hasSize = false :=
  ⟨((C11_derived_header_values (sampleHeader 0 0 0x3610a686 5 5 1 0)
      ⟨by decide, by decide⟩ ⟨by decide, by decide⟩).1).trans (by decide),
    by decide, by decide⟩

/-! ### `reset` -/

/-- C15 (`reset`). For every buffer state, `reset()` sets the length to 0, clears the
flags (so that none of `Skiping`, `Copying` and `FileFound` is set) and the data
descriptor offset, and leaves the storage allocated (or not) as it was, with its
capacity `_size`; the data to read, the signature and the match progress stay too. -/
theorem C15_reset (b : Buffer) :
    b.reset._len = 0 ∧ b.reset._flags = 0 ∧
    b.reset._flags &&& Buffer.Skiping = 0 ∧ b.reset._flags &&& Buffer.Copying = 0 ∧
    b.reset._flags &&& Buffer.FileFound = 0 ∧ b.reset.fileFound = false ∧
    b.reset._dd = none ∧
    b.reset._size = b._size ∧ b.reset._buffer.isSome = b._buffer.isSome ∧
    b.reset._data = b._data ∧ b.reset._signature = b._signature ∧
    b.reset._slen = b._slen := by
  have hf : b.reset._flags = 0 := rfl
  have hfound : b.reset.fileFound = false := by
    show ((b.reset._flags &&& Buffer.FileFound) != 0) = false
    rw [hf]
    decide
  refine ⟨?_, hf, by rw [hf]; decide, by rw [hf]; decide, by rw [hf]; decide, hfound, rfl, rfl,
    ?_, rfl, rfl, rfl⟩
  · show b.reset.mem.length = 0
    rw [reset_mem]
    rfl
  · obtain ⟨buf, size, dd, flags, data, sig, slen⟩ := b
    cases buf <;> rfl

/-! ### The data descriptor overrides the header -/

/-- C16 (descriptor override). For every header `h` and data descriptor `d`, after
`h.setDataDescriptor(d)` the CRC-32 and the two sizes of the header are those of `d`
and every other field is unchanged; in a buffer, the statement
`header() -> setDataDescriptor( dataDescriptor() )` changes the header in this way and
leaves the bytes behind the 30 bytes of the header as they are. -/
theorem C16_descriptor_override (h : Header) (d : DataDescriptor) :
    (h.setDataDescriptor d).crc32 = d.crc32 ∧
    (h.setDataDescriptor d).csize = d.csize ∧
    (h.setDataDescriptor d).size = d.size ∧
    (h.setDataDescriptor d)._signature = h._signature ∧
    (h.setDataDescriptor d)._version = h._version ∧
    (h.setDataDescriptor d)._flags = h._flags ∧
    (h.setDataDescriptor d)._compression = h._compression ∧
    (h.setDataDescriptor d)._mtime = h._mtime ∧
    (h.setDataDescriptor d)._mdate = h._mdate ∧
    (h.setDataDescriptor d)._fnlength = h._fnlength ∧
    (h.setDataDescriptor d)._extralength = h._extralength ∧
    (h.setDataDescriptor d).flags = h.flags ∧
    (h.setDataDescriptor d).compression = h.compression ∧
    (h.setDataDescriptor d).fnlength = h.fnlength ∧
    (h.setDataDescriptor d).extralength = h.extralength ∧
    (h.setDataDescriptor d).hsize = h.hsize ∧
    (h.setDataDescriptor d).hasSize = h.hasSize ∧
    (∀ b : Buffer,
      b.setDataDescriptor.header = b.header.setDataDescriptor b.dataDescriptor ∧
      b.setDataDescriptor.mem.drop 30 = b.mem.drop 30) := by
  refine ⟨rfl, rfl, rfl, rfl, rfl, rfl, rfl, rfl, rfl, rfl, rfl, rfl, rfl, rfl, rfl, rfl, rfl,
    fun b => ⟨?_, ?_⟩⟩
  · show Header.read ((b.header.setDataDescriptor b.dataDescriptor).bytes
      ++ b.mem.drop Header.sizeof) = _
    exact Header_read_bytes _ _
  · show ((b.header.setDataDescriptor b.dataDescriptor).bytes ++ b.mem.drop 30).drop 30 = _
    rw [List.drop_append_of_le_length (by rw [Header_bytes_length])]
    show List.drop 30 (b.header.setDataDescriptor b.dataDescriptor).bytes ++ _ = _
    rw [List.drop_of_length_le (by rw [Header_bytes_length])]
    rfl

/-! ### `needed` -/

theorem toInt32_range (n : Int) :
    -2147483648 ≤ toInt32 n ∧ toInt32 n < 2147483648 ∧ (toInt32 n - n) % 4294967296 = 0 := by
  unfold toInt32
  split
  · rename_i m hm
    have hm' : n % 4294967296 = (m : Int) := hm
    have hlt := Int.emod_lt_of_pos n (by omega : (0 : Int) < 4294967296)
    split
    · refine ⟨?_, ?_, ?_⟩
      · show -2147483648 ≤ (m : Int)
        omega
      · show (m : Int) < 2147483648
        omega
      · show ((m : Int) - n) % 4294967296 = 0
        omega
    · rw [Int.negSucc_eq]
      refine ⟨?_, ?_, ?_⟩ <;> omega
  · rename_i m hm
    have := Int.emod_nonneg n (by decide : (4294967296 : Int) ≠ 0)
    rw [hm] at this
    exact absurd this (by simp [Int.negSucc_not_nonneg])

/-- C12 (the formula of `needed`). For every buffer state: with less than 30 bytes in
the buffer `needed()` is 30 minus the length; with a complete header it is, as a 32 bit
value, the header size plus the compressed size (when the size is known, else plus 0)
minus the length, these being taken from the header in the buffer: it is a 32 bit `int`
congruent to that number modulo `2^32`, and equal to it when the sum fits 32 bits and
the difference fits an `int`. -/
theorem C12_needed_formula (b : Buffer) :
    (b._len < 30 → b.needed = 30 - (b._len : Int)) ∧
    (30 ≤ b._len →
      -2147483648 ≤ b.needed ∧ b.needed < 2147483648 ∧
      (b.needed - (((b.header.hsize + (if b.header.hasSize then b.header.csize else 0) : Nat) : Int)
        - (b._len : Int))) % 4294967296 = 0 ∧
      (b.header.hsize + (if b.header.hasSize then b.header.csize else 0) < 4294967296 →
        -2147483648 ≤ ((b.header.hsize + (if b.header.hasSize then b.header.csize else 0) : Nat) : Int)
          - (b._len : Int) →
        ((b.header.hsize + (if b.header.hasSize then b.header.csize else 0) : Nat) : Int)
          - (b._len : Int) < 2147483648 →
        b.needed = ((b.header.hsize + (if b.header.hasSize then b.header.csize else 0) : Nat) : Int)
          - (b._len : Int))) := by
  constructor
  · intro hlt
    have hh : b.isHeader = false := by
      simp only [Buffer.isHeader, Header.sizeof, decide_eq_false_iff_not]
      omega
    simp only [Buffer.needed, hh, Bool.false_eq_true, if_false, Header.sizeof]
    rw [toInt32_eq _ (by omega) (by omega)]
    rfl
  · intro hge
    have hh : b.isHeader = true := by
      simp only [Buffer.isHeader, Header.sizeof, decide_eq_true_eq]
      exact hge
    generalize hv : b.header.hsize + (if b.header.hasSize then b.header.csize else 0) = v
    have hn : b.needed = toInt32 (((v % 4294967296 : Nat) : Int) - (b._len : Int)) := by
      simp only [Buffer.needed, hh, if_true, hv]
    have hr := toInt32_range (((v % 4294967296 : Nat) : Int) - (b._len : Int))
    rw [← hn] at hr
    refine ⟨hr.1, hr.2.1, ?_, ?_⟩
    · have := hr.2.2
      omega
    · intro h1 h2 h3
      rw [hn, Nat.mod_eq_of_lt h1]
      exact toInt32_eq _ h2 h3

/-- C12, at an input: the buffer holding the 36 bytes of the sample entry, whose header
asks for 31 + 5 bytes; and an empty buffer. -/
theorem C12_needed_formula_witness :
    sampleBuffer.needed = 0 ∧ Buffer.new.needed = 30 :=
  ⟨((C12_needed_formula sampleBuffer).2 (by decide)).2.2.2 (by decide) (by decide) (by decide),
    (C12_needed_formula Buffer.new).1 (by decide)⟩

/-! ### `reserveSpace` -/

theorem reserveSpace_cases (b : Buffer) (extra : Int) :
    b.reserveSpace extra =
      (match b._buffer with
        | some m =>
          if b._size - (b._len : Int) < (if extra < 4 then extra + 4 else extra) + 4 then
            (Buffer.mk (Buffer.realloc m (b._size + (if extra < 4 then extra + 4 else extra) * 2))
              (b._size + (if extra < 4 then extra + 4 else extra) * 2) b._dd b._flags b._data
              b._signature b._slen,
             if (Buffer.realloc m (b._size + (if extra < 4 then extra + 4 else extra) * 2)).isNone
              then some Exception.zipfileError else none)
          else (b, none)
        | none =>
          (Buffer.mk (if mallocOk ((if extra < 4 then extra + 4 else extra) + 4) then some [] else none)
            ((if extra < 4 then extra + 4 else extra) + 4) b._dd b._flags b._data
            b._signature b._slen,
           if mallocOk ((if extra < 4 then extra + 4 else extra) + 4) then none
            else some Exception.zipfileError)) := by
  obtain ⟨buf, size, dd, flags, data, sig, slen⟩ := b
  cases buf with
  | none =>
    simp only [Buffer.reserveSpace]
    by_cases hm : mallocOk ((if extra < 4 then extra + 4 else extra) + 4) = true
    · simp only [hm, if_true]; rfl
    · simp only [hm, if_false]; rfl
  | some m =>
    simp only [Buffer.reserveSpace]
    by_cases hlt : size - ((Buffer.mk (some m) size dd flags data sig slen)._len : Int)
        < (if extra < 4 then extra + 4 else extra) + 4
    · simp only [hlt, if_true]
      by_cases hn : (Buffer.realloc m (size + (if extra < 4 then extra + 4 else extra) * 2)).isNone
          = true
      · simp only [hn, if_true]
      · simp only [hn, if_false]; rfl
    · simp only [hlt, if_false]
      rfl
/-- C13 (capacity after `reserveSpace`). For every buffer state whose length is at most
its capacity and every `extra > 0`: `reserveSpace(extra)` succeeds, afterwards the spare
capacity `_size - _len` is at least `extra + 4`; when the storage exists and is grown,
the capacity increases by exactly twice the adjusted size (`extra + 4` for `extra < 4`,
else `extra`), when it exists and is large enough the capacity stays, and new storage
gets the adjusted size plus 4. -/
theorem C13_reserveSpace_capacity (b : Buffer) (extra : Int)
    (hlen : (b._len : Int) ≤ b._size) (hpos : 0 < extra) :
    (b.reserveSpace extra).2 = none ∧
    extra + 4 ≤ (b.reserveSpace extra).1._size - ((b.reserveSpace extra).1._len : Int) ∧
    (b._buffer.isSome = true →
      b._size - (b._len : Int) < (if extra < 4 then extra + 4 else extra) + 4 →
      (b.reserveSpace extra).1._size = b._size + 2 * (if extra < 4 then extra + 4 else extra)) ∧
    (b._buffer.isSome = true →
      ¬ b._size - (b._len : Int) < (if extra < 4 then extra + 4 else extra) + 4 →
      (b.reserveSpace extra).1._size = b._size) ∧
    (b._buffer.isSome = false →
      (b.reserveSpace extra).1._size = (if extra < 4 then extra + 4 else extra) + 4) := by
  obtain ⟨buf, size, dd, flags, data, sig, slen⟩ := b
  cases buf with
  | none =>
    have hm : mallocOk ((if extra < 4 then extra + 4 else extra) + 4) = true := by
      simp only [mallocOk, decide_eq_true_eq]; split <;> omega
    have e : (Buffer.mk none size dd flags data sig slen).reserveSpace extra =
        (Buffer.mk (some []) ((if extra < 4 then extra + 4 else extra) + 4) dd flags data sig slen,
          none) := by
      rw [reserveSpace_cases]
      simp only [hm, if_true]
    rw [e]
    refine ⟨rfl, ?_, fun h => ?_, fun h => ?_, fun _ => rfl⟩
    · show extra + 4 ≤ (if extra < 4 then extra + 4 else extra) + 4 - ((0 : Nat) : Int)
      split <;> omega
    · cases h
    · cases h
  | some m =>
    have hlen' : (m.length : Int) ≤ size := hlen
    by_cases hlt : size - ((Buffer.mk (some m) size dd flags data sig slen)._len : Int)
        < (if extra < 4 then extra + 4 else extra) + 4
    · have hm : mallocOk (size + (if extra < 4 then extra + 4 else extra) * 2) = true := by
        simp only [mallocOk, decide_eq_true_eq]; split <;> omega
      have ht : m.take (size + (if extra < 4 then extra + 4 else extra) * 2).toNat = m := by
        apply List.take_of_length_le
        split <;> omega
      have hr : Buffer.realloc m (size + (if extra < 4 then extra + 4 else extra) * 2) = some m := by
        simp only [Buffer.realloc, hm, if_true, ht]
      have e : (Buffer.mk (some m) size dd flags data sig slen).reserveSpace extra =
          (Buffer.mk (some m) (size + (if extra < 4 then extra + 4 else extra) * 2) dd flags data
            sig slen, none) := by
        rw [reserveSpace_cases]
        simp only [hlt, if_true, hr]
        rfl
      rw [e]
      refine ⟨rfl, ?_, fun _ _ => ?_, fun _ h => absurd hlt h, fun h => ?_⟩
      · show extra + 4 ≤ size + (if extra < 4 then extra + 4 else extra) * 2 - (m.length : Int)
        split <;> omega
      · show size + (if extra < 4 then extra + 4 else extra) * 2
          = size + 2 * (if extra < 4 then extra + 4 else extra)
        omega
      · cases h
    · have e : (Buffer.mk (some m) size dd flags data sig slen).reserveSpace extra =
          (Buffer.mk (some m) size dd flags data sig slen, none) := by
        rw [reserveSpace_cases]
        simp only [hlt, if_false]
      rw [e]
      refine ⟨rfl, ?_, fun _ h => absurd h hlt, fun _ _ => rfl, fun h => ?_⟩
      · have hlt' : ¬ size - (m.length : Int) < (if extra < 4 then extra + 4 else extra) + 4 := hlt
        show extra + 4 ≤ size - (m.length : Int)
        split at hlt' <;> omega
      · cases h

/-- C13, at an input: the full buffer of 10 bytes is grown by twice 6 bytes for
`reserveSpace(6)`. -/
theorem C13_reserveSpace_capacity_witness :
    (fullBuffer.reserveSpace 6).2 = none ∧ (fullBuffer.reserveSpace 6).1._size = 22 ∧
    (6 : Int) + 4 ≤ (fullBuffer.reserveSpace 6).1._size - ((fullBuffer.reserveSpace 6).1._len : Int) :=
  ⟨(C13_reserveSpace_capacity fullBuffer 6 (by decide) (by decide)).1, by decide,
    (C13_reserveSpace_capacity fullBuffer 6 (by decide) (by decide)).2.1⟩

/-- What `reserveSpace` leaves as it is, for every buffer state and every `extra`: a
successful `reserveSpace(extra)` after which the capacity is not below the length leaves
the length, the bytes accumulated, the flags, the signature and the match progress, the
data to read and the data descriptor offset unchanged; this is so for every state whose
length is at most its capacity and every `extra ≥ -4`. -/
theorem reserveSpace_frame (b : Buffer) (extra : Int)
    (hok : (b.reserveSpace extra).2 = none) :
    (((b._len : Int) ≤ (b.reserveSpace extra).1._size ∨ ((b._len : Int) ≤ b._size ∧ -4 ≤ extra)) →
      (b.reserveSpace extra).1._len = b._len ∧
      (b.reserveSpace extra).1.mem = b.mem ∧
      (b.reserveSpace extra).1._flags = b._flags ∧
      (b.reserveSpace extra).1._signature = b._signature ∧
      (b.reserveSpace extra).1._slen = b._slen ∧
      (b.reserveSpace extra).1._data = b._data ∧
      (b.reserveSpace extra).1._dd = b._dd) := by
  obtain ⟨buf, size, dd, flags, data, sig, slen⟩ := b
  cases buf with
  | none =>
    intro _
    by_cases hm : mallocOk ((if extra < 4 then extra + 4 else extra) + 4) = true
    · have e : (Buffer.mk none size dd flags data sig slen).reserveSpace extra =
          (Buffer.mk (some []) ((if extra < 4 then extra + 4 else extra) + 4) dd flags data sig
            slen, none) := by
        rw [reserveSpace_cases]
        simp only [hm, if_true]
      rw [e]
      exact ⟨rfl, rfl, rfl, rfl, rfl, rfl, rfl⟩
    · rw [reserveSpace_cases] at hok
      simp only [hm, if_false] at hok
      cases hok
  | some m =>
    by_cases hlt : size - ((Buffer.mk (some m) size dd flags data sig slen)._len : Int)
        < (if extra < 4 then extra + 4 else extra) + 4
    · have e : (Buffer.mk (some m) size dd flags data sig slen).reserveSpace extra =
          (Buffer.mk (Buffer.realloc m (size + (if extra < 4 then extra + 4 else extra) * 2))
              (size + (if extra < 4 then extra + 4 else extra) * 2) dd flags data sig slen,
             if (Buffer.realloc m (size + (if extra < 4 then extra + 4 else extra) * 2)).isNone
              then some Exception.zipfileError else none) := by
        rw [reserveSpace_cases]
        simp only [hlt, if_true]
      rw [e] at hok ⊢
      intro hcap
      have hcap' : (m.length : Int) ≤ size + (if extra < 4 then extra + 4 else extra) * 2 := by
        rcases hcap with h | ⟨h1, h2⟩
        · exact h
        · have h1' : (m.length : Int) ≤ size := h1
          split <;> omega
      by_cases hm : mallocOk (size + (if extra < 4 then extra + 4 else extra) * 2) = true
      · have ht : m.take (size + (if extra < 4 then extra + 4 else extra) * 2).toNat = m := by
          apply List.take_of_length_le
          omega
        have hr : Buffer.realloc m (size + (if extra < 4 then extra + 4 else extra) * 2)
            = some m := by
          simp only [Buffer.realloc, hm, if_true, ht]
        rw [hr]
        exact ⟨rfl, rfl, rfl, rfl, rfl, rfl, rfl⟩
      · have hr : Buffer.realloc m (size + (if extra < 4 then extra + 4 else extra) * 2)
            = none := by
          simp only [Buffer.realloc, hm, Bool.false_eq_true, if_false]
        rw [hr] at hok
        cases hok
    · have e : (Buffer.mk (some m) size dd flags data sig slen).reserveSpace extra =
          (Buffer.mk (some m) size dd flags data sig slen, none) := by
        rw [reserveSpace_cases]
        simp only [hlt, if_false]
      rw [e]
      intro _
      exact ⟨rfl, rfl, rfl, rfl, rfl, rfl, rfl⟩

/-- C14 (what `reserveSpace` leaves as it is). For every buffer state whose length is at
most its capacity and every `extra ≥ -4`, so for every `extra > 0`, which is what
`addData`, the only caller, passes: a successful `reserveSpace(extra)` leaves the length,
the bytes accumulated, the flags, the signature and the match progress, the data to read
and the data descriptor offset (or its absence) unchanged. -/
theorem C14_reserveSpace_frame (b : Buffer) (extra : Int)
    (hlen : (b._len : Int) ≤ b._size) (hextra : -4 ≤ extra)
    (hok : (b.reserveSpace extra).2 = none) :
    (b.reserveSpace extra).1._len = b._len ∧
    (b.reserveSpace extra).1.mem = b.mem ∧
    (b.reserveSpace extra).1._flags = b._flags ∧
    (b.reserveSpace extra).1._signature = b._signature ∧
    (b.reserveSpace extra).1._slen = b._slen ∧
    (b.reserveSpace extra).1._data = b._data ∧
    (b.reserveSpace extra).1._dd = b._dd :=
  reserveSpace_frame b extra hok (Or.inr ⟨hlen, hextra⟩)

/-- C14, at an input: `reserveSpace(6)` on the full buffer of 10 bytes, which is grown to
22 bytes and keeps its 10 bytes. -/
theorem C14_reserveSpace_frame_witness :
    (fullBuffer.reserveSpace 6).2 = none ∧ (fullBuffer.reserveSpace 6).1._size = 22 ∧
    (fullBuffer.reserveSpace 6).1._len = 10 ∧
    (fullBuffer.reserveSpace 6).1.mem = fullBuffer.mem :=
  ⟨by decide, by decide,
    (C14_reserveSpace_frame fullBuffer 6 (by decide) (by decide) (by decide)).1,
    (C14_reserveSpace_frame fullBuffer 6 (by decide) (by decide) (by decide)).2.1⟩

/-! ### `skip` on an empty buffer -/

theorem clearFlag_and_self (f : Nat) :
    Buffer.clearFlag f Buffer.Skiping &&& Buffer.Skiping = 0 ∧
    Buffer.clearFlag f Buffer.Copying &&& Buffer.Copying = 0 := by
  simp only [Buffer.clearFlag, Nat.and_assoc]
  have h1 : (4294967295 ^^^ Buffer.Skiping) &&& Buffer.Skiping = 0 := by decide
  have h2 : (4294967295 ^^^ Buffer.Copying) &&& Buffer.Copying = 0 := by decide
  rw [h1, h2]
  exact ⟨Nat.and_zero _, Nat.and_zero _⟩

/-- What the loop of `skip` leaves: either the signature has been matched, its 4 bytes
are appended, `Skiping` is cleared and the data left follows the bytes consumed; or all
data is consumed and the buffer is as before. -/
theorem skipLoop_result (bytes : List Nat) : ∀ b : Buffer, b._data = bytes → b._slen ≠ 4 →
    (Buffer.skipLoop bytes b)._size = b._size ∧ (Buffer.skipLoop bytes b)._dd = b._dd ∧
    (Buffer.skipLoop bytes b)._signature = b._signature ∧
    (((Buffer.skipLoop bytes b)._slen = 4 ∧
        (Buffer.skipLoop bytes b)._buffer = some (b.mem ++ b._signature.take 4) ∧
        (Buffer.skipLoop bytes b)._flags = Buffer.clearFlag b._flags Buffer.Skiping ∧
        ∃ pre, bytes = pre ++ (Buffer.skipLoop bytes b)._data ∧
          matchLoop b._signature b._slen pre = (4, [])) ∨
      ((Buffer.skipLoop bytes b)._slen ≠ 4 ∧
        (Buffer.skipLoop bytes b)._buffer = b._buffer ∧
        (Buffer.skipLoop bytes b)._flags = b._flags ∧
        (Buffer.skipLoop bytes b)._data = [])) := by
  induction bytes with
  | nil =>
    intro b hd hs
    exact ⟨rfl, rfl, rfl, Or.inr ⟨hs, rfl, rfl, hd⟩⟩
  | cons x rest ih =>
    intro b _ _
    rw [skipLoop_cons]
    by_cases h4 : b.matchByte x = 4
    · rw [if_pos h4]
      refine ⟨rfl, rfl, rfl, Or.inl ⟨h4, rfl, rfl, [x], rfl, ?_⟩⟩
      have h4' := h4
      simp only [Buffer.matchByte] at h4'
      rw [matchLoop_cons, if_pos h4', h4']
    · rw [if_neg h4]
      obtain ⟨a1, a2, a3, a4⟩ := ih { b with _slen := b.matchByte x, _data := rest } rfl h4
      refine ⟨a1, a2, a3, ?_⟩
      rcases a4 with ⟨c1, c2, c3, pre, c4, c5⟩ | ⟨c1, c2, c3, c4⟩
      · refine Or.inl ⟨c1, c2, c3, x :: pre, ?_, ?_⟩
        · rw [List.cons_append, ← c4]
        · have h4' := h4
          simp only [Buffer.matchByte] at h4'
          rw [matchLoop_cons, if_neg h4']
          exact c5
      · exact Or.inr ⟨c1, c2, c3, c4⟩

/-- C20 (header signature found). For every empty buffer that skips to the header
signature, with match progress below 4, and every chunk as the data to read: when `skip`
matches the signature (the progress reaches 4), the content of the buffer is exactly the
4 bytes 50 4B 03 04, `Skiping` is cleared, and the data left is what follows the bytes
consumed, which end with the signature when the progress was 0; when it does not, the
buffer stays empty, the flags stay and the whole chunk is consumed. -/
theorem C20_header_signature_found (b : Buffer) (chunk : List Nat)
    (hempty : b._buffer = some []) (hsig : b._signature = Header.signature)
    (hslen : b._slen < 4) (hdata : b._data = chunk) :
    (b.skip._slen = 4 →
      b.skip._buffer = some [0x50, 0x4b, 0x03, 0x04] ∧ b.skip._len = 4 ∧
      b.skip._flags &&& Buffer.Skiping = 0 ∧
      ∃ pre, chunk = pre ++ b.skip._data ∧ matchLoop Header.signature b._slen pre = (4, []) ∧
        (b._slen = 0 → ∃ g, pre = g ++ Header.signature)) ∧
    (b.skip._slen ≠ 4 →
      b.skip._buffer = some [] ∧ b.skip._len = 0 ∧ b.skip._flags = b._flags ∧
      b.skip._data = []) ∧
    (b.skip._slen = 4 ↔ (matchLoop Header.signature b._slen chunk).1 = 4) := by
  subst hdata
  have hm : b.mem = [] := by simp only [Buffer.mem, hempty, Option.getD_some]
  have hskip : b.skip = Buffer.skipLoop b._data b := rfl
  rw [hskip]
  obtain ⟨-, -, -, hres⟩ := skipLoop_result b._data b rfl (by omega)
  have hmatch := (skipLoop_match b._data b).1
  rw [hsig] at hmatch
  rw [hsig, hm] at hres
  refine ⟨fun h4 => ?_, fun h4 => ?_, ?_⟩
  · rcases hres with ⟨-, c2, c3, pre, c4, c5⟩ | ⟨c1, -⟩
    · refine ⟨c2, ?_, ?_, pre, c4, c5, fun h0 => ?_⟩
      · show (Buffer.skipLoop b._data b).mem.length = 4
        simp only [Buffer.mem, c2]
        rfl
      · rw [c3]
        exact (clearFlag_and_self _).1
      · rw [h0] at c5
        rcases matchLoop_complete 0x50 0x4b 0x03 0x04 pre 0 (by omega) c5 with h | ⟨g, hg, -⟩
        · exact ⟨[], h⟩
        · exact ⟨g, hg⟩
    · exact absurd h4 c1
  · rcases hres with ⟨c1, -⟩ | ⟨-, c2, c3, c4⟩
    · exact absurd c1 h4
    · refine ⟨by rw [← hempty]; exact c2, ?_, c3, c4⟩
      show (Buffer.skipLoop b._data b).mem.length = 0
      simp only [Buffer.mem, c2, hempty]
      rfl
  · rw [hmatch]

/-- C20, at an input: an empty buffer of capacity 16 that skips to the header signature,
given one byte, the signature and one more byte. -/
theorem C20_header_signature_found_witness :
    (Buffer.mk (some []) 16 none 1 [0, 0x50, 0x4b, 0x03, 0x04, 9] Header.signature 0).skip._slen
      = 4 ∧
    (Buffer.mk (some []) 16 none 1 [0, 0x50, 0x4b, 0x03, 0x04, 9] Header.signature 0).skip._buffer
      = some [0x50, 0x4b, 0x03, 0x04] ∧
    (Buffer.mk (some []) 16 none 1 [0, 0x50, 0x4b, 0x03, 0x04, 9] Header.signature 0).skip._data
      = [9] :=
  ⟨by decide,
    ((C20_header_signature_found
      (Buffer.mk (some []) 16 none 1 [0, 0x50, 0x4b, 0x03, 0x04, 9] Header.signature 0)
      [0, 0x50, 0x4b, 0x03, 0x04, 9] rfl rfl (by decide) rfl).1 (by decide)).1,
    by decide⟩

/-! ### A complete header stays as it is when bytes are appended -/

theorem Header_read_append (m xs : List Nat) (h : 30 ≤ m.length) :
    Header.read (m ++ xs) = Header.read m := by
  have key : ∀ i, i < 30 → byteAt (m ++ xs) i = byteAt m i := fun i hi =>
    List.getD_append _ _ _ _ (by omega)
  simp (disch := omega) only [Header.read, tByte4.read, tByte2.read, key]

theorem Header_read_hsize (mem : List Nat) (hb : ∀ x ∈ mem, x < 256) :
    (Header.read mem).hsize = 30 + (Header.read mem).fnlength + (Header.read mem).extralength ∧
    (Header.read mem).hsize ≤ 131100 := by
  have h1 : (Header.read mem).fnlength < 65536 :=
    bytes2number2_lt _ (byteAt_lt mem hb _) (byteAt_lt mem hb _)
  have h2 : (Header.read mem).extralength < 65536 :=
    bytes2number2_lt _ (byteAt_lt mem hb _) (byteAt_lt mem hb _)
  have e : (Header.read mem).hsize
      = 30 + (Header.read mem).fnlength + (Header.read mem).extralength := by
    simp only [Header.hsize, Header.sizeof]
    exact Nat.mod_eq_of_lt (by omega)
  exact ⟨e, by omega⟩

theorem fileFound_found (b : Buffer) : b.found.fileFound = true := by
  show ((b._flags ||| Buffer.FileFound) &&& Buffer.FileFound != 0) = true
  have h : (b._flags ||| Buffer.FileFound) &&& Buffer.FileFound = Buffer.FileFound := by
    rw [Nat.and_comm, Nat.and_or_distrib_left, Nat.and_self]
    apply Nat.eq_of_testBit_eq
    intro i
    rw [Nat.testBit_or, Nat.testBit_and]
    cases Nat.testBit Buffer.FileFound i <;> simp
  rw [h]
  decide
/-! ### Copying the data of an entry of known size -/

theorem copyBytes_eq (b : Buffer) (need : Int) :
    b.copyBytes need =
      if (if need < 0 then b.needed else need) > 0 then
        (Buffer.mk
          (some (b.mem ++ b._data.take
            (if (if need < 0 then b.needed else need) < (b._dlen : Int)
              then (if need < 0 then b.needed else need) else (b._dlen : Int)).toNat))
          b._size b._dd b._flags
          (b._data.drop
            (if (if need < 0 then b.needed else need) < (b._dlen : Int)
              then (if need < 0 then b.needed else need) else (b._dlen : Int)).toNat)
          b._signature b._slen,
         if (if need < 0 then b.needed else need) < (b._dlen : Int)
              then (if need < 0 then b.needed else need) else (b._dlen : Int))
      else (b, 0) := rfl

theorem needed_header (b : Buffer) (v : Nat) (hhdr : 30 ≤ b._len)
    (hv : b.header.hsize + (if b.header.hasSize then b.header.csize else 0) = v)
    (h0 : v < 4294967296) (h1 : -2147483648 ≤ (v : Int) - (b._len : Int))
    (h2 : (v : Int) - (b._len : Int) < 2147483648) :
    b.needed = (v : Int) - (b._len : Int) := by
  have hh : b.isHeader = true := by
    simp only [Buffer.isHeader, Header.sizeof, decide_eq_true_eq]
    exact hhdr
  simp only [Buffer.needed, hh, if_true, hv]
  rw [Nat.mod_eq_of_lt h0]
  exact toInt32_eq _ h1 h2

theorem copySized_chunk (m chunk : List Nat) (sz : Int) (dd : Option Int) (fl : Nat)
    (sg : List Nat) (sl : Nat) (total k : Nat)
    (hb : ∀ x ∈ m, x < 256) (h30 : 30 ≤ m.length) (hsz : (Header.read m).hasSize = true)
    (hcs : (Header.read m).csize + 131072 < 2147483648) (hlen : m.length < 2147483648)
    (ht : total = (Header.read m).hsize + (Header.read m).csize)
    (hk : k = min (total - m.length) chunk.length) :
    (Buffer.mk (some m) sz dd fl chunk sg sl).copySized =
      Buffer.mk (some (m ++ chunk.take k)) sz dd
        (if m.length + k = total then fl ||| Buffer.FileFound else fl) (chunk.drop k) sg sl := by
  have hhs := (Header_read_hsize m hb).2
  have hN : (Buffer.mk (some m) sz dd fl chunk sg sl).needed = (total : Int) - (m.length : Int) := by
    apply needed_header (Buffer.mk (some m) sz dd fl chunk sg sl) total h30
    · show (Header.read m).hsize + (if (Header.read m).hasSize = true then (Header.read m).csize
        else 0) = total
      rw [hsz, if_pos rfl, ht]
    · omega
    · show -2147483648 ≤ (total : Int) - (m.length : Int)
      omega
    · show (total : Int) - (m.length : Int) < 2147483648
      omega
  have hcopy : ((Buffer.mk (some m) sz dd fl chunk sg sl).copyBytes (-1)).1 =
      Buffer.mk (some (m ++ chunk.take k)) sz dd fl (chunk.drop k) sg sl := by
    rw [copyBytes_eq]
    have hneg : ((-1 : Int) < 0) := by omega
    simp only [hneg, if_true, hN]
    by_cases hpos : (total : Int) - (m.length : Int) > 0
    · rw [if_pos hpos]
      have hto : (if (total : Int) - (m.length : Int) <
            ((Buffer.mk (some m) sz dd fl chunk sg sl)._dlen : Int)
          then (total : Int) - (m.length : Int)
          else ((Buffer.mk (some m) sz dd fl chunk sg sl)._dlen : Int)).toNat = k := by
        show (if (total : Int) - (m.length : Int) < (chunk.length : Int)
          then (total : Int) - (m.length : Int) else (chunk.length : Int)).toNat = k
        split <;> omega
      simp only [hto]
      rfl
    · rw [if_neg hpos]
      have hk0 : k = 0 := by omega
      rw [hk0, List.take_zero, List.drop_zero, List.append_nil]
  have hN2 : (Buffer.mk (some (m ++ chunk.take k)) sz dd fl (chunk.drop k) sg sl).needed
      = (total : Int) - ((m.length + k : Nat) : Int) := by
    have hl : (Buffer.mk (some (m ++ chunk.take k)) sz dd fl (chunk.drop k) sg sl)._len
        = m.length + k := by
      show (m ++ chunk.take k).length = _
      rw [List.length_append, List.length_take]
      omega
    have hhd : (Buffer.mk (some (m ++ chunk.take k)) sz dd fl (chunk.drop k) sg sl).header
        = Header.read m := Header_read_append m _ h30
    have := needed_header (Buffer.mk (some (m ++ chunk.take k)) sz dd fl (chunk.drop k) sg sl)
      total (by omega) (by rw [hhd, hsz, if_pos rfl, ht]) (by omega) (by omega) (by omega)
    rw [this, hl]
  rw [copySized_eq, hcopy, hN2]
  by_cases he : m.length + k = total
  · rw [if_pos he, if_pos (by omega)]
    rfl
  · rw [if_neg he, if_neg (by omega)]
theorem addRest_eq (b : Buffer) :
    b.addRest =
      if (if (!b.isHeader) = true then b.scanForHeader else b)._dlen > 0 then
        (if (if (!b.isHeader) = true then b.scanForHeader else b).header.hasSize = true then
          (if (!b.isHeader) = true then b.scanForHeader else b).copySized
        else (if (!b.isHeader) = true then b.scanForHeader else b).copyUnsized)
      else (if (!b.isHeader) = true then b.scanForHeader else b) := rfl

theorem addRest_header (b : Buffer) (hhdr : 30 ≤ b._len) (hd : b._data ≠ []) :
    b.addRest = if b.header.hasSize = true then b.copySized else b.copyUnsized := by
  have hh : b.isHeader = true := by
    simp only [Buffer.isHeader, Header.sizeof, decide_eq_true_eq]
    exact hhdr
  have hdl : b._dlen > 0 := List.length_pos.mpr hd
  rw [addRest_eq]
  simp only [hh, Bool.not_true, Bool.false_eq_true, if_false, hdl, if_true]

/-- C18 (completion of a sized payload). For every buffer that holds a complete 30 byte
header (made of bytes) with the size known and a compressed size below `2^31 - 2^17`,
that is not marked found and whose capacity is at least its length, and every
non-empty chunk (with `int` arithmetic exact): `addData` succeeds; it appends to the
buffer the first `k` bytes of the chunk, where `k` is the smaller of the chunk length
and the number of bytes missing up to header size plus compressed size, and hands back
the rest of the chunk; the header stays; and the file is marked found exactly when the
length of the buffer is then header size plus compressed size. -/
theorem C18_sized_payload_completion (b : Buffer) (chunk : List Nat)
    (hbytes : ∀ x ∈ b.mem, x < 256) (hhdr : 30 ≤ b._len) (hsz : b.header.hasSize = true)
    (hcs : b.header.csize + 131072 < 2147483648) (hne : chunk ≠ [])
    (hnf : b.fileFound = false) (hcap : (b._len : Int) ≤ b._size)
    (hfit : b._size + 2 * ((chunk.length : Int) + 4) < 2147483648) :
    ∃ r : Buffer,
      b.addData chunk =
        (r, chunk.drop (min (b.header.hsize + b.header.csize - b._len) chunk.length), none) ∧
      r.mem = b.mem
        ++ chunk.take (min (b.header.hsize + b.header.csize - b._len) chunk.length) ∧
      r.header = b.header ∧
      (r.fileFound = true ↔ r._len = b.header.hsize + b.header.csize) ∧
      (b._len ≤ b.header.hsize + b.header.csize → r._len ≤ b.header.hsize + b.header.csize) := by
  obtain ⟨sz, -, hadd⟩ := addData_eq_core b chunk hne hnf hcap
  have hcore : b.core chunk = (b.norm chunk).copySized := by
    show (b.norm chunk).addRest = _
    rw [addRest_header (b.norm chunk) hhdr hne]
    have : (b.norm chunk).header.hasSize = true := hsz
    rw [if_pos this]
  have hcs' := copySized_chunk b.mem chunk 0 b._dd b._flags b._signature b._slen
    (b.header.hsize + b.header.csize)
    (min (b.header.hsize + b.header.csize - b._len) chunk.length) hbytes hhdr hsz hcs
    (by show (b.mem.length : Nat) < 2147483648; have : (b.mem.length : Int) ≤ b._size := hcap; omega)
    rfl rfl
  have hcore' : b.core chunk = _ := hcore.trans hcs'
  generalize hk : min (b.header.hsize + b.header.csize - b._len) chunk.length = k at *
  rw [hadd, hcore']
  have hlen : ∀ fl : Nat, (Buffer.setSize sz (Buffer.mk (some (b.mem ++ chunk.take k)) 0 b._dd fl
      (chunk.drop k) b._signature b._slen))._len = b._len + k := by
    intro fl
    show (b.mem ++ chunk.take k).length = b.mem.length + k
    rw [List.length_append, List.length_take]
    omega
  refine ⟨_, rfl, rfl, Header_read_append b.mem _ hhdr, ?_, ?_⟩
  · rw [hlen]
    by_cases he : b.mem.length + k = b.header.hsize + b.header.csize
    · rw [if_pos he]
      constructor
      · intro _; exact he
      · intro _; exact fileFound_found (Buffer.mk (some (b.mem ++ chunk.take k)) sz b._dd b._flags
          (chunk.drop k) b._signature b._slen)
    · rw [if_neg he]
      constructor
      · intro h
        have : b.fileFound = true := h
        rw [hnf] at this
        cases this
      · intro h; exact absurd h he
  · intro h
    rw [hlen]
    omega

/-- C18, at an input: a buffer of capacity 64 that holds the header of the sample entry
and its name, given the payload hello followed by two more bytes. -/
theorem C18_sized_payload_completion_witness :
    ∃ r : Buffer,
      (Buffer.mk (some ((sampleHeader 0 0 0x3610a686 5 5 1 0).bytes ++ [97])) 64 none 0 []
        Header.signature 4).addData (hello ++ [9, 9]) = (r, [9, 9], none) ∧
      r.mem = helloEntry ∧ r.fileFound = true :=
  (C18_sized_payload_completion
    (Buffer.mk (some ((sampleHeader 0 0 0x3610a686 5 5 1 0).bytes ++ [97])) 64 none 0 []
      Header.signature 4) (hello ++ [9, 9]) (by decide) (by decide) (by decide) (by decide)
    (by decide) (by decide) (by decide) (by decide)).elim
    fun r h => ⟨r, h.1, h.2.1, h.2.2.2.1.mpr (by rw [show r._len = r.mem.length from rfl, h.2.1]; decide)⟩

/-! ### An entry whose data descriptor has no signature -/

theorem copyUnsized_nomatch (m tail : List Nat) (sz : Int) (sg : List Nat) (sl : Nat)
    (hne : tail ≠ []) (hp : (matchLoop DataDescriptor.signature 0 tail).1 ≠ 4) :
    (Buffer.mk (some m) sz none 0 tail sg sl).copyUnsized =
      Buffer.mk (some (m ++ tail)) sz none (0 ||| Buffer.Copying) [] DataDescriptor.signature
        (matchLoop DataDescriptor.signature 0 tail).1 := by
  have h1 : (Buffer.mk (some m) sz none 0 tail sg sl).copyUnsized1 =
      Buffer.mk (some m) sz none (0 ||| Buffer.Copying) tail DataDescriptor.signature 0 := by
    unfold Buffer.copyUnsized1
    have c1 : (Buffer.mk (some m) sz none 0 tail sg sl)._dd.isNone = true ∧
        (Buffer.mk (some m) sz none 0 tail sg sl)._flags &&& Buffer.Copying = 0 :=
      ⟨rfl, by show (0 &&& Buffer.Copying) = 0; decide⟩
    rw [if_pos c1]
    rfl
  have h2 : (Buffer.mk (some m) sz none (0 ||| Buffer.Copying) tail
      DataDescriptor.signature 0).copyUnsized2 =
      Buffer.mk (some (m ++ tail)) sz none (0 ||| Buffer.Copying) [] DataDescriptor.signature
        (matchLoop DataDescriptor.signature 0 tail).1 := by
    unfold Buffer.copyUnsized2
    have c2 : (Buffer.mk (some m) sz none (0 ||| Buffer.Copying) tail
        DataDescriptor.signature 0)._flags &&& Buffer.Copying ≠ 0 := by
      show (0 ||| Buffer.Copying) &&& Buffer.Copying ≠ 0
      decide
    rw [if_pos c2]
    show Buffer.copyLoop tail _ = _
    have := copyLoop_append [] tail (Buffer.mk (some m) sz none (0 ||| Buffer.Copying) tail
        DataDescriptor.signature 0) hne hp
    rw [List.append_nil] at this
    rw [this]
    rfl
  rw [copyUnsized_eq, h1, h2]
  have hd : ¬ (Buffer.mk (some (m ++ tail)) sz none (0 ||| Buffer.Copying) []
      DataDescriptor.signature (matchLoop DataDescriptor.signature 0 tail).1)._dlen > 0 := by
    show ¬ ([] : List Nat).length > 0
    simp
  rw [if_neg hd]

theorem core_nomatch (b : Buffer) (hm : b.mem = []) (hf : b._flags = 0) (hdd : b._dd = none)
    (e : Entry) (hw : e.WellFormed) (hsz : e.header.hasSize = false) (t : List Nat)
    (hp : (matchLoop DataDescriptor.signature 0 (e.body ++ t)).1 ≠ 4) :
    (b.core (e.bytes ++ t)).mem = e.bytes ++ t ∧ (b.core (e.bytes ++ t)).fileFound = false ∧
    (b.core (e.bytes ++ t))._data = [] := by
  have hih : (b.norm (e.bytes ++ t)).isHeader = false := by
    simp only [Buffer.isHeader, Header.sizeof, decide_eq_false_iff_not]
    show ¬ 30 ≤ b.mem.length
    rw [hm]; simp
  have hsc := scanForHeader_header b hm hf e.header hw.1 (e.body ++ t)
  rw [hdd] at hsc
  have hbytes : e.bytes ++ t = e.header.bytes ++ (e.body ++ t) := by
    simp only [Entry.bytes, List.append_assoc]
  have hhd : (Buffer.mk (some e.header.bytes) 0 none 0 (e.body ++ t)
      Header.signature 4).header = e.header := by
    show Header.read e.header.bytes = e.header
    have := Header_read_bytes e.header []
    rwa [List.append_nil] at this
  show (b.norm (e.bytes ++ t)).addRest.mem = _ ∧ (b.norm (e.bytes ++ t)).addRest.fileFound = false
    ∧ (b.norm (e.bytes ++ t)).addRest._data = []
  rw [addRest_eq]
  simp only [hih, Bool.not_false, if_true]
  rw [hbytes, hsc]
  by_cases hne : e.body ++ t = []
  · have hd : ¬ (Buffer.mk (some e.header.bytes) 0 none 0 (e.body ++ t)
        Header.signature 4)._dlen > 0 := by
      show ¬ (e.body ++ t).length > 0
      rw [hne]; simp
    rw [if_neg hd, hne, List.append_nil]
    refine ⟨rfl, ?_, rfl⟩
    show ((0 &&& Buffer.FileFound) != 0) = false
    decide
  · have hd : (Buffer.mk (some e.header.bytes) 0 none 0 (e.body ++ t)
        Header.signature 4)._dlen > 0 := List.length_pos.mpr hne
    rw [if_pos hd, hhd, hsz]
    simp only [Bool.false_eq_true, if_false]
    rw [copyUnsized_nomatch e.header.bytes (e.body ++ t) 0 Header.signature 4 hne hp]
    refine ⟨rfl, ?_, rfl⟩
    show (((0 ||| Buffer.Copying) &&& Buffer.FileFound) != 0) = false
    decide

/-- C17 (descriptor signature), as amended. For every well-formed entry with flags bit 3
set: as long as the matcher of the data descriptor signature 50 4B 07 08, run from
progress 0 over the bytes behind the 30 bytes of the header (file name, extra field,
payload and whatever follows, such as a descriptor made of CRC-32 and sizes only), does
not complete, a scan of these bytes by a new stream returns with no file delivered and
all bytes kept in the buffer; with a descriptor that starts with the signature (and
progress 0 in front of it) `addData` marks the file found and the CRC-32 and the sizes
of the header in the buffer are those of the descriptor. -/
theorem C17_descriptor_signature_needed (z : Zlib) (fuel : Nat) (e : Entry)
    (hw : e.WellFormed) (hu : e.header.hasSize = false) :
    (∀ t : List Nat, (e.bytes ++ t).length + 4 < 2147483648 →
      (matchLoop DataDescriptor.signature 0 (e.body ++ t)).1 ≠ 4 →
      ∃ s1 : Stream, Stream.scan z (fuel + 1) Stream.new (e.bytes ++ t) = some (s1, none) ∧
        s1._delegate = [] ∧ s1._buffer.mem = e.bytes ++ t ∧ s1._buffer.fileFound = false) ∧
    (∀ (d : DataDescriptor) (rest : List Nat),
      (e.bytes ++ (d.bytes ++ rest)).length + 4 < 2147483648 →
      d._signature = ⟨⟨0x50, 0x4b⟩, ⟨0x07, 0x08⟩⟩ →
      Buffer.progress DataDescriptor.signature e.body = 0 →
      ∃ r : Buffer, Buffer.new.addData (e.bytes ++ (d.bytes ++ rest)) = (r, rest, none) ∧
        r.fileFound = true ∧ r.header.crc32 = d.crc32 ∧ r.header.csize = d.csize ∧
        r.header.size = d.size) := by
  constructor
  · intro t _ hp
    have hne : e.bytes ++ t ≠ [] := Entry_bytes_ne e t
    obtain ⟨sz, -, hadd⟩ := addData_eq_core Buffer.new (e.bytes ++ t) hne rfl (by decide)
    obtain ⟨c1, c2, c3⟩ := core_nomatch Buffer.new rfl rfl rfl e hw hu t hp
    rw [c3] at hadd
    generalize Buffer.new.core (e.bytes ++ t) = X at hadd c1 c2
    have hff : (X.setSize sz).fileFound = false := c2
    have hbody := scanBody_of_addData z Stream.new (e.bytes ++ t) _ [] hadd
    rw [hff] at hbody
    simp only [Bool.false_eq_true, if_false] at hbody
    refine ⟨Stream.mk (X.setSize sz)
      (Stream.new._bytes_read + (((e.bytes ++ t).length : Int) - (([] : List Nat).length : Int)))
      Stream.new._delegate, ?_, rfl, c1, c2⟩
    rw [scan_succ z fuel Stream.new _ (e.bytes ++ t) [] hne hbody, scan_nil]
  · intro d rest _ hd hp
    have hne : e.bytes ++ (d.bytes ++ rest) ≠ [] := Entry_bytes_ne e _
    obtain ⟨sz, -, hadd⟩ := addData_eq_core Buffer.new (e.bytes ++ (d.bytes ++ rest)) hne rfl
      (by decide)
    rw [core_descriptor Buffer.new rfl rfl rfl e d hw hu hd hp rest] at hadd
    refine ⟨_, hadd, ?_, ?_, ?_, ?_⟩
    · show ((Buffer.FileFound &&& Buffer.FileFound) != 0) = true
      decide
    · show (Header.read ((e.header.setDataDescriptor d).bytes ++ (e.body ++ d.bytes))).crc32 = _
      rw [Header_read_bytes]
      rfl
    · show (Header.read ((e.header.setDataDescriptor d).bytes ++ (e.body ++ d.bytes))).csize = _
      rw [Header_read_bytes]
      rfl
    · show (Header.read ((e.header.setDataDescriptor d).bytes ++ (e.body ++ d.bytes))).size = _
      rw [Header_read_bytes]
      rfl

/-- C17, at an input: the entry named a with flags bit 3 set and payload hello, followed
by 12 bytes without the signature, and followed by the descriptor with signature. -/
theorem C17_descriptor_signature_needed_witness :
    (∃ s1 : Stream, Stream.scan noInflate 1 Stream.new unsizedNoSignature = some (s1, none) ∧
      s1._delegate = [] ∧ s1._buffer.mem = unsizedNoSignature ∧ s1._buffer.fileFound = false) ∧
    (∃ r : Buffer, Buffer.new.addData (sampleUnsized.bytes ++ (sampleDataDescriptor.bytes ++ []))
        = (r, [], none) ∧
      r.fileFound = true ∧ r.header.crc32 = sampleDataDescriptor.crc32 ∧
      r.header.csize = sampleDataDescriptor.csize ∧ r.header.size = sampleDataDescriptor.size) :=
  ⟨(C17_descriptor_signature_needed noInflate 0 sampleUnsized
      ⟨rfl, rfl, rfl, by decide⟩ (by decide)).1
      ((le32 0x3610a686).bytes ++ (le32 5).bytes ++ (le32 5).bytes) (by decide) (by decide),
    (C17_descriptor_signature_needed noInflate 0 sampleUnsized
      ⟨rfl, rfl, rfl, by decide⟩ (by decide)).2 sampleDataDescriptor [] (by decide) rfl
      (by decide)⟩

/-- C17 as stated fails: the entry named a with flags bit 3 set and payload hello,
followed by the CRC-32 and the sizes of a data descriptor without its signature, is not
delivered, neither at the end of the data nor when the sample entry follows; the same
entry with the signature in front of these 12 bytes is delivered. -/
theorem C17_descriptor_signature_needed_counterexample :
    (Header.read unsizedNoSignature).hasSize = false ∧
    unsizedNoSignature.drop 36 = [0x86, 0xa6, 0x10, 0x36, 5, 0, 0, 0, 5, 0, 0, 0] ∧
    Stream.delivered (Stream.scan noInflate 1 Stream.new unsizedNoSignature) = some ([], none) ∧
    Stream.delivered (Stream.scan noInflate 1 Stream.new (unsizedNoSignature ++ helloEntry))
      = some ([], none) ∧
    (Stream.delivered (Stream.scan noInflate 1 Stream.new unsizedEntry)).map
      (fun r => r.1.map File.data) = some [some hello] := by
  refine ⟨by decide, by decide, ?_, ?_, ?_⟩ <;> rfl

/-! ### The flags -/

theorem flags_or (f a c : Nat) (h : a &&& c = 0) : (f ||| a) &&& c = f &&& c := by
  rw [Nat.and_comm, Nat.and_or_distrib_left, Nat.and_comm c a, h, Nat.or_zero, Nat.and_comm]

theorem flags_clear (f a c : Nat) (h : (4294967295 ^^^ a) &&& c = c) :
    Buffer.clearFlag f a &&& c = f &&& c := by
  rw [Buffer.clearFlag, Nat.and_assoc, h]

theorem fileFound_flags (b1 b2 : Buffer)
    (h : b1._flags &&& Buffer.FileFound = b2._flags &&& Buffer.FileFound) :
    b1.fileFound = b2.fileFound := by
  simp only [Buffer.fileFound, h]

/-! ### The data descriptor in the states in use -/

theorem skipLoop_frame (bytes : List Nat) : ∀ b : Buffer,
    (Buffer.skipLoop bytes b)._dd = b._dd ∧
    ((Buffer.skipLoop bytes b)._flags = b._flags ∨
      (Buffer.skipLoop bytes b)._flags = Buffer.clearFlag b._flags Buffer.Skiping) := by
  induction bytes with
  | nil => intro b; exact ⟨rfl, Or.inl rfl⟩
  | cons x rest ih =>
    intro b
    rw [skipLoop_cons]
    by_cases h4 : b.matchByte x = 4
    · rw [if_pos h4]
      exact ⟨rfl, Or.inr rfl⟩
    · rw [if_neg h4]
      exact ih { b with _slen := b.matchByte x, _data := rest }

theorem Idle_scanForHeader (b : Buffer) (h : b.Idle) : b.scanForHeader.Idle := by
  obtain ⟨h1, h2, h3⟩ := h
  have hS2 : Buffer.Skiping &&& Buffer.Copying = 0 := by decide
  have hS3 : Buffer.Skiping &&& Buffer.FileFound = 0 := by decide
  have hC2 : (4294967295 ^^^ Buffer.Skiping) &&& Buffer.Copying = Buffer.Copying := by decide
  have hC3 : (4294967295 ^^^ Buffer.Skiping) &&& Buffer.FileFound = Buffer.FileFound := by decide
  rw [scanForHeader_eq]
  have s1 : b.scanForHeader1.Idle := by
    unfold Buffer.scanForHeader1
    split
    · refine ⟨h1, ?_, ?_⟩
      · show (b._flags ||| Buffer.Skiping) &&& Buffer.Copying = 0
        rw [flags_or _ _ _ hS2]; exact h2
      · rw [← h3]
        exact fileFound_flags _ _ (flags_or _ _ _ hS3)
    · exact ⟨h1, h2, h3⟩
  generalize b.scanForHeader1 = b1 at s1
  obtain ⟨g1, g2, g3⟩ := s1
  have s2 : b1.scanForHeader2.Idle := by
    unfold Buffer.scanForHeader2
    split
    · obtain ⟨e1, e2⟩ := skipLoop_frame b1._data b1
      refine ⟨e1.trans g1, ?_, ?_⟩
      · show (Buffer.skipLoop b1._data b1)._flags &&& Buffer.Copying = 0
        rcases e2 with e | e
        · rw [e]; exact g2
        · rw [e, flags_clear _ _ _ hC2]; exact g2
      · rw [← g3]
        apply fileFound_flags
        show (Buffer.skipLoop b1._data b1)._flags &&& Buffer.FileFound = _
        rcases e2 with e | e
        · rw [e]
        · rw [e, flags_clear _ _ _ hC3]
    · exact ⟨g1, g2, g3⟩
  generalize b1.scanForHeader2 = b2 at s2
  unfold Buffer.scanForHeader3
  split
  · exact s2
  · exact s2

theorem Framed_of_Idle (b : Buffer) (h : b.Idle) : b.Framed := by
  obtain ⟨h1, h2, h3⟩ := h
  refine ⟨fun hc => absurd h2 hc, fun hd => absurd h1 hd, fun hf => ?_⟩
  rw [h3] at hf
  cases hf

theorem Idle_of_Framed (b : Buffer) (h : b.Framed) (hl : b._len < 30)
    (hf : b.fileFound = false) : b.Idle := by
  obtain ⟨h1, h2, -⟩ := h
  refine ⟨?_, ?_, hf⟩
  · by_contra hd
    obtain ⟨⟨-, k, -, a, c, -⟩, -⟩ := h2 hd
    omega
  · by_contra hc
    obtain ⟨⟨-, -, -, -, a, -⟩, -⟩ := h1 hc
    omega

theorem copyLoop_seek (bytes : List Nat) : ∀ b : Buffer, b._data = bytes →
    b._signature = DataDescriptor.signature → b._slen < 4 → b._slen + 30 ≤ b._len →
    b.mem.drop (b._len - b._slen) = DataDescriptor.signature.take b._slen →
    (Buffer.copyLoop bytes b)._dd = b._dd ∧
    (Buffer.copyLoop bytes b)._signature = b._signature ∧
    (∃ xs, (Buffer.copyLoop bytes b).mem = b.mem ++ xs) ∧
    (((Buffer.copyLoop bytes b)._flags = b._flags ∧ (Buffer.copyLoop bytes b)._data = [] ∧
        (Buffer.copyLoop bytes b)._slen < 4 ∧
        (Buffer.copyLoop bytes b)._slen + 30 ≤ (Buffer.copyLoop bytes b)._len ∧
        (Buffer.copyLoop bytes b).mem.drop
            ((Buffer.copyLoop bytes b)._len - (Buffer.copyLoop bytes b)._slen)
          = DataDescriptor.signature.take (Buffer.copyLoop bytes b)._slen) ∨
      ((Buffer.copyLoop bytes b)._flags = Buffer.clearFlag b._flags Buffer.Copying ∧
        34 ≤ (Buffer.copyLoop bytes b)._len ∧
        (Buffer.copyLoop bytes b).mem.drop ((Buffer.copyLoop bytes b)._len - 4)
          = DataDescriptor.signature)) := by
  induction bytes with
  | nil =>
    intro b hd hs h4 h30 hsuf
    exact ⟨rfl, rfl, ⟨[], (List.append_nil _).symm⟩, Or.inl ⟨rfl, hd, h4, h30, hsuf⟩⟩
  | cons x rest ih =>
    intro b _ hs hlt h30 hsuf
    rw [copyLoop_cons]
    have hmb : b.matchByte x
        = if DataDescriptor.signature.get? b._slen = some x then b._slen + 1 else 0 := by
      simp only [Buffer.matchByte, hs]
    have hlen : (b.mem ++ [x]).length = b._len + 1 := by
      simp only [List.length_append, List.length_cons, List.length_nil, Buffer._len]
    -- the suffix of the buffer after the byte `x`
    have hstep : (b.mem ++ [x]).drop (b._len + 1 - b.matchByte x)
        = DataDescriptor.signature.take (b.matchByte x) := by
      rw [hmb]
      by_cases hx : DataDescriptor.signature.get? b._slen = some x
      · rw [if_pos hx]
        have e1 : b._len + 1 - (b._slen + 1) = b._len - b._slen := by omega
        have hle : b._len - b._slen ≤ b.mem.length := by
          show b.mem.length - b._slen ≤ b.mem.length
          omega
        have hx' : DataDescriptor.signature[b._slen]? = some x := by
          rw [← List.get?_eq_getElem?]; exact hx
        rw [e1, List.drop_append_of_le_length hle, hsuf, List.take_succ, hx']
        rfl
      · rw [if_neg hx]
        rw [List.drop_of_length_le (by rw [hlen]; omega)]
        rfl
    by_cases h4 : b.matchByte x = 4
    · rw [if_pos h4]
      refine ⟨rfl, rfl, ⟨[x], rfl⟩, Or.inr ⟨rfl, ?_, ?_⟩⟩
      · show 34 ≤ (b.mem ++ [x]).length
        rw [hlen]
        rw [hmb] at h4
        split at h4 <;> omega
      · show (b.mem ++ [x]).drop ((b.mem ++ [x]).length - 4) = DataDescriptor.signature
        rw [hlen, ← h4, hstep, h4]
        rfl
    · rw [if_neg h4]
      have hlt' : b.matchByte x < 4 := by
        rw [hmb] at h4 ⊢
        by_cases hx : DataDescriptor.signature.get? b._slen = some x
        · rw [if_pos hx] at h4 ⊢
          omega
        · rw [if_neg hx]
          omega
      have h30' : b.matchByte x + 30 ≤ b._len + 1 := by
        rw [hmb]
        split <;> omega
      obtain ⟨a1, a2, ⟨xs, a3⟩, a4⟩ :=
        ih { b with _slen := b.matchByte x, _data := rest, _buffer := some (b.mem ++ [x]) }
          rfl hs hlt' (by show b.matchByte x + 30 ≤ (b.mem ++ [x]).length; rw [hlen]; exact h30')
          (by show (b.mem ++ [x]).drop ((b.mem ++ [x]).length - b.matchByte x) = _
              rw [hlen]; exact hstep)
      refine ⟨a1, a2, ⟨x :: xs, ?_⟩, ?_⟩
      · rw [a3]
        show (b.mem ++ [x]) ++ xs = b.mem ++ x :: xs
        simp
      · rcases a4 with c | c
        · exact Or.inl c
        · exact Or.inr c
theorem or_and_self (f a : Nat) : (f ||| a) &&& a = a := by
  apply Nat.eq_of_testBit_eq
  intro i
  rw [Nat.testBit_and, Nat.testBit_or]
  cases Nat.testBit a i <;> simp

theorem header_append (b r : Buffer) (h30 : 30 ≤ b._len) (xs : List Nat)
    (hm : r.mem = b.mem ++ xs) : r.header = b.header := by
  show Header.read r.mem = Header.read b.mem
  rw [hm]
  exact Header_read_append b.mem xs h30

theorem copyBytes_frame (b : Buffer) (need : Int) :
    (b.copyBytes need).1._dd = b._dd ∧ (b.copyBytes need).1._flags = b._flags ∧
    ∃ xs, (b.copyBytes need).1.mem = b.mem ++ xs ∧
      (b.copyBytes need).2 = (xs.length : Int) ∧ (0 ≤ need → (xs.length : Int) ≤ need) := by
  rw [copyBytes_eq]
  by_cases hpos : (if need < 0 then b.needed else need) > 0
  · rw [if_pos hpos]
    refine ⟨rfl, rfl, _, rfl, ?_, ?_⟩
    · show _ = ((List.take _ b._data).length : Int)
      rw [List.length_take]
      show _ = ((min _ b._data.length : Nat) : Int)
      generalize (if need < 0 then b.needed else need) = nd at hpos
      have : (b._dlen : Int) = (b._data.length : Int) := rfl
      rw [this]
      split <;> omega
    · intro h0
      have hn : ¬ need < 0 := by omega
      simp only [hn, if_false] at hpos ⊢
      rw [List.length_take]
      have : (b._dlen : Int) = (b._data.length : Int) := rfl
      rw [this]
      split <;> omega
  · rw [if_neg hpos]
    refine ⟨rfl, rfl, [], (List.append_nil _).symm, rfl, ?_⟩
    intro h0
    exact h0
theorem Framed_copySized (b : Buffer) (h : b.Framed) (h30 : 30 ≤ b._len)
    (hs : b.header.hasSize = true) : b.copySized.Framed := by
  obtain ⟨h1, h2, -⟩ := h
  have hC : b._flags &&& Buffer.Copying = 0 := by
    by_contra hc
    have := (h1 hc).2
    rw [hs] at this
    cases this
  have hD : b._dd = none := by
    by_contra hd
    have := (h2 hd).2
    rw [hs] at this
    cases this
  obtain ⟨f1, f2, xs, f3, -, -⟩ := copyBytes_frame b (-1)
  have hhd := header_append b (b.copyBytes (-1)).1 h30 xs f3
  have hF : Buffer.FileFound &&& Buffer.Copying = 0 := by decide
  rw [copySized_eq]
  split
  · refine ⟨fun hc => ?_, fun hd => ?_, fun _ hu => ?_⟩
    · exfalso
      apply hc
      show ((b.copyBytes (-1)).1._flags ||| Buffer.FileFound) &&& Buffer.Copying = 0
      rw [flags_or _ _ _ hF, f2]
      exact hC
    · exact absurd (f1.trans hD) hd
    · have : (b.copyBytes (-1)).1.header.hasSize = false := hu
      rw [hhd, hs] at this
      cases this
  · refine ⟨fun hc => ?_, fun hd => ?_, fun _ hu => ?_⟩
    · exact absurd (by rw [f2]; exact hC) hc
    · exact absurd (f1.trans hD) hd
    · rw [hhd, hs] at hu
      cases hu

/-- Behind the first statement of `copyUnsized`, for an entry of unknown size that is
not marked found: the buffer looks for the signature or has found it. -/
theorem copyUnsized1_stage (b : Buffer) (h : b.Framed) (h30 : 30 ≤ b._len)
    (hf : b.fileFound = false) (hu : b.header.hasSize = false) :
    (30 ≤ b.copyUnsized1._len ∧ b.copyUnsized1.fileFound = false ∧
      b.copyUnsized1.header.hasSize = false) ∧
    (b.copyUnsized1.Seeking ∨ b.copyUnsized1.Descriptor) := by
  obtain ⟨h1, h2, -⟩ := h
  unfold Buffer.copyUnsized1
  by_cases hc : b._dd.isNone = true ∧ b._flags &&& Buffer.Copying = 0
  · rw [if_pos hc]
    have hCF : Buffer.Copying &&& Buffer.FileFound = 0 := by decide
    refine ⟨⟨h30, ?_, hu⟩, Or.inl ⟨?_, ?_, rfl, Nat.zero_lt_succ 3, ?_, ?_⟩⟩
    · rw [← hf]
      exact fileFound_flags _ _ (flags_or _ _ _ hCF)
    · show (b._flags ||| Buffer.Copying) &&& Buffer.Copying ≠ 0
      rw [or_and_self]
      decide
    · show b._dd = none
      exact Option.isNone_iff_eq_none.mp hc.1
    · show 0 + 30 ≤ b._len
      omega
    · show b.mem.drop (b.mem.length - 0) = DataDescriptor.signature.take 0
      rw [Nat.sub_zero, List.drop_length]
      rfl
  · rw [if_neg hc]
    refine ⟨⟨h30, hf, hu⟩, ?_⟩
    by_cases hcp : b._flags &&& Buffer.Copying = 0
    · have hd : b._dd ≠ none := by
        intro hd
        apply hc
        exact ⟨by rw [hd]; rfl, hcp⟩
      exact Or.inr (h2 hd).1
    · exact Or.inl (h1 hcp).1

/-- The signature has just been found by `copy`: `Copying` is clear, `_dd` is still
null and the buffer ends with the signature, behind the 30 bytes of the header. -/
theorem copyUnsized2_stage (b : Buffer)
    (hC : 30 ≤ b._len ∧ b.fileFound = false ∧ b.header.hasSize = false)
    (hS : b.Seeking ∨ b.Descriptor) :
    (30 ≤ b.copyUnsized2._len ∧ b.copyUnsized2.fileFound = false ∧
      b.copyUnsized2.header.hasSize = false) ∧
    ((b.copyUnsized2.Seeking ∧ b.copyUnsized2._dlen = 0) ∨
      (b.copyUnsized2._flags &&& Buffer.Copying = 0 ∧ b.copyUnsized2._dd = none ∧
        34 ≤ b.copyUnsized2._len ∧
        b.copyUnsized2.mem.drop (b.copyUnsized2._len - 4) = DataDescriptor.signature) ∨
      b.copyUnsized2.Descriptor) := by
  obtain ⟨h30, hf, hu⟩ := hC
  unfold Buffer.copyUnsized2
  rcases hS with hS | hD
  · obtain ⟨s1, s2, s3, s4, s5, s6⟩ := hS
    rw [if_pos s1]
    have hcopy : b.copy = Buffer.copyLoop b._data b := rfl
    rw [hcopy]
    obtain ⟨a1, a2, ⟨xs, a3⟩, a4⟩ := copyLoop_seek b._data b rfl s3 s4 s5 s6
    have hhd := header_append b (Buffer.copyLoop b._data b) h30 xs a3
    have hlen : 30 ≤ (Buffer.copyLoop b._data b)._len := by
      show 30 ≤ (Buffer.copyLoop b._data b).mem.length
      rw [a3, List.length_append]
      have : 30 ≤ b.mem.length := h30
      omega
    have hCF : (4294967295 ^^^ Buffer.Copying) &&& Buffer.FileFound = Buffer.FileFound := by
      decide
    have hu' : (Buffer.copyLoop b._data b).header.hasSize = false := by rw [hhd]; exact hu
    rcases a4 with ⟨c1, c2, c3, c4, c5⟩ | ⟨c1, c2, c3⟩
    · have hf' : (Buffer.copyLoop b._data b).fileFound = false := by
        rw [← hf]
        apply fileFound_flags
        rw [c1]
      have hcp : (Buffer.copyLoop b._data b)._flags &&& Buffer.Copying ≠ 0 := by
        rw [c1]; exact s1
      have hdl : (Buffer.copyLoop b._data b)._dlen = 0 := by
        show (Buffer.copyLoop b._data b)._data.length = 0
        rw [c2]; rfl
      exact ⟨⟨hlen, hf', hu'⟩, Or.inl ⟨⟨hcp, a1.trans s2, a2.trans s3, c3, c4, c5⟩, hdl⟩⟩
    · have hf' : (Buffer.copyLoop b._data b).fileFound = false := by
        rw [← hf]
        apply fileFound_flags
        rw [c1, flags_clear _ _ _ hCF]
      have hcp : (Buffer.copyLoop b._data b)._flags &&& Buffer.Copying = 0 := by
        rw [c1]
        exact (clearFlag_and_self _).2
      exact ⟨⟨hlen, hf', hu'⟩, Or.inr (Or.inl ⟨hcp, a1.trans s2, c2, c3⟩)⟩
  · have hcp : ¬ (b._flags &&& Buffer.Copying ≠ 0) := fun hc => hc hD.1
    rw [if_neg hcp]
    exact ⟨⟨h30, hf, hu⟩, Or.inr (Or.inr hD)⟩
theorem copyUnsized3_stage (b : Buffer)
    (hS : (b._flags &&& Buffer.Copying = 0 ∧ b._dd = none ∧ 34 ≤ b._len ∧
        b.mem.drop (b._len - 4) = DataDescriptor.signature) ∨ b.Descriptor) :
    b.copyUnsized3.Descriptor ∧ b.copyUnsized3.mem = b.mem ∧
    b.copyUnsized3._flags = b._flags := by
  unfold Buffer.copyUnsized3
  rcases hS with ⟨s1, s2, s3, s4⟩ | hD
  · have hn : b._dd.isNone = true := by rw [s2]; rfl
    rw [if_pos hn]
    refine ⟨⟨s1, b._len - 4, ?_, by omega, ?_, ?_, ?_⟩, rfl, rfl⟩
    · show some ((b._len : Int) - 4) = some ((b._len - 4 : Nat) : Int)
      congr 1
      omega
    · show b._len - 4 + 4 ≤ b._len
      omega
    · show b._len ≤ b._len - 4 + 16
      omega
    · show (b.mem.drop (b._len - 4)).take 4 = DataDescriptor.signature
      rw [s4]
      rfl
  · obtain ⟨d1, k, d2, d3⟩ := hD
    have hn : ¬ b._dd.isNone = true := by rw [d2]; simp
    rw [if_neg hn]
    exact ⟨⟨d1, k, d2, d3⟩, rfl, rfl⟩

theorem drop_take_append (m xs : List Nat) (k : Nat) (h : k + 4 ≤ m.length) :
    ((m ++ xs).drop k).take 4 = (m.drop k).take 4 := by
  rw [List.drop_append_of_le_length (by omega),
    List.take_append_of_le_length (by rw [List.length_drop]; omega)]

theorem Framed_copyUnsized4 (b : Buffer)
    (hC : 30 ≤ b._len ∧ b.fileFound = false ∧ b.header.hasSize = false)
    (hD : b.Descriptor) : b.copyUnsized4.Framed := by
  obtain ⟨h30, hf, hu⟩ := hC
  obtain ⟨d1, k, d2, d3, d4, d5, d6⟩ := hD
  have hto : b.copyUnsizedToCopy = 16 - ((b._len : Int) - (k : Int)) := by
    unfold Buffer.copyUnsizedToCopy
    rw [d2]
    show toInt32 ((16 : Int) - ((b._len : Int) - (k : Int))) = _
    exact toInt32_eq _ (by omega) (by omega)
  obtain ⟨f1, f2, xs, f3, f4, f5⟩ := copyBytes_frame b b.copyUnsizedToCopy
  have f5' := f5 (by rw [hto]; omega)
  rw [hto] at f5'
  have hhd := header_append b (b.copyBytes b.copyUnsizedToCopy).1 h30 xs f3
  have hl1 : (b.copyBytes b.copyUnsizedToCopy).1._len = b._len + xs.length := by
    show (b.copyBytes b.copyUnsizedToCopy).1.mem.length = b.mem.length + xs.length
    rw [f3, List.length_append]
  have hml : k + 4 ≤ b.mem.length := d4
  have hF : Buffer.FileFound &&& Buffer.Copying = 0 := by decide
  rw [copyUnsized4_eq]
  generalize b.copyBytes b.copyUnsizedToCopy = r at f1 f2 f3 f4 hhd hl1
  by_cases he : b.copyUnsizedToCopy = r.2
  · rw [if_pos he]
    have hx : (xs.length : Int) = 16 - ((b._len : Int) - (k : Int)) := by
      rw [← f4, ← he, hto]
    -- the buffer with the header overwritten
    have hmem : r.1.setDataDescriptor.found.mem
        = (r.1.header.setDataDescriptor r.1.dataDescriptor).bytes ++ r.1.mem.drop 30 := rfl
    have hlen : r.1.setDataDescriptor.found._len = k + 16 := by
      show r.1.setDataDescriptor.found.mem.length = k + 16
      rw [hmem, List.length_append, Header_bytes_length, List.length_drop]
      have : r.1.mem.length = b._len + xs.length := hl1
      omega
    have hdrop : (r.1.setDataDescriptor.found.mem.drop k).take 4 = DataDescriptor.signature := by
      rw [hmem, List.drop_append_eq_append_drop, Header_bytes_length,
        List.drop_of_length_le (by rw [Header_bytes_length]; omega), List.nil_append,
        List.drop_drop, show 30 + (k - 30) = k by omega, f3, drop_take_append _ _ _ hml]
      exact d6
    have hhs : r.1.setDataDescriptor.found.header.hasSize = false := by
      show (Header.read r.1.setDataDescriptor.found.mem).hasSize = false
      rw [hmem, Header_read_bytes]
      show r.1.header.hasSize = false
      rw [hhd]
      exact hu
    have hcp : r.1.setDataDescriptor.found._flags &&& Buffer.Copying = 0 := by
      show (r.1._flags ||| Buffer.FileFound) &&& Buffer.Copying = 0
      rw [flags_or _ _ _ hF, f2]
      exact d1
    have hdd : r.1.setDataDescriptor.found._dd = some (k : Int) := f1.trans d2
    refine ⟨fun hc => absurd hcp hc, fun _ => ?_, fun _ _ => ⟨k, hdd, hlen⟩⟩
    exact ⟨⟨hcp, k, hdd, d3, by omega, by omega, hdrop⟩, hhs⟩
  · rw [if_neg he]
    have hcp : r.1._flags &&& Buffer.Copying = 0 := by rw [f2]; exact d1
    have hff : r.1.fileFound = false := by
      rw [← hf]
      exact fileFound_flags _ _ (by rw [f2])
    refine ⟨fun hc => absurd hcp hc, fun _ => ?_, fun hfound => ?_⟩
    · refine ⟨⟨hcp, k, f1.trans d2, d3, by omega, by omega, ?_⟩, by rw [hhd]; exact hu⟩
      rw [f3, drop_take_append _ _ _ hml]
      exact d6
    · rw [hff] at hfound
      cases hfound
theorem Framed_copyUnsized (b : Buffer) (h : b.Framed) (h30 : 30 ≤ b._len)
    (hf : b.fileFound = false) (hu : b.header.hasSize = false) : b.copyUnsized.Framed := by
  obtain ⟨hC1, hS1⟩ := copyUnsized1_stage b h h30 hf hu
  obtain ⟨hC2, hS2⟩ := copyUnsized2_stage b.copyUnsized1 hC1 hS1
  rw [copyUnsized_eq]
  generalize b.copyUnsized1.copyUnsized2 = c at hC2 hS2
  by_cases hd : c._dlen > 0
  · rw [if_pos hd]
    have hS3 : (c._flags &&& Buffer.Copying = 0 ∧ c._dd = none ∧ 34 ≤ c._len ∧
        c.mem.drop (c._len - 4) = DataDescriptor.signature) ∨ c.Descriptor := by
      rcases hS2 with ⟨-, h0⟩ | h4 | hD
      · omega
      · exact Or.inl h4
      · exact Or.inr hD
    obtain ⟨hD3, hm3, hf3⟩ := copyUnsized3_stage c hS3
    have hC3 : 30 ≤ c.copyUnsized3._len ∧ c.copyUnsized3.fileFound = false ∧
        c.copyUnsized3.header.hasSize = false := by
      refine ⟨?_, ?_, ?_⟩
      · show 30 ≤ c.copyUnsized3.mem.length
        rw [hm3]
        exact hC2.1
      · rw [← hC2.2.1]
        exact fileFound_flags _ _ (by rw [hf3])
      · show (Header.read c.copyUnsized3.mem).hasSize = false
        rw [hm3]
        exact hC2.2.2
    exact Framed_copyUnsized4 c.copyUnsized3 hC3 hD3
  · rw [if_neg hd]
    obtain ⟨-, hf2, hu2⟩ := hC2
    rcases hS2 with ⟨hS, -⟩ | ⟨h4, h5, -⟩ | hD
    · refine ⟨fun _ => ⟨hS, hu2⟩, fun hdd => absurd hS.2.1 hdd, fun hfound => ?_⟩
      rw [hf2] at hfound
      cases hfound
    · refine ⟨fun hc => absurd h4 hc, fun hdd => absurd h5 hdd, fun hfound => ?_⟩
      rw [hf2] at hfound
      cases hfound
    · refine ⟨fun hc => absurd hD.1 hc, fun _ => ⟨hD, hu2⟩, fun hfound => ?_⟩
      rw [hf2] at hfound
      cases hfound

theorem Framed_addRest (b : Buffer) (h : b.Framed) (hf : b.fileFound = false) :
    b.addRest.Framed := by
  have e1 : (if (!b.isHeader) = true then b.scanForHeader else b).Framed ∧
      (if (!b.isHeader) = true then b.scanForHeader else b).fileFound = false ∧
      (0 < (if (!b.isHeader) = true then b.scanForHeader else b)._dlen →
        30 ≤ (if (!b.isHeader) = true then b.scanForHeader else b)._len) := by
    by_cases hh : b.isHeader = true
    · have : 30 ≤ b._len := by
        simpa only [Buffer.isHeader, decide_eq_true_eq, Header.sizeof] using hh
      simp only [hh, Bool.not_true, Bool.false_eq_true, if_false]
      exact ⟨h, hf, fun _ => this⟩
    · have hl : b._len < 30 := by
        have : ¬ 30 ≤ b._len := by
          simpa only [Buffer.isHeader, decide_eq_true_eq, Header.sizeof] using hh
        omega
      simp only [hh, Bool.not_false, if_true]
      have hi := Idle_scanForHeader b (Idle_of_Framed b h hl hf)
      exact ⟨Framed_of_Idle _ hi, hi.2.2, (scanForHeader_total b).2⟩
  rw [addRest_eq]
  generalize (if (!b.isHeader) = true then b.scanForHeader else b) = b1 at e1
  obtain ⟨g1, g2, g3⟩ := e1
  by_cases hd : b1._dlen > 0
  · rw [if_pos hd]
    by_cases hs : b1.header.hasSize = true
    · rw [if_pos hs]
      exact Framed_copySized b1 g1 (g3 hd) hs
    · rw [if_neg hs]
      have hs' : b1.header.hasSize = false := by
        cases h' : b1.header.hasSize with
        | false => rfl
        | true => exact absurd h' hs
      exact Framed_copyUnsized b1 g1 (g3 hd) g2 hs'
  · rw [if_neg hd]
    exact g1

/-- The invariant holds in every state in use, and the bytes accumulated fit in the
capacity. -/
theorem Reachable_Framed (b : Buffer) (hr : b.Reachable) :
    b.Framed ∧ (b._len : Int) ≤ b._size := by
  induction hr with
  | new =>
    refine ⟨Framed_of_Idle _ ⟨rfl, by decide, by decide⟩, ?_⟩
    decide
  | addData b buff _ ih =>
    obtain ⟨hF, hcap⟩ := ih
    by_cases he : buff = [] ∨ b.fileFound = true
    · rw [addData_early b buff he]
      exact ⟨hF, hcap⟩
    · have hb : buff ≠ [] := fun h => he (Or.inl h)
      have hf : b.fileFound = false := by
        cases h : b.fileFound with
        | false => rfl
        | true => exact absurd (Or.inr h) he
      obtain ⟨sz, hsz, hadd⟩ := addData_eq_core b buff hb hf hcap
      rw [hadd]
      exact ⟨Framed_addRest (b.norm buff) hF hf, hsz⟩
  | reset b _ ih =>
    obtain ⟨-, hcap⟩ := ih
    refine ⟨Framed_of_Idle _ ⟨rfl, by show (0 &&& Buffer.Copying) = 0; decide, ?_⟩, ?_⟩
    · show ((0 &&& Buffer.FileFound) != 0) = false
      decide
    · show (b.reset.mem.length : Int) ≤ b._size
      rw [reset_mem]
      show (0 : Int) ≤ b._size
      omega
/-- C19 (framing of an entry of unknown size), as amended. In every state in use where
a file is marked found whose header has flags bit 3 set, `_dd` is set to the offset
length - 16, which is at least 30, and the buffer ends with the data descriptor
signature 50 4B 07 08 at this offset followed by exactly 12 bytes. When the signature
does not start inside the file name or the extra field (at an offset from 30 up to the
header size), the offset is at least the header size and the buffer is made of the
header, the payload between header size and offset, the signature and the 12 bytes. -/
theorem C19_unsized_payload_framing (b : Buffer) (hr : b.Reachable)
    (hf : b.fileFound = true) (hu : b.header.hasSize = false) :
    ∃ (k : Nat) (desc : List Nat),
      b._dd = some (k : Int) ∧ (k : Int) = (b._len : Int) - 16 ∧ 30 ≤ k ∧
      b.mem = b.mem.take k ++ DataDescriptor.signature ++ desc ∧ desc.length = 12 ∧
      ((∀ o, 30 ≤ o → o < b.header.hsize →
          (b.mem.drop o).take 4 ≠ DataDescriptor.signature) →
        b.header.hsize ≤ k ∧
        b.mem = b.mem.take b.header.hsize
          ++ (b.mem.drop b.header.hsize).take (k - b.header.hsize)
          ++ DataDescriptor.signature ++ desc) := by
  obtain ⟨⟨-, h2, h3⟩, -⟩ := Reachable_Framed b hr
  obtain ⟨k, hk, hlen⟩ := h3 hf hu
  have hdd : b._dd ≠ none := by rw [hk]; simp
  obtain ⟨⟨-, k', e1, e2, e3, e4, e5⟩, -⟩ := h2 hdd
  have hkk : k' = k := by
    rw [hk] at e1
    have := Option.some.inj e1
    omega
  subst hkk
  have hml : b.mem.length = k' + 16 := hlen
  have hsplit : b.mem = b.mem.take k' ++ DataDescriptor.signature ++ (b.mem.drop k').drop 4 := by
    rw [List.append_assoc, ← e5, List.take_append_drop, List.take_append_drop]
  refine ⟨k', (b.mem.drop k').drop 4, hk, by omega, e2, hsplit, ?_, fun hno => ?_⟩
  · rw [List.length_drop, List.length_drop]
    omega
  · have hle : b.header.hsize ≤ k' := by
      by_contra hlt
      exact hno k' e2 (by omega) e5
    refine ⟨hle, ?_⟩
    have ht : b.mem.take k' = b.mem.take b.header.hsize
        ++ (b.mem.drop b.header.hsize).take (k' - b.header.hsize) := by
      have := List.take_add b.mem b.header.hsize (k' - b.header.hsize)
      rw [show b.header.hsize + (k' - b.header.hsize) = k' by omega] at this
      exact this
    rw [← ht]
    exact hsplit

/-- C19, at an input: the buffer that has read the entry named a with flags bit 3 set,
the payload hello and its data descriptor; the descriptor starts at offset 36. -/
theorem C19_unsized_payload_framing_witness :
    ∃ (k : Nat) (desc : List Nat),
      (Buffer.new.addData unsizedEntry).1._dd = some (k : Int) ∧
      (k : Int) = ((Buffer.new.addData unsizedEntry).1._len : Int) - 16 ∧ 30 ≤ k ∧
      (Buffer.new.addData unsizedEntry).1.mem
        = (Buffer.new.addData unsizedEntry).1.mem.take k ++ DataDescriptor.signature ++ desc ∧
      desc.length = 12 :=
  (C19_unsized_payload_framing (Buffer.new.addData unsizedEntry).1
    (Buffer.Reachable.addData Buffer.new unsizedEntry Buffer.Reachable.new) rfl rfl).elim
    fun k h => h.elim fun desc h => ⟨k, desc, h.1, h.2.1, h.2.2.1, h.2.2.2.1, h.2.2.2.2.1⟩

/-- C19 as stated fails: for the entry whose name is 50 4B 07 08, the signature is found
in the name; the file is marked found with the descriptor at offset 30, below the header
size 34, and with the payload hello among the 12 bytes taken as the descriptor. -/
theorem C19_unsized_payload_framing_counterexample :
    Buffer.Reachable (Buffer.new.addData signatureNamed).1 ∧
    (Buffer.new.addData signatureNamed).1.fileFound = true ∧
    (Buffer.new.addData signatureNamed).1.header.hasSize = false ∧
    (Buffer.new.addData signatureNamed).1.header.hsize = 34 ∧
    (Buffer.new.addData signatureNamed).1._dd = some 30 ∧
    (Buffer.new.addData signatureNamed).1._len = 46 ∧
    (Buffer.new.addData signatureNamed).1.mem.drop 34
      = hello ++ [0x50, 0x4b, 0x07, 0x08, 0x86, 0xa6, 0x10] ∧
    signatureNamed.drop 34 = hello ++ sampleDescriptor 0x3610a686 5 5 :=
  ⟨Buffer.Reachable.addData Buffer.new signatureNamed Buffer.Reachable.new,
    rfl, rfl, rfl, rfl, rfl, rfl, rfl⟩

/-! ### The return code of `inflate` -/

/-- C21, confirmed. When `inflateInit2` succeeds and the buffer holds the `csize` input
bytes, `File::inflate` completes without error if and only if zlib's `inflate` returns
`Z_STREAM_END` and the CRC-32 of the first `size` output bytes equals the header's
`crc32`, and it then yields these `size` bytes (they are taken to have been written);
with `Z_STREAM_END` and another CRC-32 it throws the CRC32 exception, and every other
return code throws an exception: `Z_OK`, `Z_NEED_DICT`, `Z_DATA_ERROR`, `Z_MEM_ERROR`,
`Z_BUF_ERROR` and `Z_STREAM_ERROR` each their own, any further code the one for an
unknown inflate error. -/
theorem C21_inflate_classification (z : Zlib) (b : Buffer) (code : Int) (out : List Nat)
    (hinit : z.inflateInit2 = Zlib.Z_OK)
    (hin : b.header.csize ≤ b.contents.length)
    (hr : z.inflate (b.contents.take b.header.csize)
        ((b.header.size + 4) % 4294967296) = (code, out))
    (hout : code = Zlib.Z_STREAM_END → b.header.size ≤ out.length) :
    ((∃ d, File.inflate z b = .ok d) ↔
      (code = Zlib.Z_STREAM_END ∧
        Zlib.crc32 (out.take b.header.size) = b.header.crc32)) ∧
    (code = Zlib.Z_STREAM_END →
      Zlib.crc32 (out.take b.header.size) = b.header.crc32 →
      File.inflate z b = .ok (out.take b.header.size)) ∧
    (code = Zlib.Z_STREAM_END →
      Zlib.crc32 (out.take b.header.size) ≠ b.header.crc32 →
      File.inflate z b = .error (.exception .crc32Error)) ∧
    (code ≠ Zlib.Z_STREAM_END → ∃ e, File.inflate z b = .error (.exception e)) ∧
    (code = Zlib.Z_OK → File.inflate z b = .error (.exception .incompleteStream)) ∧
    (code = Zlib.Z_NEED_DICT → File.inflate z b = .error (.exception .needDictionary)) ∧
    (code = Zlib.Z_DATA_ERROR → File.inflate z b = .error (.exception .corruptInput)) ∧
    (code = Zlib.Z_MEM_ERROR → File.inflate z b = .error (.exception .notEnoughMemory)) ∧
    (code = Zlib.Z_BUF_ERROR → File.inflate z b = .error (.exception .notEnoughSpace)) ∧
    (code = Zlib.Z_STREAM_ERROR → File.inflate z b = .error (.exception .argumentError)) ∧
    (code ≠ Zlib.Z_OK → code ≠ Zlib.Z_NEED_DICT → code ≠ Zlib.Z_DATA_ERROR →
      code ≠ Zlib.Z_MEM_ERROR → code ≠ Zlib.Z_BUF_ERROR → code ≠ Zlib.Z_STREAM_ERROR →
      code ≠ Zlib.Z_STREAM_END →
      File.inflate z b = .error (.exception .unknownInflateError)) := by
  have hlt : ¬ b.contents.length < b.header.csize := by omega
  have e : File.inflate z b =
      (if code = Zlib.Z_OK then .error (.exception .incompleteStream)
      else if code = Zlib.Z_NEED_DICT then .error (.exception .needDictionary)
      else if code = Zlib.Z_DATA_ERROR then .error (.exception .corruptInput)
      else if code = Zlib.Z_MEM_ERROR then .error (.exception .notEnoughMemory)
      else if code = Zlib.Z_BUF_ERROR then .error (.exception .notEnoughSpace)
      else if code = Zlib.Z_STREAM_ERROR then .error (.exception .argumentError)
      else if code = Zlib.Z_STREAM_END then
        if out.length < b.header.size then .error .undefined
        else if Zlib.crc32 (out.take b.header.size) ≠ b.header.crc32
          then .error (.exception .crc32Error)
        else .ok (out.take b.header.size)
      else .error (.exception .unknownInflateError)) := by
    unfold File.inflate
    simp only [hinit, ne_eq, not_true_eq_false, if_false, hlt, hr]
  have d1 : Zlib.Z_STREAM_END ≠ Zlib.Z_OK := by decide
  have d2 : Zlib.Z_STREAM_END ≠ Zlib.Z_NEED_DICT := by decide
  have d3 : Zlib.Z_STREAM_END ≠ Zlib.Z_DATA_ERROR := by decide
  have d4 : Zlib.Z_STREAM_END ≠ Zlib.Z_MEM_ERROR := by decide
  have d5 : Zlib.Z_STREAM_END ≠ Zlib.Z_BUF_ERROR := by decide
  have d6 : Zlib.Z_STREAM_END ≠ Zlib.Z_STREAM_ERROR := by decide
  have hend : code = Zlib.Z_STREAM_END → File.inflate z b =
      (if Zlib.crc32 (out.take b.header.size) ≠ b.header.crc32
        then .error (.exception .crc32Error) else .ok (out.take b.header.size)) := by
    intro hc
    have ho : ¬ out.length < b.header.size := by have := hout hc; omega
    rw [e, hc, if_neg d1, if_neg d2, if_neg d3, if_neg d4, if_neg d5, if_neg d6,
      if_pos rfl, if_neg ho]
  have hother : code ≠ Zlib.Z_STREAM_END → ∃ e, File.inflate z b = .error (.exception e) := by
    intro hc
    rw [e, if_neg hc]
    by_cases c1 : code = Zlib.Z_OK
    · exact ⟨_, by rw [if_pos c1]⟩
    rw [if_neg c1]
    by_cases c2 : code = Zlib.Z_NEED_DICT
    · exact ⟨_, by rw [if_pos c2]⟩
    rw [if_neg c2]
    by_cases c3 : code = Zlib.Z_DATA_ERROR
    · exact ⟨_, by rw [if_pos c3]⟩
    rw [if_neg c3]
    by_cases c4 : code = Zlib.Z_MEM_ERROR
    · exact ⟨_, by rw [if_pos c4]⟩
    rw [if_neg c4]
    by_cases c5 : code = Zlib.Z_BUF_ERROR
    · exact ⟨_, by rw [if_pos c5]⟩
    rw [if_neg c5]
    by_cases c6 : code = Zlib.Z_STREAM_ERROR
    · exact ⟨_, by rw [if_pos c6]⟩
    rw [if_neg c6]
    exact ⟨_, rfl⟩
  refine ⟨⟨?_, ?_⟩, ?_, ?_, hother, ?_, ?_, ?_, ?_, ?_, ?_, ?_⟩
  · rintro ⟨d, hd⟩
    by_cases hc : code = Zlib.Z_STREAM_END
    · refine ⟨hc, ?_⟩
      by_contra hne
      rw [hend hc, if_pos hne] at hd
      cases hd
    · obtain ⟨x, hx⟩ := hother hc
      rw [hx] at hd
      cases hd
  · rintro ⟨hc, hcrc⟩
    exact ⟨_, by rw [hend hc, if_neg (not_not.mpr hcrc)]⟩
  · intro hc hcrc
    rw [hend hc, if_neg (not_not.mpr hcrc)]
  · intro hc hcrc
    rw [hend hc, if_pos hcrc]
  · intro hc
    rw [e, if_pos hc]
  · intro hc
    have c1 : code ≠ Zlib.Z_OK := by rw [hc]; decide
    rw [e, if_neg c1, if_pos hc]
  · intro hc
    have c1 : code ≠ Zlib.Z_OK := by rw [hc]; decide
    have c2 : code ≠ Zlib.Z_NEED_DICT := by rw [hc]; decide
    rw [e, if_neg c1, if_neg c2, if_pos hc]
  · intro hc
    have c1 : code ≠ Zlib.Z_OK := by rw [hc]; decide
    have c2 : code ≠ Zlib.Z_NEED_DICT := by rw [hc]; decide
    have c3 : code ≠ Zlib.Z_DATA_ERROR := by rw [hc]; decide
    rw [e, if_neg c1, if_neg c2, if_neg c3, if_pos hc]
  · intro hc
    have c1 : code ≠ Zlib.Z_OK := by rw [hc]; decide
    have c2 : code ≠ Zlib.Z_NEED_DICT := by rw [hc]; decide
    have c3 : code ≠ Zlib.Z_DATA_ERROR := by rw [hc]; decide
    have c4 : code ≠ Zlib.Z_MEM_ERROR := by rw [hc]; decide
    rw [e, if_neg c1, if_neg c2, if_neg c3, if_neg c4, if_pos hc]
  · intro hc
    have c1 : code ≠ Zlib.Z_OK := by rw [hc]; decide
    have c2 : code ≠ Zlib.Z_NEED_DICT := by rw [hc]; decide
    have c3 : code ≠ Zlib.Z_DATA_ERROR := by rw [hc]; decide
    have c4 : code ≠ Zlib.Z_MEM_ERROR := by rw [hc]; decide
    have c5 : code ≠ Zlib.Z_BUF_ERROR := by rw [hc]; decide
    rw [e, if_neg c1, if_neg c2, if_neg c3, if_neg c4, if_neg c5, if_pos hc]
  · intro c1 c2 c3 c4 c5 c6 c7
    rw [e, if_neg c1, if_neg c2, if_neg c3, if_neg c4, if_neg c5, if_neg c6, if_neg c7]

set_option maxRecDepth 100000 in
/-- C21, at an input: the deflated entry named w in a buffer, with a zlib that inflates
stored blocks: `inflate` returns `Z_STREAM_END`, the CRC-32 of the five bytes is the
declared one, and `File::inflate` yields the text world. -/
theorem C21_inflate_classification_witness :
    storedBlockInflate.inflateInit2 = Zlib.Z_OK ∧
    deflatedBuffer.header.csize ≤ deflatedBuffer.contents.length ∧
    storedBlockInflate.inflate (deflatedBuffer.contents.take deflatedBuffer.header.csize)
      ((deflatedBuffer.header.size + 4) % 4294967296) = (Zlib.Z_STREAM_END, world) ∧
    File.inflate storedBlockInflate deflatedBuffer = .ok world :=
  ⟨rfl, by decide, rfl,
    (C21_inflate_classification storedBlockInflate deflatedBuffer Zlib.Z_STREAM_END world rfl
      (by decide) rfl (fun _ => by decide)).2.1 rfl rfl⟩

/-! ### One step of the matcher -/

theorem matchByte_eq (b : Buffer) (x : Nat) (hs : b._signature.length = 4)
    (hk : b._slen < 4) :
    b.matchByte x = (if x = b._signature.getD b._slen 0 then b._slen + 1 else 0) := by
  have hg : b._signature.get? b._slen = some (b._signature.getD b._slen 0) := by
    rw [List.getD_eq_getElem?_getD, List.get?_eq_getElem?,
      List.getElem?_eq_getElem (by omega)]
    rfl
  simp only [Buffer.matchByte, hg, Option.some.injEq]
  by_cases h : x = b._signature.getD b._slen 0
  · rw [if_pos h, if_pos h.symm]
  · rw [if_neg h, if_neg (fun e => h e.symm)]

/-- C34 (matcher step and reset rule). For every buffer with a target of 4 bytes and a
progress `_slen` below 4, every byte `x` read and all data `rest` behind it: the step of
the matcher gives `_slen + 1` when `x` is the byte of the target at position `_slen`, and
0 otherwise. A round of `skip` and of `copy` on a byte that does not match goes on with
the data behind this byte and the progress 0, so no byte read before is looked at again
(`copy` has stored the byte), and the byte `y` read next is compared with position 0 of
the target. A round on a byte that matches ends the search when the progress reaches 4
and else goes on with the progress `_slen + 1`. -/
theorem C34_matcher_step_and_reset (b : Buffer) (x y : Nat) (rest : List Nat)
    (hs : b._signature.length = 4) (hk : b._slen < 4) :
    b.matchByte x = (if x = b._signature.getD b._slen 0 then b._slen + 1 else 0) ∧
    Buffer.skipLoop (x :: rest) b =
      (if x = b._signature.getD b._slen 0 then
        if b._slen + 1 = 4 then
          { b with _slen := 4, _data := rest,
                   _buffer := some (b.mem ++ b._signature.take 4),
                   _flags := Buffer.clearFlag b._flags Buffer.Skiping }
        else Buffer.skipLoop rest { b with _slen := b._slen + 1, _data := rest }
      else Buffer.skipLoop rest { b with _slen := 0, _data := rest }) ∧
    Buffer.copyLoop (x :: rest) b =
      (if x = b._signature.getD b._slen 0 then
        if b._slen + 1 = 4 then
          { b with _slen := 4, _data := rest, _buffer := some (b.mem ++ [x]),
                   _flags := Buffer.clearFlag b._flags Buffer.Copying }
        else Buffer.copyLoop rest
          { b with _slen := b._slen + 1, _data := rest, _buffer := some (b.mem ++ [x]) }
      else Buffer.copyLoop rest
        { b with _slen := 0, _data := rest, _buffer := some (b.mem ++ [x]) }) ∧
    ({ b with _slen := 0, _data := rest } : Buffer).matchByte y =
      (if y = b._signature.getD 0 0 then 1 else 0) ∧
    ({ b with _slen := 0, _data := rest, _buffer := some (b.mem ++ [x]) } : Buffer).matchByte y =
      (if y = b._signature.getD 0 0 then 1 else 0) := by
  have hm := matchByte_eq b x hs hk
  refine ⟨hm, ?_, ?_, ?_, ?_⟩
  · rw [skipLoop_cons, hm]
    by_cases h : x = b._signature.getD b._slen 0
    · simp only [if_pos h]
      by_cases h4 : b._slen + 1 = 4
      · simp only [if_pos h4]
        rw [h4]
      · simp only [if_neg h4]
    · simp only [if_neg h]
      rw [if_neg (by decide)]
  · rw [copyLoop_cons, hm]
    by_cases h : x = b._signature.getD b._slen 0
    · simp only [if_pos h]
      by_cases h4 : b._slen + 1 = 4
      · simp only [if_pos h4]
        rw [h4]
      · simp only [if_neg h4]
    · simp only [if_neg h]
      rw [if_neg (by decide)]
  · exact matchByte_eq { b with _slen := 0, _data := rest } y hs (Nat.zero_lt_succ 3)
  · exact matchByte_eq { b with _slen := 0, _data := rest, _buffer := some (b.mem ++ [x]) } y
      hs (Nat.zero_lt_succ 3)

/-- C34, at an input: a buffer that skips to the header signature 50 4B 03 04 with the
progress 1, and the byte 50 read: the byte is not 4B, the progress falls to 0, the round
goes on behind the byte, and the byte 50 read next would give the progress 1. -/
theorem C34_matcher_step_and_reset_witness :
    ({ Buffer.skipping Header.signature [] with _slen := 1 } : Buffer).matchByte 0x50 = 0 ∧
    Buffer.skipLoop [0x50, 0x50, 0x4b]
        { Buffer.skipping Header.signature [] with _slen := 1 } =
      Buffer.skipLoop [0x50, 0x4b]
        { Buffer.skipping Header.signature [] with _slen := 0, _data := [0x50, 0x4b] } ∧
    ({ Buffer.skipping Header.signature [] with _slen := 0, _data := [0x50, 0x4b] } :
      Buffer).matchByte 0x50 = 1 :=
  ⟨(C34_matcher_step_and_reset { Buffer.skipping Header.signature [] with _slen := 1 }
      0x50 0x50 [0x50, 0x4b] (by decide) (by decide)).1,
    (C34_matcher_step_and_reset { Buffer.skipping Header.signature [] with _slen := 1 }
      0x50 0x50 [0x50, 0x4b] (by decide) (by decide)).2.1,
    (C34_matcher_step_and_reset { Buffer.skipping Header.signature [] with _slen := 1 }
      0x50 0x50 [0x50, 0x4b] (by decide) (by decide)).2.2.2.1⟩

end zip

/-! # Theorems on the string and argument vector functions -/

namespace strext

/-! ### Copying strings -/

theorem store_append_zero (mem w : List Nat) :
    store mem (w ++ [0]) = w ++ 0 :: mem.drop (w.length + 1) := by
  simp [store]

theorem str_vcpy_copy_all (s : List Nat) (hs : ∀ c ∈ s, c ≠ 0) :
    ∀ (len : Int) (dst : List Nat), (s.length : Int) + 1 < len →
      str_vcpy_copy s len dst = (dst ++ s ++ [0], len - s.length - 1) := by
  induction s with
  | nil =>
    intro len dst h
    have h1 : len - 1 > 0 := by simp at h; omega
    simp [str_vcpy_copy, h1]
  | cons c s ih =>
    intro len dst h
    have hc : c ≠ 0 := hs c (List.mem_cons_self _ _)
    have h1 : len - 1 > 0 := by simp at h; omega
    have h2 : (s.length : Int) + 1 < len - 1 := by simp at h; omega
    rw [str_vcpy_copy, if_pos h1, if_pos hc,
      ih (fun x hx => hs x (List.mem_cons_of_mem _ hx)) _ _ h2]
    simp
    omega

theorem str_vcpy_copy_cut (s : List Nat) (hs : ∀ c ∈ s, c ≠ 0) :
    ∀ (len : Int) (dst : List Nat), len ≤ (s.length : Int) + 1 →
      str_vcpy_copy s len dst = (dst ++ s.take (len - 1).toNat, len - 1 - (len - 1).toNat) := by
  induction s with
  | nil =>
    intro len dst h
    have h1 : ¬ len - 1 > 0 := by simp at h; omega
    have h2 : (len - 1).toNat = 0 := by omega
    simp [str_vcpy_copy, h1, h2]
  | cons c s ih =>
    intro len dst h
    have hc : c ≠ 0 := hs c (List.mem_cons_self _ _)
    by_cases h1 : len - 1 > 0
    · have h2 : len - 1 ≤ (s.length : Int) + 1 := by simp at h; omega
      rw [str_vcpy_copy, if_pos h1, if_pos hc,
        ih (fun x hx => hs x (List.mem_cons_of_mem _ hx)) _ _ h2]
      have h3 : (len - 1).toNat = (len - 1 - 1).toNat + 1 := by omega
      rw [h3, List.take_succ_cons]
      simp
      omega
    · have h2 : (len - 1).toNat = 0 := by omega
      simp [str_vcpy_copy, h1, h2]

theorem str_vcpy_strings_eq (vp : List (List Nat)) (hvp : ∀ s ∈ vp, ∀ c ∈ s, c ≠ 0) :
    ∀ (len : Int) (dst : List Nat),
      (str_vcpy_strings vp len dst).1 = dst ++ vp.flatten.take (len - 1).toNat := by
  induction vp with
  | nil => intro len dst; simp [str_vcpy_strings]
  | cons s vp ih =>
    intro len dst
    have hs : ∀ c ∈ s, c ≠ 0 := hvp s (List.mem_cons_self _ _)
    have ih1 := ih (fun x hx => hvp x (List.mem_cons_of_mem _ hx))
    rw [str_vcpy_strings]
    by_cases h : (s.length : Int) + 1 < len
    · rw [str_vcpy_copy_all s hs len dst h]
      have h1 : len - (s.length : Int) - 1 > 0 := by omega
      simp only [h1, if_true, List.dropLast_concat]
      rw [ih1]
      have h2 : (len - ↑s.length - 1 + 1 - 1).toNat = (len - 1).toNat - s.length := by omega
      have h3 : s.length ≤ (len - 1).toNat := by omega
      rw [h2, List.flatten_cons, List.take_append_eq_append_take, List.take_of_length_le h3]
      simp
    · rw [str_vcpy_copy_cut s hs len dst (by omega)]
      have h1 : ¬ len - 1 - ((len - 1).toNat : Int) > 0 := by omega
      simp only [h1, if_false]
      rw [ih1]
      have h2 : (len - 1 - ((len - 1).toNat : Int) - 1).toNat = 0 := by omega
      have h3 : (len - 1).toNat - s.length = 0 := by omega
      rw [h2, List.flatten_cons, List.take_append_eq_append_take, h3]
      simp


theorem str_mcpy_eq (mem : List Nat) (len : Int) (vp : List (List Nat)) (hlen : 0 < len)
    (hvp : ∀ s ∈ vp, ∀ c ∈ s, c ≠ 0) :
    str_mcpy (some mem) len vp =
      (some (vp.flatten.take (min vp.flatten.length (len - 1).toNat) ++
          0 :: mem.drop (min vp.flatten.length (len - 1).toNat + 1)),
        ((min vp.flatten.length (len - 1).toNat : Nat) : Int)) := by
  have h := str_vcpy_strings_eq vp hvp len []
  rw [List.nil_append] at h
  have hl : (vp.flatten.take (len - 1).toNat).length = min vp.flatten.length (len - 1).toNat := by
    rw [List.length_take, Nat.min_comm]
  have ht : vp.flatten.take (min vp.flatten.length (len - 1).toNat) =
      vp.flatten.take (len - 1).toNat := by
    rw [Nat.min_comm, ← List.take_take, List.take_length]
  show (match (some mem : Option (List Nat)) with
    | some mem =>
      if len > 0 then
        (some (store mem ((str_vcpy_strings vp len []).1 ++ [0])),
          (((str_vcpy_strings vp len []).1.length : Nat) : Int))
      else (some mem, 0)
    | none => (none, 0)) = _
  simp only [gt_iff_lt, hlen, if_true]
  rw [h, store_append_zero, hl, ht]

/-- C22, confirmed. For a destination `dst` that is not null, of size `len > 0`, and
a string `src` of length `l`, `str_cpy ( dst, len, src )` leaves at `dst` the first
`min ( l, len - 1 )` characters of `src` followed by a zero byte and, behind these,
the bytes that were there before (so nothing behind `dst [len - 1]` is written), and
returns `min ( l, len - 1 )`; `str_mcpy` with the strings `vp` does the same for their
concatenation. -/
theorem C22_str_cpy_truncation (mem : List Nat) (len : Int) (src : List Nat)
    (vp : List (List Nat)) (hlen : 0 < len) (hsrc : ∀ c ∈ src, c ≠ 0)
    (hvp : ∀ s ∈ vp, ∀ c ∈ s, c ≠ 0) :
    str_cpy (some mem) len (some src) =
      (some (src.take (min src.length (len - 1).toNat) ++
          0 :: mem.drop (min src.length (len - 1).toNat + 1)),
        ((min src.length (len - 1).toNat : Nat) : Int)) ∧
    ((min src.length (len - 1).toNat : Nat) : Int) = min (src.length : Int) (len - 1) ∧
    ((min src.length (len - 1).toNat : Nat) : Int) + 1 ≤ len ∧
    str_mcpy (some mem) len vp =
      (some (vp.flatten.take (min vp.flatten.length (len - 1).toNat) ++
          0 :: mem.drop (min vp.flatten.length (len - 1).toNat + 1)),
        ((min vp.flatten.length (len - 1).toNat : Nat) : Int)) ∧
    ((min vp.flatten.length (len - 1).toNat : Nat) : Int) =
      min (vp.flatten.length : Int) (len - 1) ∧
    ((min vp.flatten.length (len - 1).toNat : Nat) : Int) + 1 ≤ len := by
  refine ⟨?_, ?_, ?_, str_mcpy_eq mem len vp hlen hvp, ?_, ?_⟩
  · have h := str_mcpy_eq mem len [src] hlen
      (fun s hs => by rw [List.mem_singleton] at hs; rw [hs]; exact hsrc)
    simp only [List.flatten_cons, List.flatten_nil, List.append_nil] at h
    exact h
  · omega
  · omega
  · omega
  · omega

/-- C22, at an input: `str_mcpy ( dest, 10, "/a", "/", "b", 0 )` on ten bytes 7 leaves
the string /a/b, its zero byte and five bytes 7, and returns 4; with `len = 4` it
leaves /a/ and returns 3. -/
theorem C22_str_cpy_truncation_witness :
    str_mcpy (some [7, 7, 7, 7, 7, 7, 7, 7, 7, 7]) 10 [[47, 97], [47], [98]] =
      (some [47, 97, 47, 98, 0, 7, 7, 7, 7, 7], 4) ∧
    str_mcpy (some [7, 7, 7, 7, 7, 7, 7, 7, 7, 7]) 4 [[47, 97], [47], [98]] =
      (some [47, 97, 47, 0, 7, 7, 7, 7, 7, 7], 3) ∧
    str_cpy (some [7, 7, 7, 7, 7, 7, 7, 7, 7, 7]) 3 (some [104, 101, 108, 108, 111]) =
      (some [104, 101, 0, 7, 7, 7, 7, 7, 7, 7], 2) :=
  ⟨(C22_str_cpy_truncation [7, 7, 7, 7, 7, 7, 7, 7, 7, 7] 10 [] [[47, 97], [47], [98]]
      (by decide) (by decide) (by decide)).2.2.2.1,
    (C22_str_cpy_truncation [7, 7, 7, 7, 7, 7, 7, 7, 7, 7] 4 [] [[47, 97], [47], [98]]
      (by decide) (by decide) (by decide)).2.2.2.1,
    (C22_str_cpy_truncation [7, 7, 7, 7, 7, 7, 7, 7, 7, 7] 3 [104, 101, 108, 108, 111] []
      (by decide) (by decide) (by decide)).1⟩

/-- The sum `n + 1` of `str_ncpy` for `0 <= n < INT_MAX`. -/
theorem toInt32_succ (n : Int) (hn : 0 ≤ n) (hmax : n < 2147483647) :
    zip.toInt32 (n + 1) = n + 1 := by
  obtain ⟨m, rfl⟩ := Int.eq_ofNat_of_zero_le hn
  have hm : m + 1 < 2147483648 := by omega
  have e : ((m : Int) + 1) % 4294967296 = Int.ofNat (m + 1) := by
    rw [Int.emod_eq_of_lt (by omega) (by omega)]
    rfl
  rw [zip.toInt32, e]
  simp only [hm, if_true]
  rfl

/-- The bytes that `str_ncpy` writes. For a destination `dst` that is not null, of size
`len > 0`, a string `src` of length `l` and `0 <= n < INT_MAX`,
`str_ncpy ( dst, len, src, n )` leaves at `dst` a prefix of `src` followed by a zero byte
and, behind these, the bytes that were there before; the number of bytes written, the
zero byte included, is `min ( len, min ( l, n ) + 1 )`, and the returned number is one
less. -/
theorem str_ncpy_byte_count (mem : List Nat) (len : Int) (src : List Nat) (n : Int)
    (k : Nat) (hlen : 0 < len) (hn : 0 ≤ n) (hmax : n < 2147483647)
    (hsrc : ∀ c ∈ src, c ≠ 0)
    (hk : (k : Int) = min len (min (src.length : Int) n + 1)) :
    str_ncpy (some mem) len (some src) n =
      (some (src.take (k - 1) ++ 0 :: mem.drop k), (k : Int) - 1) ∧
    (src.take (k - 1) ++ [0]).length = k := by
  have hl : 0 < (if len < n + 1 then len else n + 1) := by split <;> omega
  have h := str_mcpy_eq mem (if len < n + 1 then len else n + 1) [src] hl
    (fun s hs => by rw [List.mem_singleton] at hs; rw [hs]; exact hsrc)
  simp only [List.flatten_cons, List.flatten_nil, List.append_nil] at h
  have hk1 : min src.length ((if len < n + 1 then len else n + 1) - 1).toNat = k - 1 := by
    split <;> omega
  have hk2 : k - 1 + 1 = k := by omega
  rw [hk1, hk2] at h
  refine ⟨?_, ?_⟩
  · show str_mcpy (some mem)
      (if len < zip.toInt32 (n + 1) then len else zip.toInt32 (n + 1)) [src] = _
    rw [toInt32_succ n hn hmax, h]
    congr 1
    omega
  · rw [List.length_append, List.length_take, List.length_singleton]
    omega

/-- The sum `n + 1` of `str_ncpy` at `n = INT_MAX`, and what follows for every
destination, size `len > 0` and source: nothing is written and 0 is returned. -/
theorem str_ncpy_int_max (mem : List Nat) (len : Int) (src : List Nat) (hlen : 0 < len) :
    zip.toInt32 (2147483647 + 1) = -2147483648 ∧
    str_ncpy (some mem) len (some src) 2147483647 = (some mem, 0) := by
  have e : zip.toInt32 (2147483647 + 1) = -2147483648 := by decide
  refine ⟨e, ?_⟩
  show str_mcpy (some mem)
    (if len < zip.toInt32 (2147483647 + 1) then len else zip.toInt32 (2147483647 + 1)) [src] = _
  rw [e, if_neg (by omega)]
  rfl

/-- C23 (bytes that `str_ncpy` writes), at the failing input: with `n = INT_MAX`,
`str_ncpy ( dst, 10, "hello", n )` on ten bytes 7 writes nothing and returns 0, where
`min ( len, min ( l, n ) + 1 )` of the comment of `str_rncpy` is 6 bytes: the sum
`n + 1` does not fit an `int`. With `n = INT_MAX - 1` the six bytes of `hello` and its
zero byte are written, with `n = 2` the three bytes h, e and zero. -/
theorem C23_str_ncpy_int_max :
    str_ncpy (some [7, 7, 7, 7, 7, 7, 7, 7, 7, 7]) 10 (some [104, 101, 108, 108, 111])
        2147483647 =
      (some [7, 7, 7, 7, 7, 7, 7, 7, 7, 7], 0) ∧
    str_ncpy (some [7, 7, 7, 7, 7, 7, 7, 7, 7, 7]) 10 (some [104, 101, 108, 108, 111])
        2147483646 =
      (some [104, 101, 108, 108, 111, 0, 7, 7, 7, 7], 5) ∧
    str_ncpy (some [7, 7, 7, 7, 7, 7, 7, 7, 7, 7]) 10 (some [104, 101, 108, 108, 111]) 2 =
      (some [104, 101, 0, 7, 7, 7, 7, 7, 7, 7], 2) := by
  decide


/-! ### `str_reverse` -/

theorem getD_mid (pre : List Nat) (x : Nat) (post : List Nat) :
    (pre ++ x :: post).getD pre.length 0 = x := by
  induction pre with
  | nil => rfl
  | cons a pre ih => exact ih

theorem str_reverse_loop_succ (f : Nat) (str : List Nat) (lower upper : Int) :
    str_reverse_loop (f + 1) str lower upper =
      if lower < upper then
        str_reverse_loop f
          ((str.set lower.toNat (str.getD upper.toNat 0)).set upper.toNat
            (str.getD lower.toNat 0)) (lower + 1) (upper - 1)
      else str := rfl

theorem set_mid (pre : List Nat) (x y : Nat) (post : List Nat) :
    (pre ++ x :: post).set pre.length y = pre ++ y :: post := by
  simp

theorem str_len_loop_append (s t : List Nat) (hs : ∀ c ∈ s, c ≠ 0) (ht : peek t = 0) :
    str_len_loop (s ++ t) = s.length := by
  induction s with
  | nil =>
    cases t with
    | nil => rfl
    | cons c t =>
      have hc : c = 0 := ht
      simp [str_len_loop, hc]
  | cons c s ih =>
    have hc : c ≠ 0 := hs c (List.mem_cons_self _ _)
    simp [str_len_loop, hc, ih (fun x hx => hs x (List.mem_cons_of_mem _ hx))]

theorem str_reverse_loop_eq : ∀ (n : Nat) (mid pre post : List Nat) (fuel : Nat),
    mid.length = n → n ≤ fuel →
    str_reverse_loop fuel (pre ++ mid ++ post) pre.length
      ((pre.length : Int) + mid.length - 1) = pre ++ mid.reverse ++ post := by
  intro n
  induction n using Nat.strong_induction_on with
  | _ n ih =>
    intro mid pre post fuel hn hf
    have stop : ∀ (str : List Nat) (lower upper : Int), ¬ lower < upper →
        str_reverse_loop fuel str lower upper = str := by
      intro str lower upper h
      cases fuel with
      | zero => rfl
      | succ f => rw [str_reverse_loop_succ, if_neg h]
    cases mid with
    | nil => rw [stop _ _ _ (by simp)]; simp
    | cons x rest =>
      rcases List.eq_nil_or_concat rest with h | ⟨m, y, h⟩
      · subst h
        rw [stop _ _ _ (by simp)]
        simp
      · rw [List.concat_eq_append] at h
        subst h
        have hlen : n = m.length + 2 := by simp at hn; omega
        obtain ⟨f, hfe⟩ : ∃ f, fuel = f + 1 := ⟨fuel - 1, by omega⟩
        subst hfe
        have hlt : (pre.length : Int) < (pre.length : Int) + (x :: (m ++ [y])).length - 1 := by
          simp
          omega
        rw [str_reverse_loop_succ, if_pos hlt]
        have e1 : ((pre.length : Int)).toNat = pre.length := by omega
        have e2 : ((pre.length : Int) + ((x :: (m ++ [y])).length : Nat) - 1).toNat =
            (pre ++ x :: m).length := by
          simp
          omega
        have s1 : pre ++ (x :: (m ++ [y])) ++ post = pre ++ x :: (m ++ y :: post) := by simp
        have s2 : pre ++ (x :: (m ++ [y])) ++ post = (pre ++ x :: m) ++ y :: post := by simp
        have g1 : (pre ++ (x :: (m ++ [y])) ++ post).getD pre.length 0 = x := by
          rw [s1, getD_mid]
        have g2 : (pre ++ (x :: (m ++ [y])) ++ post).getD (pre ++ x :: m).length 0 = y := by
          rw [s2, getD_mid]
        rw [e1, e2, g1, g2]
        have s3 : (pre ++ (x :: (m ++ [y])) ++ post).set pre.length y =
            (pre ++ y :: m) ++ y :: post := by
          rw [s1, set_mid]
          simp
        have e3 : (pre ++ x :: m).length = (pre ++ y :: m).length := by simp
        rw [s3, e3, set_mid]
        have s4 : pre ++ y :: m ++ x :: post = (pre ++ [y]) ++ m ++ (x :: post) := by simp
        have e4 : (pre.length : Int) + 1 = ((pre ++ [y]).length : Nat) := by simp
        have e5 : (pre.length : Int) + ((x :: (m ++ [y])).length : Nat) - 1 - 1 =
            ((pre ++ [y]).length : Nat) + (m.length : Nat) - 1 := by
          simp
          omega
        rw [s4, e4, e5, ih m.length (by omega) m (pre ++ [y]) (x :: post) f rfl (by omega)]
        simp

theorem str_reverse_eq (s t : List Nat) (hs : ∀ c ∈ s, c ≠ 0) (ht : peek t = 0) :
    str_reverse (some (s ++ t)) = some (s.reverse ++ t) := by
  have h := str_reverse_loop_eq s.length s [] t (s ++ t).length rfl (by simp)
  show some (str_reverse_loop (s ++ t).length (s ++ t) 0
    (((str_len_loop (s ++ t) : Nat) : Int) - 1)) = _
  rw [str_len_loop_append s t hs ht]
  simp only [List.nil_append, List.length_nil, Nat.cast_zero, zero_add] at h
  rw [h]

/-- C27, confirmed. For a string `s` of length `n` (followed by its zero byte and the
bytes `t` behind it), `str_reverse` leaves in place the string whose `i`-th character
is the original character `n - 1 - i`, and what follows the string is unchanged; a
second `str_reverse` restores `s`. -/
theorem C27_str_reverse (s t : List Nat) (hs : ∀ c ∈ s, c ≠ 0) (ht : peek t = 0) :
    (∃ r : List Nat, str_reverse (some (s ++ t)) = some (r ++ t) ∧ r.length = s.length ∧
      (∀ i : Nat, i < s.length → r.get? i = s.get? (s.length - 1 - i)) ∧
      str_reverse (some (r ++ t)) = some (s ++ t)) ∧
    str_reverse (str_reverse (some (s ++ t))) = some (s ++ t) := by
  have hr : ∀ c ∈ s.reverse, c ≠ 0 := fun c hc => hs c (List.mem_reverse.mp hc)
  have h1 := str_reverse_eq s t hs ht
  have h2 := str_reverse_eq s.reverse t hr ht
  rw [List.reverse_reverse] at h2
  refine ⟨⟨s.reverse, h1, List.length_reverse s, ?_, h2⟩, ?_⟩
  · intro i hi
    rw [List.get?_eq_getElem?, List.get?_eq_getElem?, List.getElem?_reverse hi]
  · rw [h1, h2]

/-- C27, at an input: the string 01234, stored with its zero byte, becomes 43210, and
01234 again when reversed once more. -/
theorem C27_str_reverse_witness :
    (∃ r : List Nat, str_reverse (some ([48, 49, 50, 51, 52] ++ [0])) = some (r ++ [0]) ∧
      r.length = 5 ∧
      (∀ i : Nat, i < 5 → r.get? i = [48, 49, 50, 51, 52].get? (5 - 1 - i)) ∧
      str_reverse (some (r ++ [0])) = some ([48, 49, 50, 51, 52] ++ [0])) ∧
    str_reverse (str_reverse (some ([48, 49, 50, 51, 52] ++ [0]))) =
      some ([48, 49, 50, 51, 52] ++ [0]) :=
  C27_str_reverse [48, 49, 50, 51, 52] [0] (by decide) rfl


/-! ### Quoting and dequoting -/

theorem escapeLetter_some (c e : Nat) (h : escapeLetter c = some e) :
    unescape e = some c ∧ e ≠ 0 ∧ c ≠ 34 ∧ c ≠ 92 ∧
      (c = 10 ∨ c = 13 ∨ c = 8 ∨ c = 9 ∨ c = 12 ∨ c = 11 ∨ c = 7) := by
  unfold escapeLetter at h
  split_ifs at h with h1 h2 h3 h4 h5 h6 h7
  all_goals simp only [Option.some.injEq] at h
  all_goals subst h
  all_goals subst_vars
  all_goals decide

theorem escapeLetter_none (c : Nat) (h : escapeLetter c = none) :
    ¬ (c = 10 ∨ c = 13 ∨ c = 8 ∨ c = 9 ∨ c = 12 ∨ c = 11 ∨ c = 7) := by
  unfold escapeLetter at h
  split_ifs at h
  omega

theorem quoteChar_ne_zero (c : Nat) (hc : c ≠ 0) : ∀ x ∈ quoteChar c, x ≠ 0 := by
  intro x hx
  unfold quoteChar at hx
  cases he : escapeLetter c with
  | some e =>
    rw [he] at hx
    have := (escapeLetter_some c e he).2.1
    simp at hx
    omega
  | none =>
    rw [he] at hx
    split_ifs at hx <;> simp at hx <;> omega

theorem quoteChar_length (c : Nat) :
    ((quoteChar c).length : Int) =
      if c = 10 ∨ c = 13 ∨ c = 8 ∨ c = 9 ∨ c = 12 ∨ c = 11 ∨ c = 7 ∨ c = 92 ∨ c = 34
        then 2 else 1 := by
  unfold quoteChar
  cases he : escapeLetter c with
  | some e =>
    have := (escapeLetter_some c e he).2.2.2.2
    have h : c = 10 ∨ c = 13 ∨ c = 8 ∨ c = 9 ∨ c = 12 ∨ c = 11 ∨ c = 7 ∨ c = 92 ∨ c = 34 := by
      omega
    rw [if_pos h]
    rfl
  | none =>
    have := escapeLetter_none c he
    by_cases h : c = 34 ∨ c = 92
    · have h2 : c = 10 ∨ c = 13 ∨ c = 8 ∨ c = 9 ∨ c = 12 ∨ c = 11 ∨ c = 7 ∨ c = 92 ∨ c = 34 := by
        omega
      simp only [h, if_true, h2]
      rfl
    · have h2 : ¬ (c = 10 ∨ c = 13 ∨ c = 8 ∨ c = 9 ∨ c = 12 ∨ c = 11 ∨ c = 7 ∨ c = 92 ∨ c = 34) := by
        omega
      simp only [h, if_false, h2]
      rfl

theorem str_quote_len_eq (s t : List Nat) (hs : ∀ c ∈ s, c ≠ 0) (ht : peek t = 0) :
    ∀ len : Int, str_quote_len (s ++ t) len = len + (s.flatMap quoteChar).length := by
  induction s with
  | nil =>
    intro len
    cases t with
    | nil => simp [str_quote_len]
    | cons c t =>
      have hc : c = 0 := ht
      simp [str_quote_len, hc]
  | cons c s ih =>
    intro len
    have hc : c ≠ 0 := hs c (List.mem_cons_self _ _)
    have ih1 := ih (fun x hx => hs x (List.mem_cons_of_mem _ hx))
    have hl := quoteChar_length c
    rw [List.cons_append, str_quote_len, if_pos hc, List.flatMap_cons, List.length_append]
    by_cases h : c = 10 ∨ c = 13 ∨ c = 8 ∨ c = 9 ∨ c = 12 ∨ c = 11 ∨ c = 7 ∨ c = 92 ∨ c = 34
    · rw [if_pos h, ih1]
      rw [if_pos h] at hl
      push_cast
      omega
    · rw [if_neg h, ih1]
      rw [if_neg h] at hl
      push_cast
      omega

theorem str_rquote_loop_eq (s t : List Nat) (hs : ∀ c ∈ s, c ≠ 0) (ht : peek t = 0) :
    ∀ (l : Int) (d : List Nat), 3 + ((s.flatMap quoteChar).length : Int) ≤ l →
      str_rquote_loop (s ++ t) l d = d ++ s.flatMap quoteChar := by
  induction s with
  | nil =>
    intro l d _
    cases t with
    | nil => simp [str_rquote_loop]
    | cons c t =>
      have hc : c = 0 := ht
      simp [str_rquote_loop, hc]
  | cons c s ih =>
    intro l d hl
    have hc : c ≠ 0 := hs c (List.mem_cons_self _ _)
    have ih1 := ih (fun x hx => hs x (List.mem_cons_of_mem _ hx))
    rw [List.flatMap_cons, List.length_append] at hl
    have hq := quoteChar_length c
    have h1 : c ≠ 0 ∧ l - 1 > 2 := ⟨hc, by split at hq <;> omega⟩
    rw [List.cons_append, str_rquote_loop, if_pos h1, List.flatMap_cons]
    cases he : escapeLetter c with
    | some e =>
      have hs2 := (escapeLetter_some c e he).2.2.2.2
      have h : c = 10 ∨ c = 13 ∨ c = 8 ∨ c = 9 ∨ c = 12 ∨ c = 11 ∨ c = 7 ∨ c = 92 ∨ c = 34 := by
        omega
      rw [if_pos h] at hq
      have h3 : l - 1 > 3 := by omega
      have hqc : quoteChar c = [92, e] := by unfold quoteChar; rw [he]
      simp only [h3, if_true]
      rw [ih1 _ _ (by omega), hqc]
      simp
    | none =>
      have hn := escapeLetter_none c he
      by_cases h : c = 34 ∨ c = 92
      · have h2 : c = 10 ∨ c = 13 ∨ c = 8 ∨ c = 9 ∨ c = 12 ∨ c = 11 ∨ c = 7 ∨ c = 92 ∨ c = 34 := by
          omega
        rw [if_pos h2] at hq
        have h3 : (c = 34 ∨ c = 92) ∧ l - 1 > 3 := ⟨h, by omega⟩
        have hqc : quoteChar c = [92, c] := by unfold quoteChar; rw [he]; simp only [h, if_true]
        simp only [h3, and_self, if_true]
        rw [ih1 _ _ (by omega), hqc]
        simp
      · have h2 : ¬ (c = 10 ∨ c = 13 ∨ c = 8 ∨ c = 9 ∨ c = 12 ∨ c = 11 ∨ c = 7 ∨ c = 92 ∨ c = 34) := by
          omega
        rw [if_neg h2] at hq
        have h3 : ¬ ((c = 34 ∨ c = 92) ∧ l - 1 > 3) := fun x => h x.1
        have hqc : quoteChar c = [c] := by unfold quoteChar; rw [he]; simp only [h, if_false]
        simp only [h3, if_false]
        rw [ih1 _ _ (by omega), hqc]
        simp


theorem str_rdequote_loop_succ ( isquoted : Bool) (fuel : Nat) (s : List Nat) (l : Int)
    (d : List Nat) :
    str_rdequote_loop isquoted (fuel + 1) s l d =
      if peek s ≠ 0 ∧ l > 1 then
        if peek s = 92 then
          if peek s.tail = 0 then str_rdequote_loop isquoted fuel s.tail l d
          else
            match unescape (peek s.tail) with
            | some c => str_rdequote_loop isquoted fuel s.tail.tail (l - 1) (d ++ [c])
            | none =>
              if peek s.tail = 120 ∧ peek s.tail.tail ≠ 0 ∧ isxdigit (peek s.tail.tail) ∧
                  peek s.tail.tail.tail ≠ 0 ∧ isxdigit (peek s.tail.tail.tail) then
                str_rdequote_loop isquoted fuel s.tail.tail.tail.tail (l - 1)
                  (d ++ [toChar (_ord (peek s.tail.tail) * 16 + _ord (peek s.tail.tail.tail))])
              else if isdigit (peek s.tail) ∧ peek s.tail.tail ≠ 0 ∧
                  isdigit (peek s.tail.tail) ∧
                  peek s.tail.tail.tail ≠ 0 ∧ isdigit (peek s.tail.tail.tail) then
                str_rdequote_loop isquoted fuel s.tail.tail.tail.tail (l - 1)
                  (d ++ [toChar (_ord (peek s.tail) * 64 + _ord (peek s.tail.tail) * 8 +
                    _ord (peek s.tail.tail.tail))])
              else str_rdequote_loop isquoted fuel s.tail.tail (l - 1) (d ++ [peek s.tail])
        else if peek s = 34 ∧ isquoted then (d, l)
        else str_rdequote_loop isquoted fuel s.tail (l - 1) (d ++ [peek s])
      else (d, l) := rfl

theorem unescape_none (c : Nat) (h : c = 34 ∨ c = 92) :
    unescape c = none ∧ c ≠ 120 ∧ isdigit c = false := by
  rcases h with h | h <;> subst h <;> decide

theorem str_rdequote_loop_eq (s : List Nat) (hs : ∀ c ∈ s, c ≠ 0) (rest : List Nat) :
    ∀ (fuel : Nat) (l : Int) (d : List Nat), (s.flatMap quoteChar).length < fuel →
      (s.length : Int) + 1 < l →
      str_rdequote_loop true fuel (s.flatMap quoteChar ++ 34 :: rest) l d =
        (d ++ s, l - s.length) := by
  induction s with
  | nil =>
    intro fuel l d hf hl
    obtain ⟨f, rfl⟩ : ∃ f, fuel = f + 1 := ⟨fuel - 1, by omega⟩
    have p0 : peek (34 :: rest) = 34 := rfl
    have h1 : peek (34 :: rest) ≠ 0 ∧ l > 1 := ⟨by rw [p0]; decide, by simp at hl; omega⟩
    have h2 : ¬ peek (34 :: rest) = 92 := by rw [p0]; decide
    have h3 : peek (34 :: rest) = 34 ∧ true = true := ⟨rfl, rfl⟩
    rw [List.flatMap_nil, List.nil_append, str_rdequote_loop_succ, if_pos h1, if_neg h2,
      if_pos h3]
    simp
  | cons c s ih =>
    intro fuel l d hf hl
    have hc : c ≠ 0 := hs c (List.mem_cons_self _ _)
    have ih1 := ih (fun x hx => hs x (List.mem_cons_of_mem _ hx))
    rw [List.flatMap_cons, List.length_append] at hf
    rw [List.length_cons] at hl
    push_cast at hl
    obtain ⟨f, rfl⟩ : ∃ f, fuel = f + 1 := ⟨fuel - 1, by omega⟩
    have hl1 : l > 1 := by omega
    rw [List.flatMap_cons, str_rdequote_loop_succ]
    cases he : escapeLetter c with
    | some e =>
      have hes := escapeLetter_some c e he
      have hqc : quoteChar c = [92, e] := by unfold quoteChar; rw [he]
      rw [hqc] at hf ⊢
      have p1 : peek ([92, e] ++ (s.flatMap quoteChar ++ 34 :: rest)) = 92 := rfl
      have t1 : ([92, e] ++ (s.flatMap quoteChar ++ 34 :: rest)).tail =
          e :: (s.flatMap quoteChar ++ 34 :: rest) := rfl
      rw [List.append_assoc, p1, t1]
      have p2 : peek (e :: (s.flatMap quoteChar ++ 34 :: rest)) = e := rfl
      rw [p2, if_pos ⟨by decide, hl1⟩, if_pos rfl, if_neg hes.2.1, hes.1]
      show str_rdequote_loop true f (s.flatMap quoteChar ++ 34 :: rest) (l - 1) (d ++ [c]) = _
      rw [ih1 f (l - 1) (d ++ [c]) (by simp only [List.length_cons, List.length_nil] at hf; omega) (by omega)]
      simp
      omega
    | none =>
      have hn := escapeLetter_none c he
      by_cases h : c = 34 ∨ c = 92
      · have hqc : quoteChar c = [92, c] := by unfold quoteChar; rw [he]; simp only [h, if_true]
        have hu := unescape_none c h
        rw [hqc] at hf ⊢
        have p1 : peek ([92, c] ++ (s.flatMap quoteChar ++ 34 :: rest)) = 92 := rfl
        have t1 : ([92, c] ++ (s.flatMap quoteChar ++ 34 :: rest)).tail =
            c :: (s.flatMap quoteChar ++ 34 :: rest) := rfl
        rw [List.append_assoc, p1, t1]
        have p2 : peek (c :: (s.flatMap quoteChar ++ 34 :: rest)) = c := rfl
        rw [p2, if_pos ⟨by decide, hl1⟩, if_pos rfl, if_neg hc, hu.1]
        have h5 : ¬ (c = 120 ∧
            peek (c :: (s.flatMap quoteChar ++ 34 :: rest)).tail ≠ 0 ∧
            isxdigit (peek (c :: (s.flatMap quoteChar ++ 34 :: rest)).tail) = true ∧
            peek (c :: (s.flatMap quoteChar ++ 34 :: rest)).tail.tail ≠ 0 ∧
            isxdigit (peek (c :: (s.flatMap quoteChar ++ 34 :: rest)).tail.tail) = true) :=
          fun x => hu.2.1 x.1
        have h6 : ¬ (isdigit c = true ∧
            peek (c :: (s.flatMap quoteChar ++ 34 :: rest)).tail ≠ 0 ∧
            isdigit (peek (c :: (s.flatMap quoteChar ++ 34 :: rest)).tail) = true ∧
            peek (c :: (s.flatMap quoteChar ++ 34 :: rest)).tail.tail ≠ 0 ∧
            isdigit (peek (c :: (s.flatMap quoteChar ++ 34 :: rest)).tail.tail) = true) := by
          rw [hu.2.2]
          simp
        show (if _ then _ else if _ then _ else _) = _
        rw [if_neg h5, if_neg h6]
        show str_rdequote_loop true f (s.flatMap quoteChar ++ 34 :: rest) (l - 1) (d ++ [c]) = _
        rw [ih1 f (l - 1) (d ++ [c]) (by simp only [List.length_cons, List.length_nil] at hf; omega) (by omega)]
        simp
        omega
      · have hqc : quoteChar c = [c] := by unfold quoteChar; rw [he]; simp only [h, if_false]
        rw [hqc] at hf ⊢
        have p1 : peek ([c] ++ (s.flatMap quoteChar ++ 34 :: rest)) = c := rfl
        rw [List.append_assoc, p1]
        have h92 : ¬ c = 92 := fun x => h (Or.inr x)
        have h34 : ¬ (c = 34 ∧ true = true) := fun x => h (Or.inl x.1)
        rw [if_pos ⟨hc, hl1⟩, if_neg h92, if_neg h34]
        show str_rdequote_loop true f (s.flatMap quoteChar ++ 34 :: rest) (l - 1) (d ++ [c]) = _
        rw [ih1 f (l - 1) (d ++ [c]) (by simp only [List.length_cons, List.length_nil] at hf; omega) (by omega)]
        simp
        omega

theorem flatMap_quoteChar_ne_zero (s : List Nat) (hs : ∀ c ∈ s, c ≠ 0) :
    ∀ x ∈ s.flatMap quoteChar, x ≠ 0 := by
  intro x hx
  rw [List.mem_flatMap] at hx
  obtain ⟨c, hc, hxc⟩ := hx
  exact quoteChar_ne_zero c (hs c hc) x hxc

theorem str_rquote_some (mem : List Nat) (blen : Int) (s : List Nat) :
    str_rquote (some mem) blen (some s) =
      if blen > 2 then
        (some (store mem (str_rquote_loop s blen [34] ++ [34] ++ [0])),
          (((str_rquote_loop s blen [34] ++ [34]).length : Nat) : Int))
      else (some mem, 0) := rfl

theorem str_quote_some (s : List Nat) :
    str_quote (some s) =
      match malloc (str_quote_len s 3) with
      | some news => (str_rquote (some news) (str_quote_len s 3) (some s)).1
      | none => none := rfl

theorem str_rdequote_some (mem : List Nat) (blen : Int) (s : List Nat) :
    str_rdequote (some mem) blen (some s) =
      if blen > 1 then
        (some (store mem ((if peek s = 34 then str_rdequote_loop true s.length s.tail blen []
            else str_rdequote_loop false (s.length + 1) s blen []).1 ++ [0])),
          blen - (if peek s = 34 then str_rdequote_loop true s.length s.tail blen []
            else str_rdequote_loop false (s.length + 1) s blen []).2)
      else (some mem, 0) := rfl

theorem str_dequote_some (s : List Nat) :
    str_dequote (some s) =
      match malloc (str_len (some s) + 1) with
      | some news => (str_rdequote (some news) (str_len (some s) + 1) (some s)).1
      | none => none := rfl

theorem str_quote_eq (s t : List Nat) (hs : ∀ c ∈ s, c ≠ 0) (ht : peek t = 0) :
    str_quote (some (s ++ t)) = some (34 :: s.flatMap quoteChar ++ [34, 0]) := by
  have hlen := str_quote_len_eq s t hs ht 3
  have hm : malloc (str_quote_len (s ++ t) 3) = some [] := by
    unfold malloc
    rw [hlen, if_neg (by omega)]
  have h2 : str_quote_len (s ++ t) 3 > 2 := by rw [hlen]; omega
  rw [str_quote_some, hm]
  show (str_rquote (some []) (str_quote_len (s ++ t) 3) (some (s ++ t))).1 = _
  rw [str_rquote_some, if_pos h2, str_rquote_loop_eq s t hs ht _ _ (by rw [hlen])]
  simp [store]

theorem length_le_flatMap_quoteChar (s : List Nat) :
    s.length ≤ (s.flatMap quoteChar).length := by
  induction s with
  | nil => simp
  | cons c s ih =>
    have h2 := quoteChar_length c
    rw [List.flatMap_cons, List.length_append, List.length_cons]
    split at h2 <;> omega

theorem str_dequote_eq (s : List Nat) (hs : ∀ c ∈ s, c ≠ 0) :
    str_dequote (some (34 :: s.flatMap quoteChar ++ [34, 0])) = some (s ++ [0]) := by
  have hz : ∀ c ∈ 34 :: s.flatMap quoteChar ++ [34], c ≠ 0 := by
    intro c hc
    simp only [List.cons_append, List.mem_cons, List.mem_append, List.mem_singleton,
      List.not_mem_nil, or_false] at hc
    rcases hc with h | h | h
    · omega
    · exact flatMap_quoteChar_ne_zero s hs c h
    · omega
  have e1 : 34 :: s.flatMap quoteChar ++ [34, 0] = (34 :: s.flatMap quoteChar ++ [34]) ++ [0] := by
    simp
  have hl : str_len (some (34 :: s.flatMap quoteChar ++ [34, 0])) =
      ((s.flatMap quoteChar).length : Int) + 2 := by
    show ((str_len_loop (34 :: s.flatMap quoteChar ++ [34, 0]) : Nat) : Int) = _
    rw [e1, str_len_loop_append _ [0] hz rfl]
    simp only [List.cons_append, List.length_cons, List.length_append, List.length_nil]
    push_cast
    omega
  have hm : malloc (str_len (some (34 :: s.flatMap quoteChar ++ [34, 0])) + 1) = some [] := by
    unfold malloc
    rw [hl, if_neg (by omega)]
  have hql := length_le_flatMap_quoteChar s
  have hb : ((s.flatMap quoteChar).length : Int) + 2 + 1 > 1 := by omega
  have hloop := str_rdequote_loop_eq s hs [0] (34 :: s.flatMap quoteChar ++ [34, 0]).length
    (((s.flatMap quoteChar).length : Int) + 2 + 1) []
    (by simp only [List.cons_append, List.length_cons, List.length_append, List.length_nil]
        omega) (by omega)
  rw [str_dequote_some, hm]
  show (str_rdequote (some []) _ (some (34 :: s.flatMap quoteChar ++ [34, 0]))).1 = _
  rw [str_rdequote_some, hl, if_pos hb]
  have p1 : peek (34 :: s.flatMap quoteChar ++ [34, 0]) = 34 := rfl
  have t1 : (34 :: s.flatMap quoteChar ++ [34, 0]).tail = s.flatMap quoteChar ++ 34 :: [0] := rfl
  rw [if_pos p1, t1, hloop]
  simp [store]


/-- C24, confirmed. For a string `s` (followed by its zero byte and the bytes `t`
behind it), `str_quote` returns a block that holds a double quote, for each character
of `s` in turn the characters `quoteChar` gives, a double quote and a zero byte; these
are a backslash and the character for the double quote and the backslash, a backslash
and one of the letters n, r, b, t, f, v, a for linefeed, carriage return, backspace,
tab, formfeed, vertical tab and alert, and the character itself otherwise.
`str_dequote` of that block returns a block that holds `s` and a zero byte. -/
theorem C24_quote_round_trip (s t : List Nat) (hs : ∀ c ∈ s, c ≠ 0) (ht : peek t = 0) :
    str_quote (some (s ++ t)) = some (34 :: s.flatMap quoteChar ++ [34, 0]) ∧
    str_dequote (str_quote (some (s ++ t))) = some (s ++ [0]) ∧
    quoteChar 34 = [92, 34] ∧ quoteChar 92 = [92, 92] ∧ quoteChar 10 = [92, 110] ∧
    quoteChar 13 = [92, 114] ∧ quoteChar 8 = [92, 98] ∧ quoteChar 9 = [92, 116] ∧
    quoteChar 12 = [92, 102] ∧ quoteChar 11 = [92, 118] ∧ quoteChar 7 = [92, 97] ∧
    (∀ c : Nat, c ≠ 34 → c ≠ 92 → c ≠ 10 → c ≠ 13 → c ≠ 8 → c ≠ 9 → c ≠ 12 → c ≠ 11 →
      c ≠ 7 → quoteChar c = [c]) := by
  have h1 := str_quote_eq s t hs ht
  refine ⟨h1, ?_, rfl, rfl, rfl, rfl, rfl, rfl, rfl, rfl, rfl, ?_⟩
  · rw [h1, str_dequote_eq s hs]
  · intro c c1 c2 c3 c4 c5 c6 c7 c8 c9
    have he : escapeLetter c = none := by
      unfold escapeLetter
      rw [if_neg c3, if_neg c4, if_neg c5, if_neg c6, if_neg c7, if_neg c8, if_neg c9]
    have hn : ¬ (c = 34 ∨ c = 92) := by omega
    unfold quoteChar
    rw [he]
    simp only [hn, if_false]

/-- C24, at an input: the seven characters a, double quote, b, backslash, c, linefeed,
d are quoted to twelve characters and a zero byte, and dequoted to themselves. -/
theorem C24_quote_round_trip_witness :
    str_quote (some ([97, 34, 98, 92, 99, 10, 100] ++ [])) =
      some [34, 97, 92, 34, 98, 92, 92, 99, 92, 110, 100, 34, 0] ∧
    str_dequote (str_quote (some ([97, 34, 98, 92, 99, 10, 100] ++ []))) =
      some [97, 34, 98, 92, 99, 10, 100, 0] :=
  ⟨(C24_quote_round_trip [97, 34, 98, 92, 99, 10, 100] [] (by decide) rfl).1,
    (C24_quote_round_trip [97, 34, 98, 92, 99, 10, 100] [] (by decide) rfl).2.1⟩


/-! ### `str_substring` on plain words -/

theorem wordLoop_succ (delim fuel : Nat) (x : Scan) :
    wordLoop delim (fuel + 1) x =
      if peek x.s ≠ 0 ∧ peek x.s ≠ 34 ∧ peek x.s ≠ delim ∧ ¬ isspace (peek x.s) then
        wordLoop delim fuel
          ((if peek x.s = 92 ∧ (peek x.s.tail = delim ∨ peek x.s.tail = 34)
            then { x with s := x.s.tail } else x).copy
            (peek (if peek x.s = 92 ∧ (peek x.s.tail = delim ∨ peek x.s.tail = 34)
              then { x with s := x.s.tail } else x).s))
      else x := rfl

theorem wordLoop_stop (delim fuel : Nat) (x : Scan)
    (h : ¬ (peek x.s ≠ 0 ∧ peek x.s ≠ 34 ∧ peek x.s ≠ delim ∧ ¬ isspace (peek x.s))) :
    wordLoop delim fuel x = x := by
  cases fuel with
  | zero => rfl
  | succ f => rw [wordLoop_succ, if_neg h]

theorem wordLoop_plain (delim : Nat) (f : List Nat) (hf : ∀ c ∈ f, Plain delim c)
    (rest : List Nat)
    (hrest : ¬ (peek rest ≠ 0 ∧ peek rest ≠ 34 ∧ peek rest ≠ delim ∧ ¬ isspace (peek rest))) :
    ∀ (fuel : Nat) (d : List Nat) (n : Int), f.length ≤ fuel → (f.length : Int) ≤ n →
      wordLoop delim fuel (Scan.mk (f ++ rest) d n) = Scan.mk rest (d ++ f) (n - f.length) := by
  induction f with
  | nil =>
    intro fuel d n _ _
    rw [wordLoop_stop delim fuel _ hrest]
    simp
  | cons c f ih =>
    intro fuel d n hfu hn
    obtain ⟨k, rfl⟩ : ∃ k, fuel = k + 1 := ⟨fuel - 1, by simp at hfu; omega⟩
    obtain ⟨c0, csp, c34, c92, cd⟩ := hf c (List.mem_cons_self _ _)
    have p1 : peek (Scan.mk (c :: f ++ rest) d n).s = c := rfl
    have h1 : c ≠ 0 ∧ c ≠ 34 ∧ c ≠ delim ∧ ¬ isspace c = true := ⟨c0, c34, cd, by simp [csp]⟩
    have h2 : ¬ (c = 92 ∧ (peek (Scan.mk (c :: f ++ rest) d n).s.tail = delim ∨
        peek (Scan.mk (c :: f ++ rest) d n).s.tail = 34)) := fun x => c92 x.1
    have hn1 : n > 0 := by simp at hn; omega
    rw [wordLoop_succ, p1, if_pos h1, if_neg h2, p1]
    show wordLoop delim k (Scan.mk (f ++ rest) (if n > 0 then d ++ [c] else d) (n - 1)) = _
    rw [if_pos hn1, ih (fun x hx => hf x (List.mem_cons_of_mem _ hx)) k _ _
      (by simp at hfu; omega) (by simp at hn; omega)]
    simp
    omega

theorem substringLoop_succ (delim fuel : Nat) (x : Scan) :
    substringLoop delim (fuel + 1) x =
      if peek x.s ≠ 0 ∧ peek x.s ≠ delim then
        if peek x.s = 34 then
          substringLoop delim fuel
            (if peek (quotedLoop x.s.length { x with s := x.s.tail }).s = 34
              then { quotedLoop x.s.length { x with s := x.s.tail } with
                s := (quotedLoop x.s.length { x with s := x.s.tail }).s.tail }
              else quotedLoop x.s.length { x with s := x.s.tail })
        else
          if isspace (peek (wordLoop delim x.s.length x).s) then
            if delim ≠ 0 then
              substringLoop delim fuel
                (if peek (spaceLoop (wordLoop delim x.s.length x).s.length
                      (wordLoop delim x.s.length x)).s = 0 ∨
                    peek (spaceLoop (wordLoop delim x.s.length x).s.length
                      (wordLoop delim x.s.length x)).s = delim
                  then { spaceLoop (wordLoop delim x.s.length x).s.length
                      (wordLoop delim x.s.length x) with
                    d := (spaceLoop (wordLoop delim x.s.length x).s.length
                      (wordLoop delim x.s.length x)).d.take
                        (wordLoop delim x.s.length x).d.length }
                  else spaceLoop (wordLoop delim x.s.length x).s.length
                    (wordLoop delim x.s.length x))
            else wordLoop delim x.s.length x
          else substringLoop delim fuel (wordLoop delim x.s.length x)
      else x := rfl

theorem substringLoop_stop (delim fuel : Nat) (x : Scan)
    (h : ¬ (peek x.s ≠ 0 ∧ peek x.s ≠ delim)) : substringLoop delim fuel x = x := by
  cases fuel with
  | zero => rfl
  | succ f => rw [substringLoop_succ, if_neg h]

/-- The loop of `str_substring` at a word of plain characters that is followed by the
delimiter or by the end of the string: the word is copied. -/
theorem substringLoop_plain (delim : Nat) (f : List Nat) (hne : f ≠ [])
    (hf : ∀ c ∈ f, Plain delim c) (rest : List Nat)
    (hrest : peek rest = 0 ∨ peek rest = delim) (hd : isspace delim = false)
    (fuel : Nat) (n : Int) (hfu : 0 < fuel) (hn : (f.length : Int) ≤ n) :
    substringLoop delim fuel (Scan.mk (f ++ rest) [] n) = Scan.mk rest f (n - f.length) := by
  obtain ⟨k, rfl⟩ : ∃ k, fuel = k + 1 := ⟨fuel - 1, by omega⟩
  obtain ⟨c, f', rfl⟩ : ∃ c f', f = c :: f' := by
    cases f with
    | nil => exact absurd rfl hne
    | cons c f' => exact ⟨c, f', rfl⟩
  obtain ⟨c0, csp, c34, c92, cd⟩ := hf c (List.mem_cons_self _ _)
  have p1 : peek (Scan.mk (c :: f' ++ rest) [] n).s = c := rfl
  have hstop : ¬ (peek rest ≠ 0 ∧ peek rest ≠ 34 ∧ peek rest ≠ delim ∧ ¬ isspace (peek rest)) := by
    rintro ⟨a, _, b, _⟩
    rcases hrest with h | h
    · exact a h
    · exact b h
  have hw := wordLoop_plain delim (c :: f') hf rest hstop (c :: f' ++ rest).length [] n
    (by simp) hn
  have hsp : ¬ isspace (peek rest) = true := by
    rcases hrest with h | h
    · rw [h]; decide
    · rw [h, hd]; simp
  rw [substringLoop_succ, p1, if_pos ⟨c0, cd⟩, if_neg c34]
  show (if isspace (peek (wordLoop delim (c :: f' ++ rest).length
      (Scan.mk (c :: f' ++ rest) [] n)).s) = true then _ else _) = _
  rw [hw]
  show (if isspace (peek rest) = true then _ else _) = _
  rw [if_neg hsp]
  rw [substringLoop_stop]
  · simp
  · rintro ⟨a, b⟩
    rcases hrest with h | h
    · exact a h
    · exact b h


theorem skipSpace_plain (delim : Nat) (c : Nat) (hc : Plain delim c) (s : List Nat) :
    skipSpace (c :: s) = c :: s := by
  have h : ¬ (c ≠ 0 ∧ isspace c = true) := by
    rw [hc.2.1]
    simp
  rw [skipSpace, if_neg h]

theorem skipSpace_stop (s : List Nat) (h : peek s = 0 ∨ isspace (peek s) = false) :
    skipSpace s = s := by
  cases s with
  | nil => rfl
  | cons c s =>
    have h2 : ¬ (c ≠ 0 ∧ isspace c = true) := by
      rintro ⟨a, b⟩
      rcases h with h | h
      · exact a h
      · have h3 : isspace c = false := h
        rw [h3] at b
        exact Bool.noConfusion b
    rw [skipSpace, if_neg h2]

theorem str_substring_some (str b : List Nat) (len : Int) (delim : Nat) :
    str_substring (some str) (some b) len delim =
      if peek (skipSpace str) ≠ 0 then
        if delim ≠ 0 then
          if peek (skipSpace (substringLoop delim (skipSpace str).length
              (Scan.mk (skipSpace str) [] len)).s) = delim then
            (true, some (store b ((substringLoop delim (skipSpace str).length
              (Scan.mk (skipSpace str) [] len)).d ++ [0])),
              some (skipSpace (substringLoop delim (skipSpace str).length
                (Scan.mk (skipSpace str) [] len)).s).tail)
          else
            (false, some (store b ((substringLoop delim (skipSpace str).length
              (Scan.mk (skipSpace str) [] len)).d ++ [0])),
              some (skipSpace (substringLoop delim (skipSpace str).length
                (Scan.mk (skipSpace str) [] len)).s))
        else
          (decide (peek (skipSpace (substringLoop delim (skipSpace str).length
              (Scan.mk (skipSpace str) [] len)).s) ≠ 0),
            some (store b ((substringLoop delim (skipSpace str).length
              (Scan.mk (skipSpace str) [] len)).d ++ [0])),
            some (skipSpace (substringLoop delim (skipSpace str).length
              (Scan.mk (skipSpace str) [] len)).s))
      else (false, some (store b [0]), some str) := rfl

/-- A call of `str_substring` at a word of plain characters that is followed by the
delimiter: the word is written to the buffer, the returned pointer is the buffer and
`*rstr` is behind the delimiter. -/
theorem str_substring_field (delim : Nat) (f : List Nat) (hne : f ≠ [])
    (hf : ∀ c ∈ f, Plain delim c) (rest b : List Nat) (hd0 : delim ≠ 0)
    (hd : isspace delim = false) (len : Int) (hn : (f.length : Int) ≤ len) :
    str_substring (some (f ++ delim :: rest)) (some b) len delim =
      (true, some (store b (f ++ [0])), some rest) := by
  obtain ⟨c, f', rfl⟩ : ∃ c f', f = c :: f' := by
    cases f with
    | nil => exact absurd rfl hne
    | cons c f' => exact ⟨c, f', rfl⟩
  have hc := hf c (List.mem_cons_self _ _)
  have hsk : skipSpace (c :: f' ++ delim :: rest) = c :: f' ++ delim :: rest :=
    skipSpace_plain delim c hc _
  have hp : peek (c :: f' ++ delim :: rest) ≠ 0 := hc.1
  have hloop := substringLoop_plain delim (c :: f') hne hf (delim :: rest) (Or.inr rfl) hd
    (c :: f' ++ delim :: rest).length len (by simp) hn
  have hsk2 : skipSpace (delim :: rest) = delim :: rest :=
    skipSpace_stop _ (Or.inr hd)
  rw [str_substring_some, hsk, if_pos hp, if_pos hd0, hloop]
  show (if peek (skipSpace (delim :: rest)) = delim then _ else _) = _
  have hpd : peek (delim :: rest) = delim := rfl
  rw [hsk2, if_pos hpd]
  rfl

/-- A call of `str_substring` at a word of plain characters that ends the string: the
word is written to the buffer, the returned pointer is null. -/
theorem str_substring_last (delim : Nat) (f : List Nat) (hne : f ≠ [])
    (hf : ∀ c ∈ f, Plain delim c) (b : List Nat) (hd0 : delim ≠ 0)
    (hd : isspace delim = false) (len : Int) (hn : (f.length : Int) ≤ len) :
    str_substring (some f) (some b) len delim = (false, some (store b (f ++ [0])), some []) := by
  obtain ⟨c, f', rfl⟩ : ∃ c f', f = c :: f' := by
    cases f with
    | nil => exact absurd rfl hne
    | cons c f' => exact ⟨c, f', rfl⟩
  have hc := hf c (List.mem_cons_self _ _)
  have hsk : skipSpace (c :: f') = c :: f' := skipSpace_plain delim c hc _
  have hp : peek (c :: f') ≠ 0 := hc.1
  have hloop := substringLoop_plain delim (c :: f') hne hf [] (Or.inl rfl) hd
    (c :: f').length len (by simp) hn
  rw [List.append_nil] at hloop
  have hnd : ¬ peek (skipSpace ([] : List Nat)) = delim := fun h => hd0 h.symm
  rw [str_substring_some, hsk, if_pos hp, if_pos hd0, hloop]
  show (if peek (skipSpace ([] : List Nat)) = delim then _ else _) = _
  rw [if_neg hnd]
  rfl

theorem mem_cpy_loop_eq (f t : List Nat) (ht : peek t = 0) :
    ∀ d : List Nat, mem_cpy_loop (f.length + 1) (f ++ t) d = d ++ f ++ [0] := by
  induction f with
  | nil =>
    intro d
    show d ++ [peek t] = _
    rw [ht]
    simp
  | cons c f ih =>
    intro d
    show mem_cpy_loop (f.length + 1) (f ++ t) (d ++ [c]) = _
    rw [ih]
    simp

theorem str_heap_eq (f t : List Nat) (hf : ∀ c ∈ f, c ≠ 0) (ht : peek t = 0) :
    str_heap (some (f ++ t)) 0 = some (f ++ [0]) := by
  have hl : str_len (some (f ++ t)) = (f.length : Int) := by
    show ((str_len_loop (f ++ t) : Nat) : Int) = _
    rw [str_len_loop_append f t hf ht]
  have h0 : ¬ ((0 : Int) ≠ 0 ∧ (0 : Int) < str_len (some (f ++ t))) := fun h => h.1 rfl
  show (mem_cpy (malloc ((if (0 : Int) ≠ 0 ∧ (0 : Int) < str_len (some (f ++ t)) then 0
      else str_len (some (f ++ t))) + 1)) (some (f ++ t))
    ((if (0 : Int) ≠ 0 ∧ (0 : Int) < str_len (some (f ++ t)) then 0
      else str_len (some (f ++ t))) + 1)).map
    (fun ret => ret.set (if (0 : Int) ≠ 0 ∧ (0 : Int) < str_len (some (f ++ t)) then 0
      else str_len (some (f ++ t))).toNat 0) = _
  rw [if_neg h0, hl]
  have hm : malloc ((f.length : Int) + 1) = some [] := by
    unfold malloc
    rw [if_neg (by omega)]
  have e1 : ((f.length : Int) + 1).toNat = f.length + 1 := by omega
  have e2 : ((f.length : Int)).toNat = f.length := by omega
  rw [hm]
  show (some (store [] (mem_cpy_loop ((f.length : Int) + 1).toNat (f ++ t) []))).map _ = _
  rw [e1, e2, mem_cpy_loop_eq f t ht]
  simp [store]

theorem str_heap_store (b f : List Nat) (hf : ∀ c ∈ f, c ≠ 0) :
    str_heap (some (store b (f ++ [0]))) 0 = some (f ++ [0]) := by
  have e : store b (f ++ [0]) = f ++ 0 :: b.drop (f.length + 1) := store_append_zero b f
  rw [e, str_heap_eq f (0 :: b.drop (f.length + 1)) hf rfl]


/-! ### `str_trim` -/

theorem skipSpace_spaces (ws s : List Nat) (hws : ∀ c ∈ ws, c ≠ 0 ∧ isspace c = true) :
    skipSpace (ws ++ s) = skipSpace s := by
  induction ws with
  | nil => rfl
  | cons c ws ih =>
    rw [List.cons_append, skipSpace, if_pos (hws c (List.mem_cons_self _ _)),
      ih (fun x hx => hws x (List.mem_cons_of_mem _ hx))]

theorem le_str_len_loop (a b : List Nat) (ha : ∀ c ∈ a, c ≠ 0) :
    a.length ≤ str_len_loop (a ++ b) := by
  induction a with
  | nil => simp
  | cons c a ih =>
    have hc : c ≠ 0 := ha c (List.mem_cons_self _ _)
    have := ih (fun x hx => ha x (List.mem_cons_of_mem _ hx))
    rw [List.cons_append, str_len_loop, if_pos hc, List.length_cons]
    omega

/-- What `str_trim` returns for a string that holds, behind leading white space, a word
of plain characters followed by white space: the word alone, whatever follows. -/
theorem str_trim_first_word (ws w : List Nat) (sp : Nat) (rest : List Nat)
    (hws : ∀ c ∈ ws, c ≠ 0 ∧ isspace c = true) (hne : w ≠ [])
    (hw : ∀ c ∈ w, Plain 0 c) (hsp : sp ≠ 0 ∧ isspace sp = true) :
    str_trim (some (ws ++ (w ++ sp :: rest))) = some (w ++ [0]) := by
  obtain ⟨c, w', rfl⟩ : ∃ c w', w = c :: w' := by
    cases w with
    | nil => exact absurd rfl hne
    | cons c w' => exact ⟨c, w', rfl⟩
  have hc := hw c (List.mem_cons_self _ _)
  have hz : ∀ x ∈ ws ++ (c :: w'), x ≠ 0 := by
    intro x hx
    rw [List.mem_append] at hx
    rcases hx with h | h
    · exact (hws x h).1
    · exact (hw x h).1
  have hlen : ((c :: w').length : Int) ≤ str_len (some (ws ++ (c :: w' ++ sp :: rest))) + 1 := by
    have h := le_str_len_loop (ws ++ (c :: w')) (sp :: rest) hz
    rw [List.append_assoc] at h
    show ((c :: w').length : Int) ≤ ((str_len_loop (ws ++ (c :: w' ++ sp :: rest)) : Nat) : Int) + 1
    rw [List.length_append] at h
    omega
  have hm : malloc (str_len (some (ws ++ (c :: w' ++ sp :: rest))) + 1) = some [] := by
    unfold malloc
    rw [if_neg (by omega)]
  have hsk : skipSpace (ws ++ (c :: w' ++ sp :: rest)) = c :: w' ++ sp :: rest := by
    rw [skipSpace_spaces ws _ hws]
    exact skipSpace_plain 0 c hc _
  have hstop : ¬ (peek (sp :: rest) ≠ 0 ∧ peek (sp :: rest) ≠ 34 ∧ peek (sp :: rest) ≠ 0 ∧
      ¬ isspace (peek (sp :: rest))) := fun h => h.2.2.2 hsp.2
  have hword := wordLoop_plain 0 (c :: w') hw (sp :: rest) hstop (c :: w' ++ sp :: rest).length
    [] (str_len (some (ws ++ (c :: w' ++ sp :: rest))) + 1) (by simp) hlen
  have hloop : substringLoop 0 (c :: w' ++ sp :: rest).length
      (Scan.mk (c :: w' ++ sp :: rest) [] (str_len (some (ws ++ (c :: w' ++ sp :: rest))) + 1)) =
      Scan.mk (sp :: rest) (c :: w')
        (str_len (some (ws ++ (c :: w' ++ sp :: rest))) + 1 - ((c :: w').length : Nat)) := by
    have hp : peek (Scan.mk (c :: w' ++ sp :: rest) []
        (str_len (some (ws ++ (c :: w' ++ sp :: rest))) + 1)).s = c := rfl
    show substringLoop 0 ((w' ++ sp :: rest).length + 1) _ = _
    rw [substringLoop_succ, hp, if_pos ⟨hc.1, hc.1⟩, if_neg hc.2.2.1]
    show (if isspace (peek (wordLoop 0 (c :: w' ++ sp :: rest).length
      (Scan.mk (c :: w' ++ sp :: rest) []
        (str_len (some (ws ++ (c :: w' ++ sp :: rest))) + 1))).s) = true then _ else _) = _
    rw [hword]
    show (if isspace sp = true then _ else _) = _
    rw [if_pos hsp.2]
    have h00 : ¬ ((0 : Nat) ≠ 0) := fun h => h rfl
    rw [if_neg h00]
    simp
  show str_heap (str_substring (some (ws ++ (c :: w' ++ sp :: rest)))
    (malloc (str_len (some (ws ++ (c :: w' ++ sp :: rest))) + 1))
    (str_len (some (ws ++ (c :: w' ++ sp :: rest))) + 1) 0).2.1 0 = _
  have h00 : ¬ ((0 : Nat) ≠ 0) := fun h => h rfl
  rw [hm, str_substring_some, hsk, if_pos (show peek (c :: w' ++ sp :: rest) ≠ 0 from hc.1),
    if_neg h00, hloop]
  show str_heap (some (store [] (c :: w' ++ [0]))) 0 = _
  exact str_heap_store [] (c :: w') (fun x hx => (hw x hx).1)

/-- C26, the code against the claim: `str_trim` of the string blank a blank b blank
returns a block that holds the string a, not the string a blank b that the claim and
the comment of the function (leading and trailing white space is removed) ask for. -/
theorem C26_str_trim_keeps_first_word_only :
    str_trim (some [32, 97, 32, 98, 32]) = some [97, 0] ∧
    str_trim (some [32, 97, 32, 98, 32]) ≠ some [97, 32, 98, 0] ∧
    str_trim (some [97, 32, 98]) = some [97, 0] := by
  refine ⟨rfl, ?_, rfl⟩
  decide

end strext

namespace argv

open strext

/-! ### `av_a2av` -/

theorem av_a2av_loop_step (blen : Int) (delim fuel : Nat) (x : Split) ( more : Bool)
    (buff1 rest : Option (List Nat)) (h : List Nat)
    (hr : str_substring x.str x.buff blen delim = (more, buff1, rest))
    (hh : str_heap buff1 0 = some h) (hfresh : x.fresh = true) (hi : ¬ x.i + 1 > x.n) :
    av_a2av_loop blen delim (fuel + 1) x =
      if more then
        av_a2av_loop blen delim fuel
          (Split.mk rest buff1 (x.ret.set x.p (some h)) (x.p + 1) true (x.i + 1) x.n)
      else .ok (some (x.ret.set x.p (some h), x.i + 1)) := by
  rw [av_a2av_loop]
  simp only [hr, hh, hfresh, hi, if_true, if_false, Option.isNone_some, Bool.false_eq_true]

theorem av_a2av_loop_grow (blen : Int) (delim fuel : Nat) (x : Split)
    (buff1 rest : Option (List Nat)) (h : List Nat)
    (hr : str_substring x.str x.buff blen delim = (false, buff1, rest))
    (hh : str_heap buff1 0 = some h) (hfresh : x.fresh = true) (hi : x.i + 1 > x.n)
    (tmp : List (Option (List Nat)))
    (hinc : av_increase (some (x.ret.set x.p (some h))) (x.n + 20) = some tmp) :
    av_a2av_loop blen delim (fuel + 1) x = .ok (some (tmp, x.i + 1)) := by
  rw [av_a2av_loop]
  simp only [hr, hh, hfresh, hi, hinc, if_true, Option.isNone_some, Bool.false_eq_true,
    if_false, Option.map_some']

theorem av_length_loop_eq (pre t : List (Option (List Nat))) (hpre : ∀ c ∈ pre, c.isSome = true) :
    av_length_loop (pre ++ none :: t) = pre.length := by
  induction pre with
  | nil => rfl
  | cons c pre ih =>
    rw [List.cons_append, av_length_loop, if_pos (hpre c (List.mem_cons_self _ _)),
      ih (fun x hx => hpre x (List.mem_cons_of_mem _ hx)), List.length_cons]

theorem set_replicate (pre : List (Option (List Nat))) (k : Nat) (h : Option (List Nat)) :
    (pre ++ List.replicate (k + 1) none).set pre.length h = pre ++ h :: List.replicate k none := by
  rw [List.replicate_succ]
  simp

theorem intercalate_cons_cons (delim : Nat) (f g : List Nat) (fs : List (List Nat)) :
    List.intercalate [delim] (f :: g :: fs) = f ++ delim :: List.intercalate [delim] (g :: fs) := by
  simp [List.intercalate, List.intersperse]

theorem intercalate_single (delim : Nat) (f : List Nat) :
    List.intercalate [delim] [f] = f := by
  simp [List.intercalate, List.intersperse]

theorem av_a2av_loop_fields (delim : Nat) (hd0 : delim ≠ 0) (hd : isspace delim = false)
    (blen : Int) :
    ∀ fs : List (List Nat), fs ≠ [] →
      (∀ f ∈ fs, f ≠ [] ∧ (∀ c ∈ f, Plain delim c) ∧ (f.length : Int) ≤ blen) →
      ∀ (pre : List (Option (List Nat))) (buff : List Nat) (fuel : Nat),
        (∀ c ∈ pre, c.isSome = true) → pre.length + fs.length ≤ 20 → fs.length ≤ fuel →
        ∃ R : List (Option (List Nat)),
          av_a2av_loop blen delim fuel
            (Split.mk (some (List.intercalate [delim] fs)) (some buff)
              (pre ++ List.replicate (21 - pre.length) none) pre.length true
              ((pre.length : Int) + 1) 20) =
            .ok (some (R, (((pre.length + fs.length + 1 : Nat)) : Int))) ∧
          R.take (pre.length + fs.length + 1) =
            pre ++ fs.map (fun f => some (f ++ [0])) ++ [none] := by
  intro fs
  induction fs with
  | nil => intro h; exact absurd rfl h
  | cons f fs ih =>
    intro _ hfs pre buff fuel hpre hlen hfuel
    obtain ⟨hne, hplain, hfl⟩ := hfs f (List.mem_cons_self _ _)
    obtain ⟨k, rfl⟩ : ∃ k, fuel = k + 1 := ⟨fuel - 1, by simp at hfuel; omega⟩
    have hz : ∀ c ∈ f, c ≠ 0 := fun c hc => (hplain c hc).1
    have hrep : 21 - pre.length = (20 - pre.length) + 1 := by simp at hlen; omega
    have hset : (pre ++ List.replicate (21 - pre.length) none).set pre.length (some (f ++ [0])) =
        pre ++ some (f ++ [0]) :: List.replicate (20 - pre.length) none := by
      rw [hrep, set_replicate]
    cases fs with
    | nil =>
      have hr := str_substring_last delim f hne hplain buff hd0 hd blen hfl
      have hh := str_heap_store buff f hz
      rw [intercalate_single]
      by_cases hi : (pre.length : Int) + 1 + 1 > 20
      · have hp19 : pre.length = 19 := by simp at hlen; omega
        have hinc : av_increase (some ((pre ++ List.replicate (21 - pre.length) none).set
            pre.length (some (f ++ [0])))) (20 + 20) =
            some ((pre ++ [some (f ++ [0])]) ++ List.replicate 41 none) := by
          rw [hset]
          have hl : av_length (some (pre ++ some (f ++ [0]) :: List.replicate (20 - pre.length) none)) =
              20 := by
            have e : pre ++ some (f ++ [0]) :: List.replicate (20 - pre.length) none =
                (pre ++ [some (f ++ [0])]) ++ none :: [] := by
              rw [hp19]
              simp [List.replicate]
            show ((av_length_loop _ : Nat) : Int) = 20
            rw [e, av_length_loop_eq]
            · simp [hp19]
            · intro c hc
              rw [List.mem_append, List.mem_singleton] at hc
              rcases hc with h | h
              · exact hpre c h
              · rw [h]; rfl
          unfold av_increase
          rw [if_pos (by decide), hl]
          have e2 : (pre ++ some (f ++ [0]) :: List.replicate (20 - pre.length) none).take
              (20 : Int).toNat = pre ++ [some (f ++ [0])] := by
            have e3 : (20 : Int).toNat = (pre ++ [some (f ++ [0])]).length := by simp [hp19]
            have e4 : pre ++ some (f ++ [0]) :: List.replicate (20 - pre.length) none =
                (pre ++ [some (f ++ [0])]) ++ List.replicate (20 - pre.length) none := by simp
            rw [e3, e4, List.take_left]
          simp only [Option.getD_some]
          rw [e2]
          rfl
        refine ⟨_, av_a2av_loop_grow blen delim k
          (Split.mk (some f) (some buff) (pre ++ List.replicate (21 - pre.length) none)
            pre.length true ((pre.length : Int) + 1) 20) _ _ _ hr hh rfl hi _ hinc, ?_⟩
        · have e5 : pre.length + [f].length + 1 = (pre ++ [some (f ++ [0])] ++ [none]).length := by
            simp
          have e6 : (pre ++ [some (f ++ [0])]) ++ List.replicate 41 none =
              (pre ++ [some (f ++ [0])] ++ [none]) ++ List.replicate 40 none := by
            simp [List.replicate]
          rw [e5, e6, List.take_left]
          simp
      · have hstep := av_a2av_loop_step blen delim k
          (Split.mk (some f) (some buff) (pre ++ List.replicate (21 - pre.length) none)
            pre.length true ((pre.length : Int) + 1) 20) _ _ _ _ hr hh rfl hi
        rw [if_neg (by simp)] at hstep
        refine ⟨_, hstep, ?_⟩
        · show ((pre ++ List.replicate (21 - pre.length) none).set pre.length
            (some (f ++ [0]))).take _ = _
          rw [hset]
          have hrep2 : 20 - pre.length = (19 - pre.length) + 1 := by
            simp at hi hlen
            omega
          have e5 : pre.length + [f].length + 1 = (pre ++ [some (f ++ [0])] ++ [none]).length := by
            simp
          have e6 : pre ++ some (f ++ [0]) :: List.replicate (20 - pre.length) none =
              (pre ++ [some (f ++ [0])] ++ [none]) ++ List.replicate (19 - pre.length) none := by
            rw [hrep2, List.replicate_succ]
            simp
          rw [e5, e6, List.take_left]
          simp
    | cons g fs =>
      have hr := str_substring_field delim f hne hplain
        (List.intercalate [delim] (g :: fs)) buff hd0 hd blen hfl
      have hh := str_heap_store buff f hz
      have hi : ¬ (pre.length : Int) + 1 + 1 > 20 := by
        simp at hlen
        omega
      rw [intercalate_cons_cons]
      have hstep := av_a2av_loop_step blen delim k
        (Split.mk (some (f ++ delim :: List.intercalate [delim] (g :: fs))) (some buff)
          (pre ++ List.replicate (21 - pre.length) none)
          pre.length true ((pre.length : Int) + 1) 20) _ _ _ _ hr hh rfl hi
      rw [if_pos rfl] at hstep
      have hpre2 : ∀ c ∈ pre ++ [some (f ++ [0])], c.isSome = true := by
        intro c hc
        rw [List.mem_append, List.mem_singleton] at hc
        rcases hc with h | h
        · exact hpre c h
        · rw [h]; rfl
      obtain ⟨R, hR, hT⟩ := ih (by simp)
        (fun x hx => hfs x (List.mem_cons_of_mem _ hx)) (pre ++ [some (f ++ [0])])
        (store buff (f ++ [0])) k hpre2 (by simp at hlen ⊢; omega) (by simp at hfuel ⊢; omega)
      refine ⟨R, ?_, ?_⟩
      · rw [hstep]
        have e1 : (pre ++ List.replicate (21 - pre.length) none).set pre.length (some (f ++ [0])) =
            (pre ++ [some (f ++ [0])]) ++
              List.replicate (21 - (pre ++ [some (f ++ [0])]).length) none := by
          rw [hset]
          simp
        have e2 : pre.length + 1 = (pre ++ [some (f ++ [0])]).length := by simp
        have e3 : ((pre.length : Int) + 1 + 1) = (((pre ++ [some (f ++ [0])]).length : Nat) : Int) + 1 := by
          simp
        have e4 : (((pre.length + (f :: g :: fs).length + 1 : Nat)) : Int) =
            ((((pre ++ [some (f ++ [0])]).length + (g :: fs).length + 1 : Nat)) : Int) := by
          simp
          omega
        show av_a2av_loop blen delim k (Split.mk (some (List.intercalate [delim] (g :: fs)))
          (some (store buff (f ++ [0])))
          ((pre ++ List.replicate (21 - pre.length) none).set pre.length (some (f ++ [0])))
          (pre.length + 1) true ((pre.length : Int) + 1 + 1) 20) = _
        rw [e1, e2, e3, e4]
        exact hR
      · have e5 : pre.length + (f :: g :: fs).length + 1 =
            (pre ++ [some (f ++ [0])]).length + (g :: fs).length + 1 := by
          simp
          omega
        rw [e5, hT]
        simp


theorem intercalate_facts (delim : Nat) (hd0 : delim ≠ 0) :
    ∀ fs : List (List Nat), (∀ f ∈ fs, f ≠ [] ∧ ∀ c ∈ f, c ≠ 0) →
      (∀ c ∈ List.intercalate [delim] fs, c ≠ 0) ∧
      (∀ f ∈ fs, f.length ≤ (List.intercalate [delim] fs).length) ∧
      fs.length ≤ (List.intercalate [delim] fs).length + 1 := by
  intro fs
  induction fs with
  | nil => intro _; simp [List.intercalate]
  | cons f fs ih =>
    intro h
    have hf := h f (List.mem_cons_self _ _)
    have hfl : 0 < f.length := List.length_pos.mpr hf.1
    cases fs with
    | nil =>
      rw [intercalate_single]
      refine ⟨hf.2, ?_, ?_⟩
      · intro g hg
        rw [List.mem_singleton] at hg
        rw [hg]
      · simp
    | cons g fs =>
      obtain ⟨i1, i2, i3⟩ := ih (fun x hx => h x (List.mem_cons_of_mem _ hx))
      rw [intercalate_cons_cons]
      refine ⟨?_, ?_, ?_⟩
      · intro c hc
        rw [List.mem_append, List.mem_cons] at hc
        rcases hc with hc | hc | hc
        · exact hf.2 c hc
        · rw [hc]; exact hd0
        · exact i1 c hc
      · intro x hx
        rw [List.length_append, List.length_cons]
        rw [List.mem_cons] at hx
        rcases hx with hx | hx
        · rw [hx]; omega
        · have := i2 x hx
          omega
      · simp only [List.length_append, List.length_cons] at i3 ⊢
        omega

theorem av_a2av_some (s : List Nat) (delim : Nat) :
    av_a2av (some s) delim =
      match av_a2av_loop (str_len (some s) + 1) delim (s.length + 1)
          (Split.mk (some s) (malloc (str_len (some s) + 1)) (List.replicate 21 none)
            0 true 1 20) with
      | Except.ok (some r) => Except.ok (some (r.1.take r.2.toNat))
      | Except.ok none => Except.ok none
      | Except.error e => Except.error e := rfl

/-- C28, amended. For every list of one to twenty fields that are not empty and hold no
zero byte, white space, double quote, backslash or delimiter, `av_a2av` applied to the
fields joined by the delimiter (any character that is not zero and not white space, so
the colon) returns an array that holds exactly these fields in order, each in a block
of its own with its zero byte, and then a null pointer. -/
theorem C28_av_a2av_fields (delim : Nat) (fields : List (List Nat)) (hd0 : delim ≠ 0)
    (hd : isspace delim = false) (hne : fields ≠ []) (hlen : fields.length ≤ 20)
    (hf : ∀ f ∈ fields, f ≠ [] ∧
      ∀ c ∈ f, c ≠ 0 ∧ isspace c = false ∧ c ≠ 34 ∧ c ≠ 92 ∧ c ≠ delim) :
    av_a2av (some (List.intercalate [delim] fields)) delim =
      .ok (some (fields.map (fun f => some (f ++ [0])) ++ [none])) := by
  obtain ⟨i1, i2, i3⟩ := intercalate_facts delim hd0 fields
    (fun f h => ⟨(hf f h).1, fun c hc => ((hf f h).2 c hc).1⟩)
  have hl : str_len (some (List.intercalate [delim] fields)) =
      ((List.intercalate [delim] fields).length : Int) := by
    have h := str_len_loop_append (List.intercalate [delim] fields) [] i1 rfl
    rw [List.append_nil] at h
    show ((str_len_loop _ : Nat) : Int) = _
    rw [h]
  have hm : malloc (((List.intercalate [delim] fields).length : Int) + 1) = some [] := by
    unfold malloc
    rw [if_neg (by omega)]
  obtain ⟨R, hR, hT⟩ := av_a2av_loop_fields delim hd0 hd
    (((List.intercalate [delim] fields).length : Int) + 1) fields hne
    (fun f h => ⟨(hf f h).1, (hf f h).2, by have := i2 f h; omega⟩) [] []
    ((List.intercalate [delim] fields).length + 1) (fun c hc => absurd hc (List.not_mem_nil c))
    (by simpa using hlen) i3
  simp only [List.length_nil, Nat.sub_zero, List.nil_append, Nat.zero_add, Nat.cast_zero,
    zero_add] at hR hT
  rw [av_a2av_some]
  rw [hl, hm, hR]
  show Except.ok (some (R.take (((fields.length + 1 : Nat) : Int)).toNat)) = _
  rw [Int.toNat_ofNat, hT]

/-- C28, at an input: the string a:b:c gives the strings a, b and c and a null
pointer. -/
theorem C28_av_a2av_fields_witness :
    av_a2av (some (List.intercalate [58] [[97], [98], [99]])) 58 =
      .ok (some ([[97], [98], [99]].map (fun f => some (f ++ [0])) ++ [none])) ∧
    List.intercalate [58] [[97], [98], [99]] = [97, 58, 98, 58, 99] :=
  ⟨C28_av_a2av_fields 58 [[97], [98], [99]] (by decide) (by decide) (by decide) (by decide)
    (by decide), rfl⟩

/-- C28, the claim fails for the empty list of fields: joined they are the empty
string, for which `av_a2av` returns an array of one empty string and a null pointer,
and not the array of the null pointer alone. -/
theorem C28_av_a2av_fields_counterexample :
    List.intercalate [58] ([] : List (List Nat)) = [] ∧
    av_a2av (some (List.intercalate [58] ([] : List (List Nat)))) 58 =
      .ok (some [some [0], none]) ∧
    [some [0], none] ≠
      ([] : List (List Nat)).map (fun f => some (f ++ [0])) ++ [none] := by
  refine ⟨rfl, rfl, ?_⟩
  decide

/-- With 21 fields `av_a2av` enlarges the array behind the twentieth by `realloc` and
stores the 21st through the pointer into the block before. -/
theorem av_a2av_stale :
    av_a2av (some (List.intercalate [58] (List.replicate 21 [97]))) 58 =
      .error .stalePointer := rfl


/-! ### `av_insert` and `av_delete` -/

theorem av_vinsert_first_eq (cells : List (List Nat)) (t : List (Option (List Nat))) :
    ∀ (pos : Nat) (p : List (Option (List Nat))), pos ≤ cells.length →
      av_vinsert_first pos (cells.map some ++ t) p =
        (p ++ (cells.take pos).map some, (cells.drop pos).map some ++ t) := by
  induction cells with
  | nil =>
    intro pos p h
    have h0 : pos = 0 := by simpa using h
    subst h0
    simp [av_vinsert_first]
  | cons c cells ih =>
    intro pos p h
    cases pos with
    | zero => simp [av_vinsert_first]
    | succ pos =>
      show av_vinsert_first pos (cells.map some ++ t) (p ++ [some c]) = _
      rw [ih pos _ (by simpa using h)]
      simp

theorem av_vinsert_rest_eq (cells : List (List Nat)) (t : List (Option (List Nat))) :
    ∀ p : List (Option (List Nat)),
      av_vinsert_rest (cells.map some ++ none :: t) p = p ++ cells.map some := by
  induction cells with
  | nil => intro p; simp [av_vinsert_rest]
  | cons c cells ih =>
    intro p
    show av_vinsert_rest (cells.map some ++ none :: t) (p ++ [some c]) = _
    rw [ih]
    simp

theorem av_length_map_some (cells : List (List Nat)) (t : List (Option (List Nat))) :
    av_length (some (cells.map some ++ none :: t)) = (cells.length : Int) := by
  show ((av_length_loop _ : Nat) : Int) = _
  rw [av_length_loop_eq]
  · simp
  · intro c hc
    rw [List.mem_map] at hc
    obtain ⟨x, _, hx⟩ := hc
    rw [← hx]
    rfl

theorem av_insert_eq (cells : List (List Nat)) (junk : List (Option (List Nat)))
    (s t : List Nat) (pos : Int) (hs : ∀ c ∈ s, c ≠ 0) (ht : peek t = 0) :
    av_insert (some (cells.map some ++ none :: junk)) pos (some (s ++ t)) =
      some ((cells.take (if pos < 0 ∨ pos > (cells.length : Int) then (cells.length : Int)
          else pos).toNat).map some ++ [some (s ++ [0])] ++
        (cells.drop (if pos < 0 ∨ pos > (cells.length : Int) then (cells.length : Int)
          else pos).toNat).map some ++ [none]) := by
  have hl := av_length_map_some cells junk
  have hle : (if pos < 0 ∨ pos > (cells.length : Int) then (cells.length : Int)
      else pos).toNat ≤ cells.length := by
    split <;> omega
  show (if [s ++ t].length ≠ 0 then
      some (av_vinsert_rest
        (av_vinsert_first (if pos < 0 ∨ pos > av_length (some (cells.map some ++ none :: junk))
            then av_length (some (cells.map some ++ none :: junk)) else pos).toNat
          (cells.map some ++ none :: junk) []).2
        (av_vinsert_strings [s ++ t]
          (av_vinsert_first (if pos < 0 ∨ pos > av_length (some (cells.map some ++ none :: junk))
              then av_length (some (cells.map some ++ none :: junk)) else pos).toNat
            (cells.map some ++ none :: junk) []).1) ++ [none])
    else some (cells.map some ++ none :: junk)) = _
  rw [if_pos (by simp), hl, av_vinsert_first_eq cells _ _ _ hle]
  show some (av_vinsert_rest _ ([] ++ List.map some _ ++ [str_heap (some (s ++ t)) 0]) ++
    [none]) = _
  rw [str_heap_eq s t hs ht, av_vinsert_rest_eq]
  simp

/-- C30, confirmed. For an array `av` of `l` strings and a null pointer, a string `s`
and any `pos`, `av_insert ( av, pos, s )` returns an array that holds the first `pos`
strings of `av`, a block with a copy of `s`, the other strings of `av` and a null
pointer when `0 <= pos <= l`, and the strings of `av`, the copy of `s` and a null
pointer when `pos < 0` or `pos > l`; it holds `l + 1` strings. -/
theorem C30_av_insert_position (cells : List (List Nat)) (junk : List (Option (List Nat)))
    (s t : List Nat) (pos : Int) (hs : ∀ c ∈ s, c ≠ 0) (ht : peek t = 0) :
    (0 ≤ pos → pos ≤ (cells.length : Int) →
      av_insert (some (cells.map some ++ none :: junk)) pos (some (s ++ t)) =
        some ((cells.take pos.toNat).map some ++ [some (s ++ [0])] ++
          (cells.drop pos.toNat).map some ++ [none])) ∧
    (pos < 0 ∨ pos > (cells.length : Int) →
      av_insert (some (cells.map some ++ none :: junk)) pos (some (s ++ t)) =
        some (cells.map some ++ [some (s ++ [0])] ++ [none])) ∧
    av_length (av_insert (some (cells.map some ++ none :: junk)) pos (some (s ++ t))) =
      (cells.length : Int) + 1 := by
  have h := av_insert_eq cells junk s t pos hs ht
  refine ⟨?_, ?_, ?_⟩
  · intro h0 h1
    have hn : ¬ (pos < 0 ∨ pos > (cells.length : Int)) := by omega
    rw [if_neg hn] at h
    exact h
  · intro h1
    rw [if_pos h1] at h
    rw [h]
    simp
  · rw [h]
    have e : (cells.take (if pos < 0 ∨ pos > (cells.length : Int) then (cells.length : Int)
          else pos).toNat).map some ++ [some (s ++ [0])] ++
        (cells.drop (if pos < 0 ∨ pos > (cells.length : Int) then (cells.length : Int)
          else pos).toNat).map some ++ [none] =
        ((cells.take (if pos < 0 ∨ pos > (cells.length : Int) then (cells.length : Int)
          else pos).toNat) ++ [s ++ [0]] ++
        (cells.drop (if pos < 0 ∨ pos > (cells.length : Int) then (cells.length : Int)
          else pos).toNat)).map some ++ none :: [] := by
      simp
    rw [e, av_length_map_some]
    simp only [List.length_append, List.length_take, List.length_drop, List.length_singleton]
    have hle : (if pos < 0 ∨ pos > (cells.length : Int) then (cells.length : Int)
        else pos).toNat ≤ cells.length := by
      split <;> omega
    omega

/-- C30, at an input: the string x inserted at position 1 of the array of a, b and c. -/
theorem C30_av_insert_position_witness :
    av_insert (some ([[97, 0], [98, 0], [99, 0]].map some ++ none :: [])) 1
        (some ([120] ++ [0])) =
      some [some [97, 0], some [120, 0], some [98, 0], some [99, 0], none] ∧
    av_insert (some ([[97, 0], [98, 0], [99, 0]].map some ++ none :: [])) (-1)
        (some ([120] ++ [0])) =
      some [some [97, 0], some [98, 0], some [99, 0], some [120, 0], none] :=
  ⟨(C30_av_insert_position [[97, 0], [98, 0], [99, 0]] [] [120] [0] 1 (by decide) rfl).1
      (by decide) (by decide),
    (C30_av_insert_position [[97, 0], [98, 0], [99, 0]] [] [120] [0] (-1) (by decide) rfl).2.1
      (Or.inl (by decide))⟩

theorem set_peekString (av : List (Option (List Nat))) (s : Nat) :
    av.set s (peekString (av.drop s)) = av := by
  induction av generalizing s with
  | nil => rfl
  | cons c av ih =>
    cases s with
    | zero =>
      show (peekString (c :: av)) :: av = c :: av
      cases c <;> rfl
    | succ s =>
      show c :: av.set s (peekString (av.drop s)) = c :: av
      rw [ih]

theorem av_delete_move_self (fuel : Nat) :
    ∀ (av : List (Option (List Nat))) (s : Nat), av_delete_move fuel av s s = av := by
  induction fuel with
  | zero => intro av s; rfl
  | succ f ih =>
    intro av s
    rw [av_delete_move]
    simp only [set_peekString]
    split
    · exact ih av (s + 1)
    · rfl

/-- What `av_delete` does for an array `av` of `l` strings and `0 <= from < l`: with
`to < from`, so with every `to < 0`, nothing is deleted and `av` is unchanged; with
`from <= to` the address of an array element is passed to `free`. -/
theorem av_delete_cases (cells : List (List Nat)) (junk : List (Option (List Nat)))
    (from_ to_ : Int) (h0 : 0 ≤ from_) (h1 : from_ < (cells.length : Int)) :
    (to_ < from_ →
      av_delete (some (cells.map some ++ none :: junk)) from_ to_ =
        .ok (some (cells.map some ++ none :: junk))) ∧
    (from_ ≤ to_ →
      av_delete (some (cells.map some ++ none :: junk)) from_ to_ = .error .freeOfElement ∨
      av_delete (some (cells.map some ++ none :: junk)) from_ to_ = .error .useAfterFree) := by
  have hl := av_length_map_some cells junk
  have e : av_delete (some (cells.map some ++ none :: junk)) from_ to_ =
      if from_ ≥ 0 ∧ from_ < (cells.length : Int) then
        if from_ ≤ (if to_ ≥ (cells.length : Int) then (cells.length : Int) - 1 else to_) then
          if from_ = 0 ∧ (if to_ ≥ (cells.length : Int) then (cells.length : Int) - 1 else to_) = 0
            then .error .useAfterFree else .error .freeOfElement
        else .ok (some (av_delete_move (cells.map some ++ none :: junk).length
          (cells.map some ++ none :: junk) from_.toNat from_.toNat))
      else .ok (some (cells.map some ++ none :: junk)) := by
    show (if from_ ≥ 0 ∧ from_ < av_length (some (cells.map some ++ none :: junk)) then _
      else _) = _
    rw [hl]
  rw [e, if_pos ⟨h0, h1⟩]
  refine ⟨?_, ?_⟩
  · intro h
    have hn : ¬ from_ ≤ (if to_ ≥ (cells.length : Int) then (cells.length : Int) - 1 else to_) := by
      split <;> omega
    rw [if_neg hn, av_delete_move_self]
  · intro h
    have hp : from_ ≤ (if to_ ≥ (cells.length : Int) then (cells.length : Int) - 1 else to_) := by
      split <;> omega
    rw [if_pos hp]
    by_cases hz : from_ = 0 ∧
        (if to_ ≥ (cells.length : Int) then (cells.length : Int) - 1 else to_) = 0
    · right
      rw [if_pos hz]
    · left
      rw [if_neg hz]

/-- C29, the code against the claim: for the array of the strings a, b and c,
`av_delete ( av, 1, -1 )` leaves all three strings, where the claim and the comment of
the function take `to < 0` as `l - 1` and so ask for the array of a alone;
`av_delete ( av, 1, 1 )` and `av_delete ( av, 0, 5 )` pass `av + 1` to `free`, and
`av_delete ( av, 0, 0 )` passes `av` itself and then writes to the array. -/
theorem C29_av_delete_removes_nothing :
    av_delete (some [some [97, 0], some [98, 0], some [99, 0], none]) 1 (-1) =
      .ok (some [some [97, 0], some [98, 0], some [99, 0], none]) ∧
    [some [97, 0], some [98, 0], some [99, 0], none] ≠ [some [97, 0], none] ∧
    av_delete (some [some [97, 0], some [98, 0], some [99, 0], none]) 1 1 =
      .error .freeOfElement ∧
    av_delete (some [some [97, 0], some [98, 0], some [99, 0], none]) 0 5 =
      .error .freeOfElement ∧
    av_delete (some [some [97, 0], some [98, 0], some [99, 0], none]) 0 0 =
      .error .useAfterFree := by
  refine ⟨rfl, ?_, rfl, rfl, rfl⟩
  decide

end argv

namespace strext

/-! ### Roman numerals -/

theorem str_i2roman_switch_eq (dig : List Nat) (last v : Nat) (p : List Nat) :
    str_i2roman_switch dig (last : Int) 2 (v : Int) p =
      ((romanSwitch dig last v p).1, ((romanSwitch dig last v p).2 : Int)) := by
  have hl : ((last : Int) = 4 ∨ (last : Int) = 9) ↔ (last = 4 ∨ last = 9) := by omega
  by_cases h1 : v = 1
  · subst h1; rfl
  by_cases h2 : v = 2
  · subst h2; rfl
  by_cases h3 : v = 3
  · subst h3; rfl
  by_cases h4 : v = 4
  · subst h4; rfl
  by_cases h5 : v = 5
  · subst h5
    by_cases hc : last = 4 ∨ last = 9
    · have hc2 := hl.mpr hc
      simp [str_i2roman_switch, romanSwitch, hc, hc2]
    · have hc2 : ¬ ((last : Int) = 4 ∨ (last : Int) = 9) := fun x => hc (hl.mp x)
      simp [str_i2roman_switch, romanSwitch, hc, hc2]
  by_cases h6 : v = 6
  · subst h6; rfl
  by_cases h7 : v = 7
  · subst h7; rfl
  by_cases h8 : v = 8
  · subst h8; rfl
  by_cases h9 : v = 9
  · subst h9
    by_cases hc : last = 4 ∨ last = 9
    · have hc2 := hl.mpr hc
      simp [str_i2roman_switch, romanSwitch, hc, hc2]
    · have hc2 : ¬ ((last : Int) = 4 ∨ (last : Int) = 9) := fun x => hc (hl.mp x)
      simp [str_i2roman_switch, romanSwitch, hc, hc2]
  have e1 : ¬ ((v : Int) = 1) := by omega
  have e2 : ¬ ((v : Int) = 2) := by omega
  have e3 : ¬ ((v : Int) = 3) := by omega
  have e4 : ¬ ((v : Int) = 4) := by omega
  have e5 : ¬ ((v : Int) = 5) := by omega
  have e6 : ¬ ((v : Int) = 6 ∨ (v : Int) = 7 ∨ (v : Int) = 8) := by omega
  have e9 : ¬ ((v : Int) = 9) := by omega
  rw [str_i2roman_switch]
  simp only [e1, e2, e3, e4, e5, e6, e9, if_false, romanSwitch, h1, h2, h3, h4, h5, h6, h7, h8,
    h9]

theorem romanSwitch_length (dig : List Nat) (last v : Nat) (p : List Nat) :
    p.length ≤ (romanSwitch dig last v p).1.length ∧
      (romanSwitch dig last v p).1.length ≤ p.length + 4 := by
  have app : ∀ l : List Nat, l.length ≤ 4 →
      p.length ≤ (p ++ l).length ∧ (p ++ l).length ≤ p.length + 4 := by
    intro l hl
    rw [List.length_append]
    omega
  have st : ∀ (i c : Nat), p.length ≤ (p.set i c).length ∧ (p.set i c).length ≤ p.length + 4 := by
    intro i c
    rw [List.length_set]
    omega
  by_cases h1 : v = 1
  · subst h1; exact app [_] (by simp)
  by_cases h2 : v = 2
  · subst h2; exact app [_, _] (by simp)
  by_cases h3 : v = 3
  · subst h3; exact app [_, _, _] (by simp)
  by_cases h4 : v = 4
  · subst h4; exact app [_, _] (by simp)
  by_cases h5 : v = 5
  · subst h5
    by_cases hc : last = 4 ∨ last = 9
    · have e : romanSwitch dig last 5 p = (p.set (p.length - 2) (dig.getD 1 0), 5) := by
        simp [romanSwitch, hc]
      rw [e]; exact st _ _
    · have e : romanSwitch dig last 5 p = (p ++ [dig.getD 1 0], 5) := by
        simp [romanSwitch, hc]
      rw [e]; exact app [_] (by simp)
  by_cases h6 : v = 6
  · subst h6
    have e : romanSwitch dig last 6 p = (p ++ [dig.getD 1 0, dig.getD 2 0], 1) := by
      simp [romanSwitch]
    rw [e]; exact app [_, _] (by simp)
  by_cases h7 : v = 7
  · subst h7
    have e : romanSwitch dig last 7 p = (p ++ [dig.getD 1 0, dig.getD 2 0, dig.getD 2 0], 2) := by
      simp [romanSwitch]
    rw [e]; exact app [_, _, _] (by simp)
  by_cases h8 : v = 8
  · subst h8
    have e : romanSwitch dig last 8 p =
        (p ++ [dig.getD 1 0, dig.getD 2 0, dig.getD 2 0, dig.getD 2 0], 3) := by
      simp [romanSwitch]
    rw [e]; exact app [_, _, _, _] (by simp)
  by_cases h9 : v = 9
  · subst h9
    by_cases hc : last = 4 ∨ last = 9
    · have e : romanSwitch dig last 9 p = (p.set (p.length - 2) (dig.getD 2 0), 9) := by
        simp [romanSwitch, hc]
      rw [e]; exact st _ _
    · have e : romanSwitch dig last 9 p = (p ++ [dig.getD 2 0, dig.getD 0 0], 9) := by
        simp [romanSwitch, hc]
      rw [e]; exact app [_, _] (by simp)
  have e : romanSwitch dig last v p = (p, v) := by
    simp only [romanSwitch, h1, h2, h3, h4, h5, h6, h7, h8, h9, if_false]
  rw [e]
  exact ⟨Nat.le_refl _, Nat.le_add_right _ _⟩

theorem str_i2roman_for_eq (dig : List (List Nat)) (len : Int) :
    ∀ (rounds i val div : Nat) (n : Int) (last : Nat) (p : List Nat),
      4 * (rounds : Int) ≤ n →
      str_i2roman_for dig len rounds i (val : Int) (div : Int) n (last : Int) p =
        (romanFor dig rounds i val div last p ++ [0],
          len - n + (((romanFor dig rounds i val div last p).length : Int) - p.length)) := by
  intro rounds
  induction rounds with
  | zero =>
    intro i val div n last p _
    simp [str_i2roman_for, romanFor]
  | succ k ih =>
    intro i val div n last p hn
    have h4 : ¬ n < 4 := by omega
    have hb := romanSwitch_length (dig.getD i []) last (val / div) p
    have hdiv : (val : Int) / (div : Int) = ((val / div : Nat) : Int) := by norm_cast
    have hmod : (val : Int) % (div : Int) = ((val % div : Nat) : Int) := by norm_cast
    have hten : (div : Int) / 10 = ((div / 10 : Nat) : Int) := by norm_cast
    have hfor : romanFor dig (k + 1) i val div last p =
        romanFor dig k (i + 1) (val % div) (div / 10)
          (romanSwitch (dig.getD i []) last (val / div) p).2
          (romanSwitch (dig.getD i []) last (val / div) p).1 := rfl
    rw [str_i2roman_for, if_neg h4, hdiv, hmod, hten, str_i2roman_switch_eq, hfor]
    simp only []
    rw [ih _ _ _ _ _ _ (by omega)]
    congr 1
    omega


theorem set_append_two (p q : List Nat) (c : Nat) (h : 2 ≤ q.length) :
    (p ++ q).set ((p ++ q).length - 2) c = p ++ q.set (q.length - 2) c := by
  induction p with
  | nil => rfl
  | cons a p ih =>
    have e : (a :: p ++ q).length - 2 = ((p ++ q).length - 2) + 1 := by
      simp only [List.length_cons, List.length_append]
      omega
    rw [e]
    show a :: (p ++ q).set ((p ++ q).length - 2) c = _
    rw [ih]
    rfl

theorem romanSwitch_prefix (dig : List Nat) (last v : Nat) (p q : List Nat)
    (h : (last = 4 ∨ last = 9) → 2 ≤ q.length) :
    romanSwitch dig last v (p ++ q) =
        (p ++ (romanSwitch dig last v q).1, (romanSwitch dig last v q).2) ∧
      (((romanSwitch dig last v q).2 = 4 ∨ (romanSwitch dig last v q).2 = 9) →
        2 ≤ (romanSwitch dig last v q).1.length) := by
  have app : ∀ (l : List Nat) (n : Nat), (n = 4 ∨ n = 9 → 2 ≤ l.length) →
      ((p ++ q ++ l, n) : List Nat × Nat) = (p ++ (q ++ l, n).1, (q ++ l, n).2) ∧
        (((q ++ l, n) : List Nat × Nat).2 = 4 ∨ ((q ++ l, n) : List Nat × Nat).2 = 9 →
          2 ≤ ((q ++ l, n) : List Nat × Nat).1.length) := by
    intro l n hn
    refine ⟨by simp, ?_⟩
    intro h2
    have := hn h2
    show 2 ≤ (q ++ l).length
    rw [List.length_append]
    omega
  by_cases h1 : v = 1
  · subst h1; exact app [_] 1 (by omega)
  by_cases h2 : v = 2
  · subst h2; exact app [_, _] 2 (by omega)
  by_cases h3 : v = 3
  · subst h3; exact app [_, _, _] 3 (by omega)
  by_cases h4 : v = 4
  · subst h4; exact app [_, _] 4 (fun _ => by simp)
  by_cases h5 : v = 5
  · subst h5
    by_cases hc : last = 4 ∨ last = 9
    · have e : ∀ x : List Nat, romanSwitch dig last 5 x = (x.set (x.length - 2) (dig.getD 1 0), 5) := by
        intro x
        simp [romanSwitch, hc]
      rw [e, e, set_append_two p q _ (h hc)]
      exact ⟨rfl, fun hh => by omega⟩
    · have e : ∀ x : List Nat, romanSwitch dig last 5 x = (x ++ [dig.getD 1 0], 5) := by
        intro x
        simp [romanSwitch, hc]
      rw [e, e]
      exact app [_] 5 (by omega)
  by_cases h6 : v = 6
  · subst h6
    have e : ∀ x : List Nat, romanSwitch dig last 6 x = (x ++ [dig.getD 1 0, dig.getD 2 0], 1) := by
      intro x
      simp [romanSwitch]
    rw [e, e]
    exact app [_, _] 1 (by omega)
  by_cases h7 : v = 7
  · subst h7
    have e : ∀ x : List Nat, romanSwitch dig last 7 x =
        (x ++ [dig.getD 1 0, dig.getD 2 0, dig.getD 2 0], 2) := by
      intro x
      simp [romanSwitch]
    rw [e, e]
    exact app [_, _, _] 2 (by omega)
  by_cases h8 : v = 8
  · subst h8
    have e : ∀ x : List Nat, romanSwitch dig last 8 x =
        (x ++ [dig.getD 1 0, dig.getD 2 0, dig.getD 2 0, dig.getD 2 0], 3) := by
      intro x
      simp [romanSwitch]
    rw [e, e]
    exact app [_, _, _, _] 3 (by omega)
  by_cases h9 : v = 9
  · subst h9
    by_cases hc : last = 4 ∨ last = 9
    · have e : ∀ x : List Nat, romanSwitch dig last 9 x = (x.set (x.length - 2) (dig.getD 2 0), 9) := by
        intro x
        simp [romanSwitch, hc]
      rw [e, e, set_append_two p q _ (h hc)]
      refine ⟨rfl, fun _ => ?_⟩
      show 2 ≤ (q.set (q.length - 2) (dig.getD 2 0)).length
      rw [List.length_set]
      exact h hc
    · have e : ∀ x : List Nat, romanSwitch dig last 9 x = (x ++ [dig.getD 2 0, dig.getD 0 0], 9) := by
        intro x
        simp [romanSwitch, hc]
      rw [e, e]
      exact app [_, _] 9 (fun _ => by simp)
  have e : ∀ x : List Nat, romanSwitch dig last v x = (x, v) := by
    intro x
    simp only [romanSwitch, h1, h2, h3, h4, h5, h6, h7, h8, h9, if_false]
  rw [e, e]
  exact ⟨rfl, fun hh => by rcases hh with hh | hh <;> [exact absurd hh h4; exact absurd hh h9]⟩

theorem romanFor_succ (dig : List (List Nat)) (k i val div last : Nat) (p : List Nat) :
    romanFor dig (k + 1) i val div last p =
      romanFor dig k (i + 1) (val % div) (div / 10)
        (romanSwitch (dig.getD i []) last (val / div) p).2
        (romanSwitch (dig.getD i []) last (val / div) p).1 := rfl

theorem romanFor_prefix (dig : List (List Nat)) :
    ∀ (k i val div last : Nat) (p q : List Nat), ((last = 4 ∨ last = 9) → 2 ≤ q.length) →
      romanFor dig k i val div last (p ++ q) = p ++ romanFor dig k i val div last q := by
  intro k
  induction k with
  | zero => intro i val div last p q _; rfl
  | succ k ih =>
    intro i val div last p q h
    obtain ⟨e1, e2⟩ := romanSwitch_prefix (dig.getD i []) last (val / div) p q h
    rw [romanFor_succ, romanFor_succ, e1]
    exact ih _ _ _ _ _ _ e2

theorem romanSwitch_last (dig : List Nat) (last last1 v : Nat) (p : List Nat)
    (h : ¬ (last = 4 ∨ last = 9)) (h1 : ¬ (last1 = 4 ∨ last1 = 9)) :
    romanSwitch dig last v p = romanSwitch dig last1 v p := by
  simp only [romanSwitch, h, h1]

theorem romanFor_thousands (dig : List (List Nat)) (v : Nat) (hv : v < 4000) :
    romanFor dig 4 0 v 1000 0 [] =
      List.replicate (v / 1000) ((dig.getD 0 []).getD 2 0) ++
        romanFor dig 3 1 (v % 1000) 100 0 [] := by
  have ha : v / 1000 < 4 := by omega
  have hsw : romanSwitch (dig.getD 0 []) 0 (v / 1000) [] =
      (List.replicate (v / 1000) ((dig.getD 0 []).getD 2 0), v / 1000) := by
    generalize v / 1000 = a at ha
    interval_cases a <;> rfl
  have hlast : ¬ (v / 1000 = 4 ∨ v / 1000 = 9) := by omega
  have e : romanFor dig 4 0 v 1000 0 [] =
      romanFor dig 3 1 (v % 1000) 100 (v / 1000)
        (List.replicate (v / 1000) ((dig.getD 0 []).getD 2 0) ++ []) := by
    rw [romanFor_succ, hsw, List.append_nil]
  have e2 : romanFor dig 3 1 (v % 1000) 100 (v / 1000) [] =
      romanFor dig 3 1 (v % 1000) 100 0 [] := by
    rw [romanFor_succ dig 2 1 (v % 1000) 100 (v / 1000),
      romanFor_succ dig 2 1 (v % 1000) 100 0,
      romanSwitch_last _ (v / 1000) 0 _ _ hlast (by omega)]
  rw [e, romanFor_prefix dig 3 1 _ _ _ _ [] (fun h => absurd h hlast), e2]

theorem romanValue_le (c : Nat) : romanValue c ≤ 1000 := by
  unfold romanValue
  split_ifs <;> omega

theorem romanRead_cons_cons (c c2 : Nat) (p : List Nat) (val : Nat) :
    romanRead (c :: c2 :: p) val =
      if romanValue c = 0 then val
      else if romanValue c < romanValue c2 then
        romanRead p (val + (romanValue c2 - romanValue c))
      else romanRead (c2 :: p) (val + romanValue c) := rfl

theorem romanRead_add : ∀ (n : Nat) (p : List Nat) (val k : Nat), p.length ≤ n →
    romanRead p (val + k) = romanRead p val + k := by
  intro n
  induction n with
  | zero =>
    intro p val k h
    have hp : p = [] := List.length_eq_zero.mp (Nat.le_zero.mp h)
    subst hp
    rfl
  | succ n ih =>
    intro p val k h
    cases p with
    | nil => rfl
    | cons c p =>
      cases p with
      | nil =>
        show val + k + romanValue c = val + romanValue c + k
        omega
      | cons c2 p =>
        rw [romanRead_cons_cons, romanRead_cons_cons]
        by_cases h0 : romanValue c = 0
        · rw [if_pos h0, if_pos h0]
        · rw [if_neg h0, if_neg h0]
          by_cases hlt : romanValue c < romanValue c2
          · rw [if_pos hlt, if_pos hlt]
            have e : val + k + (romanValue c2 - romanValue c) =
                val + (romanValue c2 - romanValue c) + k := by omega
            rw [e]
            exact ih p _ k (by simp at h; omega)
          · rw [if_neg hlt, if_neg hlt]
            have e : val + k + romanValue c = val + romanValue c + k := by omega
            rw [e]
            exact ih (c2 :: p) _ k (by simp at h ⊢; omega)

theorem romanRead_thousand (c : Nat) (hc : romanValue c = 1000) (p : List Nat) (val : Nat) :
    romanRead (c :: p) val = romanRead p (val + 1000) := by
  cases p with
  | nil =>
    show val + romanValue c = val + 1000
    rw [hc]
  | cons c2 p =>
    have h2 := romanValue_le c2
    rw [romanRead_cons_cons, if_neg (by omega), if_neg (by omega), hc]

theorem romanRead_thousands (c : Nat) (hc : romanValue c = 1000) (p : List Nat) :
    ∀ (a val : Nat), romanRead (List.replicate a c ++ p) val = romanRead p (val + 1000 * a) := by
  intro a
  induction a with
  | zero => intro val; rfl
  | succ a ih =>
    intro val
    rw [List.replicate_succ, List.cons_append, romanRead_thousand c hc, ih]
    congr 1
    omega

set_option maxRecDepth 1000000 in
/-- Every number below 1000, in both cases, by evaluation: the characters written in
the last three rounds are roman digits that are read as the number. -/
theorem romanBlockOk_all :
    (List.range 1000).all (fun w => romanBlockOk _ldig w && romanBlockOk _sdig w) = true := by
  decide!

theorem romanOk_of_lt (v : Nat) (h : v < 4000) (dig : List (List Nat))
    (hd : dig = _ldig ∨ dig = _sdig) :
    (∀ c ∈ romanFor dig 4 0 v 1000 0 [], isRomanDigit c = true) ∧
      romanRead (romanFor dig 4 0 v 1000 0 []) 0 = v := by
  have h1 := List.all_eq_true.mp romanBlockOk_all (v % 1000)
    (List.mem_range.mpr (Nat.mod_lt _ (by decide)))
  rw [Bool.and_eq_true] at h1
  have h2 : romanBlockOk dig (v % 1000) = true := by
    rcases hd with e | e
    · rw [e]; exact h1.1
    · rw [e]; exact h1.2
  unfold romanBlockOk at h2
  rw [Bool.and_eq_true, List.all_eq_true, decide_eq_true_eq] at h2
  have hm : isRomanDigit ((dig.getD 0 []).getD 2 0) = true ∧
      romanValue ((dig.getD 0 []).getD 2 0) = 1000 := by
    rcases hd with e | e
    · rw [e]; exact ⟨rfl, rfl⟩
    · rw [e]; exact ⟨rfl, rfl⟩
  rw [romanFor_thousands dig v h]
  refine ⟨?_, ?_⟩
  · intro c hc
    rw [List.mem_append] at hc
    rcases hc with hc | hc
    · rw [(List.mem_replicate.mp hc).2]
      exact hm.1
    · exact h2.1 c hc
  · have e := romanRead_add _ (romanFor dig 3 1 (v % 1000) 100 0 []) 0 (1000 * (v / 1000))
      (Nat.le_refl _)
    rw [romanRead_thousands _ hm.2, e, h2.2]
    omega


theorem romanValue_small :
    ∀ c : Nat, c < 123 →
      (isalpha c = true → _dval.getD (toupper c - 65) 0 = romanValue c) ∧
      (isalpha c = false → romanValue c = 0) := by
  decide!

theorem romanValue_eq (c : Nat) :
    (isalpha c = true → _dval.getD (toupper c - 65) 0 = romanValue c) ∧
    (isalpha c = false → romanValue c = 0) := by
  by_cases h : c < 123
  · exact romanValue_small c h
  · have ha : isalpha c = false := by
      unfold isalpha
      rw [decide_eq_false_iff_not]
      omega
    have hv : romanValue c = 0 := by
      unfold romanValue
      rw [if_neg (by omega), if_neg (by omega), if_neg (by omega), if_neg (by omega),
        if_neg (by omega), if_neg (by omega), if_neg (by omega)]
    refine ⟨?_, fun _ => hv⟩
    intro h1
    rw [ha] at h1
    exact Bool.noConfusion h1

theorem str_rroman2i_loop_succ (fuel : Nat) (p : List Nat) (val : Int) :
    str_rroman2i_loop (fuel + 1) p val =
      if isalpha (peek p) then
        if _dval.getD (toupper (peek p) - 65) 0 = 0 then val
        else if isalpha (peek p.tail) ∧
            _dval.getD (toupper (peek p) - 65) 0 < _dval.getD (toupper (peek p.tail) - 65) 0 then
          str_rroman2i_loop fuel p.tail.tail
            (val + ((_dval.getD (toupper (peek p.tail) - 65) 0 : Int) -
              _dval.getD (toupper (peek p) - 65) 0))
        else str_rroman2i_loop fuel p.tail (val + _dval.getD (toupper (peek p) - 65) 0)
      else val := rfl

theorem str_rroman2i_loop_eq (rest : List Nat) :
    ∀ (fuel : Nat) (x : List Nat) (val : Nat), x.length ≤ fuel →
      str_rroman2i_loop fuel (x ++ 0 :: rest) (val : Int) = ((romanRead x val : Nat) : Int) := by
  intro fuel
  induction fuel with
  | zero =>
    intro x val h
    have hx : x = [] := List.length_eq_zero.mp (Nat.le_zero.mp h)
    subst hx
    rfl
  | succ k ih =>
    intro x val h
    have hzero : isalpha 0 = false := rfl
    cases x with
    | nil =>
      have hp : peek ([] ++ 0 :: rest) = 0 := rfl
      rw [str_rroman2i_loop_succ, hp, hzero]
      rfl
    | cons c x =>
      have hp : peek (c :: x ++ 0 :: rest) = c := rfl
      have ht : (c :: x ++ 0 :: rest).tail = x ++ 0 :: rest := rfl
      rw [str_rroman2i_loop_succ, hp, ht]
      obtain ⟨v1, v2⟩ := romanValue_eq c
      by_cases ha : isalpha c = true
      · rw [if_pos ha, v1 ha]
        cases x with
        | nil =>
          have hp2 : peek ([] ++ 0 :: rest) = 0 := rfl
          rw [hp2, hzero]
          by_cases h0 : romanValue c = 0
          · rw [if_pos h0]
            show (val : Int) = ((val + romanValue c : Nat) : Int)
            rw [h0]
            rfl
          · rw [if_neg h0, if_neg (fun hh => Bool.noConfusion hh.1)]
            have e := ih [] (val + romanValue c) (Nat.zero_le _)
            push_cast at e
            rw [e]
            show ((val + romanValue c : Nat) : Int) = ((val + romanValue c : Nat) : Int)
            rfl
        | cons c2 x =>
          have hp2 : peek (c2 :: x ++ 0 :: rest) = c2 := rfl
          have ht2 : (c2 :: x ++ 0 :: rest).tail = x ++ 0 :: rest := rfl
          obtain ⟨w1, w2⟩ := romanValue_eq c2
          rw [hp2, ht2]
          by_cases h0 : romanValue c = 0
          · rw [if_pos h0]
            show (val : Int) = ((if romanValue c = 0 then val else _ : Nat) : Int)
            rw [if_pos h0]
          · rw [if_neg h0]
            have hr : romanRead (c :: c2 :: x) val =
                if romanValue c < romanValue c2 then
                  romanRead x (val + (romanValue c2 - romanValue c))
                else romanRead (c2 :: x) (val + romanValue c) := by
              show (if romanValue c = 0 then val else _) = _
              rw [if_neg h0]
            rw [hr]
            by_cases hlt : romanValue c < romanValue c2
            · have ha2 : isalpha c2 = true := by
                by_contra hn
                have := w2 (by simpa using hn)
                omega
              have hc : isalpha c2 = true ∧ romanValue c < _dval.getD (toupper c2 - 65) 0 := by
                rw [w1 ha2]
                exact ⟨ha2, hlt⟩
              rw [if_pos hc, if_pos hlt, w1 ha2]
              have e := ih x (val + (romanValue c2 - romanValue c))
                (by simp at h; omega)
              rw [← e]
              congr 1
              push_cast
              omega
            · have hc : ¬ (isalpha c2 = true ∧ romanValue c < _dval.getD (toupper c2 - 65) 0) := by
                rintro ⟨a, b⟩
                rw [w1 a] at b
                exact hlt b
              rw [if_neg hc, if_neg hlt]
              have e := ih (c2 :: x) (val + romanValue c) (by simp at h ⊢; omega)
              rw [← e]
              congr 1
      · have ha2 : isalpha c = false := by simpa using ha
        rw [if_neg ha]
        have h0 := v2 ha2
        cases x with
        | nil =>
          show (val : Int) = ((val + romanValue c : Nat) : Int)
          rw [h0]
          rfl
        | cons c2 x =>
          show (val : Int) = ((if romanValue c = 0 then val else _ : Nat) : Int)
          rw [if_pos h0]

/-- C25, confirmed. For `0 < v < 4000`, either case setting and a buffer of size
`len >= 20`, `str_i2roman` leaves in the buffer a string `r` of roman digits, its zero
byte and behind these the bytes that were there, and returns the length of `r`;
`str_roman2i` of that buffer is `v`. -/
theorem C25_roman_round_trip (mem : List Nat) (len v islarge : Int) (hv0 : 0 < v)
    (hv : v < 4000) (hlen : 20 ≤ len) :
    ∃ r : List Nat,
      str_i2roman (some mem) len v islarge =
        (some (r ++ 0 :: mem.drop (r.length + 1)), (r.length : Int)) ∧
      (∀ c ∈ r, isRomanDigit c = true) ∧
      str_roman2i (some (r ++ 0 :: mem.drop (r.length + 1))) = v := by
  obtain ⟨n, rfl⟩ : ∃ n : Nat, v = (n : Int) := ⟨v.toNat, by omega⟩
  have hn : n < 4000 := by omega
  have hd : (if islarge ≠ 0 then _ldig else _sdig) = _ldig ∨
      (if islarge ≠ 0 then _ldig else _sdig) = _sdig := by
    by_cases h : islarge ≠ 0
    · left; rw [if_pos h]
    · right; rw [if_neg h]
  obtain ⟨hr, hread⟩ := romanOk_of_lt n hn _ hd
  have hfor := str_i2roman_for_eq (if islarge ≠ 0 then _ldig else _sdig) len 4 0 n 1000 len 0 []
    (by push_cast; omega)
  simp only [Nat.cast_ofNat, Nat.cast_zero, List.length_nil, sub_self, zero_add, sub_zero]
    at hfor
  refine ⟨romanFor (if islarge ≠ 0 then _ldig else _sdig) 4 0 n 1000 0 [], ?_, hr, ?_⟩
  · have e : str_i2roman (some mem) len (n : Int) islarge =
        (some (store mem (str_i2roman_for (if islarge ≠ 0 then _ldig else _sdig) len 4 0
            (n : Int) 1000 len 0 []).1),
          (str_i2roman_for (if islarge ≠ 0 then _ldig else _sdig) len 4 0
            (n : Int) 1000 len 0 []).2) := by
      have h1 : len > 1 := by omega
      have h2 : ¬ (n : Int) < 0 := by omega
      have h3 : ¬ (n : Int) ≥ 4000 := by omega
      unfold str_i2roman
      simp only [h1, h2, h3, if_true, if_false]
    rw [e, hfor, store_append_zero]
  · have hl := str_rroman2i_loop_eq (mem.drop
        ((romanFor (if islarge ≠ 0 then _ldig else _sdig) 4 0 n 1000 0 []).length + 1))
      (romanFor (if islarge ≠ 0 then _ldig else _sdig) 4 0 n 1000 0 [] ++
        0 :: mem.drop ((romanFor (if islarge ≠ 0 then _ldig else _sdig) 4 0 n 1000 0 []).length
          + 1)).length
      (romanFor (if islarge ≠ 0 then _ldig else _sdig) 4 0 n 1000 0 []) 0
      (by rw [List.length_append]; omega)
    rw [hread] at hl
    show (if str_rroman2i_loop _ _ 0 ≠ 0 then str_rroman2i_loop _ _ 0 else -1) = _
    rw [Nat.cast_zero] at hl
    rw [hl, if_pos (by omega)]

/-- C25, at an input: 1994 in capital letters, in a buffer of 20 bytes 7. -/
theorem C25_roman_round_trip_witness :
    ∃ r : List Nat,
      str_i2roman (some (List.replicate 20 7)) 20 1994 1 =
        (some (r ++ 0 :: (List.replicate 20 7).drop (r.length + 1)), (r.length : Int)) ∧
      (∀ c ∈ r, isRomanDigit c = true) ∧
      str_roman2i (some (r ++ 0 :: (List.replicate 20 7).drop (r.length + 1))) = 1994 :=
  C25_roman_round_trip (List.replicate 20 7) 20 1994 1 (by decide) (by decide) (by decide)

end strext

/-! # Theorems on the file functions -/

namespace fileop

open strext

/-! ### `stat_istype` and `stat_mode` -/

theorem stat_istype_switch_ne (st : stat_t) (c : Nat) (r : Int)
    (h : stat_istype_switch st c = some r) : c ≠ 0 ∧ c ≠ 33 := by
  refine ⟨?_, ?_⟩
  · intro hc
    subst hc
    exact Option.noConfusion h
  · intro hc
    subst hc
    exact Option.noConfusion h

/-- What `stat_istype` returns for a mode string that starts with a type letter `c`,
and for one that starts with an exclamation mark and `c`: the answer for `c` alone and
its negation, whatever letters `rest` follow. -/
theorem stat_istype_first_letter (st : stat_t) (c : Nat) (r : Int) (rest : List Nat)
    (h : stat_istype_switch st c = some r) :
    stat_istype st (some (c :: rest)) = (if r ≠ 0 then 1 else 0) ∧
    stat_istype st (some (33 :: c :: rest)) = (if r ≠ 0 then 0 else 1) := by
  obtain ⟨c0, c33⟩ := stat_istype_switch_ne st c r h
  refine ⟨?_, ?_⟩
  · have e : stat_istype st (some (c :: rest)) =
        match stat_istype_switch st c with
        | some r => if (0 + r) ≠ 0 then 1 else 0
        | none => 0 := by
      simp [stat_istype, peek, c0, c33]
    rw [e, h]
    simp
  · have e : stat_istype st (some (33 :: c :: rest)) =
        match stat_istype_switch st c with
        | some r => if (if 0 + r = 0 then (1 : Int) else 0) ≠ 0 then 1 else 0
        | none => 0 := by
      simp [stat_istype, peek]
    rw [e, h]
    by_cases hr : r = 0
    · simp [hr]
    · simp [hr]

/-- C32 (several mode flags), at the failing input: for a FIFO of mode 0644,
`stat_istype ( st, "fp" )` returns 0 and `stat_istype ( st, "!fp" )` returns 1, though
the file is of the type `p` listed; the switch looks at the first letter only
(`"p"` and `"pf"` give 1). For a regular file `"fp"` gives 1 and `"!fp"` gives 0. -/
theorem C32_stat_istype_first_letter_only :
    _stat_isfifo (stat_t.mk 0o010644) = 1 ∧
    stat_istype (stat_t.mk 0o010644) (some [102, 112]) = 0 ∧
    stat_istype (stat_t.mk 0o010644) (some [33, 102, 112]) = 1 ∧
    stat_istype (stat_t.mk 0o010644) (some [112]) = 1 ∧
    stat_istype (stat_t.mk 0o010644) (some [112, 102]) = 1 ∧
    stat_istype (stat_t.mk 0o100755) (some [102, 112]) = 1 ∧
    stat_istype (stat_t.mk 0o100755) (some [33, 102, 112]) = 0 := by
  decide

theorem stat_mode_eq (st : stat_t) :
    stat_mode st = ((st.st_mode % 8 : Nat) : Int) ∧ stat_mode st = stat_wmode st := by
  refine ⟨?_, rfl⟩
  show ((st.st_mode &&& 7 : Nat) : Int) = _
  have h : st.st_mode &&& 7 = st.st_mode % 8 := Nat.and_pow_two_sub_one_eq_mod st.st_mode 3
  rw [h]

/-- C33 (file permissions), at the failing input: for the mode 0755 of a regular file
`stat_mode` returns 05, the bits of the others that `stat_wmode` returns, and not the
0755 that the mask `S_MBITS` of the macro `_stat_mode` leaves. -/
theorem C33_stat_mode_returns_others_bits :
    stat_mode (stat_t.mk 0o100755) = 0o5 ∧
    _stat_mode (stat_t.mk 0o100755) = 0o755 ∧
    S_MBITS = 0o7777 ∧
    stat_mode (stat_t.mk 0o755) = 0o5 ∧
    stat_mode (stat_t.mk 0o100755) ≠ _stat_mode (stat_t.mk 0o100755) := by
  decide

/-! ### `fn_compress` -/

theorem str_len_loop_le_length (s : List Nat) : str_len_loop s ≤ s.length := by
  induction s with
  | nil => exact Nat.le_refl 0
  | cons c s ih =>
    rw [str_len_loop, List.length_cons]
    by_cases hc : c ≠ 0
    · rw [if_pos hc]
      omega
    · rw [if_neg hc]
      omega

theorem getD_str_len_loop (s : List Nat) : s.getD (str_len_loop s) 0 = 0 := by
  induction s with
  | nil => rfl
  | cons c s ih =>
    rw [str_len_loop]
    by_cases hc : c ≠ 0
    · rw [if_pos hc, List.getD_cons_succ]
      exact ih
    · rw [if_neg hc, List.getD_cons_zero]
      exact not_not.mp hc

theorem take_str_len_loop_ne (s : List Nat) : ∀ c ∈ s.take (str_len_loop s), c ≠ 0 := by
  induction s with
  | nil => intro c hc; simp at hc
  | cons a s ih =>
    intro c hc
    rw [str_len_loop] at hc
    by_cases ha : a ≠ 0
    · rw [if_pos ha, List.take_succ_cons, List.mem_cons] at hc
      rcases hc with h | h
      · rw [h]; exact ha
      · exact ih c h
    · rw [if_neg ha] at hc
      simp at hc

theorem str_len_loop_set_zero (s : List Nat) :
    ∀ d, d < s.length → str_len_loop (s.set d 0) ≤ d := by
  induction s with
  | nil => intro d hd; simp at hd
  | cons a s ih =>
    intro d hd
    cases d with
    | zero => simp [str_len_loop]
    | succ d =>
      rw [List.set_cons_succ, str_len_loop]
      by_cases ha : a ≠ 0
      · rw [if_pos ha]
        have := ih d (by simpa using hd)
        omega
      · rw [if_neg ha]
        omega

theorem str_vcpy_copy_take (s : List Nat) :
    ∀ (len : Int) (dst : List Nat),
      str_vcpy_copy s len dst = str_vcpy_copy (s.take (str_len_loop s)) len dst := by
  induction s with
  | nil => intro len dst; rfl
  | cons c s ih =>
    intro len dst
    by_cases hc : c ≠ 0
    · rw [str_len_loop, if_pos hc, List.take_succ_cons, str_vcpy_copy, str_vcpy_copy,
        ih (len - 1) (dst ++ [c])]
    · have h0 : c = 0 := not_not.mp hc
      rw [str_len_loop, if_neg hc, List.take_zero, str_vcpy_copy, str_vcpy_copy, if_neg hc, h0]

theorem str_cpy_take (mem : List Nat) (len : Int) (src : List Nat) :
    str_cpy (some mem) len (some src) =
      str_cpy (some mem) len (some (src.take (str_len_loop src))) := by
  have h : str_vcpy_strings [src] len [] =
      str_vcpy_strings [src.take (str_len_loop src)] len [] := by
    have e : ∀ t : List Nat, str_vcpy_strings [t] len [] =
        (if (str_vcpy_copy t len []).2 > 0 then
          str_vcpy_strings [] ((str_vcpy_copy t len []).2 + 1) (str_vcpy_copy t len []).1.dropLast
        else str_vcpy_strings [] (str_vcpy_copy t len []).2 (str_vcpy_copy t len []).1) :=
      fun _ => rfl
    rw [e, e, ← str_vcpy_copy_take]
  show str_vcpy (some mem) len [src] = str_vcpy (some mem) len [src.take (str_len_loop src)]
  simp only [str_vcpy, h]

theorem fn_compress_back_le (buff : List Nat) (d : Nat) : fn_compress_back buff d ≤ d := by
  induction d with
  | zero => exact Nat.le_refl 0
  | succ d ih =>
    rw [fn_compress_back]
    by_cases h : buff.getD d 0 ≠ 47
    · rw [if_pos h]
      omega
    · rw [if_neg h]
      omega

theorem put_d (x : Compress) (c : Nat) : (x.put c).d = x.d + 1 := rfl

theorem put_p (x : Compress) (c : Nat) : (x.put c).p = x.p := rfl

theorem put_buff (x : Compress) (c : Nat) : (x.put c).buff = x.buff.set x.d c := rfl

theorem ite_prop {α : Type} (P : α → Prop) (c : Prop) [Decidable c] (a b : α)
    (ha : c → P a) (hb : ¬ c → P b) : P (if c then a else b) := by
  by_cases h : c
  · rw [if_pos h]
    exact ha h
  · rw [if_neg h]
    exact hb h

theorem fn_compress_round_step (fn : List Nat) (n : Nat) (hz : fn.getD n 0 = 0)
    (x : Compress) (hd : x.d ≤ x.p) (hp : x.p ≤ n) (hc : fn.getD x.p 0 ≠ 0) :
    (fn_compress_round fn x).d ≤ (fn_compress_round fn x).p ∧
    x.p < (fn_compress_round fn x).p ∧ (fn_compress_round fn x).p ≤ n ∧
    (fn_compress_round fn x).buff.length = x.buff.length := by
  have adv : ∀ i, i ≤ n → fn.getD i 0 ≠ 0 → i + 1 ≤ n := by
    intro i hi h
    rcases Nat.lt_or_ge i n with h1 | h1
    · exact h1
    · have e : i = n := by omega
      rw [e] at h
      exact absurd hz h
  have a0 := adv x.p
  have a1 := adv (x.p + 1)
  have a2 := adv (x.p + 2)
  have a3 := adv (x.p + 3)
  have hb := fn_compress_back_le x.buff x.d
  suffices h : ∀ P : Compress → Prop,
      (∀ y, y.d ≤ y.p → x.p < y.p → y.p ≤ n → y.buff.length = x.buff.length → P y) →
      P (fn_compress_round fn x) from
    h (fun y => y.d ≤ y.p ∧ x.p < y.p ∧ y.p ≤ n ∧ y.buff.length = x.buff.length)
      (fun y h1 h2 h3 h4 => ⟨h1, h2, h3, h4⟩)
  intro P hP
  unfold fn_compress_round
  dsimp only
  generalize fn.getD x.p 0 = c0 at *
  generalize fn.getD (x.p + 1) 0 = c1 at *
  generalize fn.getD (x.p + 2) 0 = c2 at *
  generalize fn.getD (x.p + 3) 0 = c3 at *
  generalize fn.getD (x.p + 4) 0 = c4 at *
  generalize fn_compress_back x.buff x.d = bk at *
  repeat' refine ite_prop P _ _ _ (fun _ => ?_) (fun _ => ?_)
  all_goals apply hP
  all_goals try simp only [put_d, put_p, put_buff]
  all_goals try split_ifs
  all_goals try simp only [put_d, put_p, put_buff, List.length_set]
  all_goals omega

theorem fn_compress_loop_step (fn : List Nat) (n : Nat) (hz : fn.getD n 0 = 0) :
    ∀ (fuel : Nat) (x : Compress), x.d ≤ x.p → x.p ≤ n → n - x.p ≤ fuel →
      (fn_compress_loop fn fuel x).d ≤ n ∧
      (fn_compress_loop fn fuel x).buff.length = x.buff.length ∧
      fn.getD (fn_compress_loop fn fuel x).p 0 = 0 := by
  intro fuel
  induction fuel with
  | zero =>
    intro x hd hp hf
    have e : x.p = n := by omega
    rw [fn_compress_loop, e]
    exact ⟨by omega, rfl, hz⟩
  | succ fuel ih =>
    intro x hd hp hf
    rw [fn_compress_loop]
    by_cases hc : fn.getD x.p 0 ≠ 0
    · rw [if_pos hc]
      obtain ⟨h1, h2, h3, h4⟩ := fn_compress_round_step fn n hz x hd hp hc
      obtain ⟨i1, i2, i3⟩ := ih (fn_compress_round fn x) h1 h3 (by omega)
      exact ⟨i1, i2.trans h4, i3⟩
    · rw [if_neg hc]
      exact ⟨by omega, rfl, not_not.mp hc⟩

theorem fn_compress_some (m : List Nat) (h : peek m ≠ 0) :
    fn_compress (some m) =
      (str_cpy (some m) ((str_len_loop m : Int) + 1)
        (some ((if (fn_compress_loop m m.length
              (Compress.mk 0 0 (List.replicate (str_len_loop m + 1) 0) 0)).d = 0 then
            (if peek m = 47 then
              (fn_compress_loop m m.length
                (Compress.mk 0 0 (List.replicate (str_len_loop m + 1) 0) 0)).put 47
            else
              (fn_compress_loop m m.length
                (Compress.mk 0 0 (List.replicate (str_len_loop m + 1) 0) 0)).put 46)
          else fn_compress_loop m m.length
            (Compress.mk 0 0 (List.replicate (str_len_loop m + 1) 0) 0)).buff.set
          (if (fn_compress_loop m m.length
              (Compress.mk 0 0 (List.replicate (str_len_loop m + 1) 0) 0)).d = 0 then
            (if peek m = 47 then
              (fn_compress_loop m m.length
                (Compress.mk 0 0 (List.replicate (str_len_loop m + 1) 0) 0)).put 47
            else
              (fn_compress_loop m m.length
                (Compress.mk 0 0 (List.replicate (str_len_loop m + 1) 0) 0)).put 46)
          else fn_compress_loop m m.length
            (Compress.mk 0 0 (List.replicate (str_len_loop m + 1) 0) 0)).d 0))).1 := by
  have e : ((str_len_loop m : Int) + 1).toNat = str_len_loop m + 1 := by omega
  have e1 : fn_compress (some m) =
      if peek m ≠ 0 then
        (str_cpy (some m) (str_len (some m) + 1)
        (some ((if (fn_compress_loop m m.length
              (Compress.mk 0 0 (List.replicate (str_len (some m) + 1).toNat 0) 0)).d = 0 then
            (if peek m = 47 then
              (fn_compress_loop m m.length
                (Compress.mk 0 0 (List.replicate (str_len (some m) + 1).toNat 0) 0)).put 47
            else
              (fn_compress_loop m m.length
                (Compress.mk 0 0 (List.replicate (str_len (some m) + 1).toNat 0) 0)).put 46)
          else fn_compress_loop m m.length
            (Compress.mk 0 0 (List.replicate (str_len (some m) + 1).toNat 0) 0)).buff.set
          (if (fn_compress_loop m m.length
              (Compress.mk 0 0 (List.replicate (str_len (some m) + 1).toNat 0) 0)).d = 0 then
            (if peek m = 47 then
              (fn_compress_loop m m.length
                (Compress.mk 0 0 (List.replicate (str_len (some m) + 1).toNat 0) 0)).put 47
            else
              (fn_compress_loop m m.length
                (Compress.mk 0 0 (List.replicate (str_len (some m) + 1).toNat 0) 0)).put 46)
          else fn_compress_loop m m.length
            (Compress.mk 0 0 (List.replicate (str_len (some m) + 1).toNat 0) 0)).d 0))).1
      else some m := rfl
  rw [e1, if_pos h]
  have e2 : str_len (some m) = (str_len_loop m : Int) := rfl
  rw [e2, e]

/-- The result of `fn_compress` is never longer than the path given: for every storage
at `fn` the function returns, the storage afterwards holds a string that is not longer
than the one before, and the bytes behind the zero byte of the string given stay. -/
theorem fn_compress_length (m : List Nat) :
    ∃ r, fn_compress (some m) = some r ∧ str_len_loop r ≤ str_len_loop m ∧
      r.drop (str_len_loop m + 1) = m.drop (str_len_loop m + 1) := by
  by_cases h : peek m ≠ 0
  · have hn : 1 ≤ str_len_loop m := by
      cases m with
      | nil => exact absurd rfl h
      | cons c s =>
        have hc : c ≠ 0 := h
        rw [str_len_loop, if_pos hc]
        omega
    rw [fn_compress_some m h]
    obtain ⟨l1, l2, -⟩ := fn_compress_loop_step m (str_len_loop m) (getD_str_len_loop m)
      m.length (Compress.mk 0 0 (List.replicate (str_len_loop m + 1) 0) 0)
      (Nat.le_refl 0) (Nat.zero_le _) (by have := str_len_loop_le_length m; omega)
    generalize fn_compress_loop m m.length
      (Compress.mk 0 0 (List.replicate (str_len_loop m + 1) 0) 0) = x at l1 l2 ⊢
    have l2 : x.buff.length = str_len_loop m + 1 := by
      rw [l2]
      exact List.length_replicate _ _
    generalize hx1 : (if x.d = 0 then (if peek m = 47 then x.put 47 else x.put 46) else x)
      = x1
    have k1 : x1.d ≤ str_len_loop m ∧ x1.buff.length = str_len_loop m + 1 := by
      rw [← hx1]
      split_ifs with a b
      · rw [put_d, put_buff, List.length_set]
        omega
      · rw [put_d, put_buff, List.length_set]
        omega
      · exact ⟨l1, l2⟩
    generalize hB : x1.buff.set x1.d 0 = B
    have kB : str_len_loop B ≤ str_len_loop m := by
      rw [← hB]
      have := str_len_loop_set_zero x1.buff x1.d (by omega)
      omega
    have kl : (B.take (str_len_loop B)).length = str_len_loop B := by
      rw [List.length_take]
      have := str_len_loop_le_length B
      omega
    rw [str_cpy_take]
    generalize hB1 : B.take (str_len_loop B) = B1 at kl
    have hne : ∀ c ∈ B1, c ≠ 0 := by
      rw [← hB1]
      exact take_str_len_loop_ne B
    have hcpy : str_cpy (some m) ((str_len_loop m : Int) + 1) (some B1) =
        str_mcpy (some m) ((str_len_loop m : Int) + 1) [B1] := rfl
    have hv : ∀ s ∈ [B1], ∀ c ∈ s, c ≠ 0 := by
      intro s hs
      rw [List.mem_singleton] at hs
      rw [hs]
      exact hne
    have hmin : min B1.length ((str_len_loop m : Int) + 1 - 1).toNat = B1.length := by
      have e : ((str_len_loop m : Int) + 1 - 1).toNat = str_len_loop m := by omega
      rw [e]
      omega
    rw [hcpy, str_mcpy_eq m _ [B1] (by omega) hv]
    simp only [List.flatten_cons, List.flatten_nil, List.append_nil, hmin, List.take_length]
    refine ⟨_, rfl, ?_, ?_⟩
    · rw [str_len_loop_append B1 (0 :: m.drop (B1.length + 1)) hne rfl]
      omega
    · rw [List.drop_append_eq_append_drop, List.drop_of_length_le (by omega), List.nil_append]
      have e : str_len_loop m + 1 - B1.length = (str_len_loop m - B1.length) + 1 := by omega
      rw [e, List.drop_succ_cons, List.drop_drop]
      congr 1
      omega
  · refine ⟨m, ?_, Nat.le_refl _, rfl⟩
    have e1 : fn_compress (some m) = if peek m ≠ 0 then _ else some m := rfl
    rw [e1, if_neg h]

/-- C31 (redundant parts of a pathname), at the failing input: `/usr/tom./../mail`,
where the component `tom.` is followed by `/../`, becomes `/usr/tom../mail` and not
`/usr/mail`, and `a./b` becomes `ab`: the test for a redundant `./` asks that the
character written last is no `.`, not that a component starts there. The two paths of
the comment of the function come out as it says: `/usr/tom/../mail` becomes `/usr/mail`
and `../x` stays. Behind the string and its zero byte the storage keeps its bytes. -/
theorem C31_fn_compress_dot_component :
    fn_compress (some [47, 117, 115, 114, 47, 116, 111, 109, 46, 47, 46, 46, 47, 109, 97,
        105, 108]) =
      some [47, 117, 115, 114, 47, 116, 111, 109, 46, 46, 47, 109, 97, 105, 108, 0, 108] ∧
    fn_compress (some [97, 46, 47, 98]) = some [97, 98, 0, 98] ∧
    fn_compress (some [47, 117, 115, 114, 47, 116, 111, 109, 47, 46, 46, 47, 109, 97, 105,
        108]) =
      some [47, 117, 115, 114, 47, 109, 97, 105, 108, 0, 46, 47, 109, 97, 105, 108] ∧
    fn_compress (some [46, 46, 47, 120]) = some [46, 46, 47, 120, 0] := by
  refine ⟨rfl, rfl, rfl, rfl⟩

end fileop
